import Mathlib

/-!
# Magnum: SPIR-V interface-location patcher and normal generation

A shallow embedding of `src/Magnum/Vk/Implementation/SpirvPatching.h` and of the
normal generator exercised by `src/Magnum/MeshTools/Test/GenerateNormalsTest.cpp`.

Conventions of the embedding:

* a SPIR-V module is a `List Nat` of 32-bit words; a `Containers::ArrayView` into it is
  the offset of its first word together with its word count, and a null view is `none`;
* a pointer into the module (`UnsignedInt* location`) is the index of the word it points
  to, a null pointer is `none`;
* the `while` loops of the source take a fuel argument: one unit per iteration. Running
  out of fuel is reported as such and never mistaken for a result.
-/

namespace Magnum.Vk.Implementation

/-! ## Constants of `MagnumExternal/Vulkan/spirv.h` -/

/-- Modelled from the spec: `SpvMagicNumber` of `MagnumExternal/Vulkan/spirv.h`, a header
that is not among the sources; the value is the SPIR-V magic number. -/
def SpvMagicNumber : Nat := 0x07230203

/-- Modelled from the spec: `SpvOpEntryPoint` of `MagnumExternal/Vulkan/spirv.h`. -/
def SpvOpEntryPoint : Nat := 15

/-- Modelled from the spec: `SpvOpVariable` of `MagnumExternal/Vulkan/spirv.h`. -/
def SpvOpVariable : Nat := 59

/-- Modelled from the spec: `SpvOpDecorate` of `MagnumExternal/Vulkan/spirv.h`. -/
def SpvOpDecorate : Nat := 71

/-- Modelled from the spec: `SpvDecorationLocation` of `MagnumExternal/Vulkan/spirv.h`. -/
def SpvDecorationLocation : Nat := 30

/-- Modelled from the spec: `SpvExecutionModelVertex` of `MagnumExternal/Vulkan/spirv.h`. -/
def SpvExecutionModelVertex : Nat := 0

/-- Modelled from the spec: `SpvExecutionModelFragment` of `MagnumExternal/Vulkan/spirv.h`. -/
def SpvExecutionModelFragment : Nat := 4

/-- Modelled from the spec: `SpvStorageClassInput` of `MagnumExternal/Vulkan/spirv.h`. -/
def SpvStorageClassInput : Nat := 1

/-- Modelled from the spec: `SpvStorageClassOutput` of `MagnumExternal/Vulkan/spirv.h`. -/
def SpvStorageClassOutput : Nat := 3

/-! ## Data model -/

/-- Word `i` of the module; the patcher only reads words that exist. -/
def word (buf : List Nat) (i : Nat) : Nat := buf.getD i 0

/-- A non-null `Containers::ArrayView<UnsignedInt>` into the module: `data` is the offset
of its first word, `size` its word count. -/
structure ArrayView where
  data : Nat
  size : Nat
deriving DecidableEq

/-- The local `struct EntryPointInterface`: `location` points at a word of the module
(`none` is the null pointer), `storageClass` is value-initialised to 0. -/
structure EntryPointInterface where
  location : Option Nat := none
  storageClass : Nat := 0
deriving DecidableEq

/-- How a scanning loop of the patcher ends: it needs more iterations than the fuel
allows, it executes `return false`, or it falls through with its state. -/
inductive Scan (α : Type) where
  | outOfFuel : Scan α
  | returnFalse : Scan α
  | next (state : α) : Scan α

/-- What a call of the patcher does: it returns a value and leaves the module in some
state, it needs more loop iterations than the fuel allows, it fails the range assertion
of `data.suffix(5)`, or it dereferences a null `location`. -/
inductive Outcome where
  | returned (result : Bool) (data : List Nat) : Outcome
  | outOfFuel : Outcome
  | suffixOutOfRange : Outcome
  | nullDereference : Outcome
deriving DecidableEq

/-! ## `isSpirv` -/

/-- `isSpirv(code, size)`: `size >= 5 && code[0] == SpvMagicNumber`. -/
def isSpirv (code : List Nat) (size : Nat) : Bool :=
  decide (size ≥ 5) && decide (word code 0 = SpvMagicNumber)

/-! ## The instruction scanner -/

/-- The `while` loop of the lambda `find`. `data` is the offset of the captured view
`data`, the last argument the offset of `dataIteration`; both views end where the module
ends. The result is the returned view (`none` for `nullptr`) and the new offset of `data`;
`none` when the fuel is used up. -/
def findLoop (buf : List Nat) (op : Nat) (data : Nat) :
    Nat → Nat → Option (Option ArrayView × Nat)
  | 0, _ => none
  | fuel + 1, dataIteration =>
    if buf.length ≤ dataIteration then some (none, data)
    else
      let instructionSize := word buf dataIteration >>> 16
      if buf.length - dataIteration < instructionSize then some (none, dataIteration)
      else
        let instruction : ArrayView := ⟨dataIteration, instructionSize⟩
        if word buf instruction.data &&& 0xffff = op then
          some (some instruction, dataIteration + instructionSize)
        else findLoop buf op data fuel (dataIteration + instructionSize)

/-- The lambda `find(op)`: the loop started with `dataIteration = data`. -/
def find (buf : List Nat) (op : Nat) (data : Nat) (fuel : Nat) :
    Option (Option ArrayView × Nat) :=
  findLoop buf op data fuel data

/-! ## Entry points -/

/-- State of the entry-point loop: the scanner position and the two selected views. -/
structure EntryPoints where
  data : Nat
  vertexEntryPoint : Option ArrayView
  fragmentEntryPoint : Option ArrayView
deriving DecidableEq

/-- The loop `while(entryPoint = find(SpvOpEntryPoint))` (lines 65-74). -/
def entryPointLoop (buf : List Nat) : Nat → EntryPoints → Scan EntryPoints
  | 0, _ => .outOfFuel
  | fuel + 1, s =>
    match find buf SpvOpEntryPoint s.data fuel with
    | none => .outOfFuel
    | some (none, data) => .next { s with data := data }
    | some (some entryPoint, data) =>
      if entryPoint.size < 4 then .returnFalse
      else
        entryPointLoop buf fuel
          { data := data
            vertexEntryPoint :=
              if word buf (entryPoint.data + 1) = SpvExecutionModelVertex
              then some entryPoint else s.vertexEntryPoint
            fragmentEntryPoint :=
              if word buf (entryPoint.data + 1) = SpvExecutionModelFragment
              then some entryPoint else s.fragmentEntryPoint }

/-- The loop `for(i = 3; i != entryPoint.size(); ++i)` (lines 81-86 and 87-92); the first
argument counts the iterations left. A loop that ends without a `break` leaves the
default-constructed, empty view. -/
def entryPointIdsLoop (buf : List Nat) (entryPoint : ArrayView) : Nat → Nat → ArrayView
  | 0, _ => ⟨0, 0⟩
  | n + 1, i =>
    if word buf (entryPoint.data + i) >>> 24 = 0 then
      ⟨entryPoint.data + (i + 1), entryPoint.size - (i + 1)⟩
    else entryPointIdsLoop buf entryPoint n (i + 1)

/-- The interface IDs of an entry point: what follows its null-terminated name. -/
def entryPointIds (buf : List Nat) (entryPoint : ArrayView) : ArrayView :=
  entryPointIdsLoop buf entryPoint (entryPoint.size - 3) 3

/-! ## Decorations and variables -/

/-- The loops `for(i = 0; i != ids.size(); ++i) if(id == ids[i]) { ...; break; }`
(lines 119-130 and 139-150): `update` is applied to the slot of the first matching ID. The
first argument counts the iterations left. -/
def updateInterface (buf : List Nat) (ids : ArrayView) (id : Nat)
    (update : EntryPointInterface → EntryPointInterface) :
    Nat → Nat → List EntryPointInterface → List EntryPointInterface
  | 0, _, interface => interface
  | n + 1, i, interface =>
    if id = word buf (ids.data + i) then interface.modify update i
    else updateInterface buf ids id update n (i + 1) interface

/-- State of the decoration and variable loops. -/
structure Interfaces where
  data : Nat
  maxLocation : Nat
  vertexInterface : List EntryPointInterface
  fragmentInterface : List EntryPointInterface
deriving DecidableEq

/-- The loop `while(decoration = find(SpvOpDecorate))` (lines 110-131); `none` when the
fuel is used up. -/
def decorationLoop (buf : List Nat) (vertexEntryPointIds fragmentEntryPointIds : ArrayView) :
    Nat → Interfaces → Option Interfaces
  | 0, _ => none
  | fuel + 1, s =>
    match find buf SpvOpDecorate s.data fuel with
    | none => none
    | some (none, data) => some { s with data := data }
    | some (some decoration, data) =>
      if decoration.size < 4 ∨ word buf (decoration.data + 2) ≠ SpvDecorationLocation then
        decorationLoop buf vertexEntryPointIds fragmentEntryPointIds fuel { s with data := data }
      else
        decorationLoop buf vertexEntryPointIds fragmentEntryPointIds fuel
          { data := data
            maxLocation := max s.maxLocation (word buf (decoration.data + 3))
            vertexInterface :=
              updateInterface buf vertexEntryPointIds (word buf (decoration.data + 1))
                (fun e => { e with location := some (decoration.data + 3) })
                vertexEntryPointIds.size 0 s.vertexInterface
            fragmentInterface :=
              updateInterface buf fragmentEntryPointIds (word buf (decoration.data + 1))
                (fun e => { e with location := some (decoration.data + 3) })
                fragmentEntryPointIds.size 0 s.fragmentInterface }

/-- The loop `while(variable = find(SpvOpVariable))` (lines 134-151). -/
def variableLoop (buf : List Nat) (vertexEntryPointIds fragmentEntryPointIds : ArrayView) :
    Nat → Interfaces → Scan Interfaces
  | 0, _ => .outOfFuel
  | fuel + 1, s =>
    match find buf SpvOpVariable s.data fuel with
    | none => .outOfFuel
    | some (none, data) => .next { s with data := data }
    | some (some var, data) =>
      if var.size < 4 then .returnFalse
      else
        variableLoop buf vertexEntryPointIds fragmentEntryPointIds fuel
          { s with
            data := data
            vertexInterface :=
              updateInterface buf vertexEntryPointIds (word buf (var.data + 2))
                (fun e => { e with storageClass := word buf (var.data + 3) })
                vertexEntryPointIds.size 0 s.vertexInterface
            fragmentInterface :=
              updateInterface buf fragmentEntryPointIds (word buf (var.data + 2))
                (fun e => { e with storageClass := word buf (var.data + 3) })
                fragmentEntryPointIds.size 0 s.fragmentInterface }

/-! ## Conflict resolution -/

/-- The loop over `fragmentInput` (lines 171-178) for the vertex output whose location
word is at `vertexLocation`; `none` when a null `location` is dereferenced. -/
def fragmentInputLoop (vertexLocation newLocation : Nat) :
    List EntryPointInterface → List Nat → Option (List Nat)
  | [], buf => some buf
  | fragmentInput :: rest, buf =>
    if fragmentInput.storageClass ≠ SpvStorageClassInput then
      fragmentInputLoop vertexLocation newLocation rest buf
    else
      match fragmentInput.location with
      | none => none
      | some location =>
        if word buf location = word buf vertexLocation then some (buf.set location newLocation)
        else fragmentInputLoop vertexLocation newLocation rest buf

/-- The loop over `fragmentOutput` (lines 161-182) for the vertex output whose location
word is at `vertexLocation`, on the module and `maxLocation`; `++maxLocation` is a 32-bit
increment. -/
def fragmentOutputLoop (fragmentInterface : List EntryPointInterface) (vertexLocation : Nat) :
    List EntryPointInterface → List Nat × Nat → Option (List Nat × Nat)
  | [], s => some s
  | fragmentOutput :: rest, (buf, maxLocation) =>
    if fragmentOutput.storageClass ≠ SpvStorageClassOutput then
      fragmentOutputLoop fragmentInterface vertexLocation rest (buf, maxLocation)
    else
      match fragmentOutput.location with
      | none => fragmentOutputLoop fragmentInterface vertexLocation rest (buf, maxLocation)
      | some location =>
        if word buf vertexLocation = word buf location then
          let newLocation := (maxLocation + 1) % 2 ^ 32
          match fragmentInputLoop vertexLocation newLocation fragmentInterface buf with
          | none => none
          | some buf' => some (buf'.set vertexLocation newLocation, newLocation)
        else fragmentOutputLoop fragmentInterface vertexLocation rest (buf, maxLocation)

/-- The loop over `vertexOutput` (lines 155-183). -/
def vertexOutputLoop (fragmentInterface : List EntryPointInterface) :
    List EntryPointInterface → List Nat × Nat → Option (List Nat × Nat)
  | [], s => some s
  | vertexOutput :: rest, s =>
    if vertexOutput.storageClass ≠ SpvStorageClassOutput then
      vertexOutputLoop fragmentInterface rest s
    else
      match vertexOutput.location with
      | none => vertexOutputLoop fragmentInterface rest s
      | some location =>
        match fragmentOutputLoop fragmentInterface location fragmentInterface s with
        | none => none
        | some s' => vertexOutputLoop fragmentInterface rest s'

/-! ## The patcher -/

/-- Lines 99-185, once both entry points are selected. -/
def patchEntryPoints (fuel : Nat) (buf : List Nat) (data : Nat)
    (vertexEntryPoint fragmentEntryPoint : ArrayView) : Outcome :=
  let vertexEntryPointIds := entryPointIds buf vertexEntryPoint
  let fragmentEntryPointIds := entryPointIds buf fragmentEntryPoint
  if vertexEntryPointIds.size = 0 ∨ fragmentEntryPointIds.size = 0 then .returned false buf
  else
    match decorationLoop buf vertexEntryPointIds fragmentEntryPointIds fuel
        { data := data
          maxLocation := 0
          vertexInterface := List.replicate vertexEntryPointIds.size {}
          fragmentInterface := List.replicate fragmentEntryPointIds.size {} } with
    | none => .outOfFuel
    | some decorated =>
      match variableLoop buf vertexEntryPointIds fragmentEntryPointIds fuel decorated with
      | .outOfFuel => .outOfFuel
      | .returnFalse => .returned false buf
      | .next s =>
        match vertexOutputLoop s.fragmentInterface s.vertexInterface (buf, s.maxLocation) with
        | none => .nullDereference
        | some (buf', _) => .returned true buf'

/-- `spirvPatchSwiftShaderConflictingMultiEntrypointLocations(data)` on the module `buf`,
with `fuel` iterations allowed to each `while` loop. -/
def spirvPatchSwiftShaderConflictingMultiEntrypointLocations (fuel : Nat) (buf : List Nat) :
    Outcome :=
  if buf.length < 5 then .suffixOutOfRange
  else
    match entryPointLoop buf fuel { data := 5, vertexEntryPoint := none, fragmentEntryPoint := none } with
    | .outOfFuel => .outOfFuel
    | .returnFalse => .returned false buf
    | .next entryPoints =>
      match entryPoints.vertexEntryPoint, entryPoints.fragmentEntryPoint with
      | some vertexEntryPoint, some fragmentEntryPoint =>
        patchEntryPoints fuel buf entryPoints.data vertexEntryPoint fragmentEntryPoint
      | _, _ => .returned false buf

/-! ## The three scanning loops as one loop

The `while` loops over `find(SpvOpEntryPoint)`, `find(SpvOpDecorate)` and
`find(SpvOpVariable)` have one shape; `scanLoop` is that shape, with the loop body as an
argument, and is proved equal to each of the three loops. -/

/-- The result of a scanning loop under a change of its final state. -/
def Scan.map {α β : Type} (f : α → β) : Scan α → Scan β
  | .outOfFuel => .outOfFuel
  | .returnFalse => .returnFalse
  | .next a => .next (f a)

/-- A loop without `return false` as a scanning loop: `none` is running out of fuel. -/
def Scan.ofOption {α : Type} : Option α → Scan α
  | none => .outOfFuel
  | some a => .next a

/-- The loop `while(instruction = find(op)) body`, on the scanner position and a state;
`body` yields `none` for `return false`. -/
def scanLoop {σ : Type} (buf : List Nat) (op : Nat) (body : σ → ArrayView → Option σ) :
    Nat → Nat → σ → Scan (Nat × σ)
  | 0, _, _ => .outOfFuel
  | fuel + 1, data, s =>
    match find buf op data fuel with
    | none => .outOfFuel
    | some (none, data') => .next (data', s)
    | some (some instruction, data') =>
      match body s instruction with
      | none => .returnFalse
      | some s' => scanLoop buf op body fuel data' s'

/-- Body of the entry-point loop (lines 66-73) on the two selected views. -/
def entryPointBody (buf : List Nat) (s : Option ArrayView × Option ArrayView)
    (entryPoint : ArrayView) : Option (Option ArrayView × Option ArrayView) :=
  if entryPoint.size < 4 then none
  else
    some (if word buf (entryPoint.data + 1) = SpvExecutionModelVertex
          then some entryPoint else s.1,
          if word buf (entryPoint.data + 1) = SpvExecutionModelFragment
          then some entryPoint else s.2)

/-- The part of the state of the decoration and variable loops that is not the scanner
position. -/
structure Slots where
  maxLocation : Nat
  vertexInterface : List EntryPointInterface
  fragmentInterface : List EntryPointInterface
deriving DecidableEq

/-- Body of the decoration loop (lines 111-130). -/
def decorationBody (buf : List Nat) (vertexEntryPointIds fragmentEntryPointIds : ArrayView)
    (s : Slots) (decoration : ArrayView) : Option Slots :=
  if decoration.size < 4 ∨ word buf (decoration.data + 2) ≠ SpvDecorationLocation then some s
  else
    some
      { maxLocation := max s.maxLocation (word buf (decoration.data + 3))
        vertexInterface :=
          updateInterface buf vertexEntryPointIds (word buf (decoration.data + 1))
            (fun e => { e with location := some (decoration.data + 3) })
            vertexEntryPointIds.size 0 s.vertexInterface
        fragmentInterface :=
          updateInterface buf fragmentEntryPointIds (word buf (decoration.data + 1))
            (fun e => { e with location := some (decoration.data + 3) })
            fragmentEntryPointIds.size 0 s.fragmentInterface }

/-- Body of the variable loop (lines 135-150). -/
def variableBody (buf : List Nat) (vertexEntryPointIds fragmentEntryPointIds : ArrayView)
    (s : Slots) (var : ArrayView) : Option Slots :=
  if var.size < 4 then none
  else
    some
      { s with
        vertexInterface :=
          updateInterface buf vertexEntryPointIds (word buf (var.data + 2))
            (fun e => { e with storageClass := word buf (var.data + 3) })
            vertexEntryPointIds.size 0 s.vertexInterface
        fragmentInterface :=
          updateInterface buf fragmentEntryPointIds (word buf (var.data + 2))
            (fun e => { e with storageClass := word buf (var.data + 3) })
            fragmentEntryPointIds.size 0 s.fragmentInterface }

/-- The state of the decoration and variable loops from a scanner position and slots. -/
def Slots.withData (data : Nat) (s : Slots) : Interfaces :=
  { data := data, maxLocation := s.maxLocation, vertexInterface := s.vertexInterface,
    fragmentInterface := s.fragmentInterface }

/-- The slots of a state of the decoration and variable loops. -/
def Interfaces.slots (s : Interfaces) : Slots :=
  { maxLocation := s.maxLocation, vertexInterface := s.vertexInterface,
    fragmentInterface := s.fragmentInterface }

/-! ## Modules as instruction streams -/

/-- An encoded instruction: at least one word, the first with the number of words of the
instruction in its top 16 bits. -/
def IsInstruction (ins : List Nat) : Prop :=
  1 ≤ ins.length ∧ word ins 0 >>> 16 = ins.length

instance (ins : List Nat) : Decidable (IsInstruction ins) :=
  inferInstanceAs (Decidable (_ ∧ _))

/-- A scanning loop on a list of encoded instructions that ends where the module ends:
`pos` is the offset of the first instruction of the list, `data` the scanner position. -/
def scanStream {σ : Type} (op : Nat) (body : σ → ArrayView → Option σ) :
    Nat → Nat → List (List Nat) → σ → Scan (Nat × σ)
  | data, _, [], s => .next (data, s)
  | data, pos, ins :: rest, s =>
    if word ins 0 &&& 0xffff = op then
      match body s ⟨pos, ins.length⟩ with
      | none => .returnFalse
      | some s' => scanStream op body (pos + ins.length) (pos + ins.length) rest s'
    else scanStream op body data (pos + ins.length) rest s

/-- An encoded `OpEntryPoint` instruction that has an execution model word, equal to
`model`. -/
def IsEntryPointOf (model : Nat) (ins : List Nat) : Prop :=
  word ins 0 &&& 0xffff = SpvOpEntryPoint ∧ 2 ≤ ins.length ∧ word ins 1 = model

instance (model : Nat) (ins : List Nat) : Decidable (IsEntryPointOf model ins) :=
  inferInstanceAs (Decidable (_ ∧ _))

/-- The words of a view. -/
def viewWords (buf : List Nat) (view : ArrayView) : List Nat :=
  (buf.drop view.data).take view.size

/-- An encoded instruction from its opcode and its operands: the first word has the word
count in its top 16 bits and the opcode in its low 16 bits. -/
def instruction (op : Nat) (operands : List Nat) : List Nat :=
  ((operands.length + 1) * 2 ^ 16 + op) :: operands

/-- An encoded `OpEntryPoint`: execution model, result ID, the words of the name and the
interface IDs. -/
def entryPoint (model id : Nat) (name ids : List Nat) : List Nat :=
  instruction SpvOpEntryPoint (model :: id :: (name ++ ids))

/-- The instructions of the module of the conflict test: a vertex entry point with the
interface `[a]`, a fragment entry point with the interface `[b, c]`, Location decorations
of `a`, `b`, `c` with the operands `la`, `lb`, `lc`, and the variables `a` (Output), `b`
(Output), `c` (Input) of the types `ta`, `tb`, `tc`. -/
def conflictInstructions (vertexId fragmentId : Nat) (vertexName fragmentName : List Nat)
    (a b c ta tb tc la lb lc : Nat) : List (List Nat) :=
  [entryPoint SpvExecutionModelVertex vertexId vertexName [a],
   entryPoint SpvExecutionModelFragment fragmentId fragmentName [b, c],
   instruction SpvOpDecorate [a, SpvDecorationLocation, la],
   instruction SpvOpDecorate [b, SpvDecorationLocation, lb],
   instruction SpvOpDecorate [c, SpvDecorationLocation, lc],
   instruction SpvOpVariable [ta, a, SpvStorageClassOutput],
   instruction SpvOpVariable [tb, b, SpvStorageClassOutput],
   instruction SpvOpVariable [tc, c, SpvStorageClassInput]]

/-- `scanStream` with a loop body that is given the words of the instruction together with
the view on it. -/
def scanWords {σ : Type} (op : Nat) (body : σ → ArrayView → List Nat → Option σ) :
    Nat → Nat → List (List Nat) → σ → Scan (Nat × σ)
  | data, _, [], s => .next (data, s)
  | data, pos, ins :: rest, s =>
    if word ins 0 &&& 0xffff = op then
      match body s ⟨pos, ins.length⟩ ins with
      | none => .returnFalse
      | some s' => scanWords op body (pos + ins.length) (pos + ins.length) rest s'
    else scanWords op body data (pos + ins.length) rest s

/-- Body of the entry-point loop, reading the words of the instruction. -/
def entryPointWords (s : Option ArrayView × Option ArrayView) (entryPoint : ArrayView)
    (ins : List Nat) : Option (Option ArrayView × Option ArrayView) :=
  if entryPoint.size < 4 then none
  else
    some (if word ins 1 = SpvExecutionModelVertex then some entryPoint else s.1,
          if word ins 1 = SpvExecutionModelFragment then some entryPoint else s.2)

/-- Body of the decoration loop, reading the words of the instruction. -/
def decorationWords (buf : List Nat) (vertexEntryPointIds fragmentEntryPointIds : ArrayView)
    (s : Slots) (decoration : ArrayView) (ins : List Nat) : Option Slots :=
  if decoration.size < 4 ∨ word ins 2 ≠ SpvDecorationLocation then some s
  else
    some
      { maxLocation := max s.maxLocation (word ins 3)
        vertexInterface :=
          updateInterface buf vertexEntryPointIds (word ins 1)
            (fun e => { e with location := some (decoration.data + 3) })
            vertexEntryPointIds.size 0 s.vertexInterface
        fragmentInterface :=
          updateInterface buf fragmentEntryPointIds (word ins 1)
            (fun e => { e with location := some (decoration.data + 3) })
            fragmentEntryPointIds.size 0 s.fragmentInterface }

/-- Body of the variable loop, reading the words of the instruction. -/
def variableWords (buf : List Nat) (vertexEntryPointIds fragmentEntryPointIds : ArrayView)
    (s : Slots) (var : ArrayView) (ins : List Nat) : Option Slots :=
  if var.size < 4 then none
  else
    some
      { s with
        vertexInterface :=
          updateInterface buf vertexEntryPointIds (word ins 2)
            (fun e => { e with storageClass := word ins 3 })
            vertexEntryPointIds.size 0 s.vertexInterface
        fragmentInterface :=
          updateInterface buf fragmentEntryPointIds (word ins 2)
            (fun e => { e with storageClass := word ins 3 })
            fragmentEntryPointIds.size 0 s.fragmentInterface }

/-! ## The instructions of an arbitrary module -/

/-- The word count in the top 16 bits of the word at offset `p`. -/
def wordCountAt (buf : List Nat) (p : Nat) : Nat := word buf p >>> 16

/-- The opcode in the low 16 bits of the word at offset `p`. -/
def opcodeAt (buf : List Nat) (p : Nat) : Nat := word buf p &&& 0xffff

/-- The offset after the instruction at offset `p`, when the module holds all the words
the instruction declares; `p` itself otherwise. -/
def nextBoundary (buf : List Nat) (p : Nat) : Nat :=
  if p < buf.length ∧ wordCountAt buf p ≤ buf.length - p then p + wordCountAt buf p else p

/-- The offsets at which instructions start: offset 5, after the header, and then the
offset after each instruction. -/
def boundary (buf : List Nat) : Nat → Nat
  | 0 => 5
  | k + 1 => nextBoundary buf (boundary buf k)

/-- An instruction starts at offset `p`, and the module holds all the words it declares. -/
def IsInstructionAt (buf : List Nat) (p : Nat) : Prop :=
  (∃ k, boundary buf k = p) ∧ p < buf.length ∧ wordCountAt buf p ≤ buf.length - p

/-- The instruction at offset `p` is an `OpDecorate` of at least 4 words with the
decoration `Location`; its word 3 is the location. -/
def IsLocationDecorationAt (buf : List Nat) (p : Nat) : Prop :=
  IsInstructionAt buf p ∧ opcodeAt buf p = SpvOpDecorate ∧ 4 ≤ wordCountAt buf p ∧
    word buf (p + 2) = SpvDecorationLocation

/-- The ID `id` is one of the words of the view `ids`. -/
def InView (buf : List Nat) (ids : ArrayView) (id : Nat) : Prop :=
  ∃ i, i < ids.size ∧ word buf (ids.data + i) = id

/-- The views that the calls `find(op)` of a scanning loop return, in order, and the
scanner position at which the loop ends, for a loop that starts at `data` and takes every
instruction it is given; a loop that runs out of fuel is cut there. -/
def found (buf : List Nat) (op : Nat) : Nat → Nat → List ArrayView × Nat
  | 0, data => ([], data)
  | fuel + 1, data =>
    match find buf op data fuel with
    | none => ([], data)
    | some (none, data') => ([], data')
    | some (some instruction, data') =>
      (instruction :: (found buf op fuel data').1, (found buf op fuel data').2)

/-- A loop body run on a list of views, one after the other; `none` when it executes
`return false`. -/
def runBody {σ : Type} (body : σ → ArrayView → Option σ) : List ArrayView → σ → Option σ
  | [], s => some s
  | view :: views, s =>
    match body s view with
    | none => none
    | some s' => runBody body views s'

/-- The word at offset `l` is the location of a Location decoration whose target ID is
one of the IDs of the view `ids`. -/
def IsLocationOf (buf : List Nat) (ids : ArrayView) (l : Nat) : Prop :=
  ∃ p, IsLocationDecorationAt buf p ∧ l = p + 3 ∧ InView buf ids (word buf (p + 1))

/-- Every location pointer of the slots points at the location of a Location decoration
of an ID of its entry point. -/
def Slots.Located (buf : List Nat) (vertexEntryPointIds fragmentEntryPointIds : ArrayView)
    (s : Slots) : Prop :=
  (∀ e ∈ s.vertexInterface, ∀ l, e.location = some l → IsLocationOf buf vertexEntryPointIds l) ∧
  (∀ e ∈ s.fragmentInterface, ∀ l, e.location = some l →
    IsLocationOf buf fragmentEntryPointIds l)

/-- The module `out` has as many words as `buf` and differs from it only at offsets
with the property `S`. -/
def ChangedOnly (S : Nat → Prop) (buf out : List Nat) : Prop :=
  out.length = buf.length ∧ ∀ i, word out i ≠ word buf i → S i

/-- The two entry points the patcher selects, when it gets to select both. -/
def selectedEntryPoints (fuel : Nat) (buf : List Nat) : Option (ArrayView × ArrayView) :=
  match entryPointLoop buf fuel { data := 5, vertexEntryPoint := none, fragmentEntryPoint := none } with
  | .next entryPoints =>
    match entryPoints.vertexEntryPoint, entryPoints.fragmentEntryPoint with
    | some vertexEntryPoint, some fragmentEntryPoint => some (vertexEntryPoint, fragmentEntryPoint)
    | _, _ => none
  | _ => none

/-- The ID `id` is in the interface-ID list of the selected vertex entry point or in that
of the selected fragment entry point. -/
def IsInterfaceId (fuel : Nat) (buf : List Nat) (id : Nat) : Prop :=
  ∃ v f, selectedEntryPoints fuel buf = some (v, f) ∧
    (InView buf (entryPointIds buf v) id ∨ InView buf (entryPointIds buf f) id)

/-- The view on the last `OpEntryPoint` of the execution model `model` in a list of
encoded instructions that starts at offset `pos`; `init` when there is none. -/
def lastEntryPoint (model : Nat) : Nat → List (List Nat) → Option ArrayView → Option ArrayView
  | _, [], init => init
  | pos, ins :: rest, init =>
    lastEntryPoint model (pos + ins.length) rest
      (if word ins 0 &&& 0xffff = SpvOpEntryPoint ∧ word ins 1 = model
       then some ⟨pos, ins.length⟩ else init)

/-- The words that remain at an instruction header that declares more words than
remain. -/
def IsTruncated (t : List Nat) : Prop :=
  1 ≤ t.length ∧ t.length < word t 0 >>> 16

instance (t : List Nat) : Decidable (IsTruncated t) :=
  inferInstanceAs (Decidable (_ ∧ _))

/-- The entry-point scan gives a vertex and a fragment entry point, each of at least 4
words, and both have a non-empty interface-ID list. -/
def entryPointsUsable (fuel : Nat) (buf : List Nat) : Bool :=
  match selectedEntryPoints fuel buf with
  | some (v, f) => decide ((entryPointIds buf v).size ≠ 0 ∧ (entryPointIds buf f).size ≠ 0)
  | none => false

/-- The interface slots at the start of conflict resolution (line 153), when the patcher
gets there: both entry points are selected, both interface-ID lists are non-empty, and the
decoration loop and the variable loop have fallen through. -/
def scannedInterfaces (fuel : Nat) (buf : List Nat) : Option Interfaces :=
  if buf.length < 5 then none
  else
    match entryPointLoop buf fuel { data := 5, vertexEntryPoint := none, fragmentEntryPoint := none } with
    | .next entryPoints =>
      match entryPoints.vertexEntryPoint, entryPoints.fragmentEntryPoint with
      | some vertexEntryPoint, some fragmentEntryPoint =>
        let vertexEntryPointIds := entryPointIds buf vertexEntryPoint
        let fragmentEntryPointIds := entryPointIds buf fragmentEntryPoint
        if vertexEntryPointIds.size = 0 ∨ fragmentEntryPointIds.size = 0 then none
        else
          match decorationLoop buf vertexEntryPointIds fragmentEntryPointIds fuel
              { data := entryPoints.data
                maxLocation := 0
                vertexInterface := List.replicate vertexEntryPointIds.size {}
                fragmentInterface := List.replicate fragmentEntryPointIds.size {} } with
          | none => none
          | some decorated =>
            match variableLoop buf vertexEntryPointIds fragmentEntryPointIds fuel decorated with
            | .next s => some s
            | _ => none
      | _, _ => none
    | _ => none

/-- The test of lines 158, 164 and 169 on a vertex-side slot and a fragment-side slot:
both have storage class Output and a location, and the two location words of the module
`buf` are equal. -/
def conflict (buf : List Nat) (vertexOutput fragmentOutput : EntryPointInterface) : Bool :=
  match vertexOutput.location, fragmentOutput.location with
  | some vertexLocation, some fragmentLocation =>
    decide (vertexOutput.storageClass = SpvStorageClassOutput ∧
      fragmentOutput.storageClass = SpvStorageClassOutput ∧
      word buf vertexLocation = word buf fragmentLocation)
  | _, _ => false

/-- No vertex-side slot conflicts with a fragment-side slot, on the module `buf`. -/
def conflictFree (buf : List Nat) (s : Interfaces) : Bool :=
  s.vertexInterface.all fun vertexOutput =>
    s.fragmentInterface.all fun fragmentOutput => !conflict buf vertexOutput fragmentOutput

/-- The module has no conflict: when the patcher gets to conflict resolution, no
vertex-side slot conflicts with a fragment-side slot. -/
def noConflict (fuel : Nat) (buf : List Nat) : Bool :=
  match scannedInterfaces fuel buf with
  | some s => conflictFree buf s
  | none => true

/-! ## The writes of the conflict resolution

The conflict resolution writes through a location pointer at two places, lines 175 and
179. The functions below are the three loops of the conflict resolution with their state
dropped and their writes kept, in the order in which they happen. -/

/-- A write of the conflict resolution: the index in `vertexInterface` of the vertex output
in conflict, whether it is the write of line 175 (through `fragmentInput.location`) and not
that of line 179 (through `vertexOutput.location`), the offset of the word written, and
the value. -/
structure Write where
  vertexSlot : Nat
  fragmentInput : Bool
  location : Nat
  value : Nat
deriving DecidableEq

/-- The module after a write. -/
def Write.apply (buf : List Nat) (w : Write) : List Nat := buf.set w.location w.value

/-- The writes of the loop over `fragmentInput` (lines 171-178). -/
def fragmentInputWrites (vertexSlot vertexLocation newLocation : Nat) :
    List EntryPointInterface → List Nat → List Write
  | [], _ => []
  | fragmentInput :: rest, buf =>
    if fragmentInput.storageClass ≠ SpvStorageClassInput then
      fragmentInputWrites vertexSlot vertexLocation newLocation rest buf
    else
      match fragmentInput.location with
      | none => []
      | some location =>
        if word buf location = word buf vertexLocation then
          [{ vertexSlot := vertexSlot, fragmentInput := true, location := location,
             value := newLocation }]
        else fragmentInputWrites vertexSlot vertexLocation newLocation rest buf

/-- The writes of the loop over `fragmentOutput` (lines 161-182) for the vertex output
number `vertexSlot`, whose location word is at `vertexLocation`. -/
def fragmentOutputWrites (fragmentInterface : List EntryPointInterface)
    (vertexSlot vertexLocation : Nat) :
    List EntryPointInterface → List Nat × Nat → List Write
  | [], _ => []
  | fragmentOutput :: rest, (buf, maxLocation) =>
    if fragmentOutput.storageClass ≠ SpvStorageClassOutput then
      fragmentOutputWrites fragmentInterface vertexSlot vertexLocation rest (buf, maxLocation)
    else
      match fragmentOutput.location with
      | none =>
        fragmentOutputWrites fragmentInterface vertexSlot vertexLocation rest (buf, maxLocation)
      | some location =>
        if word buf vertexLocation = word buf location then
          let newLocation := (maxLocation + 1) % 2 ^ 32
          fragmentInputWrites vertexSlot vertexLocation newLocation fragmentInterface buf ++
            [{ vertexSlot := vertexSlot, fragmentInput := false, location := vertexLocation,
               value := newLocation }]
        else
          fragmentOutputWrites fragmentInterface vertexSlot vertexLocation rest
            (buf, maxLocation)

/-- The writes of the loop over `vertexOutput` (lines 155-183), from the vertex output
number `vertexSlot` on. -/
def vertexOutputWrites (fragmentInterface : List EntryPointInterface) :
    Nat → List EntryPointInterface → List Nat × Nat → List Write
  | _, [], _ => []
  | vertexSlot, vertexOutput :: rest, s =>
    if vertexOutput.storageClass ≠ SpvStorageClassOutput then
      vertexOutputWrites fragmentInterface (vertexSlot + 1) rest s
    else
      match vertexOutput.location with
      | none => vertexOutputWrites fragmentInterface (vertexSlot + 1) rest s
      | some location =>
        match fragmentOutputLoop fragmentInterface location fragmentInterface s with
        | none => []
        | some s' =>
          fragmentOutputWrites fragmentInterface vertexSlot location fragmentInterface s ++
            vertexOutputWrites fragmentInterface (vertexSlot + 1) rest s'

/-- The writes of a call of the patcher, in the order in which they happen. -/
def writes (fuel : Nat) (buf : List Nat) : List Write :=
  match scannedInterfaces fuel buf with
  | some s => vertexOutputWrites s.fragmentInterface 0 s.vertexInterface (buf, s.maxLocation)
  | none => []

/-- The writes through `vertexOutput.location` (line 179) of a call of the patcher. -/
def vertexWrites (fuel : Nat) (buf : List Nat) : List Write :=
  (writes fuel buf).filter fun w => !w.fragmentInput

/-- The location pointers of the slots of an interface are in step with its ID list: there
is one slot for each ID; the pointer of slot `i` points at word 3 of an instruction whose
word 1 is the ID number `i`, an ID that does not occur earlier in the list; and the word
it points at is not above `maxLocation`. -/
def Indexed (buf : List Nat) (ids : ArrayView) (maxLocation : Nat)
    (interface : List EntryPointInterface) : Prop :=
  interface.length = ids.size ∧
  ∀ i e l, interface[i]? = some e → e.location = some l →
    2 ≤ l ∧ word buf (l - 2) = word buf (ids.data + i) ∧
    (∀ k, k < i → word buf (ids.data + k) ≠ word buf (ids.data + i)) ∧
    word buf l ≤ maxLocation

/-- The slots of both interfaces are in step with the ID lists. -/
def Slots.Indexed (buf : List Nat) (vertexEntryPointIds fragmentEntryPointIds : ArrayView)
    (s : Slots) : Prop :=
  Implementation.Indexed buf vertexEntryPointIds s.maxLocation s.vertexInterface ∧
  Implementation.Indexed buf fragmentEntryPointIds s.maxLocation s.fragmentInterface

/-- An encoded instruction is an `OpDecorate` of at least 4 words with the decoration
`Location`; its word 3 is the location. -/
def IsLocationDecoration (ins : List Nat) : Prop :=
  word ins 0 &&& 0xffff = SpvOpDecorate ∧ 4 ≤ ins.length ∧ word ins 2 = SpvDecorationLocation

instance (ins : List Nat) : Decidable (IsLocationDecoration ins) :=
  inferInstanceAs (Decidable (_ ∧ _))

/-- The maximum of the locations of all the Location decorations of a list of encoded
instructions, 0 when there is none. -/
def streamMaxLocation : List (List Nat) → Nat
  | [] => 0
  | ins :: rest =>
    if IsLocationDecoration ins then max (word ins 3) (streamMaxLocation rest)
    else streamMaxLocation rest

/-- The word at offset `i` is the location of a Location decoration of the module: word 3
of an `OpDecorate` instruction of at least 4 words with the decoration `Location`. -/
def IsLocationWord (buf : List Nat) (i : Nat) : Prop :=
  ∃ p, IsLocationDecorationAt buf p ∧ i = p + 3

/-! ## The patcher with checked indexing

The functions above read the module with `word`, which gives 0 where there is no word.
The functions below are the same code with every `view[i]`, every `prefix` and `suffix`
and every index into a slot array checked, as the range assertions of
`Containers::ArrayView` and `Containers::Array` check them. -/

/-- What a checked computation gives: a failed range check of an index or of a slice, or
a value. -/
inductive Checked (α : Type) where
  | outOfRange : Checked α
  | value (a : α) : Checked α
deriving DecidableEq

/-- The read `view[i]`, checked: `i` is below the size of the view and the word is a word
of the module. -/
def ArrayView.index (buf : List Nat) (view : ArrayView) (i : Nat) : Checked Nat :=
  if i < view.size then
    match buf[view.data + i]? with
    | some w => .value w
    | none => .outOfRange
  else .outOfRange

/-- The slice `view.prefix(n)`, checked: `n` is at most the size of the view. -/
def ArrayView.prefixOf (view : ArrayView) (n : Nat) : Checked ArrayView :=
  if n ≤ view.size then .value ⟨view.data, n⟩ else .outOfRange

/-- The slice `view.suffix(n)`, checked: `n` is at most the size of the view. -/
def ArrayView.suffixOf (view : ArrayView) (n : Nat) : Checked ArrayView :=
  if n ≤ view.size then .value ⟨view.data + n, view.size - n⟩ else .outOfRange

/-- The `while` loop of the lambda `find` (lines 45-58), checked: `dataIteration[0]`,
`dataIteration.prefix(instructionSize)`, `dataIteration.suffix(instructionSize)` and
`instruction[0]`. As in `findLoop` the views `data` and `dataIteration` are given by their
offsets and end where the module ends. -/
def findLoopChecked (buf : List Nat) (op : Nat) (data : Nat) :
    Nat → Nat → Checked (Option (Option ArrayView × Nat))
  | 0, _ => .value none
  | fuel + 1, offset =>
    let dataIteration : ArrayView := ⟨offset, buf.length - offset⟩
    if dataIteration.size = 0 then .value (some (none, data))
    else
      match dataIteration.index buf 0 with
      | .outOfRange => .outOfRange
      | .value header =>
        let instructionSize := header >>> 16
        if dataIteration.size < instructionSize then .value (some (none, offset))
        else
          match dataIteration.prefixOf instructionSize,
              dataIteration.suffixOf instructionSize with
          | .value instruction, .value rest =>
            match instruction.index buf 0 with
            | .outOfRange => .outOfRange
            | .value opcode =>
              if opcode &&& 0xffff = op then .value (some (some instruction, rest.data))
              else findLoopChecked buf op data fuel rest.data
          | _, _ => .outOfRange

/-- The lambda `find(op)`, checked. -/
def findChecked (buf : List Nat) (op : Nat) (data : Nat) (fuel : Nat) :
    Checked (Option (Option ArrayView × Nat)) :=
  findLoopChecked buf op data fuel data

/-- The loop `while(instruction = find(op)) body`, checked; `body` yields `none` for
`return false`. -/
def scanLoopChecked {σ : Type} (buf : List Nat) (op : Nat)
    (body : σ → ArrayView → Checked (Option σ)) : Nat → Nat → σ → Checked (Scan (Nat × σ))
  | 0, _, _ => .value .outOfFuel
  | fuel + 1, data, s =>
    match findChecked buf op data fuel with
    | .outOfRange => .outOfRange
    | .value none => .value .outOfFuel
    | .value (some (none, data')) => .value (.next (data', s))
    | .value (some (some instruction, data')) =>
      match body s instruction with
      | .outOfRange => .outOfRange
      | .value none => .value .returnFalse
      | .value (some s') => scanLoopChecked buf op body fuel data' s'

/-- Body of the entry-point loop (lines 66-73), checked: `entryPoint[1]`. -/
def entryPointBodyChecked (buf : List Nat) (s : Option ArrayView × Option ArrayView)
    (entryPoint : ArrayView) : Checked (Option (Option ArrayView × Option ArrayView)) :=
  if entryPoint.size < 4 then .value none
  else
    match entryPoint.index buf 1 with
    | .outOfRange => .outOfRange
    | .value model =>
      .value (some (if model = SpvExecutionModelVertex then some entryPoint else s.1,
                    if model = SpvExecutionModelFragment then some entryPoint else s.2))

/-- The loop `for(i = 3; i != entryPoint.size(); ++i)` (lines 81-86 and 87-92), checked:
`entryPoint[i]` and `entryPoint.suffix(i + 1)`. The first argument counts the iterations
left. -/
def entryPointIdsLoopChecked (buf : List Nat) (entryPoint : ArrayView) :
    Nat → Nat → Checked ArrayView
  | 0, _ => .value ⟨0, 0⟩
  | n + 1, i =>
    match entryPoint.index buf i with
    | .outOfRange => .outOfRange
    | .value w => if w >>> 24 = 0 then entryPoint.suffixOf (i + 1)
      else entryPointIdsLoopChecked buf entryPoint n (i + 1)

/-- The interface IDs of an entry point, checked. On an entry point of fewer than 3
words the loop, which runs until `i` is the size, starts with `entryPoint[3]`. -/
def entryPointIdsChecked (buf : List Nat) (entryPoint : ArrayView) : Checked ArrayView :=
  if entryPoint.size < 3 then .outOfRange
  else entryPointIdsLoopChecked buf entryPoint (entryPoint.size - 3) 3

/-- The loops `for(i = 0; i != ids.size(); ++i) if(id == ids[i]) { ...; break; }`
(lines 119-130 and 139-150), checked: `ids[i]` and the slot `interface[i]`. -/
def updateInterfaceChecked (buf : List Nat) (ids : ArrayView) (id : Nat)
    (update : EntryPointInterface → EntryPointInterface) :
    Nat → Nat → List EntryPointInterface → Checked (List EntryPointInterface)
  | 0, _, interface => .value interface
  | n + 1, i, interface =>
    match ids.index buf i with
    | .outOfRange => .outOfRange
    | .value w =>
      if id = w then
        if i < interface.length then .value (interface.modify update i) else .outOfRange
      else updateInterfaceChecked buf ids id update n (i + 1) interface

/-- Body of the decoration loop (lines 111-130), checked: `decoration[2]`, read only when
the decoration has at least 4 words, then `decoration[3]` and `decoration[1]`. -/
def decorationBodyChecked (buf : List Nat)
    (vertexEntryPointIds fragmentEntryPointIds : ArrayView) (s : Slots)
    (decoration : ArrayView) : Checked (Option Slots) :=
  if decoration.size < 4 then .value (some s)
  else
    match decoration.index buf 2 with
    | .outOfRange => .outOfRange
    | .value kind =>
      if kind ≠ SpvDecorationLocation then .value (some s)
      else
        match decoration.index buf 3, decoration.index buf 1 with
        | .value location, .value id =>
          match updateInterfaceChecked buf vertexEntryPointIds id
              (fun e => { e with location := some (decoration.data + 3) })
              vertexEntryPointIds.size 0 s.vertexInterface,
            updateInterfaceChecked buf fragmentEntryPointIds id
              (fun e => { e with location := some (decoration.data + 3) })
              fragmentEntryPointIds.size 0 s.fragmentInterface with
          | .value vertexInterface, .value fragmentInterface =>
            .value (some { maxLocation := max s.maxLocation location
                           vertexInterface := vertexInterface
                           fragmentInterface := fragmentInterface })
          | _, _ => .outOfRange
        | _, _ => .outOfRange

/-- Body of the variable loop (lines 135-150), checked: `variable[2]` and `variable[3]`;
the source reads `variable[3]` when an ID matches, here it is read in every case. -/
def variableBodyChecked (buf : List Nat)
    (vertexEntryPointIds fragmentEntryPointIds : ArrayView) (s : Slots)
    (var : ArrayView) : Checked (Option Slots) :=
  if var.size < 4 then .value none
  else
    match var.index buf 2, var.index buf 3 with
    | .value id, .value storageClass =>
      match updateInterfaceChecked buf vertexEntryPointIds id
          (fun e => { e with storageClass := storageClass })
          vertexEntryPointIds.size 0 s.vertexInterface,
        updateInterfaceChecked buf fragmentEntryPointIds id
          (fun e => { e with storageClass := storageClass })
          fragmentEntryPointIds.size 0 s.fragmentInterface with
      | .value vertexInterface, .value fragmentInterface =>
        .value (some { s with vertexInterface := vertexInterface
                              fragmentInterface := fragmentInterface })
      | _, _ => .outOfRange
    | _, _ => .outOfRange

/-- Lines 99-185, once both entry points are selected, checked. The conflict resolution
has no index and no slice: its loops run over the slot arrays and go through the location
pointers. -/
def patchEntryPointsChecked (fuel : Nat) (buf : List Nat) (data : Nat)
    (vertexEntryPoint fragmentEntryPoint : ArrayView) : Checked Outcome :=
  match entryPointIdsChecked buf vertexEntryPoint,
      entryPointIdsChecked buf fragmentEntryPoint with
  | .value vertexEntryPointIds, .value fragmentEntryPointIds =>
    if vertexEntryPointIds.size = 0 ∨ fragmentEntryPointIds.size = 0 then
      .value (.returned false buf)
    else
      match scanLoopChecked buf SpvOpDecorate
          (decorationBodyChecked buf vertexEntryPointIds fragmentEntryPointIds) fuel data
          { maxLocation := 0
            vertexInterface := List.replicate vertexEntryPointIds.size {}
            fragmentInterface := List.replicate fragmentEntryPointIds.size {} } with
      | .outOfRange => .outOfRange
      | .value .outOfFuel => .value .outOfFuel
      | .value .returnFalse => .value (.returned false buf)
      | .value (.next decorated) =>
        match scanLoopChecked buf SpvOpVariable
            (variableBodyChecked buf vertexEntryPointIds fragmentEntryPointIds) fuel
            decorated.1 decorated.2 with
        | .outOfRange => .outOfRange
        | .value .outOfFuel => .value .outOfFuel
        | .value .returnFalse => .value (.returned false buf)
        | .value (.next s) =>
          match vertexOutputLoop s.2.fragmentInterface s.2.vertexInterface
              (buf, s.2.maxLocation) with
          | none => .value .nullDereference
          | some (buf', _) => .value (.returned true buf')
  | _, _ => .outOfRange

/-- `spirvPatchSwiftShaderConflictingMultiEntrypointLocations(data)` on the module `buf`,
checked: `data.suffix(5)` and what follows. -/
def spirvPatchChecked (fuel : Nat) (buf : List Nat) : Checked Outcome :=
  match (⟨0, buf.length⟩ : ArrayView).suffixOf 5 with
  | .outOfRange => .outOfRange
  | .value data =>
    match scanLoopChecked buf SpvOpEntryPoint (entryPointBodyChecked buf) fuel data.data
        (none, none) with
    | .outOfRange => .outOfRange
    | .value .outOfFuel => .value .outOfFuel
    | .value .returnFalse => .value (.returned false buf)
    | .value (.next entryPoints) =>
      match entryPoints.2.1, entryPoints.2.2 with
      | some vertexEntryPoint, some fragmentEntryPoint =>
        patchEntryPointsChecked fuel buf entryPoints.1 vertexEntryPoint fragmentEntryPoint
      | _, _ => .value (.returned false buf)

/-- The offsets of the instruction headers that the loop of `find` reads. -/
def findHeaders (buf : List Nat) (op : Nat) : Nat → Nat → List Nat
  | 0, _ => []
  | fuel + 1, offset =>
    if buf.length ≤ offset then []
    else
      offset ::
        (if buf.length - offset < word buf offset >>> 16 then []
         else if word buf offset &&& 0xffff = op then []
         else findHeaders buf op fuel (offset + word buf offset >>> 16))

/-- The offsets of the instruction headers that the calls of `find` of a scanning loop
read. -/
def scanHeaders {σ : Type} (buf : List Nat) (op : Nat) (body : σ → ArrayView → Option σ) :
    Nat → Nat → σ → List Nat
  | 0, _, _ => []
  | fuel + 1, data, s =>
    findHeaders buf op fuel data ++
      match find buf op data fuel with
      | some (some instruction, data') =>
        match body s instruction with
        | some s' => scanHeaders buf op body fuel data' s'
        | none => []
      | _ => []

/-- The offsets of the instruction headers that the scanner reaches in a call of the
patcher: those of the entry-point loop, then, when the patcher gets there, those of the
decoration loop and those of the variable loop. -/
def headers (fuel : Nat) (buf : List Nat) : List Nat :=
  scanHeaders buf SpvOpEntryPoint (entryPointBody buf) fuel 5 (none, none) ++
    match scanLoop buf SpvOpEntryPoint (entryPointBody buf) fuel 5 (none, none) with
    | .next (data, some vertexEntryPoint, some fragmentEntryPoint) =>
      let vertexEntryPointIds := entryPointIds buf vertexEntryPoint
      let fragmentEntryPointIds := entryPointIds buf fragmentEntryPoint
      if vertexEntryPointIds.size = 0 ∨ fragmentEntryPointIds.size = 0 then []
      else
        scanHeaders buf SpvOpDecorate
            (decorationBody buf vertexEntryPointIds fragmentEntryPointIds) fuel data
            { maxLocation := 0
              vertexInterface := List.replicate vertexEntryPointIds.size {}
              fragmentInterface := List.replicate fragmentEntryPointIds.size {} } ++
          match scanLoop buf SpvOpDecorate
              (decorationBody buf vertexEntryPointIds fragmentEntryPointIds) fuel data
              { maxLocation := 0
                vertexInterface := List.replicate vertexEntryPointIds.size {}
                fragmentInterface := List.replicate fragmentEntryPointIds.size {} } with
          | .next decorated =>
            scanHeaders buf SpvOpVariable
              (variableBody buf vertexEntryPointIds fragmentEntryPointIds) fuel
              decorated.1 decorated.2
          | _ => []
    | _ => []

/-- The slots of an ID that is in both interface-ID lists have the same storage class:
there is one slot for each ID, and when the ID number `i` of the vertex entry point is the
ID number `j` of the fragment entry point, each at its first occurrence in its list, the
vertex-side slot `i` and the fragment-side slot `j` have the same storage class. -/
def Slots.SharedClass (buf : List Nat) (vertexEntryPointIds fragmentEntryPointIds : ArrayView)
    (s : Slots) : Prop :=
  s.vertexInterface.length = vertexEntryPointIds.size ∧
  s.fragmentInterface.length = fragmentEntryPointIds.size ∧
  ∀ i j ev ef, s.vertexInterface[i]? = some ev → s.fragmentInterface[j]? = some ef →
    word buf (vertexEntryPointIds.data + i) = word buf (fragmentEntryPointIds.data + j) →
    (∀ k, k < i → word buf (vertexEntryPointIds.data + k)
      ≠ word buf (vertexEntryPointIds.data + i)) →
    (∀ k, k < j → word buf (fragmentEntryPointIds.data + k)
      ≠ word buf (fragmentEntryPointIds.data + j)) →
    ev.storageClass = ef.storageClass

/-! ## Sample modules -/

/-- A module that is only its 5 header words. -/
def headerOnly : List Nat := [0x07230203, 0x00010000, 0, 1, 0]

/-- The 5 header words followed by one word whose 16-bit word count is 0 (and whose
opcode is 0, `OpNop`). -/
def zeroWordCountModule : List Nat := [0x07230203, 0x00010000, 0, 1, 0, 0]

/-- The instructions of a module with a fragment entry point `main` only: the entry point
with the interface ID 2, `OpDecorate 2 Location 0` and an `OpVariable` of ID 2 and storage
class Output. -/
def fragmentOnlyInstructions : List (List Nat) :=
  [[0x0006000f, 4, 1, 0x6e69616d, 0, 2], [0x00040047, 2, 30, 0], [0x0004003b, 9, 2, 3]]

/-- The module of the conflict test with entry points named `main`, the interface IDs 10
(vertex output), 11 (fragment output) and 12 (fragment input), all at location 7. -/
def conflictSample : List Nat :=
  headerOnly ++ (conflictInstructions 1 2 [0x6e69616d, 0] [0x6e69616d, 0]
    10 11 12 90 91 92 7 7 7).flatten

/-- The module `conflictSample` with the locations of the IDs 10 and 12 set to 8. -/
def conflictSamplePatched : List Nat :=
  headerOnly ++ (conflictInstructions 1 2 [0x6e69616d, 0] [0x6e69616d, 0]
    10 11 12 90 91 92 8 7 8).flatten

/-- The conflict test with a builtin in the fragment interface: the vertex entry point has
the interface `[10]`, the fragment entry point the interface `[11, 13]`; 10 and 11 are
outputs decorated with Location 7, and 13 is an input decorated with `BuiltIn FragCoord`
(decoration 11, builtin 15) and with no Location. -/
def builtinSample : List Nat :=
  headerOnly ++ [entryPoint SpvExecutionModelVertex 1 [0x6e69616d, 0] [10],
    entryPoint SpvExecutionModelFragment 2 [0x6e69616d, 0] [11, 13],
    instruction SpvOpDecorate [10, SpvDecorationLocation, 7],
    instruction SpvOpDecorate [11, SpvDecorationLocation, 7],
    instruction SpvOpDecorate [13, 11, 15],
    instruction SpvOpVariable [90, 10, SpvStorageClassOutput],
    instruction SpvOpVariable [91, 11, SpvStorageClassOutput],
    instruction SpvOpVariable [93, 13, SpvStorageClassInput]].flatten

/-- The instructions of a module with two vertex entry points, the first with the
interface `[10]` and the second with the interface `[20]`, and a fragment entry point with
the interface `[11]`. The outputs 10 and 11 are at location 7, the output 20 at
location 5. -/
def twoVertexInstructions : List (List Nat) :=
  [entryPoint SpvExecutionModelVertex 1 [0x6e69616d, 0] [10],
    entryPoint SpvExecutionModelVertex 3 [0x6e69616d, 0] [20],
    entryPoint SpvExecutionModelFragment 2 [0x6e69616d, 0] [11],
    instruction SpvOpDecorate [10, SpvDecorationLocation, 7],
    instruction SpvOpDecorate [11, SpvDecorationLocation, 7],
    instruction SpvOpDecorate [20, SpvDecorationLocation, 5],
    instruction SpvOpVariable [90, 10, SpvStorageClassOutput],
    instruction SpvOpVariable [91, 11, SpvStorageClassOutput],
    instruction SpvOpVariable [92, 20, SpvStorageClassOutput]]

/-- The module of `twoVertexInstructions`: its vertex entry points are at the offsets 5
and 11, its fragment entry point is at offset 17. -/
def twoVertexSample : List Nat := headerOnly ++ twoVertexInstructions.flatten

/-- The module `conflictSample` followed by one word that declares an instruction of 5
words. -/
def truncatedSample : List Nat := conflictSample ++ [0x00050000]

/-- A module whose vertex and fragment entry points both have the interface `[10]`, an
output at location 7. -/
def sharedSample : List Nat :=
  headerOnly ++ [entryPoint SpvExecutionModelVertex 1 [0x6e69616d, 0] [10],
    entryPoint SpvExecutionModelFragment 2 [0x6e69616d, 0] [10],
    instruction SpvOpDecorate [10, SpvDecorationLocation, 7],
    instruction SpvOpVariable [90, 10, SpvStorageClassOutput]].flatten

/-- The module of `conflictSample` with the locations 7, 8 and 7: the vertex output and the
fragment output have different locations. -/
def noConflictSample : List Nat :=
  headerOnly ++ (conflictInstructions 1 2 [0x6e69616d, 0] [0x6e69616d, 0]
    10 11 12 90 91 92 7 8 7).flatten

/-- A module with two conflicts: a vertex entry point with the outputs 10 and 20 at the
locations 7 and 8, and a fragment entry point with the outputs 11 and 21 at the locations
7 and 8 and the input 12 at the location 7. -/
def twoConflictSample : List Nat :=
  headerOnly ++ [entryPoint SpvExecutionModelVertex 1 [0x6e69616d, 0] [10, 20],
    entryPoint SpvExecutionModelFragment 2 [0x6e69616d, 0] [11, 21, 12],
    instruction SpvOpDecorate [10, SpvDecorationLocation, 7],
    instruction SpvOpDecorate [20, SpvDecorationLocation, 8],
    instruction SpvOpDecorate [11, SpvDecorationLocation, 7],
    instruction SpvOpDecorate [21, SpvDecorationLocation, 8],
    instruction SpvOpDecorate [12, SpvDecorationLocation, 7],
    instruction SpvOpVariable [90, 10, SpvStorageClassOutput],
    instruction SpvOpVariable [90, 20, SpvStorageClassOutput],
    instruction SpvOpVariable [91, 11, SpvStorageClassOutput],
    instruction SpvOpVariable [91, 21, SpvStorageClassOutput],
    instruction SpvOpVariable [92, 12, SpvStorageClassInput]].flatten

/-- The instructions of `conflictSample` after a Location decoration with the location 50
that stands before the entry points. -/
def earlyDecorationInstructions : List (List Nat) :=
  instruction SpvOpDecorate [99, SpvDecorationLocation, 50] ::
    conflictInstructions 1 2 [0x6e69616d, 0] [0x6e69616d, 0] 10 11 12 90 91 92 7 7 7

/-- The module of `earlyDecorationInstructions`. -/
def earlyDecorationSample : List Nat := headerOnly ++ earlyDecorationInstructions.flatten

/-- The instructions of `conflictSample` with the location 2^32 - 1 in place of 7. -/
def wrapInstructions : List (List Nat) :=
  conflictInstructions 1 2 [0x6e69616d, 0] [0x6e69616d, 0] 10 11 12 90 91 92
    4294967295 4294967295 4294967295

/-- The module of `wrapInstructions`. -/
def wrapSample : List Nat := headerOnly ++ wrapInstructions.flatten

/-- A module with two conflicts and a vertex output in no conflict between them: the
outputs 10, 20 and 30 of the vertex entry point have the locations 7, 5 and 8, the outputs
11 and 21 of the fragment entry point the locations 7 and 8. -/
def skippedOutputSample : List Nat :=
  headerOnly ++ [entryPoint SpvExecutionModelVertex 1 [0x6e69616d, 0] [10, 20, 30],
    entryPoint SpvExecutionModelFragment 2 [0x6e69616d, 0] [11, 21],
    instruction SpvOpDecorate [10, SpvDecorationLocation, 7],
    instruction SpvOpDecorate [20, SpvDecorationLocation, 5],
    instruction SpvOpDecorate [30, SpvDecorationLocation, 8],
    instruction SpvOpDecorate [11, SpvDecorationLocation, 7],
    instruction SpvOpDecorate [21, SpvDecorationLocation, 8],
    instruction SpvOpVariable [90, 10, SpvStorageClassOutput],
    instruction SpvOpVariable [90, 20, SpvStorageClassOutput],
    instruction SpvOpVariable [90, 30, SpvStorageClassOutput],
    instruction SpvOpVariable [91, 11, SpvStorageClassOutput],
    instruction SpvOpVariable [91, 21, SpvStorageClassOutput]].flatten

/-- The interface slots of `skippedOutputSample` at the start of conflict resolution. -/
def skippedOutputInterfaces : Interfaces :=
  { data := 60, maxLocation := 8,
    vertexInterface := [{ location := some 23, storageClass := SpvStorageClassOutput },
      { location := some 27, storageClass := SpvStorageClassOutput },
      { location := some 31, storageClass := SpvStorageClassOutput }],
    fragmentInterface := [{ location := some 35, storageClass := SpvStorageClassOutput },
      { location := some 39, storageClass := SpvStorageClassOutput }] }

/-- The module `skippedOutputSample` with the locations 9 and 10 in place of the locations
of the vertex outputs 10 and 30. -/
def skippedOutputPatched : List Nat := (skippedOutputSample.set 23 9).set 31 10

end Magnum.Vk.Implementation

namespace Magnum.MeshTools

/-! ## Normal generation

`GenerateNormals.cpp` is not among the sources, only its test is: the functions below
follow the specification of the normal generator and the diagnostics the test pins. The
vector math is taken over an arbitrary scalar field `α` with a square-root function
`sqrt`, so rounding is not part of the model. -/

/-- Modelled from the spec: `Vector3` of the vector math library, an external
collaborator, over the scalar type `α`. -/
structure Vector3 (α : Type) where
  x : α
  y : α
  z : α
deriving DecidableEq

namespace Vector3

variable {α : Type}

/-- Modelled from the spec: the zero vector, the initial value of an accumulator. -/
def zero [Zero α] : Vector3 α := ⟨0, 0, 0⟩

/-- Modelled from the spec: vector addition of the vector math library. -/
def add [Add α] (a b : Vector3 α) : Vector3 α := ⟨a.x + b.x, a.y + b.y, a.z + b.z⟩

/-- Modelled from the spec: vector subtraction of the vector math library. -/
def sub [Sub α] (a b : Vector3 α) : Vector3 α := ⟨a.x - b.x, a.y - b.y, a.z - b.z⟩

/-- Modelled from the spec: negation, as in `-Vector3::zAxis()`. -/
def neg [Neg α] (a : Vector3 α) : Vector3 α := ⟨-a.x, -a.y, -a.z⟩

/-- Modelled from the spec: the dot product of the vector math library. -/
def dot [Add α] [Mul α] (a b : Vector3 α) : α := a.x * b.x + a.y * b.y + a.z * b.z

/-- Modelled from the spec: the cross product of the vector math library. -/
def cross [Sub α] [Mul α] (a b : Vector3 α) : Vector3 α :=
  ⟨a.y * b.z - a.z * b.y, a.z * b.x - a.x * b.z, a.x * b.y - a.y * b.x⟩

/-- Modelled from the spec: normalization, the vector divided by its length. -/
def normalized [Add α] [Mul α] [Div α] (sqrt : α → α) (a : Vector3 α) : Vector3 α :=
  ⟨a.x / sqrt (dot a a), a.y / sqrt (dot a a), a.z / sqrt (dot a a)⟩

/-- Modelled from the spec: `Vector3::zAxis()`. -/
def zAxis [Zero α] [One α] : Vector3 α := ⟨0, 0, 1⟩

end Vector3

variable {α : Type}

/-- Modelled from the spec: the unnormalized face normal `(p1 - p0) × (p2 - p0)` of a
triangle. -/
def faceNormal [Sub α] [Mul α] (p0 p1 p2 : Vector3 α) : Vector3 α :=
  Vector3.cross (Vector3.sub p1 p0) (Vector3.sub p2 p0)

/-- Modelled from the spec: the flat normals of consecutive position triples, the
normalized face normal written to all three slots of its triangle. -/
def flatNormals [Field α] (sqrt : α → α) : List (Vector3 α) → List (Vector3 α)
  | p0 :: p1 :: p2 :: rest =>
    Vector3.normalized sqrt (faceNormal p0 p1 p2) ::
      Vector3.normalized sqrt (faceNormal p0 p1 p2) ::
      Vector3.normalized sqrt (faceNormal p0 p1 p2) :: flatNormals sqrt rest
  | _ => []

/-- Modelled from the spec: `generateFlatNormalsInto(positions, normalsOut)` of
`GenerateNormals.cpp`. The result is the diagnostic, if any, and the output buffer after
the call. -/
def generateFlatNormalsInto [Field α] (sqrt : α → α) (positions normals : List (Vector3 α)) :
    Option String × List (Vector3 α) :=
  if positions.length % 3 ≠ 0 then
    (some "MeshTools::generateFlatNormalsInto(): position count not divisible by 3", normals)
  else if normals.length ≠ positions.length then
    (some ("MeshTools::generateFlatNormalsInto(): bad output size, expected "
        ++ toString positions.length ++ " but got " ++ toString normals.length), normals)
  else (none, flatNormals sqrt positions)

/-- Modelled from the spec: `generateFlatNormals(positions)` of `GenerateNormals.cpp`,
`generateFlatNormalsInto` on a callee-allocated output of `positions.length` slots; a
failure produces the diagnostic and no output. -/
def generateFlatNormals [Field α] (sqrt : α → α) (positions : List (Vector3 α)) :
    Except String (List (Vector3 α)) :=
  match generateFlatNormalsInto sqrt positions (List.replicate positions.length Vector3.zero) with
  | (some message, _) => .error message
  | (none, normals) => .ok normals

/-- Modelled from the spec: adding a face normal to the accumulator of vertex `i`. -/
def accumulate [Add α] (normals : List (Vector3 α)) (i : Nat) (n : Vector3 α) :
    List (Vector3 α) :=
  normals.modify (fun a => Vector3.add a n) i

/-- Modelled from the spec: the accumulation pass of the smooth normals, over the index
triples in order. What an index beyond the positions does is left open by the
specification; here it reads the zero vector and accumulates nowhere. -/
def accumulateFaceNormals [Field α] (positions : List (Vector3 α)) :
    List Nat → List (Vector3 α) → List (Vector3 α)
  | i0 :: i1 :: i2 :: rest, normals =>
    let n := faceNormal (positions.getD i0 Vector3.zero) (positions.getD i1 Vector3.zero)
      (positions.getD i2 Vector3.zero)
    accumulateFaceNormals positions rest (accumulate (accumulate (accumulate normals i0 n) i1 n) i2 n)
  | _, normals => normals

/-- Modelled from the spec: `generateSmoothNormalsInto(indices, positions, normalsOut)` of
`GenerateNormals.cpp`. The result is the diagnostic, if any, and the output buffer after
the call. -/
def generateSmoothNormalsInto [Field α] (sqrt : α → α) (indices : List Nat)
    (positions normals : List (Vector3 α)) : Option String × List (Vector3 α) :=
  if indices.length % 3 ≠ 0 then
    (some "MeshTools::generateSmoothNormalsInto(): index count not divisible by 3", normals)
  else if normals.length ≠ positions.length then
    (some ("MeshTools::generateSmoothNormalsInto(): bad output size, expected "
        ++ toString positions.length ++ " but got " ++ toString normals.length), normals)
  else
    (none, (accumulateFaceNormals positions indices
      (List.replicate positions.length Vector3.zero)).map (Vector3.normalized sqrt))

/-- Modelled from the spec: `generateSmoothNormals(indices, positions)` of
`GenerateNormals.cpp`, `generateSmoothNormalsInto` on a freshly allocated output. -/
def generateSmoothNormals [Field α] (sqrt : α → α) (indices : List Nat)
    (positions : List (Vector3 α)) : Except String (List (Vector3 α)) :=
  match generateSmoothNormalsInto sqrt indices positions
      (List.replicate positions.length Vector3.zero) with
  | (some message, _) => .error message
  | (none, normals) => .ok normals

/-- A square root on the rationals that is exact on squares of rationals, for evaluating
the generators on concrete meshes. -/
def sqrtRat (q : ℚ) : ℚ := (Nat.sqrt q.num.natAbs : ℚ) / (Nat.sqrt q.den : ℚ)

/-- The positions `TwoTriangles` of `GenerateNormalsTest.cpp`. -/
def TwoTriangles : List (Vector3 ℚ) :=
  [⟨-1, 0, 0⟩, ⟨0, -1, 0⟩, ⟨0, 1, 0⟩, ⟨0, -1, 0⟩, ⟨0, 1, 0⟩, ⟨1, 0, 0⟩]

/-- A degenerate triangle: the three corners are one point. -/
def DegenerateTriangle : List (Vector3 ℚ) :=
  [⟨1, 2, 3⟩, ⟨1, 2, 3⟩, ⟨1, 2, 3⟩]

end Magnum.MeshTools

namespace Magnum.Vk.Implementation

/-- C1: on a buffer `code` of `code.length` words, `isSpirv` returns true exactly when
there are at least 5 words and word 0 is the SPIR-V magic number; so it returns false on
every buffer shorter than 5 words and on every buffer whose first word is not the magic
number. -/
theorem isSpirv_iff (code : List Nat) :
    (isSpirv code code.length = true ↔ 5 ≤ code.length ∧ code[0]? = some 0x07230203) ∧
    (code.length < 5 → isSpirv code code.length = false) ∧
    (code[0]? ≠ some 0x07230203 → isSpirv code code.length = false) := by
  cases code with
  | nil => simp [isSpirv]
  | cons w rest =>
    simp only [isSpirv, word, SpvMagicNumber, List.getD_cons_zero, List.length_cons,
      List.getElem?_cons_zero, Option.some.injEq, ne_eq]
    refine ⟨?_, ?_, ?_⟩
    · simp
    · intro h; simp; omega
    · intro h; simp [h]

/-- C2: when the patcher returns false on a module of at least 5 words, the module after
the call is the module before the call. -/
theorem returned_false_leaves_module (fuel : Nat) (buf out : List Nat) (h5 : 5 ≤ buf.length)
    (h : spirvPatchSwiftShaderConflictingMultiEntrypointLocations fuel buf = .returned false out) :
    out = buf := by
  unfold spirvPatchSwiftShaderConflictingMultiEntrypointLocations at h
  rw [if_neg (by omega)] at h
  unfold patchEntryPoints at h
  simp only at h
  split at h
  · cases h
  · injection h with _ h; exact h.symm
  · split at h
    · split at h
      · injection h with _ h; exact h.symm
      · split at h
        · cases h
        · split at h
          · cases h
          · injection h with _ h; exact h.symm
          · split at h
            · cases h
            · injection h with h _; cases h
    · injection h with _ h; exact h.symm

end Magnum.Vk.Implementation

namespace Magnum.Vk.Implementation

/-- The module of only a header has no entry point: the patcher returns false on it. -/
theorem returned_false_leaves_module_witness :
    spirvPatchSwiftShaderConflictingMultiEntrypointLocations 2 headerOnly
        = .returned false headerOnly ∧ headerOnly = headerOnly :=
  ⟨by decide, returned_false_leaves_module 2 headerOnly headerOnly (by decide) (by decide)⟩

/-- On a word whose word count is 0 and whose opcode is not the searched one, the scanner
does not advance: no amount of fuel lets it return. -/
theorem findLoop_zeroWordCount (op data fuel : Nat) (hop : op ≠ 0) :
    findLoop zeroWordCountModule op data fuel 5 = none := by
  induction fuel with
  | zero => rfl
  | succ n ih =>
    have h : findLoop zeroWordCountModule op data (n + 1) 5
        = findLoop zeroWordCountModule op data n 5 := by
      simp [findLoop, zeroWordCountModule, word]
      intro h; exact absurd h.symm hop
    rw [h, ih]

/-- C7: the patcher does not terminate on every buffer of at least 5 words. On the 6
words `zeroWordCountModule`, whose only instruction header has word count 0, an iteration
of `find` leaves the remaining view as long as it was, and the call never returns: it runs
out of fuel for every amount of fuel. -/
theorem zeroWordCount_never_returns (fuel : Nat) :
    spirvPatchSwiftShaderConflictingMultiEntrypointLocations fuel zeroWordCountModule
      = .outOfFuel := by
  cases fuel with
  | zero => rfl
  | succ n =>
    have hlen : ¬ zeroWordCountModule.length < 5 := by decide
    unfold spirvPatchSwiftShaderConflictingMultiEntrypointLocations
    rw [if_neg hlen]
    simp only [entryPointLoop, find, findLoop_zeroWordCount SpvOpEntryPoint 5 n (by decide)]

end Magnum.Vk.Implementation

namespace Magnum.MeshTools

variable {α : Type}

/-- Adding to a zero accumulator gives the added vector. -/
theorem Vector3.zero_add [Field α] (n : Vector3 α) : Vector3.add Vector3.zero n = n := by
  cases n; simp [Vector3.add, Vector3.zero]

/-- Accumulating at the index just after `done` changes the slot there. -/
theorem accumulate_append [Field α] (done rest : List (Vector3 α)) (a n : Vector3 α) :
    accumulate (done ++ a :: rest) done.length n = done ++ Vector3.add a n :: rest := by
  induction done with
  | nil => simp [accumulate]
  | cons d ds ih =>
    simp only [accumulate] at ih ⊢
    simp only [List.cons_append, List.length_cons, List.modify_succ_cons, ih]

/-- With the identity indices each triangle accumulates into its own three zero slots:
after normalization these are its flat normals. -/
theorem accumulateFaceNormals_range [Field α] (sqrt : α → α) (k : Nat) :
    ∀ (tris pre done : List (Vector3 α)), tris.length = 3 * k → pre.length = done.length →
      (accumulateFaceNormals (pre ++ tris) (List.range' pre.length tris.length)
        (done ++ List.replicate tris.length Vector3.zero)).map (Vector3.normalized sqrt)
        = done.map (Vector3.normalized sqrt) ++ flatNormals sqrt tris := by
  induction k with
  | zero =>
    intro tris pre done ht _
    have : tris = [] := List.length_eq_zero.mp (by omega)
    subst this
    simp [accumulateFaceNormals, flatNormals]
  | succ k ih =>
    intro tris pre done ht hp
    match tris, ht with
    | p0 :: p1 :: p2 :: rest, ht =>
      have hr : rest.length = 3 * k := by simp at ht; omega
      have h0 : (pre ++ p0 :: p1 :: p2 :: rest).getD pre.length Vector3.zero = p0 := by
        rw [List.getD_append_right _ _ _ _ (le_refl _)]; simp
      have h1 : (pre ++ p0 :: p1 :: p2 :: rest).getD (pre.length + 1) Vector3.zero = p1 := by
        rw [List.getD_append_right _ _ _ _ (by omega)]; simp
      have h2 : (pre ++ p0 :: p1 :: p2 :: rest).getD (pre.length + 2) Vector3.zero = p2 := by
        rw [List.getD_append_right _ _ _ _ (by omega)]; simp
      have hrange : List.range' pre.length (p0 :: p1 :: p2 :: rest).length
          = pre.length :: (pre.length + 1) :: (pre.length + 2)
              :: List.range' (pre.length + 3) rest.length := by
        simp [List.range'_succ]
      have hrep : List.replicate (p0 :: p1 :: p2 :: rest).length (Vector3.zero : Vector3 α)
          = Vector3.zero :: Vector3.zero :: Vector3.zero
              :: List.replicate rest.length Vector3.zero := by
        simp [List.replicate_succ]
      rw [hrange, hrep, accumulateFaceNormals, h0, h1, h2]
      have a0 := accumulate_append done
        (Vector3.zero :: Vector3.zero :: List.replicate rest.length Vector3.zero)
        Vector3.zero (faceNormal p0 p1 p2)
      have a1 := accumulate_append (done ++ [faceNormal p0 p1 p2])
        (Vector3.zero :: List.replicate rest.length Vector3.zero)
        Vector3.zero (faceNormal p0 p1 p2)
      have a2 := accumulate_append (done ++ [faceNormal p0 p1 p2, faceNormal p0 p1 p2])
        (List.replicate rest.length Vector3.zero)
        Vector3.zero (faceNormal p0 p1 p2)
      simp only [Vector3.zero_add, List.length_append, List.length_cons, List.length_nil,
        List.append_assoc, List.cons_append, List.nil_append] at a0 a1 a2
      simp only [hp]
      rw [a0, a1, a2]
      have := ih rest (pre ++ [p0, p1, p2])
        (done ++ [faceNormal p0 p1 p2, faceNormal p0 p1 p2, faceNormal p0 p1 p2]) hr
        (by simp [hp])
      simp only [List.length_append, List.length_cons, List.length_nil,
        List.append_assoc, List.cons_append, List.nil_append, hp] at this
      rw [this]
      simp [flatNormals]

/-- C8: on a position list whose length is not divisible by 3, `generateFlatNormals` fails
with the diagnostic "MeshTools::generateFlatNormalsInto(): position count not divisible
by 3" and produces no normals. -/
theorem generateFlatNormals_wrongCount [Field α] (sqrt : α → α) (positions : List (Vector3 α))
    (h : positions.length % 3 ≠ 0) :
    generateFlatNormals sqrt positions
      = .error "MeshTools::generateFlatNormalsInto(): position count not divisible by 3" := by
  simp [generateFlatNormals, generateFlatNormalsInto, h]

/-- The test `flatWrongCount`: 7 positions. -/
theorem generateFlatNormals_wrongCount_witness :
    generateFlatNormals sqrtRat (List.replicate 7 Vector3.zero)
      = .error "MeshTools::generateFlatNormalsInto(): position count not divisible by 3" :=
  generateFlatNormals_wrongCount sqrtRat (List.replicate 7 Vector3.zero) (by decide)

/-- C9: on X positions, X divisible by 3, and an output buffer of Y ≠ X slots,
`generateFlatNormalsInto` fails with the diagnostic "MeshTools::generateFlatNormalsInto():
bad output size, expected X but got Y" and leaves the output buffer as it was. -/
theorem generateFlatNormalsInto_wrongSize [Field α] (sqrt : α → α)
    (positions normals : List (Vector3 α)) (h3 : positions.length % 3 = 0)
    (hne : normals.length ≠ positions.length) :
    generateFlatNormalsInto sqrt positions normals
      = (some ("MeshTools::generateFlatNormalsInto(): bad output size, expected "
          ++ toString positions.length ++ " but got " ++ toString normals.length), normals) := by
  simp [generateFlatNormalsInto, h3, hne]

/-- The test `flatIntoWrongSize`: 6 positions and an output buffer of 7 slots. -/
theorem generateFlatNormalsInto_wrongSize_witness :
    generateFlatNormalsInto sqrtRat (List.replicate 6 Vector3.zero) (List.replicate 7 Vector3.zero)
      = (some "MeshTools::generateFlatNormalsInto(): bad output size, expected 6 but got 7",
          List.replicate 7 Vector3.zero) :=
  (generateFlatNormalsInto_wrongSize sqrtRat (List.replicate 6 Vector3.zero)
    (List.replicate 7 Vector3.zero) (by decide) (by decide)).trans
    (congrArg (fun m => (some m, List.replicate 7 Vector3.zero)) (by decide))

/-- C10: on a position list of length divisible by 3, the smooth normals for the identity
index list `[0, 1, ..., n-1]` are exactly the flat normals of the positions. -/
theorem generateSmoothNormals_identity_eq_flat [Field α] (sqrt : α → α)
    (positions : List (Vector3 α)) (h : positions.length % 3 = 0) :
    generateSmoothNormals sqrt (List.range positions.length) positions
      = generateFlatNormals sqrt positions := by
  obtain ⟨k, hk⟩ : ∃ k, positions.length = 3 * k := ⟨positions.length / 3, by omega⟩
  have key := accumulateFaceNormals_range sqrt k positions [] [] hk rfl
  simp only [List.nil_append, List.length_nil, List.map_nil] at key
  simp only [generateSmoothNormals, generateSmoothNormalsInto, generateFlatNormals,
    generateFlatNormalsInto, List.length_range, List.length_replicate, h, ne_eq,
    not_true_eq_false, if_false, List.range_eq_range', List.length_range', key]

/-- The test `smoothTwoTriangles`: the indices 0..5 on `TwoTriangles` give +Z three times
and then -Z three times, the flat normals of the test `flat`. -/
theorem generateSmoothNormals_identity_eq_flat_witness :
    generateSmoothNormals sqrtRat (List.range TwoTriangles.length) TwoTriangles
      = .ok [Vector3.zAxis, Vector3.zAxis, Vector3.zAxis,
          Vector3.neg Vector3.zAxis, Vector3.neg Vector3.zAxis, Vector3.neg Vector3.zAxis] :=
  (generateSmoothNormals_identity_eq_flat sqrtRat TwoTriangles (by decide)).trans (by
    simp [generateFlatNormals, generateFlatNormalsInto, TwoTriangles, flatNormals, faceNormal,
      Vector3.normalized, Vector3.cross, Vector3.sub, Vector3.dot, Vector3.zAxis, Vector3.neg,
      sqrtRat]
    norm_num)

end Magnum.MeshTools

namespace Magnum.Vk.Implementation

/-- The entry-point loop is the scanning loop with the entry-point body. -/
theorem entryPointLoop_eq_scanLoop (buf : List Nat) (fuel : Nat) (s : EntryPoints) :
    entryPointLoop buf fuel s
      = Scan.map (fun r => { data := r.1, vertexEntryPoint := r.2.1, fragmentEntryPoint := r.2.2 })
          (scanLoop buf SpvOpEntryPoint (entryPointBody buf) fuel s.data
            (s.vertexEntryPoint, s.fragmentEntryPoint)) := by
  induction fuel generalizing s with
  | zero => rfl
  | succ n ih =>
    rw [entryPointLoop, scanLoop]
    rcases hfind : find buf SpvOpEntryPoint s.data n with _ | ⟨_ | ep, data'⟩
    · rfl
    · rfl
    · simp only [entryPointBody]
      by_cases hsize : ep.size < 4
      · simp [hsize, Scan.map]
      · simp only [hsize, if_false, ih]

/-- The decoration loop is the scanning loop with the decoration body; it has no
`return false`. -/
theorem decorationLoop_eq_scanLoop (buf : List Nat) (vIds fIds : ArrayView) (fuel : Nat)
    (s : Interfaces) :
    Scan.ofOption (decorationLoop buf vIds fIds fuel s)
      = Scan.map (fun r => r.2.withData r.1)
          (scanLoop buf SpvOpDecorate (decorationBody buf vIds fIds) fuel s.data s.slots) := by
  induction fuel generalizing s with
  | zero => rfl
  | succ n ih =>
    rw [decorationLoop, scanLoop]
    rcases hfind : find buf SpvOpDecorate s.data n with _ | ⟨_ | dec, data'⟩
    · rfl
    · rfl
    · simp only [decorationBody]
      by_cases hskip : dec.size < 4 ∨ word buf (dec.data + 2) ≠ SpvDecorationLocation
      · simp only [hskip, if_true, ih]; rfl
      · simp only [hskip, if_false, ih]; rfl

/-- The variable loop is the scanning loop with the variable body. -/
theorem variableLoop_eq_scanLoop (buf : List Nat) (vIds fIds : ArrayView) (fuel : Nat)
    (s : Interfaces) :
    variableLoop buf vIds fIds fuel s
      = Scan.map (fun r => r.2.withData r.1)
          (scanLoop buf SpvOpVariable (variableBody buf vIds fIds) fuel s.data s.slots) := by
  induction fuel generalizing s with
  | zero => rfl
  | succ n ih =>
    rw [variableLoop, scanLoop]
    rcases hfind : find buf SpvOpVariable s.data n with _ | ⟨_ | var, data'⟩
    · rfl
    · rfl
    · simp only [variableBody]
      by_cases hsize : var.size < 4
      · simp [hsize, Scan.map]
      · simp only [hsize, if_false, ih]; rfl

end Magnum.Vk.Implementation

namespace Magnum.Vk.Implementation

/-- Reading a word of the first part of a module. -/
theorem word_append_left (pre post : List Nat) (i : Nat) (h : i < pre.length) :
    word (pre ++ post) i = word pre i := by
  unfold word
  exact List.getD_append _ _ _ _ h

/-- Reading a word of the second part of a module. -/
theorem word_append_right (pre post : List Nat) (i : Nat) :
    word (pre ++ post) (pre.length + i) = word post i := by
  unfold word
  rw [List.getD_append_right _ _ _ _ (Nat.le_add_right _ _), Nat.add_sub_cancel_left]

/-- The scanner at the end of the module returns `nullptr` and leaves `data`. -/
theorem findLoop_end (buf : List Nat) (op data fuel pos : Nat) (h : buf.length ≤ pos) :
    findLoop buf op data (fuel + 1) pos = some (none, data) := by
  simp [findLoop, h]

/-- The scanner on an encoded instruction with the searched opcode returns it. -/
theorem findLoop_hit (pre ins post : List Nat) (op data fuel : Nat) (hi : IsInstruction ins)
    (hop : word ins 0 &&& 0xffff = op) :
    findLoop (pre ++ (ins ++ post)) op data (fuel + 1) pre.length
      = some (some ⟨pre.length, ins.length⟩, pre.length + ins.length) := by
  have hw : word (pre ++ (ins ++ post)) pre.length = word ins 0 := by
    have := word_append_right pre (ins ++ post) 0
    rw [Nat.add_zero] at this
    rw [this, word_append_left _ _ _ (by have := hi.1; omega)]
  have h1 : ¬ (pre ++ (ins ++ post)).length ≤ pre.length := by
    have := hi.1
    rw [List.length_append, List.length_append]; omega
  have h2 : ¬ (pre ++ (ins ++ post)).length - pre.length < ins.length := by
    rw [List.length_append, List.length_append]; omega
  simp only [findLoop, h1, if_false, hw, hi.2, h2, hop, if_true]

/-- The scanner on an encoded instruction with another opcode moves past it. -/
theorem findLoop_skip (pre ins post : List Nat) (op data fuel : Nat) (hi : IsInstruction ins)
    (hop : word ins 0 &&& 0xffff ≠ op) :
    findLoop (pre ++ (ins ++ post)) op data (fuel + 1) pre.length
      = findLoop (pre ++ (ins ++ post)) op data fuel (pre.length + ins.length) := by
  have hw : word (pre ++ (ins ++ post)) pre.length = word ins 0 := by
    have := word_append_right pre (ins ++ post) 0
    rw [Nat.add_zero] at this
    rw [this, word_append_left _ _ _ (by have := hi.1; omega)]
  have h1 : ¬ (pre ++ (ins ++ post)).length ≤ pre.length := by
    have := hi.1
    rw [List.length_append, List.length_append]; omega
  have h2 : ¬ (pre ++ (ins ++ post)).length - pre.length < ins.length := by
    rw [List.length_append, List.length_append]; omega
  simp only [findLoop, h1, if_false, hw, hi.2, h2, hop]

/-- On a module that ends with a list of encoded instructions, a scanning loop whose
scanner stands at the first of them does what `scanStream` does on the list. -/
theorem scanLoop_stream_aux {σ : Type} (op : Nat) (body : σ → ArrayView → Option σ) :
    ∀ (instrs : List (List Nat)) (pre : List Nat) (data fuelOuter fuelInner : Nat) (s : σ),
      (∀ ins ∈ instrs, IsInstruction ins) → instrs.length < fuelInner →
      instrs.length < fuelOuter →
      (match findLoop (pre ++ instrs.flatten) op data fuelInner pre.length with
        | none => Scan.outOfFuel
        | some (none, d) => Scan.next (d, s)
        | some (some ins, d) =>
          match body s ins with
          | none => Scan.returnFalse
          | some s' => scanLoop (pre ++ instrs.flatten) op body fuelOuter d s')
        = scanStream op body data pre.length instrs s := by
  intro instrs
  induction instrs with
  | nil =>
    intro pre data fuelOuter fuelInner s _ hin _
    obtain ⟨k, rfl⟩ : ∃ k, fuelInner = k + 1 := ⟨fuelInner - 1, by omega⟩
    rw [findLoop_end _ _ _ _ _ (by simp)]
    rfl
  | cons ins rest ih =>
    intro pre data fuelOuter fuelInner s hwf hin hout
    obtain ⟨k, rfl⟩ : ∃ k, fuelInner = k + 1 := ⟨fuelInner - 1, by omega⟩
    obtain ⟨m, rfl⟩ : ∃ m, fuelOuter = m + 1 := ⟨fuelOuter - 1, by omega⟩
    have hi : IsInstruction ins := hwf ins (List.mem_cons_self _ _)
    have hrest : ∀ i ∈ rest, IsInstruction i := fun i hi => hwf i (List.mem_cons_of_mem _ hi)
    simp only [List.length_cons] at hin hout
    have hbuf : pre ++ (ins :: rest).flatten = (pre ++ ins) ++ rest.flatten := by simp
    have hlen : (pre ++ ins).length = pre.length + ins.length := by simp
    rw [List.flatten_cons, scanStream]
    by_cases hop : word ins 0 &&& 0xffff = op
    · rw [findLoop_hit pre ins rest.flatten op data k hi hop, if_pos hop]
      simp only
      cases hb : body s ⟨pre.length, ins.length⟩ with
      | none => rfl
      | some s' =>
        simp only
        rw [scanLoop, find]
        have := ih (pre ++ ins) (pre.length + ins.length) m m s' hrest (by omega) (by omega)
        rw [hlen] at this
        simp only [List.append_assoc] at this
        exact this
    · rw [findLoop_skip pre ins rest.flatten op data k hi hop, if_neg hop]
      have := ih (pre ++ ins) data (m + 1) k s hrest (by omega) (by omega)
      rw [hlen] at this
      simp only [List.append_assoc] at this
      exact this

/-- A scanning loop that starts at the first of the encoded instructions a module ends
with, given more fuel than there are instructions, is `scanStream` on them. -/
theorem scanLoop_stream {σ : Type} (op : Nat) (body : σ → ArrayView → Option σ)
    (instrs : List (List Nat)) (pre : List Nat) (fuel : Nat) (s : σ)
    (hwf : ∀ ins ∈ instrs, IsInstruction ins) (hfuel : instrs.length + 2 ≤ fuel) :
    scanLoop (pre ++ instrs.flatten) op body fuel pre.length s
      = scanStream op body pre.length pre.length instrs s := by
  obtain ⟨k, rfl⟩ : ∃ k, fuel = k + 1 := ⟨fuel - 1, by omega⟩
  rw [scanLoop, find]
  exact scanLoop_stream_aux op body instrs pre pre.length k k s hwf (by omega) (by omega)

end Magnum.Vk.Implementation

namespace Magnum.Vk.Implementation

/-- A list of encoded instructions has at least as many words as instructions. -/
theorem length_le_length_flatten (instrs : List (List Nat))
    (hwf : ∀ ins ∈ instrs, IsInstruction ins) : instrs.length ≤ instrs.flatten.length := by
  induction instrs with
  | nil => simp
  | cons ins rest ih =>
    have h1 := (hwf ins (List.mem_cons_self _ _)).1
    have h2 := ih (fun i hi => hwf i (List.mem_cons_of_mem _ hi))
    simp only [List.length_cons, List.flatten_cons, List.length_append]
    omega

/-- The entry-point loop on a stream without an entry point of execution model `Vertex`
executes `return false` or ends with no vertex entry point selected. -/
theorem scanStream_entryPoint_noVertex (buf : List Nat) :
    ∀ (instrs : List (List Nat)) (pre : List Nat) (data : Nat) (f : Option ArrayView),
      pre ++ instrs.flatten = buf →
      (∀ ins ∈ instrs, ¬ IsEntryPointOf SpvExecutionModelVertex ins) →
      scanStream SpvOpEntryPoint (entryPointBody buf) data pre.length instrs (none, f)
          = Scan.returnFalse ∨
        ∃ d f', scanStream SpvOpEntryPoint (entryPointBody buf) data pre.length instrs (none, f)
          = Scan.next (d, (none, f')) := by
  intro instrs
  induction instrs with
  | nil => intro pre data f _ _; exact Or.inr ⟨data, f, rfl⟩
  | cons ins rest ih =>
    intro pre data f hbuf hno
    have hrest : ∀ i ∈ rest, ¬ IsEntryPointOf SpvExecutionModelVertex i :=
      fun i hi => hno i (List.mem_cons_of_mem _ hi)
    have hbuf' : (pre ++ ins) ++ rest.flatten = buf := by rw [← hbuf]; simp
    have hlen : (pre ++ ins).length = pre.length + ins.length := by simp
    rw [scanStream]
    by_cases hop : word ins 0 &&& 0xffff = SpvOpEntryPoint
    · rw [if_pos hop]
      by_cases hsize : ins.length < 4
      · left; simp [entryPointBody, hsize]
      · have hw : word buf (pre.length + 1) = word ins 1 := by
          rw [← hbuf, List.flatten_cons, word_append_right,
            word_append_left _ _ _ (by omega)]
        have hv : word ins 1 ≠ SpvExecutionModelVertex :=
          fun h => hno ins (List.mem_cons_self _ _) ⟨hop, by omega, h⟩
        simp only [entryPointBody, hsize, if_false, hw, hv]
        have := ih (pre ++ ins) (pre.length + ins.length)
          (if word ins 1 = SpvExecutionModelFragment then some ⟨pre.length, ins.length⟩ else f)
          hbuf' hrest
        rw [hlen] at this
        exact this
    · rw [if_neg hop]
      have := ih (pre ++ ins) data f hbuf' hrest
      rw [hlen] at this
      exact this

/-- The entry-point loop on a stream without an entry point of execution model `Fragment`
executes `return false` or ends with no fragment entry point selected. -/
theorem scanStream_entryPoint_noFragment (buf : List Nat) :
    ∀ (instrs : List (List Nat)) (pre : List Nat) (data : Nat) (v : Option ArrayView),
      pre ++ instrs.flatten = buf →
      (∀ ins ∈ instrs, ¬ IsEntryPointOf SpvExecutionModelFragment ins) →
      scanStream SpvOpEntryPoint (entryPointBody buf) data pre.length instrs (v, none)
          = Scan.returnFalse ∨
        ∃ d v', scanStream SpvOpEntryPoint (entryPointBody buf) data pre.length instrs (v, none)
          = Scan.next (d, (v', none)) := by
  intro instrs
  induction instrs with
  | nil => intro pre data v _ _; exact Or.inr ⟨data, v, rfl⟩
  | cons ins rest ih =>
    intro pre data v hbuf hno
    have hrest : ∀ i ∈ rest, ¬ IsEntryPointOf SpvExecutionModelFragment i :=
      fun i hi => hno i (List.mem_cons_of_mem _ hi)
    have hbuf' : (pre ++ ins) ++ rest.flatten = buf := by rw [← hbuf]; simp
    have hlen : (pre ++ ins).length = pre.length + ins.length := by simp
    rw [scanStream]
    by_cases hop : word ins 0 &&& 0xffff = SpvOpEntryPoint
    · rw [if_pos hop]
      by_cases hsize : ins.length < 4
      · left; simp [entryPointBody, hsize]
      · have hw : word buf (pre.length + 1) = word ins 1 := by
          rw [← hbuf, List.flatten_cons, word_append_right,
            word_append_left _ _ _ (by omega)]
        have hv : word ins 1 ≠ SpvExecutionModelFragment :=
          fun h => hno ins (List.mem_cons_self _ _) ⟨hop, by omega, h⟩
        simp only [entryPointBody, hsize, if_false, hw, hv]
        have := ih (pre ++ ins) (pre.length + ins.length)
          (if word ins 1 = SpvExecutionModelVertex then some ⟨pre.length, ins.length⟩ else v)
          hbuf' hrest
        rw [hlen] at this
        exact this
    · rw [if_neg hop]
      have := ih (pre ++ ins) data v hbuf' hrest
      rw [hlen] at this
      exact this

/-- C3: on a module of 5 header words followed by encoded instructions (each of at least
one word), among which there is no OpEntryPoint of execution model Vertex or none of
execution model Fragment, the patcher, given as much fuel as the module has words, returns
false and leaves the module as it was. -/
theorem returns_false_without_vertex_or_fragment (header : List Nat)
    (instrs : List (List Nat)) (fuel : Nat) (hh : header.length = 5)
    (hwf : ∀ ins ∈ instrs, IsInstruction ins)
    (hno : (∀ ins ∈ instrs, ¬ IsEntryPointOf SpvExecutionModelVertex ins) ∨
      (∀ ins ∈ instrs, ¬ IsEntryPointOf SpvExecutionModelFragment ins))
    (hfuel : (header ++ instrs.flatten).length ≤ fuel) :
    spirvPatchSwiftShaderConflictingMultiEntrypointLocations fuel (header ++ instrs.flatten)
      = .returned false (header ++ instrs.flatten) := by
  have hlen := length_le_length_flatten instrs hwf
  have hfuel' : instrs.length + 2 ≤ fuel := by
    rw [List.length_append] at hfuel; omega
  have hloop := scanLoop_stream SpvOpEntryPoint (entryPointBody (header ++ instrs.flatten))
    instrs header fuel (none, none) hwf hfuel'
  rw [hh] at hloop
  unfold spirvPatchSwiftShaderConflictingMultiEntrypointLocations
  rw [if_neg (by rw [List.length_append]; omega), entryPointLoop_eq_scanLoop]
  simp only
  rw [hloop]
  rcases hno with hno | hno
  · have := scanStream_entryPoint_noVertex (header ++ instrs.flatten) instrs header 5 none
      rfl hno
    rw [hh] at this
    rcases this with h | ⟨d, f', h⟩
    · rw [h]; rfl
    · rw [h]; rfl
  · have := scanStream_entryPoint_noFragment (header ++ instrs.flatten) instrs header 5 none
      rfl hno
    rw [hh] at this
    rcases this with h | ⟨d, v', h⟩
    · rw [h]; rfl
    · rw [h]
      cases v' <;> rfl

end Magnum.Vk.Implementation

namespace Magnum.Vk.Implementation

/-- A module with a fragment entry point and no vertex entry point. -/
theorem returns_false_without_vertex_or_fragment_witness :
    spirvPatchSwiftShaderConflictingMultiEntrypointLocations 19
        (headerOnly ++ fragmentOnlyInstructions.flatten)
      = .returned false (headerOnly ++ fragmentOnlyInstructions.flatten) :=
  returns_false_without_vertex_or_fragment headerOnly fragmentOnlyInstructions 19 (by decide)
    (by decide) (Or.inl (by decide)) (by decide)

end Magnum.Vk.Implementation

namespace Magnum.Vk.Implementation

/-- The word count of an encoded instruction. -/
theorem wordCount_instruction (op : Nat) (operands : List Nat) (hop : op < 2 ^ 16) :
    word (instruction op operands) 0 >>> 16 = (instruction op operands).length := by
  simp only [instruction, word, List.getD_cons_zero, List.length_cons,
    Nat.shiftRight_eq_div_pow]
  rw [Nat.add_comm, Nat.add_mul_div_right _ _ (by norm_num), Nat.div_eq_of_lt hop]
  omega

/-- The opcode of an encoded instruction. -/
theorem opcode_instruction (op : Nat) (operands : List Nat) (hop : op < 2 ^ 16) :
    word (instruction op operands) 0 &&& 0xffff = op := by
  simp only [instruction, word, List.getD_cons_zero]
  have h := Nat.and_pow_two_sub_one_eq_mod ((operands.length + 1) * 2 ^ 16 + op) 16
  norm_num at h ⊢
  rw [h, Nat.add_comm, Nat.add_mul_mod_self_right]
  exact Nat.mod_eq_of_lt (by norm_num at hop; exact hop)

/-- An encoded instruction is an instruction. -/
theorem isInstruction_instruction (op : Nat) (operands : List Nat) (hop : op < 2 ^ 16) :
    IsInstruction (instruction op operands) :=
  ⟨by simp [instruction], wordCount_instruction op operands hop⟩

/-- Word `i` of a view. -/
theorem getD_viewWords (buf : List Nat) (view : ArrayView) (i : Nat) (hi : i < view.size) :
    (viewWords buf view).getD i 0 = word buf (view.data + i) := by
  simp only [viewWords, word, List.getD_eq_getElem?_getD, List.getElem?_take, hi, if_true,
    List.getElem?_drop]

/-- The words of a view that covers a known part of the module. -/
theorem viewWords_append (pre ws post : List Nat) :
    viewWords (pre ++ (ws ++ post)) ⟨pre.length, ws.length⟩ = ws := by
  simp [viewWords]

end Magnum.Vk.Implementation

namespace Magnum.Vk.Implementation

/-- Word `k` of an instruction that is a known part of the module. -/
theorem word_instr (pre ins post : List Nat) (k : Nat) (hk : k < ins.length) :
    word (pre ++ (ins ++ post)) (pre.length + k) = word ins k := by
  rw [word_append_right, word_append_left _ _ _ hk]

/-- The slot loop applies the update to the slot of the first matching ID. -/
theorem updateInterface_hit (buf : List Nat) (ids : ArrayView) (id : Nat)
    (update : EntryPointInterface → EntryPointInterface) (k : Nat)
    (hk : word buf (ids.data + k) = id) :
    ∀ (n i : Nat) (interface : List EntryPointInterface), i ≤ k → k < i + n →
      (∀ j, i ≤ j → j < k → word buf (ids.data + j) ≠ id) →
      updateInterface buf ids id update n i interface = interface.modify update k := by
  intro n
  induction n with
  | zero => intro i _ h1 h2 _; omega
  | succ n ih =>
    intro i interface h1 h2 hfirst
    rw [updateInterface]
    by_cases hik : i = k
    · subst hik; rw [if_pos hk.symm]
    · have hne := hfirst i (le_refl _) (by omega)
      rw [if_neg (fun h => hne h.symm)]
      exact ih (i + 1) interface (by omega) (by omega)
        (fun j hj1 hj2 => hfirst j (by omega) hj2)

/-- The slot loop changes nothing when no ID matches. -/
theorem updateInterface_miss (buf : List Nat) (ids : ArrayView) (id : Nat)
    (update : EntryPointInterface → EntryPointInterface) :
    ∀ (n i : Nat) (interface : List EntryPointInterface),
      (∀ j, i ≤ j → j < i + n → word buf (ids.data + j) ≠ id) →
      updateInterface buf ids id update n i interface = interface := by
  intro n
  induction n with
  | zero => intro i interface _; rfl
  | succ n ih =>
    intro i interface hno
    rw [updateInterface, if_neg (fun h => hno i (le_refl _) (by omega) h.symm)]
    exact ih (i + 1) interface (fun j hj1 hj2 => hno j (by omega) (by omega))

/-- The slot loop leaves the slots or updates the slot of a matching ID. -/
theorem updateInterface_cases (buf : List Nat) (ids : ArrayView) (id : Nat)
    (update : EntryPointInterface → EntryPointInterface) :
    ∀ (n i : Nat) (interface : List EntryPointInterface),
      updateInterface buf ids id update n i interface = interface ∨
      ∃ k, i ≤ k ∧ k < i + n ∧ word buf (ids.data + k) = id ∧
        updateInterface buf ids id update n i interface = interface.modify update k := by
  intro n
  induction n with
  | zero => intro i interface; exact Or.inl rfl
  | succ n ih =>
    intro i interface
    rw [updateInterface]
    by_cases h : id = word buf (ids.data + i)
    · rw [if_pos h]; exact Or.inr ⟨i, le_refl _, by omega, h.symm, rfl⟩
    · rw [if_neg h]
      rcases ih (i + 1) interface with h' | ⟨k, h1, h2, h3, h4⟩
      · exact Or.inl h'
      · exact Or.inr ⟨k, by omega, by omega, h3, h4⟩

/-- The name loop skips the words with a nonzero top byte and stops at the first word
whose top byte is zero: the IDs are what follows it. -/
theorem entryPointIdsLoop_name (buf : List Nat) (entryPoint : ArrayView) (last : Nat)
    (hlast : last >>> 24 = 0) :
    ∀ (body : List Nat) (n i : Nat), (∀ w ∈ body, w >>> 24 ≠ 0) → body.length < n →
      (∀ j, j < body.length → word buf (entryPoint.data + (i + j)) = body.getD j 0) →
      word buf (entryPoint.data + (i + body.length)) = last →
      entryPointIdsLoop buf entryPoint n i
        = ⟨entryPoint.data + (i + body.length + 1), entryPoint.size - (i + body.length + 1)⟩ := by
  intro body
  induction body with
  | nil =>
    intro n i _ hn _ hl
    obtain ⟨m, rfl⟩ : ∃ m, n = m + 1 := ⟨n - 1, by simp at hn; omega⟩
    simp only [List.length_nil, Nat.add_zero] at hl ⊢
    rw [entryPointIdsLoop, hl, if_pos hlast]
  | cons w ws ih =>
    intro n i hbody hn hread hl
    obtain ⟨m, rfl⟩ : ∃ m, n = m + 1 := ⟨n - 1, by simp at hn; omega⟩
    have h0 := hread 0 (by simp)
    simp only [Nat.add_zero, List.getD_cons_zero] at h0
    rw [entryPointIdsLoop, h0, if_neg (hbody w (List.mem_cons_self _ _))]
    have := ih m (i + 1) (fun x hx => hbody x (List.mem_cons_of_mem _ hx))
      (by simp at hn; omega)
      (fun j hj => by
        have := hread (j + 1) (by simp; omega)
        simp only [List.getD_cons_succ] at this
        rw [← this]; congr 2; omega)
      (by rw [← hl]; congr 2; simp; omega)
    rw [this]
    congr 1
    · simp; omega
    · simp; omega

end Magnum.Vk.Implementation

namespace Magnum.Vk.Implementation

/-- The length of an encoded entry point. -/
theorem length_entryPoint (model id : Nat) (name ids : List Nat) :
    (entryPoint model id name ids).length = name.length + ids.length + 3 := by
  simp [entryPoint, instruction]

/-- The interface IDs of an encoded entry point with a null-terminated name. -/
theorem entryPointIds_entryPoint (pre post body ids : List Nat) (model id last : Nat)
    (hbody : ∀ w ∈ body, w >>> 24 ≠ 0) (hlast : last >>> 24 = 0) :
    entryPointIds (pre ++ (entryPoint model id (body ++ [last]) ids ++ post))
        ⟨pre.length, (entryPoint model id (body ++ [last]) ids).length⟩
      = ⟨pre.length + (body.length + 4), ids.length⟩ := by
  have hlen := length_entryPoint model id (body ++ [last]) ids
  simp only [List.length_append, List.length_singleton] at hlen
  have hw : ∀ j, j < body.length + 1 →
      word (pre ++ (entryPoint model id (body ++ [last]) ids ++ post)) (pre.length + (3 + j))
        = (body ++ [last]).getD j 0 := by
    intro j hj
    rw [word_instr _ _ _ _ (by omega)]
    simp only [entryPoint, instruction, word]
    rw [show 3 + j = j + 1 + 1 + 1 by omega]
    simp only [List.getD_cons_succ]
    exact List.getD_append _ _ _ _ (by simp; omega)
  have := entryPointIdsLoop_name
    (pre ++ (entryPoint model id (body ++ [last]) ids ++ post))
    ⟨pre.length, (entryPoint model id (body ++ [last]) ids).length⟩ last hlast body
    ((entryPoint model id (body ++ [last]) ids).length - 3) 3 hbody (by omega)
    (fun j hj => by
      rw [hw j (by omega)]
      exact List.getD_append _ _ _ _ hj)
    (by
      rw [hw body.length (by omega), List.getD_append_right _ _ _ _ (le_refl _)]
      simp)
  rw [entryPointIds, this]
  congr 1
  · simp only; omega
  · simp only [hlen]; omega

/-- The interface IDs of an encoded entry point, read through the view on them. -/
theorem word_entryPoint_ids (pre post name ids : List Nat) (model id : Nat) (j : Nat)
    (hj : j < ids.length) :
    word (pre ++ (entryPoint model id name ids ++ post)) (pre.length + (name.length + 3) + j)
      = ids.getD j 0 := by
  rw [Nat.add_assoc, word_instr _ _ _ _ (by rw [length_entryPoint]; omega)]
  simp only [entryPoint, instruction, word]
  rw [show name.length + 3 + j = (name.length + j) + 1 + 1 + 1 by omega]
  simp only [List.getD_cons_succ]
  rw [List.getD_append_right _ _ _ _ (by omega)]
  congr 1; omega

end Magnum.Vk.Implementation

namespace Magnum.Vk.Implementation

/-- A loop body that reads the module at the instruction it is given can read the words
of the instruction instead. -/
theorem scanStream_eq_scanWords {σ : Type} (buf : List Nat) (op : Nat)
    (body : σ → ArrayView → Option σ) (bodyWords : σ → ArrayView → List Nat → Option σ)
    (hbody : ∀ (s : σ) (pre ins post : List Nat), buf = pre ++ (ins ++ post) →
      body s ⟨pre.length, ins.length⟩ = bodyWords s ⟨pre.length, ins.length⟩ ins) :
    ∀ (instrs : List (List Nat)) (pre : List Nat) (data : Nat) (s : σ),
      pre ++ instrs.flatten = buf →
      scanStream op body data pre.length instrs s
        = scanWords op bodyWords data pre.length instrs s := by
  intro instrs
  induction instrs with
  | nil => intro pre data s _; rfl
  | cons ins rest ih =>
    intro pre data s hbuf
    have hbuf' : (pre ++ ins) ++ rest.flatten = buf := by rw [← hbuf]; simp
    have hlen : (pre ++ ins).length = pre.length + ins.length := by simp
    have ih1 := fun d s' => ih (pre ++ ins) d s' hbuf'
    rw [hlen] at ih1
    rw [scanStream, scanWords, hbody s pre ins rest.flatten (by rw [← hbuf]; simp)]
    by_cases hop : word ins 0 &&& 0xffff = op
    · rw [if_pos hop, if_pos hop]
      cases bodyWords s ⟨pre.length, ins.length⟩ ins with
      | none => rfl
      | some s' => exact ih1 _ s'
    · rw [if_neg hop, if_neg hop]
      exact ih1 data s

/-- The entry-point body reads the instruction it is given. -/
theorem entryPointBody_eq_words (buf : List Nat) (s : Option ArrayView × Option ArrayView)
    (pre ins post : List Nat) (hbuf : buf = pre ++ (ins ++ post)) :
    entryPointBody buf s ⟨pre.length, ins.length⟩
      = entryPointWords s ⟨pre.length, ins.length⟩ ins := by
  unfold entryPointBody entryPointWords
  by_cases h : ins.length < 4
  · simp only [h, if_true]
  · simp only [h, if_false, hbuf, word_instr pre ins post 1 (by omega)]

/-- The decoration body reads the instruction it is given. -/
theorem decorationBody_eq_words (buf : List Nat) (vIds fIds : ArrayView) (s : Slots)
    (pre ins post : List Nat) (hbuf : buf = pre ++ (ins ++ post)) :
    decorationBody buf vIds fIds s ⟨pre.length, ins.length⟩
      = decorationWords buf vIds fIds s ⟨pre.length, ins.length⟩ ins := by
  unfold decorationBody decorationWords
  by_cases h : ins.length < 4
  · simp only [h, true_or, if_true]
  · have h1 : word buf (pre.length + 1) = word ins 1 := by
      rw [hbuf, word_instr pre ins post 1 (by omega)]
    have h2 : word buf (pre.length + 2) = word ins 2 := by
      rw [hbuf, word_instr pre ins post 2 (by omega)]
    have h3 : word buf (pre.length + 3) = word ins 3 := by
      rw [hbuf, word_instr pre ins post 3 (by omega)]
    simp only [h1, h2, h3]

/-- The variable body reads the instruction it is given. -/
theorem variableBody_eq_words (buf : List Nat) (vIds fIds : ArrayView) (s : Slots)
    (pre ins post : List Nat) (hbuf : buf = pre ++ (ins ++ post)) :
    variableBody buf vIds fIds s ⟨pre.length, ins.length⟩
      = variableWords buf vIds fIds s ⟨pre.length, ins.length⟩ ins := by
  unfold variableBody variableWords
  by_cases h : ins.length < 4
  · simp only [h, if_true]
  · have h2 : word buf (pre.length + 2) = word ins 2 := by
      rw [hbuf, word_instr pre ins post 2 (by omega)]
    have h3 : word buf (pre.length + 3) = word ins 3 := by
      rw [hbuf, word_instr pre ins post 3 (by omega)]
    simp only [h2, h3]

end Magnum.Vk.Implementation

namespace Magnum.Vk.Implementation

/-- The entry-point loop on a module that ends with a list of encoded instructions, the
scanner at the first of them. -/
theorem entryPointLoop_stream (pre : List Nat) (instrs : List (List Nat)) (fuel : Nat)
    (v f : Option ArrayView) (hwf : ∀ ins ∈ instrs, IsInstruction ins)
    (hfuel : instrs.length + 2 ≤ fuel) :
    entryPointLoop (pre ++ instrs.flatten) fuel
        { data := pre.length, vertexEntryPoint := v, fragmentEntryPoint := f }
      = Scan.map (fun r => { data := r.1, vertexEntryPoint := r.2.1, fragmentEntryPoint := r.2.2 })
          (scanWords SpvOpEntryPoint entryPointWords pre.length pre.length instrs (v, f)) := by
  rw [entryPointLoop_eq_scanLoop, scanLoop_stream _ _ _ _ _ _ hwf hfuel,
    scanStream_eq_scanWords (pre ++ instrs.flatten) _ _ entryPointWords
      (entryPointBody_eq_words _) instrs pre _ _ rfl]

/-- The decoration loop on a module that ends with a list of encoded instructions, the
scanner at the first of them. -/
theorem decorationLoop_stream (pre : List Nat) (instrs : List (List Nat)) (fuel : Nat)
    (vIds fIds : ArrayView) (s : Slots) (hwf : ∀ ins ∈ instrs, IsInstruction ins)
    (hfuel : instrs.length + 2 ≤ fuel) :
    Scan.ofOption
        (decorationLoop (pre ++ instrs.flatten) vIds fIds fuel (s.withData pre.length))
      = Scan.map (fun r => r.2.withData r.1)
          (scanWords SpvOpDecorate (decorationWords (pre ++ instrs.flatten) vIds fIds)
            pre.length pre.length instrs s) := by
  rw [decorationLoop_eq_scanLoop]
  simp only [Slots.withData, Interfaces.slots]
  rw [scanLoop_stream _ _ _ _ _ _ hwf hfuel,
    scanStream_eq_scanWords (pre ++ instrs.flatten) _ _
      (decorationWords (pre ++ instrs.flatten) vIds fIds)
      (decorationBody_eq_words _ vIds fIds) instrs pre _ _ rfl]

/-- The variable loop on a module that ends with a list of encoded instructions, the
scanner at the first of them. -/
theorem variableLoop_stream (pre : List Nat) (instrs : List (List Nat)) (fuel : Nat)
    (vIds fIds : ArrayView) (s : Slots) (hwf : ∀ ins ∈ instrs, IsInstruction ins)
    (hfuel : instrs.length + 2 ≤ fuel) :
    variableLoop (pre ++ instrs.flatten) vIds fIds fuel (s.withData pre.length)
      = Scan.map (fun r => r.2.withData r.1)
          (scanWords SpvOpVariable (variableWords (pre ++ instrs.flatten) vIds fIds)
            pre.length pre.length instrs s) := by
  rw [variableLoop_eq_scanLoop]
  simp only [Slots.withData, Interfaces.slots]
  rw [scanLoop_stream _ _ _ _ _ _ hwf hfuel,
    scanStream_eq_scanWords (pre ++ instrs.flatten) _ _
      (variableWords (pre ++ instrs.flatten) vIds fIds)
      (variableBody_eq_words _ vIds fIds) instrs pre _ _ rfl]

/-- The length of an encoded instruction. -/
theorem length_instruction (op : Nat) (operands : List Nat) :
    (instruction op operands).length = operands.length + 1 := rfl

/-- An operand of an encoded instruction. -/
theorem word_instruction_succ (op : Nat) (operands : List Nat) (k : Nat) :
    word (instruction op operands) (k + 1) = operands.getD k 0 := rfl

section Conflict

variable (header vBody fBody : List Nat) (vId fId vLast fLast a b c ta tb tc : Nat)

/-- The instructions of the conflict test are encoded instructions. -/
theorem isInstruction_conflictInstructions (vName fName : List Nat) (la lb lc : Nat) :
    ∀ ins ∈ conflictInstructions vId fId vName fName a b c ta tb tc la lb lc,
      IsInstruction ins := by
  intro ins hins
  simp only [conflictInstructions, List.mem_cons, List.mem_singleton, List.not_mem_nil,
    or_false, entryPoint] at hins
  rcases hins with h | h | h | h | h | h | h | h <;> subst h <;>
    exact isInstruction_instruction _ _ (by decide)

/-- The entry-point loop on the module of the conflict test selects its two entry points
and leaves the scanner after the second. -/
theorem conflict_entryPoints (vName fName : List Nat) (la lb lc fuel : Nat)
    (hfuel : 10 ≤ fuel) :
    entryPointLoop
        (header ++ (conflictInstructions vId fId vName fName a b c ta tb tc la lb lc).flatten)
        fuel { data := header.length, vertexEntryPoint := none, fragmentEntryPoint := none }
      = .next
        { data := header.length + (vName.length + 4) + (fName.length + 5)
          vertexEntryPoint := some ⟨header.length, vName.length + 4⟩
          fragmentEntryPoint := some ⟨header.length + (vName.length + 4), fName.length + 5⟩ } := by
  rw [entryPointLoop_stream _ _ _ _ _
    (isInstruction_conflictInstructions vId fId a b c ta tb tc vName fName la lb lc)
    (by simp [conflictInstructions]; omega)]
  have ho15 := fun ops => opcode_instruction SpvOpEntryPoint ops (by decide)
  have ho71 := fun ops => opcode_instruction SpvOpDecorate ops (by decide)
  have ho59 := fun ops => opcode_instruction SpvOpVariable ops (by decide)
  have hne1 : SpvOpDecorate ≠ SpvOpEntryPoint := by decide
  have hne2 : SpvOpVariable ≠ SpvOpEntryPoint := by decide
  have hne3 : SpvExecutionModelVertex ≠ SpvExecutionModelFragment := by decide
  have hne4 : SpvExecutionModelFragment ≠ SpvExecutionModelVertex := by decide
  have hl1 : ¬ vName.length + 1 + 1 + 1 + 1 < 4 := by omega
  have hl2 : ¬ fName.length + 1 + 1 + 1 + 1 + 1 < 4 := by omega
  simp only [conflictInstructions, scanWords, entryPoint, ho15, ho71, ho59, hne1, hne2,
    if_true, if_false, entryPointWords, length_instruction, word_instruction_succ,
    List.getD_cons_zero, List.length_cons, List.length_append, List.length_nil, hl1, hl2,
    hne3, hne4, Scan.map]

/-- The decoration loop on the instructions of the conflict test after the entry points:
each decoration sets the location of the slot of its ID. -/
theorem conflict_decorations (buf : List Nat) (p q q' la lb lc : Nat)
    (hab : a ≠ b) (hac : a ≠ c) (hbc : b ≠ c)
    (ha : word buf q = a) (hb : word buf q' = b) (hc : word buf (q' + 1) = c) :
    scanWords SpvOpDecorate (decorationWords buf ⟨q, 1⟩ ⟨q', 2⟩) p p
        [instruction SpvOpDecorate [a, SpvDecorationLocation, la],
         instruction SpvOpDecorate [b, SpvDecorationLocation, lb],
         instruction SpvOpDecorate [c, SpvDecorationLocation, lc],
         instruction SpvOpVariable [ta, a, SpvStorageClassOutput],
         instruction SpvOpVariable [tb, b, SpvStorageClassOutput],
         instruction SpvOpVariable [tc, c, SpvStorageClassInput]]
        ⟨0, [{}], [{}, {}]⟩
      = .next (p + 12,
          ⟨max (max la lb) lc, [{ location := some (p + 3) }],
            [{ location := some (p + 7) }, { location := some (p + 11) }]⟩) := by
  have ho71 := fun ops => opcode_instruction SpvOpDecorate ops (by decide)
  have ho59 := fun ops => opcode_instruction SpvOpVariable ops (by decide)
  have hne1 : SpvOpVariable ≠ SpvOpDecorate := by decide
  simp only [scanWords, ho71, ho59, hne1, if_true, if_false, decorationWords,
    length_instruction, word_instruction_succ, List.getD_cons_zero, List.getD_cons_succ,
    List.length_cons, List.length_nil]
  simp [updateInterface, ha, hb, hc, hab, hac, hbc, hab.symm, hac.symm, hbc.symm]

/-- The variable loop on the variables of the conflict test: each variable sets the
storage class of the slot of its ID. -/
theorem conflict_variables (buf : List Nat) (p q q' maxLocation : Nat)
    (la lb lc : Option Nat) (hab : a ≠ b) (hac : a ≠ c) (hbc : b ≠ c)
    (ha : word buf q = a) (hb : word buf q' = b) (hc : word buf (q' + 1) = c) :
    scanWords SpvOpVariable (variableWords buf ⟨q, 1⟩ ⟨q', 2⟩) p p
        [instruction SpvOpVariable [ta, a, SpvStorageClassOutput],
         instruction SpvOpVariable [tb, b, SpvStorageClassOutput],
         instruction SpvOpVariable [tc, c, SpvStorageClassInput]]
        ⟨maxLocation, [{ location := la }], [{ location := lb }, { location := lc }]⟩
      = .next (p + 12,
          ⟨maxLocation, [{ location := la, storageClass := SpvStorageClassOutput }],
            [{ location := lb, storageClass := SpvStorageClassOutput },
             { location := lc, storageClass := SpvStorageClassInput }]⟩) := by
  have ho59 := fun ops => opcode_instruction SpvOpVariable ops (by decide)
  simp only [scanWords, ho59, if_true, variableWords,
    length_instruction, word_instruction_succ, List.getD_cons_zero, List.getD_cons_succ,
    List.length_cons, List.length_nil]
  simp [updateInterface, ha, hb, hc, hab, hac, hbc, hab.symm, hac.symm, hbc.symm]

/-- Conflict resolution on the slots of the conflict test: the vertex output and the
fragment input get the location after the maximum. -/
theorem conflict_resolution (buf : List Nat) (la lb lc loc maxLocation : Nat)
    (ha : word buf la = loc) (hb : word buf lb = loc) (hc : word buf lc = loc) :
    vertexOutputLoop
        [{ location := some lb, storageClass := SpvStorageClassOutput },
         { location := some lc, storageClass := SpvStorageClassInput }]
        [{ location := some la, storageClass := SpvStorageClassOutput }] (buf, maxLocation)
      = some ((buf.set lc ((maxLocation + 1) % 2 ^ 32)).set la ((maxLocation + 1) % 2 ^ 32),
          (maxLocation + 1) % 2 ^ 32) := by
  have hne : SpvStorageClassOutput ≠ SpvStorageClassInput := by decide
  simp [vertexOutputLoop, fragmentOutputLoop, fragmentInputLoop, ha, hb, hc, hne]

end Conflict

end Magnum.Vk.Implementation

namespace Magnum.Vk.Implementation

/-- A loop that ended with a state did not run out of fuel. -/
theorem eq_some_of_ofOption_eq_next {α : Type} (x : Option α) (r : α)
    (h : Scan.ofOption x = Scan.next r) : x = some r := by
  cases x with
  | none => cases h
  | some y => injection h with h; rw [h]

/-- C4: on the module of a 5-word header, a vertex entry point with the interface `[a]`, a
fragment entry point with the interface `[b, c]` (both with null-terminated names),
`OpDecorate a Location L`, `OpDecorate b Location L`, `OpDecorate c Location L` and the
variables `a` (Output), `b` (Output), `c` (Input), with `a`, `b`, `c` distinct and
`L < 2^32 - 1`, the patcher returns true and leaves the module with the locations of `a`
and `c` equal to `L + 1`, the location of `b` equal to `L` and every other word as it
was. -/
theorem patches_conflict (header vBody fBody : List Nat)
    (vId fId vLast fLast a b c ta tb tc L fuel : Nat) (hh : header.length = 5)
    (hvBody : ∀ w ∈ vBody, w >>> 24 ≠ 0) (hvLast : vLast >>> 24 = 0)
    (hfBody : ∀ w ∈ fBody, w >>> 24 ≠ 0) (hfLast : fLast >>> 24 = 0)
    (hab : a ≠ b) (hac : a ≠ c) (hbc : b ≠ c) (hL : L < 2 ^ 32 - 1) (hfuel : 10 ≤ fuel) :
    spirvPatchSwiftShaderConflictingMultiEntrypointLocations fuel
        (header ++ (conflictInstructions vId fId (vBody ++ [vLast]) (fBody ++ [fLast])
          a b c ta tb tc L L L).flatten)
      = .returned true
        (header ++ (conflictInstructions vId fId (vBody ++ [vLast]) (fBody ++ [fLast])
          a b c ta tb tc (L + 1) L (L + 1)).flatten) := by
  have hE := conflict_entryPoints header vId fId a b c ta tb tc (vBody ++ [vLast])
    (fBody ++ [fLast]) L L L fuel hfuel
  -- the module, split at each of the places that are read
  obtain ⟨buf, hbuf⟩ : ∃ buf, buf = header ++ (conflictInstructions vId fId (vBody ++ [vLast])
    (fBody ++ [fLast]) a b c ta tb tc L L L).flatten := ⟨_, rfl⟩
  obtain ⟨E1, hE1⟩ : ∃ E, E = entryPoint SpvExecutionModelVertex vId (vBody ++ [vLast]) [a] :=
    ⟨_, rfl⟩
  obtain ⟨E2, hE2⟩ : ∃ E, E = entryPoint SpvExecutionModelFragment fId (fBody ++ [fLast]) [b, c] :=
    ⟨_, rfl⟩
  have hlE1 : E1.length = vBody.length + 5 := by
    rw [hE1, length_entryPoint]; simp
  have hlE2 : E2.length = fBody.length + 6 := by
    rw [hE2, length_entryPoint]; simp
  obtain ⟨tail, htail⟩ : ∃ t, t = [instruction SpvOpDecorate [a, SpvDecorationLocation, L],
         instruction SpvOpDecorate [b, SpvDecorationLocation, L],
         instruction SpvOpDecorate [c, SpvDecorationLocation, L],
         instruction SpvOpVariable [ta, a, SpvStorageClassOutput],
         instruction SpvOpVariable [tb, b, SpvStorageClassOutput],
         instruction SpvOpVariable [tc, c, SpvStorageClassInput]] := ⟨_, rfl⟩
  have hb1 : buf = header ++ (E1 ++ (E2 ++ tail.flatten)) := by
    rw [hbuf, hE1, hE2, htail]; simp [conflictInstructions]
  have hb2 : buf = (header ++ E1) ++ (E2 ++ tail.flatten) := by
    rw [hb1]; simp
  have hb3 : buf = (header ++ E1 ++ E2) ++ tail.flatten := by
    rw [hb1]; simp
  rw [← hbuf] at hE ⊢
  obtain ⟨n, hn⟩ : ∃ n, n = vBody.length := ⟨_, rfl⟩
  obtain ⟨m, hm⟩ : ∃ m, m = fBody.length := ⟨_, rfl⟩
  rw [← hn] at hlE1
  rw [← hm] at hlE2
  have hlpre : (header ++ E1 ++ E2).length = n + m + 16 := by
    simp only [List.length_append, hh, hlE1, hlE2]; omega
  -- the entry points
  have hE' : entryPointLoop buf fuel
      { data := 5, vertexEntryPoint := none, fragmentEntryPoint := none }
      = .next { data := n + m + 16, vertexEntryPoint := some ⟨5, n + 5⟩,
                fragmentEntryPoint := some ⟨n + 10, m + 6⟩ } := by
    rw [hh] at hE
    rw [hE]
    simp only [List.length_append, List.length_singleton, ← hn, ← hm, Scan.next.injEq,
      EntryPoints.mk.injEq, Option.some.injEq, ArrayView.mk.injEq, and_true, true_and]
    omega
  -- the interface IDs
  have hv : entryPointIds buf ⟨5, n + 5⟩ = ⟨n + 9, 1⟩ := by
    have := entryPointIds_entryPoint header (E2 ++ tail.flatten) vBody [a]
      SpvExecutionModelVertex vId vLast hvBody hvLast
    rw [← hE1, ← hb1, hlE1, hh, ← hn] at this
    rw [this]
    simp only [ArrayView.mk.injEq, List.length_singleton, List.length_cons, List.length_nil,
      and_true, true_and]
    omega
  have hf : entryPointIds buf ⟨n + 10, m + 6⟩ = ⟨n + m + 14, 2⟩ := by
    have := entryPointIds_entryPoint (header ++ E1) tail.flatten fBody [b, c]
      SpvExecutionModelFragment fId fLast hfBody hfLast
    rw [← hE2, ← hb2, hlE2, List.length_append, hlE1, hh, ← hm] at this
    rw [show n + 10 = 5 + (n + 5) by omega, this]
    simp only [ArrayView.mk.injEq, List.length_singleton, List.length_cons, List.length_nil,
      and_true, true_and]
    omega
  have hra : word buf (n + 9) = a := by
    have := word_entryPoint_ids header (E2 ++ tail.flatten) (vBody ++ [vLast]) [a]
      SpvExecutionModelVertex vId 0 (by simp)
    rw [← hE1, ← hb1, hh] at this
    simp only [List.length_append, List.length_singleton, ← hn, List.getD_cons_zero] at this
    rw [← this]; congr 1; omega
  have hrb : word buf (n + m + 14) = b := by
    have := word_entryPoint_ids (header ++ E1) tail.flatten (fBody ++ [fLast]) [b, c]
      SpvExecutionModelFragment fId 0 (by simp)
    rw [← hE2, ← hb2, List.length_append, hlE1, hh] at this
    simp only [List.length_append, List.length_singleton, ← hm, List.getD_cons_zero] at this
    rw [← this]; congr 1; omega
  have hrc : word buf (n + m + 14 + 1) = c := by
    have := word_entryPoint_ids (header ++ E1) tail.flatten (fBody ++ [fLast]) [b, c]
      SpvExecutionModelFragment fId 1 (by simp)
    rw [← hE2, ← hb2, List.length_append, hlE1, hh] at this
    simp only [List.length_append, List.length_singleton, ← hm, List.getD_cons_succ,
      List.getD_cons_zero] at this
    rw [← this]; congr 1; omega
  -- the decorations
  have hD : decorationLoop buf ⟨n + 9, 1⟩ ⟨n + m + 14, 2⟩ fuel
      { data := n + m + 16, maxLocation := 0, vertexInterface := [{}],
        fragmentInterface := [{}, {}] }
      = some { data := n + m + 28, maxLocation := L,
               vertexInterface := [{ location := some (n + m + 19) }],
               fragmentInterface := [{ location := some (n + m + 23) },
                                     { location := some (n + m + 27) }] } := by
    have hwf : ∀ ins ∈ tail, IsInstruction ins := by
      intro ins hins
      rw [htail] at hins
      simp only [List.mem_cons, List.mem_singleton, List.not_mem_nil, or_false] at hins
      rcases hins with h | h | h | h | h | h <;> subst h <;>
        exact isInstruction_instruction _ _ (by decide)
    have key := decorationLoop_stream (header ++ E1 ++ E2) tail fuel ⟨n + 9, 1⟩
      ⟨n + m + 14, 2⟩ ⟨0, [{}], [{}, {}]⟩ hwf (by rw [htail]; simp; omega)
    rw [← hb3, hlpre, htail, conflict_decorations a b c ta tb tc buf (n + m + 16) (n + 9)
      (n + m + 14) L L L hab hac hbc hra hrb hrc] at key
    simp only [Scan.map] at key
    have := eq_some_of_ofOption_eq_next _ _ key
    simp only [Slots.withData] at this
    rw [this]
    simp only [max_self]
  -- the variables
  obtain ⟨pre4, hpre4⟩ : ∃ p, p = header ++ E1 ++ E2
      ++ [instruction SpvOpDecorate [a, SpvDecorationLocation, L],
          instruction SpvOpDecorate [b, SpvDecorationLocation, L],
          instruction SpvOpDecorate [c, SpvDecorationLocation, L]].flatten := ⟨_, rfl⟩
  have hb4 : buf = pre4
      ++ [instruction SpvOpVariable [ta, a, SpvStorageClassOutput],
          instruction SpvOpVariable [tb, b, SpvStorageClassOutput],
          instruction SpvOpVariable [tc, c, SpvStorageClassInput]].flatten := by
    rw [hb3, htail, hpre4]; simp
  have hlpre4 : pre4.length = n + m + 28 := by
    rw [hpre4, List.length_append, hlpre]; simp [length_instruction]
  have hV : variableLoop buf ⟨n + 9, 1⟩ ⟨n + m + 14, 2⟩ fuel
      { data := n + m + 28, maxLocation := L,
        vertexInterface := [{ location := some (n + m + 19) }],
        fragmentInterface := [{ location := some (n + m + 23) },
                              { location := some (n + m + 27) }] }
      = .next { data := n + m + 40, maxLocation := L,
                vertexInterface :=
                  [{ location := some (n + m + 19), storageClass := SpvStorageClassOutput }],
                fragmentInterface :=
                  [{ location := some (n + m + 23), storageClass := SpvStorageClassOutput },
                   { location := some (n + m + 27), storageClass := SpvStorageClassInput }] } := by
    have hwf : ∀ ins ∈ [instruction SpvOpVariable [ta, a, SpvStorageClassOutput],
          instruction SpvOpVariable [tb, b, SpvStorageClassOutput],
          instruction SpvOpVariable [tc, c, SpvStorageClassInput]], IsInstruction ins := by
      intro ins hins
      simp only [List.mem_cons, List.mem_singleton, List.not_mem_nil, or_false] at hins
      rcases hins with h | h | h <;> subst h <;>
        exact isInstruction_instruction _ _ (by decide)
    have key := variableLoop_stream pre4 _ fuel ⟨n + 9, 1⟩ ⟨n + m + 14, 2⟩
      ⟨L, [{ location := some (n + m + 19) }],
        [{ location := some (n + m + 23) }, { location := some (n + m + 27) }]⟩ hwf
      (by simp; omega)
    rw [← hb4, hlpre4, conflict_variables a b c ta tb tc buf (n + m + 28) (n + 9)
      (n + m + 14) L _ _ _ hab hac hbc hra hrb hrc] at key
    simp only [Slots.withData, Scan.map] at key
    exact key
  -- conflict resolution
  obtain ⟨pre3, hpre3⟩ : ∃ p, p = header ++ E1 ++ E2 := ⟨_, rfl⟩
  rw [← hpre3] at hlpre hb3
  obtain ⟨vars, hvars⟩ : ∃ v, v = [instruction SpvOpVariable [ta, a, SpvStorageClassOutput],
      instruction SpvOpVariable [tb, b, SpvStorageClassOutput],
      instruction SpvOpVariable [tc, c, SpvStorageClassInput]].flatten := ⟨_, rfl⟩
  obtain ⟨w, hw⟩ : ∃ w, w = (3 + 1) * 2 ^ 16 + SpvOpDecorate := ⟨_, rfl⟩
  have hdec : ∀ t l, instruction SpvOpDecorate [t, SpvDecorationLocation, l]
      = [w, t, SpvDecorationLocation, l] := by
    intro t l; rw [hw]; rfl
  have hb5 : ∀ la lb lc, pre3 ++ [instruction SpvOpDecorate [a, SpvDecorationLocation, la],
         instruction SpvOpDecorate [b, SpvDecorationLocation, lb],
         instruction SpvOpDecorate [c, SpvDecorationLocation, lc],
         instruction SpvOpVariable [ta, a, SpvStorageClassOutput],
         instruction SpvOpVariable [tb, b, SpvStorageClassOutput],
         instruction SpvOpVariable [tc, c, SpvStorageClassInput]].flatten
      = pre3 ++ (w :: a :: SpvDecorationLocation :: la ::
          w :: b :: SpvDecorationLocation :: lb ::
          w :: c :: SpvDecorationLocation :: lc :: vars) := by
    intro la lb lc
    rw [hvars]
    simp only [hdec, List.flatten_cons, List.flatten_nil, List.cons_append, List.nil_append,
      List.append_nil]
  have hb6 : buf = pre3 ++ (w :: a :: SpvDecorationLocation :: L ::
          w :: b :: SpvDecorationLocation :: L ::
          w :: c :: SpvDecorationLocation :: L :: vars) := by
    rw [hb3, htail, hb5]
  have hl1 : word buf (n + m + 19) = L := by
    rw [hb6, show n + m + 19 = pre3.length + 3 by omega, word_append_right]; rfl
  have hl2 : word buf (n + m + 23) = L := by
    rw [hb6, show n + m + 23 = pre3.length + 7 by omega, word_append_right]; rfl
  have hl3 : word buf (n + m + 27) = L := by
    rw [hb6, show n + m + 27 = pre3.length + 11 by omega, word_append_right]; rfl
  have hR := conflict_resolution buf (n + m + 19) (n + m + 23) (n + m + 27) L L hl1 hl2 hl3
  rw [Nat.mod_eq_of_lt (by omega : L + 1 < 2 ^ 32)] at hR
  have hout : (buf.set (n + m + 27) (L + 1)).set (n + m + 19) (L + 1)
      = header ++ (conflictInstructions vId fId (vBody ++ [vLast]) (fBody ++ [fLast])
          a b c ta tb tc (L + 1) L (L + 1)).flatten := by
    have htarget : header ++ (conflictInstructions vId fId (vBody ++ [vLast]) (fBody ++ [fLast])
          a b c ta tb tc (L + 1) L (L + 1)).flatten
        = pre3 ++ [instruction SpvOpDecorate [a, SpvDecorationLocation, L + 1],
         instruction SpvOpDecorate [b, SpvDecorationLocation, L],
         instruction SpvOpDecorate [c, SpvDecorationLocation, L + 1],
         instruction SpvOpVariable [ta, a, SpvStorageClassOutput],
         instruction SpvOpVariable [tb, b, SpvStorageClassOutput],
         instruction SpvOpVariable [tc, c, SpvStorageClassInput]].flatten := by
      rw [hpre3, hE1, hE2]; simp [conflictInstructions]
    rw [htarget, hb5, hb6, show n + m + 27 = pre3.length + 11 by omega,
      show n + m + 19 = pre3.length + 3 by omega]
    simp [List.set_append_right]
  have hlen : ¬ buf.length < 5 := by
    rw [hb1, List.length_append, hh]; omega
  unfold spirvPatchSwiftShaderConflictingMultiEntrypointLocations
  rw [if_neg hlen, hE']
  simp only
  unfold patchEntryPoints
  simp only [hv, hf, List.replicate, OfNat.ofNat_ne_zero, or_self, if_false, hD, hV, hR, hout]
  rw [if_neg (by decide)]

/-- The conflict test with entry points named `main`, the IDs 10, 11, 12 and the
location 7: the locations of 10 and 12 become 8. -/
theorem patches_conflict_witness :
    spirvPatchSwiftShaderConflictingMultiEntrypointLocations 10
        (headerOnly ++ (conflictInstructions 1 2 ([0x6e69616d] ++ [0]) ([0x6e69616d] ++ [0])
          10 11 12 90 91 92 7 7 7).flatten)
      = .returned true
        (headerOnly ++ (conflictInstructions 1 2 ([0x6e69616d] ++ [0]) ([0x6e69616d] ++ [0])
          10 11 12 90 91 92 8 7 8).flatten) :=
  patches_conflict headerOnly [0x6e69616d] [0x6e69616d] 1 2 0 0 10 11 12 90 91 92 7 10
    (by decide) (by decide) (by decide) (by decide) (by decide) (by decide) (by decide)
    (by decide) (by decide) (by decide)

end Magnum.Vk.Implementation

namespace Magnum.Vk.Implementation

/-- The instruction boundaries do not go back. -/
theorem boundary_le_succ (buf : List Nat) (k : Nat) : boundary buf k ≤ boundary buf (k + 1) := by
  rw [boundary, nextBoundary]
  split <;> omega

/-- The instruction boundaries are monotone. -/
theorem boundary_mono (buf : List Nat) {i j : Nat} (h : i ≤ j) :
    boundary buf i ≤ boundary buf j := by
  induction j with
  | zero => rw [Nat.le_zero.mp h]
  | succ j ih =>
    rcases Nat.lt_or_ge i (j + 1) with h' | h'
    · exact le_trans (ih (by omega)) (boundary_le_succ buf j)
    · rw [show i = j + 1 by omega]

/-- Every instruction boundary is after the header. -/
theorem five_le_boundary (buf : List Nat) (k : Nat) : 5 ≤ boundary buf k :=
  boundary_mono buf (Nat.zero_le k)

/-- The offset after an instruction is an instruction boundary. -/
theorem boundary_after (buf : List Nat) (p : Nat) (h : IsInstructionAt buf p) :
    ∃ k, boundary buf k = p + wordCountAt buf p := by
  obtain ⟨⟨k, hk⟩, h1, h2⟩ := h
  exact ⟨k + 1, by rw [boundary, hk, nextBoundary, if_pos ⟨h1, h2⟩]⟩

/-- Two instructions do not overlap: an instruction that starts before another ends before
it. -/
theorem instruction_end_le (buf : List Nat) (p q : Nat) (hp : IsInstructionAt buf p)
    (hq : ∃ k, boundary buf k = q) (hpq : p < q) : p + wordCountAt buf p ≤ q := by
  obtain ⟨⟨i, hi⟩, h1, h2⟩ := hp
  obtain ⟨j, hj⟩ := hq
  have hij : i < j := by
    by_contra hle
    have := boundary_mono buf (Nat.le_of_not_lt hle)
    omega
  have := boundary_mono buf (show i + 1 ≤ j from hij)
  rw [boundary, hi, nextBoundary, if_pos ⟨h1, h2⟩, hj] at this
  exact this

/-- What the scanner returns, from an instruction boundary: an instruction of the searched
opcode with its declared size, the scanner left after it; or `nullptr` with the scanner
left where it was or at an instruction boundary. -/
theorem findLoop_sound (buf : List Nat) (op data : Nat) :
    ∀ (fuel pos : Nat) (r : Option ArrayView × Nat), (∃ k, boundary buf k = pos) →
      findLoop buf op data fuel pos = some r →
      (∀ v, r.1 = some v → IsInstructionAt buf v.data ∧ v.size = wordCountAt buf v.data ∧
        opcodeAt buf v.data = op ∧ r.2 = v.data + v.size) ∧
      (r.2 = data ∨ ∃ k, boundary buf k = r.2) := by
  intro fuel
  induction fuel with
  | zero => intro pos r _ h; cases h
  | succ n ih =>
    intro pos r hpos h
    rw [findLoop] at h
    by_cases h1 : buf.length ≤ pos
    · rw [if_pos h1] at h
      injection h with h; subst h
      exact ⟨fun v hv => (by cases hv), Or.inl rfl⟩
    · rw [if_neg h1] at h
      simp only at h
      by_cases h2 : buf.length - pos < word buf pos >>> 16
      · rw [if_pos h2] at h
        injection h with h; subst h
        exact ⟨fun v hv => (by cases hv), Or.inr hpos⟩
      · rw [if_neg h2] at h
        have hins : IsInstructionAt buf pos := ⟨hpos, by omega, by unfold wordCountAt; omega⟩
        by_cases h3 : word buf pos &&& 0xffff = op
        · rw [if_pos h3] at h
          injection h with h; subst h
          refine ⟨fun v hv => ?_, Or.inr (boundary_after buf pos hins)⟩
          injection hv with hv; subst hv
          exact ⟨hins, rfl, h3, rfl⟩
        · rw [if_neg h3] at h
          exact ih _ r (boundary_after buf pos hins) h

end Magnum.Vk.Implementation

namespace Magnum.Vk.Implementation

/-- The calls `find(op)` of a scanning loop that starts at an instruction boundary return
instructions of the opcode `op` with their declared sizes, and the loop ends at an
instruction boundary. -/
theorem found_sound (buf : List Nat) (op : Nat) :
    ∀ (fuel data : Nat), (∃ k, boundary buf k = data) →
      (∀ v ∈ (found buf op fuel data).1, IsInstructionAt buf v.data ∧
        v.size = wordCountAt buf v.data ∧ opcodeAt buf v.data = op) ∧
      (∃ k, boundary buf k = (found buf op fuel data).2) := by
  intro fuel
  induction fuel with
  | zero => intro data hdata; exact ⟨fun v hv => (by cases hv), hdata⟩
  | succ n ih =>
    intro data hdata
    rw [found]
    rcases hfind : find buf op data n with _ | ⟨_ | ins, data'⟩
    · exact ⟨fun v hv => (by cases hv), hdata⟩
    · have := (findLoop_sound buf op data n data _ hdata hfind).2
      refine ⟨fun v hv => (by cases hv), ?_⟩
      rcases this with h | h
      · simp only at h ⊢; rw [h]; exact hdata
      · exact h
    · have hs := findLoop_sound buf op data n data _ hdata hfind
      obtain ⟨h1, h2, h3, h4⟩ := hs.1 ins rfl
      simp only at h4
      have hb : ∃ k, boundary buf k = data' := by
        rw [h4, h2]; exact boundary_after buf _ h1
      have := ih data' hb
      refine ⟨fun v hv => ?_, this.2⟩
      rcases List.mem_cons.mp hv with h | h
      · rw [h]; exact ⟨h1, h2, h3⟩
      · exact this.1 v h

/-- A scanning loop that falls through has run its body on all the views found, and
stands where the scan ends. -/
theorem scanLoop_next {σ : Type} (buf : List Nat) (op : Nat)
    (body : σ → ArrayView → Option σ) :
    ∀ (fuel data : Nat) (s : σ) (d : Nat) (s' : σ),
      scanLoop buf op body fuel data s = .next (d, s') →
      runBody body (found buf op fuel data).1 s = some s' ∧ (found buf op fuel data).2 = d := by
  intro fuel
  induction fuel with
  | zero => intro data s d s' h; cases h
  | succ n ih =>
    intro data s d s' h
    rw [scanLoop] at h
    rw [found]
    rcases hfind : find buf op data n with _ | ⟨_ | ins, data'⟩
    · rw [hfind] at h; cases h
    · rw [hfind] at h
      injection h with h
      injection h with h1 h2
      subst h1; subst h2
      exact ⟨rfl, rfl⟩
    · rw [hfind] at h
      simp only at h ⊢
      rw [runBody]
      cases hb : body s ins with
      | none => rw [hb] at h; cases h
      | some s1 =>
        rw [hb] at h
        exact ih data' s1 d s' h

/-- A scanning loop that executes `return false` does so in its body, on one of the views
found, after having run its body on the views before. -/
theorem scanLoop_returnFalse {σ : Type} (buf : List Nat) (op : Nat)
    (body : σ → ArrayView → Option σ) :
    ∀ (fuel data : Nat) (s : σ),
      scanLoop buf op body fuel data s = .returnFalse →
      ∃ (before : List ArrayView) (v : ArrayView) (after : List ArrayView) (s1 : σ),
        (found buf op fuel data).1 = before ++ v :: after ∧
        runBody body before s = some s1 ∧ body s1 v = none := by
  intro fuel
  induction fuel with
  | zero => intro data s h; cases h
  | succ n ih =>
    intro data s h
    rw [scanLoop] at h
    rw [found]
    rcases hfind : find buf op data n with _ | ⟨_ | ins, data'⟩
    · rw [hfind] at h; cases h
    · rw [hfind] at h; cases h
    · rw [hfind] at h
      simp only at h ⊢
      cases hb : body s ins with
      | none => exact ⟨[], ins, _, s, rfl, rfl, hb⟩
      | some s1 =>
        rw [hb] at h
        obtain ⟨before, v, after, s2, h1, h2, h3⟩ := ih data' s1 h
        refine ⟨ins :: before, v, after, s2, by rw [h1]; rfl, ?_, h3⟩
        rw [runBody, hb]
        exact h2

/-- A body that executes `return false` on a view, whatever the state, makes the run on a
list with that view execute `return false`. -/
theorem runBody_eq_none {σ : Type} (body : σ → ArrayView → Option σ) (v : ArrayView)
    (hv : ∀ s, body s v = none) :
    ∀ (views : List ArrayView) (s : σ), v ∈ views → runBody body views s = none := by
  intro views
  induction views with
  | nil => intro s h; cases h
  | cons w ws ih =>
    intro s h
    rw [runBody]
    cases hb : body s w with
    | none => rfl
    | some s1 =>
      rcases List.mem_cons.mp h with h | h
      · rw [← h, hv] at hb; cases hb
      · exact ih s1 h

/-- A property of the state that the body preserves on each view of a list holds after the
run on the list. -/
theorem runBody_invariant {σ : Type} (body : σ → ArrayView → Option σ) (P : σ → Prop) :
    ∀ (views : List ArrayView) (s s' : σ), P s →
      (∀ v ∈ views, ∀ s1 s2, P s1 → body s1 v = some s2 → P s2) →
      runBody body views s = some s' → P s' := by
  intro views
  induction views with
  | nil => intro s s' hs _ h; injection h with h; rw [← h]; exact hs
  | cons w ws ih =>
    intro s s' hs hbody h
    rw [runBody] at h
    cases hb : body s w with
    | none => rw [hb] at h; cases h
    | some s1 =>
      rw [hb] at h
      exact ih s1 s' (hbody w (List.mem_cons_self _ _) s s1 hs hb)
        (fun v hv => hbody v (List.mem_cons_of_mem _ hv)) h

end Magnum.Vk.Implementation

namespace Magnum.Vk.Implementation

/-- An element of a list after `modify` is an element of the list or the image of one. -/
theorem mem_modify {α : Type} (f : α → α) :
    ∀ (l : List α) (k : Nat) (x : α), x ∈ l.modify f k → x ∈ l ∨ ∃ e ∈ l, x = f e := by
  intro l
  induction l with
  | nil => intro k x h; simp at h
  | cons a as ih =>
    intro k x h
    cases k with
    | zero =>
      rw [List.modify_zero_cons] at h
      rcases List.mem_cons.mp h with h | h
      · exact Or.inr ⟨a, List.mem_cons_self _ _, h⟩
      · exact Or.inl (List.mem_cons_of_mem _ h)
    | succ k =>
      rw [List.modify_succ_cons] at h
      rcases List.mem_cons.mp h with h | h
      · exact Or.inl (by rw [h]; exact List.mem_cons_self _ _)
      · rcases ih k x h with h' | ⟨e, he, hx⟩
        · exact Or.inl (List.mem_cons_of_mem _ h')
        · exact Or.inr ⟨e, List.mem_cons_of_mem _ he, hx⟩

/-- The slot loop of a decoration keeps a property of the location pointers that holds for
the new pointer when the ID is in the view. -/
theorem updateInterface_location (buf : List Nat) (ids : ArrayView) (id loc : Nat)
    (Q : Nat → Prop) (interface : List EntryPointInterface)
    (hQ : InView buf ids id → Q loc)
    (h : ∀ e ∈ interface, ∀ l, e.location = some l → Q l) :
    ∀ e ∈ updateInterface buf ids id (fun e => { e with location := some loc }) ids.size 0
        interface, ∀ l, e.location = some l → Q l := by
  intro e he l hl
  rcases updateInterface_cases buf ids id (fun e => { e with location := some loc }) ids.size 0
    interface with h' | ⟨k, _, hk, hw, h'⟩
  · rw [h'] at he; exact h e he l hl
  · rw [h'] at he
    rcases mem_modify _ _ _ _ he with he' | ⟨e', _, hx⟩
    · exact h e he' l hl
    · rw [hx] at hl
      injection hl with hl
      rw [← hl]
      exact hQ ⟨k, by omega, hw⟩

/-- The slot loop of a variable keeps every property of the location pointers. -/
theorem updateInterface_storageClass (buf : List Nat) (ids : ArrayView) (id sc : Nat)
    (Q : Nat → Prop) (interface : List EntryPointInterface)
    (h : ∀ e ∈ interface, ∀ l, e.location = some l → Q l) :
    ∀ e ∈ updateInterface buf ids id (fun e => { e with storageClass := sc }) ids.size 0
        interface, ∀ l, e.location = some l → Q l := by
  intro e he l hl
  rcases updateInterface_cases buf ids id (fun e => { e with storageClass := sc }) ids.size 0
    interface with h' | ⟨k, _, _, _, h'⟩
  · rw [h'] at he; exact h e he l hl
  · rw [h'] at he
    rcases mem_modify _ _ _ _ he with he' | ⟨e', he', hx⟩
    · exact h e he' l hl
    · rw [hx] at hl
      exact h e' he' l hl

/-- The decoration body, on an `OpDecorate` instruction, keeps the location pointers at
locations of Location decorations of interface IDs. -/
theorem decorationBody_located (buf : List Nat) (vIds fIds : ArrayView) (s s' : Slots)
    (dec : ArrayView) (hdec : IsInstructionAt buf dec.data ∧
      dec.size = wordCountAt buf dec.data ∧ opcodeAt buf dec.data = SpvOpDecorate)
    (hs : s.Located buf vIds fIds) (h : decorationBody buf vIds fIds s dec = some s') :
    s'.Located buf vIds fIds := by
  unfold decorationBody at h
  by_cases hskip : dec.size < 4 ∨ word buf (dec.data + 2) ≠ SpvDecorationLocation
  · rw [if_pos hskip] at h
    injection h with h; rw [← h]; exact hs
  · rw [if_neg hskip] at h
    injection h with h; rw [← h]
    have hloc : IsLocationDecorationAt buf dec.data :=
      ⟨hdec.1, hdec.2.2, by rw [← hdec.2.1]; omega, by
        by_contra hne; exact hskip (Or.inr hne)⟩
    exact ⟨updateInterface_location buf vIds _ _ _ _ (fun hin => ⟨dec.data, hloc, rfl, hin⟩) hs.1,
      updateInterface_location buf fIds _ _ _ _ (fun hin => ⟨dec.data, hloc, rfl, hin⟩) hs.2⟩

/-- The variable body keeps the location pointers. -/
theorem variableBody_located (buf : List Nat) (vIds fIds : ArrayView) (s s' : Slots)
    (var : ArrayView) (hs : s.Located buf vIds fIds)
    (h : variableBody buf vIds fIds s var = some s') : s'.Located buf vIds fIds := by
  unfold variableBody at h
  by_cases hsize : var.size < 4
  · rw [if_pos hsize] at h; cases h
  · rw [if_neg hsize] at h
    injection h with h; rw [← h]
    exact ⟨updateInterface_storageClass buf vIds _ _ _ _ hs.1,
      updateInterface_storageClass buf fIds _ _ _ _ hs.2⟩

end Magnum.Vk.Implementation

namespace Magnum.Vk.Implementation

/-- A write leaves the other words. -/
theorem word_set_ne (buf : List Nat) (l v i : Nat) (h : i ≠ l) :
    word (buf.set l v) i = word buf i := by
  unfold word
  rw [List.getD_eq_getElem?_getD, List.getD_eq_getElem?_getD,
    List.getElem?_set_ne (fun h' => h h'.symm)]

/-- Nothing changes when nothing is done. -/
theorem ChangedOnly.refl (S : Nat → Prop) (buf : List Nat) : ChangedOnly S buf buf :=
  ⟨rfl, fun _ h => absurd rfl h⟩

/-- A write at an offset with the property. -/
theorem ChangedOnly.set (S : Nat → Prop) (buf : List Nat) (l v : Nat) (h : S l) :
    ChangedOnly S buf (buf.set l v) :=
  ⟨List.length_set _ _ _, fun i hi => by
    by_cases hil : i = l
    · rw [hil]; exact h
    · exact absurd (word_set_ne buf l v i hil) hi⟩

/-- Changes after changes. -/
theorem ChangedOnly.trans (S : Nat → Prop) (a b c : List Nat) (h1 : ChangedOnly S a b)
    (h2 : ChangedOnly S b c) : ChangedOnly S a c :=
  ⟨h2.1.trans h1.1, fun i hi => by
    by_cases hb : word b i = word a i
    · exact h2.2 i (by rw [hb]; exact hi)
    · exact h1.2 i hb⟩

/-- Changes at offsets with a property are changes at offsets with a weaker property. -/
theorem ChangedOnly.mono (S T : Nat → Prop) (a b : List Nat) (hST : ∀ i, S i → T i)
    (h : ChangedOnly S a b) : ChangedOnly T a b :=
  ⟨h.1, fun i hi => hST i (h.2 i hi)⟩

/-- The loop over the fragment inputs writes only through location pointers of the slots
it visits. -/
theorem fragmentInputLoop_changedOnly (vertexLocation newLocation : Nat) :
    ∀ (slots : List EntryPointInterface) (buf out : List Nat),
      fragmentInputLoop vertexLocation newLocation slots buf = some out →
      ChangedOnly (fun i => ∃ e ∈ slots, e.location = some i) buf out := by
  intro slots
  induction slots with
  | nil =>
    intro buf out h
    injection h with h; rw [← h]; exact ChangedOnly.refl _ _
  | cons e rest ih =>
    intro buf out h
    have hrest : ∀ o, fragmentInputLoop vertexLocation newLocation rest buf = some o →
        ChangedOnly (fun i => ∃ e' ∈ e :: rest, e'.location = some i) buf o :=
      fun o ho => ChangedOnly.mono _ _ _ _
        (fun i ⟨e', he', hl⟩ => ⟨e', List.mem_cons_of_mem _ he', hl⟩) (ih buf o ho)
    rw [fragmentInputLoop] at h
    by_cases hsc : e.storageClass ≠ SpvStorageClassInput
    · rw [if_pos hsc] at h; exact hrest out h
    · rw [if_neg hsc] at h
      cases hloc : e.location with
      | none => rw [hloc] at h; cases h
      | some l =>
        rw [hloc] at h
        simp only at h
        by_cases heq : word buf l = word buf vertexLocation
        · rw [if_pos heq] at h
          injection h with h; rw [← h]
          exact ChangedOnly.set _ _ _ _ ⟨e, List.mem_cons_self _ _, hloc⟩
        · rw [if_neg heq] at h; exact hrest out h

/-- The loop over the fragment outputs, for one vertex output, writes only through the
location pointer of the vertex output and location pointers of the fragment slots. -/
theorem fragmentOutputLoop_changedOnly (fragmentInterface : List EntryPointInterface)
    (vertexLocation : Nat) :
    ∀ (slots : List EntryPointInterface) (buf out : List Nat) (m m' : Nat),
      fragmentOutputLoop fragmentInterface vertexLocation slots (buf, m) = some (out, m') →
      ChangedOnly (fun i => i = vertexLocation ∨
        ∃ e ∈ fragmentInterface, e.location = some i) buf out := by
  intro slots
  induction slots with
  | nil =>
    intro buf out m m' h
    injection h with h; injection h with h _; rw [← h]; exact ChangedOnly.refl _ _
  | cons e rest ih =>
    intro buf out m m' h
    rw [fragmentOutputLoop] at h
    by_cases hsc : e.storageClass ≠ SpvStorageClassOutput
    · rw [if_pos hsc] at h; exact ih buf out m m' h
    · rw [if_neg hsc] at h
      cases hloc : e.location with
      | none => rw [hloc] at h; exact ih buf out m m' h
      | some l =>
        rw [hloc] at h
        simp only at h
        by_cases heq : word buf vertexLocation = word buf l
        · rw [if_pos heq] at h
          cases hin : fragmentInputLoop vertexLocation ((m + 1) % 2 ^ 32) fragmentInterface buf with
          | none => rw [hin] at h; cases h
          | some buf' =>
            rw [hin] at h
            injection h with h; injection h with h _; rw [← h]
            exact ChangedOnly.trans _ _ _ _
              (ChangedOnly.mono _ _ _ _ (fun i hi => Or.inr hi)
                (fragmentInputLoop_changedOnly _ _ _ _ _ hin))
              (ChangedOnly.set _ _ _ _ (Or.inl rfl))
        · rw [if_neg heq] at h; exact ih buf out m m' h

/-- Conflict resolution writes only through location pointers of the slots. -/
theorem vertexOutputLoop_changedOnly (fragmentInterface : List EntryPointInterface) :
    ∀ (slots : List EntryPointInterface) (buf out : List Nat) (m m' : Nat),
      vertexOutputLoop fragmentInterface slots (buf, m) = some (out, m') →
      ChangedOnly (fun i => (∃ e ∈ slots, e.location = some i) ∨
        ∃ e ∈ fragmentInterface, e.location = some i) buf out := by
  intro slots
  induction slots with
  | nil =>
    intro buf out m m' h
    injection h with h; injection h with h _; rw [← h]; exact ChangedOnly.refl _ _
  | cons e rest ih =>
    intro buf out m m' h
    have hrest : ∀ b o k k', vertexOutputLoop fragmentInterface rest (b, k) = some (o, k') →
        ChangedOnly (fun i => (∃ e' ∈ e :: rest, e'.location = some i) ∨
          ∃ e' ∈ fragmentInterface, e'.location = some i) b o :=
      fun b o k k' ho => ChangedOnly.mono _ _ _ _
        (fun i hi => hi.elim
          (fun ⟨e', he', hl⟩ => Or.inl ⟨e', List.mem_cons_of_mem _ he', hl⟩) Or.inr)
        (ih b o k k' ho)
    rw [vertexOutputLoop] at h
    by_cases hsc : e.storageClass ≠ SpvStorageClassOutput
    · rw [if_pos hsc] at h; exact hrest _ _ _ _ h
    · rw [if_neg hsc] at h
      cases hloc : e.location with
      | none => rw [hloc] at h; exact hrest _ _ _ _ h
      | some l =>
        rw [hloc] at h
        simp only at h
        cases hout : fragmentOutputLoop fragmentInterface l fragmentInterface (buf, m) with
        | none => rw [hout] at h; cases h
        | some r =>
          obtain ⟨buf', k⟩ := r
          rw [hout] at h
          simp only at h
          exact ChangedOnly.trans _ _ _ _
            (ChangedOnly.mono _ _ _ _
              (fun i hi => hi.elim
                (fun hil => Or.inl ⟨e, List.mem_cons_self _ _, by rw [hloc, hil]⟩) Or.inr)
              (fragmentOutputLoop_changedOnly _ _ _ _ _ _ _ hout))
            (hrest _ _ _ _ h)

end Magnum.Vk.Implementation

namespace Magnum.Vk.Implementation

/-- A mapped loop result that is a state comes from a state. -/
theorem Scan.map_eq_next {α β : Type} (g : α → β) (x : Scan α) (b : β)
    (h : Scan.map g x = .next b) : ∃ a, x = .next a ∧ g a = b := by
  cases x with
  | outOfFuel => cases h
  | returnFalse => cases h
  | next a => injection h with h; exact ⟨a, rfl, h⟩

/-- A mapped loop result that is `return false` comes from `return false`. -/
theorem Scan.map_eq_returnFalse {α β : Type} (g : α → β) (x : Scan α)
    (h : Scan.map g x = .returnFalse) : x = .returnFalse := by
  cases x with
  | outOfFuel => cases h
  | returnFalse => rfl
  | next a => cases h

/-- A loop that ended with a state did not run out of fuel. -/
theorem Scan.ofOption_eq_next {α : Type} (x : Option α) (r : α)
    (h : Scan.ofOption x = Scan.next r) : x = some r := by
  cases x with
  | none => cases h
  | some y => injection h with h; rw [h]

/-- What a call that returns has done: it returned false and left the module, or it
returned true after selecting both entry points, finding both interface-ID lists non-empty
and running the decoration loop, the variable loop and the conflict resolution. -/
theorem returned_inv (fuel : Nat) (buf out : List Nat) (r : Bool)
    (h : spirvPatchSwiftShaderConflictingMultiEntrypointLocations fuel buf = .returned r out) :
    (r = false ∧ out = buf) ∨
    (r = true ∧ ∃ (e : EntryPoints) (v f : ArrayView) (d s : Interfaces) (m : Nat),
      entryPointLoop buf fuel { data := 5, vertexEntryPoint := none, fragmentEntryPoint := none }
        = .next e ∧
      e.vertexEntryPoint = some v ∧ e.fragmentEntryPoint = some f ∧
      (entryPointIds buf v).size ≠ 0 ∧ (entryPointIds buf f).size ≠ 0 ∧
      decorationLoop buf (entryPointIds buf v) (entryPointIds buf f) fuel
        { data := e.data, maxLocation := 0,
          vertexInterface := List.replicate (entryPointIds buf v).size {},
          fragmentInterface := List.replicate (entryPointIds buf f).size {} } = some d ∧
      variableLoop buf (entryPointIds buf v) (entryPointIds buf f) fuel d = .next s ∧
      vertexOutputLoop s.fragmentInterface s.vertexInterface (buf, s.maxLocation)
        = some (out, m)) := by
  unfold spirvPatchSwiftShaderConflictingMultiEntrypointLocations at h
  by_cases h5 : buf.length < 5
  · rw [if_pos h5] at h; cases h
  rw [if_neg h5] at h
  cases hE : entryPointLoop buf fuel
      { data := 5, vertexEntryPoint := none, fragmentEntryPoint := none } with
  | outOfFuel => rw [hE] at h; cases h
  | returnFalse =>
    rw [hE] at h; injection h with h1 h2; exact Or.inl ⟨h1.symm, h2.symm⟩
  | next e =>
    rw [hE] at h
    simp only at h
    cases hv : e.vertexEntryPoint with
    | none => rw [hv] at h; injection h with h1 h2; exact Or.inl ⟨h1.symm, h2.symm⟩
    | some v =>
      cases hf : e.fragmentEntryPoint with
      | none => rw [hv, hf] at h; injection h with h1 h2; exact Or.inl ⟨h1.symm, h2.symm⟩
      | some f =>
        rw [hv, hf] at h
        simp only [patchEntryPoints] at h
        by_cases hids : (entryPointIds buf v).size = 0 ∨ (entryPointIds buf f).size = 0
        · rw [if_pos hids] at h
          injection h with h1 h2; exact Or.inl ⟨h1.symm, h2.symm⟩
        · rw [if_neg hids] at h
          cases hD : decorationLoop buf (entryPointIds buf v) (entryPointIds buf f) fuel
              { data := e.data, maxLocation := 0,
                vertexInterface := List.replicate (entryPointIds buf v).size {},
                fragmentInterface := List.replicate (entryPointIds buf f).size {} } with
          | none => rw [hD] at h; cases h
          | some d =>
            rw [hD] at h
            simp only at h
            cases hV : variableLoop buf (entryPointIds buf v) (entryPointIds buf f) fuel d with
            | outOfFuel => rw [hV] at h; cases h
            | returnFalse =>
              rw [hV] at h; injection h with h1 h2; exact Or.inl ⟨h1.symm, h2.symm⟩
            | next s =>
              rw [hV] at h
              simp only at h
              cases hR : vertexOutputLoop s.fragmentInterface s.vertexInterface
                  (buf, s.maxLocation) with
              | none => rw [hR] at h; cases h
              | some res =>
                obtain ⟨o, m⟩ := res
                rw [hR] at h
                injection h with h1 h2
                refine Or.inr ⟨h1.symm, e, v, f, d, s, m, rfl, hv, hf,
                  fun h0 => hids (Or.inl h0), fun h0 => hids (Or.inr h0), hD, hV, ?_⟩
                rw [← h2, hR]

end Magnum.Vk.Implementation

namespace Magnum.Vk.Implementation

/-- The entry-point loop ends at an instruction boundary. -/
theorem entryPointLoop_boundary (buf : List Nat) (fuel : Nat) (e : EntryPoints)
    (h : entryPointLoop buf fuel { data := 5, vertexEntryPoint := none, fragmentEntryPoint := none }
      = .next e) : ∃ k, boundary buf k = e.data := by
  rw [entryPointLoop_eq_scanLoop] at h
  obtain ⟨⟨d, s'⟩, hs, he⟩ := Scan.map_eq_next _ _ _ h
  have := (scanLoop_next buf _ _ fuel 5 _ d s' hs).2
  rw [← he]
  simp only
  rw [← this]
  exact (found_sound buf SpvOpEntryPoint fuel 5 ⟨0, rfl⟩).2

/-- After the decoration loop every location pointer points at the location of a Location
decoration of an interface ID, and the scanner is at an instruction boundary. -/
theorem decorationLoop_located (buf : List Nat) (vIds fIds : ArrayView) (fuel : Nat)
    (s d : Interfaces) (hdata : ∃ k, boundary buf k = s.data)
    (hs : s.slots.Located buf vIds fIds)
    (h : decorationLoop buf vIds fIds fuel s = some d) :
    d.slots.Located buf vIds fIds ∧ ∃ k, boundary buf k = d.data := by
  have key := decorationLoop_eq_scanLoop buf vIds fIds fuel s
  rw [h] at key
  obtain ⟨⟨p, s'⟩, hscan, hd⟩ := Scan.map_eq_next _ _ _ key.symm
  have hrun := scanLoop_next buf _ _ fuel s.data _ p s' hscan
  have hsound := found_sound buf SpvOpDecorate fuel s.data hdata
  have hloc := runBody_invariant (decorationBody buf vIds fIds) (Slots.Located buf vIds fIds)
    _ _ _ hs (fun v hv s1 s2 h1 h2 => decorationBody_located buf vIds fIds s1 s2 v
      (hsound.1 v hv) h1 h2) hrun.1
  rw [← hd]
  refine ⟨hloc, ?_⟩
  simp only [Slots.withData]
  rw [← hrun.2]
  exact hsound.2

/-- After the variable loop every location pointer still points at the location of a
Location decoration of an interface ID. -/
theorem variableLoop_located (buf : List Nat) (vIds fIds : ArrayView) (fuel : Nat)
    (s d : Interfaces) (hs : s.slots.Located buf vIds fIds)
    (h : variableLoop buf vIds fIds fuel s = .next d) : d.slots.Located buf vIds fIds := by
  rw [variableLoop_eq_scanLoop] at h
  obtain ⟨⟨p, s'⟩, hscan, hd⟩ := Scan.map_eq_next _ _ _ h
  have hrun := scanLoop_next buf _ _ fuel s.data _ p s' hscan
  have hloc := runBody_invariant (variableBody buf vIds fIds) (Slots.Located buf vIds fIds)
    _ _ _ hs (fun v _ s1 s2 h1 h2 => variableBody_located buf vIds fIds s1 s2 v h1 h2) hrun.1
  rw [← hd]
  exact hloc

end Magnum.Vk.Implementation

namespace Magnum.Vk.Implementation

/-- Every word that a returning call changes is the location of a Location decoration
whose target is an interface ID of a selected entry point. -/
theorem changed_word_is_location (fuel : Nat) (buf out : List Nat) (r : Bool)
    (h : spirvPatchSwiftShaderConflictingMultiEntrypointLocations fuel buf = .returned r out) :
    ChangedOnly (fun i => ∃ p, IsLocationDecorationAt buf p ∧ i = p + 3 ∧
      IsInterfaceId fuel buf (word buf (p + 1))) buf out := by
  rcases returned_inv fuel buf out r h with ⟨_, hout⟩ | ⟨_, e, v, f, d, s, m, hE, hv, hf, _, _, hD, hV, hR⟩
  · rw [hout]; exact ChangedOnly.refl _ _
  · have hsel : selectedEntryPoints fuel buf = some (v, f) := by
      unfold selectedEntryPoints
      rw [hE]
      simp only [hv, hf]
    have hb := entryPointLoop_boundary buf fuel e hE
    have hinit : ∀ (n : Nat) (x : EntryPointInterface), x ∈ List.replicate n {} →
        ∀ l, x.location = some l → False := by
      intro n x hx l hl
      rw [List.eq_of_mem_replicate hx] at hl
      cases hl
    have hd := decorationLoop_located buf (entryPointIds buf v) (entryPointIds buf f) fuel
      { data := e.data, maxLocation := 0,
        vertexInterface := List.replicate (entryPointIds buf v).size {},
        fragmentInterface := List.replicate (entryPointIds buf f).size {} } d hb
      ⟨fun x hx l hl => (hinit _ x hx l hl).elim, fun x hx l hl => (hinit _ x hx l hl).elim⟩ hD
    have hs := variableLoop_located buf _ _ fuel d s hd.1 hV
    refine ChangedOnly.mono _ _ _ _ ?_ (vertexOutputLoop_changedOnly _ _ _ _ _ _ hR)
    intro i hi
    rcases hi with ⟨x, hx, hl⟩ | ⟨x, hx, hl⟩
    · obtain ⟨p, hp, hip, hin⟩ := hs.1 x hx i hl
      exact ⟨p, hp, hip, v, f, hsel, Or.inl hin⟩
    · obtain ⟨p, hp, hip, hin⟩ := hs.2 x hx i hl
      exact ⟨p, hp, hip, v, f, hsel, Or.inr hin⟩

/-- C5: a call on a module of at least 5 words that returns leaves the number of words,
and every word it changes is word 3 of an `OpDecorate` instruction of at least 4 words with
the decoration `Location` whose target ID is in the interface-ID list of the selected
vertex or fragment entry point. So the 5 header words are unchanged, and a changed word of
any instruction of the module is word 3 of such a decoration: the first word of every
instruction, every word of an instruction with another opcode and every other decoration
are unchanged. -/
theorem patch_frame (fuel : Nat) (buf out : List Nat) (r : Bool) (h5 : 5 ≤ buf.length)
    (h : spirvPatchSwiftShaderConflictingMultiEntrypointLocations fuel buf = .returned r out) :
    out.length = buf.length ∧
    (∀ i, word out i ≠ word buf i →
      ∃ p, IsLocationDecorationAt buf p ∧ i = p + 3 ∧
        IsInterfaceId fuel buf (word buf (p + 1))) ∧
    (∀ i, i < 5 → word out i = word buf i) ∧
    (∀ q j, IsInstructionAt buf q → j < wordCountAt buf q →
      word out (q + j) ≠ word buf (q + j) →
      opcodeAt buf q = SpvOpDecorate ∧ 4 ≤ wordCountAt buf q ∧
        word buf (q + 2) = SpvDecorationLocation ∧ j = 3 ∧
        IsInterfaceId fuel buf (word buf (q + 1))) := by
  have _ := h5
  have hc := changed_word_is_location fuel buf out r h
  refine ⟨hc.1, hc.2, ?_, ?_⟩
  · intro i hi
    by_contra hne
    obtain ⟨p, ⟨⟨⟨k, hk⟩, _, _⟩, _⟩, hip, _⟩ := hc.2 i hne
    have := five_le_boundary buf k
    omega
  · intro q j hq hj hne
    obtain ⟨p, hp, hip, hid⟩ := hc.2 (q + j) hne
    have hpq : p = q := by
      rcases Nat.lt_trichotomy p q with hlt | heq | hgt
      · have := instruction_end_le buf p q hp.1 hq.1 hlt
        have := hp.2.2.1
        omega
      · exact heq
      · have := instruction_end_le buf q p hq hp.1.1 hgt
        omega
    subst hpq
    exact ⟨hp.2.1, hp.2.2.1, hp.2.2.2, by omega, hid⟩

/-- The conflict test: the call returns true on `conflictSample`. -/
theorem patch_frame_witness :
    conflictSamplePatched.length = conflictSample.length ∧
    (∀ i, word conflictSamplePatched i ≠ word conflictSample i →
      ∃ p, IsLocationDecorationAt conflictSample p ∧ i = p + 3 ∧
        IsInterfaceId 10 conflictSample (word conflictSample (p + 1))) ∧
    (∀ i, i < 5 → word conflictSamplePatched i = word conflictSample i) ∧
    (∀ q j, IsInstructionAt conflictSample q → j < wordCountAt conflictSample q →
      word conflictSamplePatched (q + j) ≠ word conflictSample (q + j) →
      opcodeAt conflictSample q = SpvOpDecorate ∧ 4 ≤ wordCountAt conflictSample q ∧
        word conflictSample (q + 2) = SpvDecorationLocation ∧ j = 3 ∧
        IsInterfaceId 10 conflictSample (word conflictSample (q + 1))) :=
  patch_frame 10 conflictSample conflictSamplePatched true (by decide) (by decide)

end Magnum.Vk.Implementation

namespace Magnum.Vk.Implementation

/-- C15: the loop over the fragment inputs dereferences `location` without the null check
that the loops over the vertex and fragment outputs have. On `builtinSample`, where the
output 10 of the vertex entry point and the output 11 of the fragment entry point share
location 7 and the fragment input 13 is a builtin without a Location decoration, the call
dereferences the null `location` of the slot of 13. -/
theorem builtin_fragment_input_null_dereference :
    spirvPatchSwiftShaderConflictingMultiEntrypointLocations 10 builtinSample
      = .nullDereference := by
  decide

/-- C14, as stated, fails: of the two vertex entry points of `twoVertexSample`, at the
offsets 5 and 11, the second is selected, and its interface `[20]` is the one used: the
conflict of the first one's output 10 with the fragment output 11 is not patched. -/
theorem selects_second_vertex_entryPoint :
    selectedEntryPoints 11 twoVertexSample = some (⟨11, 6⟩, ⟨17, 6⟩) ∧
    spirvPatchSwiftShaderConflictingMultiEntrypointLocations 11 twoVertexSample
      = .returned true twoVertexSample := by
  decide

/-- C13, as stated, fails: on `conflictSample` cut off before the truncated instruction
the conflict is patched, on `truncatedSample` the words before the truncated instruction
are left as they were. -/
theorem truncated_differs_from_cut :
    spirvPatchSwiftShaderConflictingMultiEntrypointLocations 11 conflictSample
      = .returned true conflictSamplePatched ∧
    spirvPatchSwiftShaderConflictingMultiEntrypointLocations 11 truncatedSample
      = .returned true truncatedSample ∧
    conflictSamplePatched ≠ conflictSample := by
  decide

end Magnum.Vk.Implementation

namespace Magnum.Vk.Implementation

/-- The entry-point loop on encoded instructions whose entry points have at least 4 words
falls through with the last entry point of each execution model. -/
theorem scanWords_entryPoint :
    ∀ (instrs : List (List Nat)) (pos data : Nat) (v f : Option ArrayView),
      (∀ ins ∈ instrs, word ins 0 &&& 0xffff = SpvOpEntryPoint → 4 ≤ ins.length) →
      ∃ d, scanWords SpvOpEntryPoint entryPointWords data pos instrs (v, f)
        = .next (d, (lastEntryPoint SpvExecutionModelVertex pos instrs v,
            lastEntryPoint SpvExecutionModelFragment pos instrs f)) := by
  intro instrs
  induction instrs with
  | nil => intro pos data v f _; exact ⟨data, rfl⟩
  | cons ins rest ih =>
    intro pos data v f h4
    have hrest := fun i hi => h4 i (List.mem_cons_of_mem _ hi)
    rw [scanWords, lastEntryPoint, lastEntryPoint]
    by_cases hop : word ins 0 &&& 0xffff = SpvOpEntryPoint
    · have hlen := h4 ins (List.mem_cons_self _ _) hop
      rw [if_pos hop]
      simp only [entryPointWords, show ¬ ins.length < 4 by omega, if_false, hop, true_and]
      exact ih _ _ _ _ hrest
    · rw [if_neg hop]
      simp only [hop, false_and, if_false]
      exact ih _ _ _ _ hrest

/-- The last entry point of an execution model in a list, from a decomposition of the
list at it. -/
theorem lastEntryPoint_append (model : Nat) (ep : List Nat) (after : List (List Nat))
    (hep : IsEntryPointOf model ep)
    (hafter : ∀ ins ∈ after, ¬ IsEntryPointOf model ins)
    (h4 : ∀ ins ∈ after, word ins 0 &&& 0xffff = SpvOpEntryPoint → 4 ≤ ins.length) :
    ∀ (before : List (List Nat)) (pos : Nat) (init : Option ArrayView),
      lastEntryPoint model pos (before ++ ep :: after) init
        = some ⟨pos + before.flatten.length, ep.length⟩ := by
  have hkeep : ∀ (l : List (List Nat)) (pos : Nat) (init : Option ArrayView),
      (∀ ins ∈ l, ¬ IsEntryPointOf model ins) →
      (∀ ins ∈ l, word ins 0 &&& 0xffff = SpvOpEntryPoint → 4 ≤ ins.length) →
      lastEntryPoint model pos l init = init := by
    intro l
    induction l with
    | nil => intro pos init _ _; rfl
    | cons ins rest ih =>
      intro pos init hno h4'
      rw [lastEntryPoint]
      have hnot : ¬ (word ins 0 &&& 0xffff = SpvOpEntryPoint ∧ word ins 1 = model) := by
        intro ⟨h1, h2⟩
        have := h4' ins (List.mem_cons_self _ _) h1
        exact hno ins (List.mem_cons_self _ _) ⟨h1, by omega, h2⟩
      rw [if_neg hnot]
      exact ih _ _ (fun i hi => hno i (List.mem_cons_of_mem _ hi))
        (fun i hi => h4' i (List.mem_cons_of_mem _ hi))
  intro before
  induction before with
  | nil =>
    intro pos init
    rw [List.nil_append, lastEntryPoint, if_pos ⟨hep.1, hep.2.2⟩, hkeep _ _ _ hafter h4]
    simp
  | cons ins rest ih =>
    intro pos init
    rw [List.cons_append, lastEntryPoint, ih]
    simp only [List.flatten_cons, List.length_append, Nat.add_assoc]

/-- C14, amended: on a module of 5 header words followed by encoded instructions whose
entry points have at least 4 words, the selected vertex entry point is the last
`OpEntryPoint` of execution model Vertex in stream order, and the selected fragment entry
point the last of execution model Fragment: a later entry point of a stage replaces an
earlier one. -/
theorem selects_last_entryPoints (header : List Nat)
    (beforeV afterV beforeF afterF : List (List Nat)) (epV epF : List Nat) (fuel : Nat)
    (hh : header.length = 5)
    (hwf : ∀ ins ∈ beforeV ++ epV :: afterV, IsInstruction ins)
    (h4 : ∀ ins ∈ beforeV ++ epV :: afterV,
      word ins 0 &&& 0xffff = SpvOpEntryPoint → 4 ≤ ins.length)
    (hV : IsEntryPointOf SpvExecutionModelVertex epV)
    (hlastV : ∀ ins ∈ afterV, ¬ IsEntryPointOf SpvExecutionModelVertex ins)
    (hsame : beforeV ++ epV :: afterV = beforeF ++ epF :: afterF)
    (hF : IsEntryPointOf SpvExecutionModelFragment epF)
    (hlastF : ∀ ins ∈ afterF, ¬ IsEntryPointOf SpvExecutionModelFragment ins)
    (hfuel : (header ++ (beforeV ++ epV :: afterV).flatten).length ≤ fuel) :
    selectedEntryPoints fuel (header ++ (beforeV ++ epV :: afterV).flatten)
      = some (⟨5 + beforeV.flatten.length, epV.length⟩,
          ⟨5 + beforeF.flatten.length, epF.length⟩) := by
  have hlen := length_le_length_flatten _ hwf
  have hfuel' : (beforeV ++ epV :: afterV).length + 2 ≤ fuel := by
    rw [List.length_append] at hfuel; omega
  obtain ⟨d, hd⟩ := scanWords_entryPoint (beforeV ++ epV :: afterV) 5 5 none none h4
  have h1 := lastEntryPoint_append SpvExecutionModelVertex epV afterV hV hlastV
    (fun i hi => h4 i (List.mem_append_right _ (List.mem_cons_of_mem _ hi))) beforeV 5 none
  have h2 := lastEntryPoint_append SpvExecutionModelFragment epF afterF hF hlastF
    (fun i hi => h4 i (by rw [hsame]; exact List.mem_append_right _ (List.mem_cons_of_mem _ hi)))
    beforeF 5 none
  rw [← hsame] at h2
  rw [h1, h2] at hd
  have hloop := entryPointLoop_stream header (beforeV ++ epV :: afterV) fuel none none hwf hfuel'
  rw [hh, hd] at hloop
  unfold selectedEntryPoints
  rw [hloop]
  rfl

/-- The module `twoVertexSample`: the last vertex entry point is the second one. -/
theorem selects_last_entryPoints_witness :
    selectedEntryPoints 47
        (headerOnly ++ ([entryPoint SpvExecutionModelVertex 1 [0x6e69616d, 0] [10]]
          ++ entryPoint SpvExecutionModelVertex 3 [0x6e69616d, 0] [20]
          :: twoVertexInstructions.drop 2).flatten)
      = some (⟨5 + [entryPoint SpvExecutionModelVertex 1 [0x6e69616d, 0] [10]].flatten.length,
            (entryPoint SpvExecutionModelVertex 3 [0x6e69616d, 0] [20]).length⟩,
          ⟨5 + (twoVertexInstructions.take 2).flatten.length,
            (entryPoint SpvExecutionModelFragment 2 [0x6e69616d, 0] [11]).length⟩) :=
  selects_last_entryPoints headerOnly
    [entryPoint SpvExecutionModelVertex 1 [0x6e69616d, 0] [10]] (twoVertexInstructions.drop 2)
    (twoVertexInstructions.take 2) (twoVertexInstructions.drop 3)
    (entryPoint SpvExecutionModelVertex 3 [0x6e69616d, 0] [20])
    (entryPoint SpvExecutionModelFragment 2 [0x6e69616d, 0] [11]) 47
    (by decide) (by decide) (by decide) (by decide) (by decide) (by decide) (by decide)
    (by decide) (by decide)

end Magnum.Vk.Implementation

namespace Magnum.Vk.Implementation

/-- The scanner at an instruction header that declares more words than remain returns
`nullptr` and stays there. -/
theorem findLoop_truncated (pre t : List Nat) (op data fuel : Nat) (ht : IsTruncated t) :
    findLoop (pre ++ t) op data (fuel + 1) pre.length = some (none, pre.length) := by
  have hw : word (pre ++ t) pre.length = word t 0 := by
    have := word_append_right pre t 0
    rwa [Nat.add_zero] at this
  have h1 : ¬ (pre ++ t).length ≤ pre.length := by
    have := ht.1
    rw [List.length_append]; omega
  have h2 : (pre ++ t).length - pre.length < word t 0 >>> 16 := by
    have := ht.2
    rw [List.length_append]; omega
  simp only [findLoop, h1, if_false, hw, h2, if_true]

/-- On a module that ends with a list of encoded instructions and a truncated
instruction, a scanning loop whose scanner stands at the first of them does on them what
`scanWords` does, and ends with the scanner at the truncated instruction. -/
theorem scanLoop_truncated_aux {σ : Type} (buf t : List Nat) (op : Nat)
    (body : σ → ArrayView → Option σ) (bodyWords : σ → ArrayView → List Nat → Option σ)
    (ht : IsTruncated t)
    (hbody : ∀ (s : σ) (pre ins post : List Nat), buf = pre ++ (ins ++ post) →
      body s ⟨pre.length, ins.length⟩ = bodyWords s ⟨pre.length, ins.length⟩ ins) :
    ∀ (instrs : List (List Nat)) (pre : List Nat) (data fuelOuter fuelInner : Nat) (s : σ),
      pre ++ (instrs.flatten ++ t) = buf →
      (∀ ins ∈ instrs, IsInstruction ins) → instrs.length < fuelInner →
      instrs.length < fuelOuter →
      (match findLoop buf op data fuelInner pre.length with
        | none => Scan.outOfFuel
        | some (none, d) => Scan.next (d, s)
        | some (some ins, d) =>
          match body s ins with
          | none => Scan.returnFalse
          | some s' => scanLoop buf op body fuelOuter d s')
        = Scan.map (fun r => (buf.length - t.length, r.2))
            (scanWords op bodyWords data pre.length instrs s) := by
  intro instrs
  induction instrs with
  | nil =>
    intro pre data fuelOuter fuelInner s hbuf _ hin _
    obtain ⟨k, rfl⟩ : ∃ k, fuelInner = k + 1 := ⟨fuelInner - 1, by omega⟩
    simp only [List.flatten_nil, List.nil_append] at hbuf
    rw [← hbuf, findLoop_truncated _ _ _ _ _ ht]
    simp [scanWords, Scan.map]
  | cons ins rest ih =>
    intro pre data fuelOuter fuelInner s hbuf hwf hin hout
    obtain ⟨k, rfl⟩ : ∃ k, fuelInner = k + 1 := ⟨fuelInner - 1, by omega⟩
    obtain ⟨m, rfl⟩ : ∃ m, fuelOuter = m + 1 := ⟨fuelOuter - 1, by omega⟩
    have hi : IsInstruction ins := hwf ins (List.mem_cons_self _ _)
    have hrest : ∀ i ∈ rest, IsInstruction i := fun i hi => hwf i (List.mem_cons_of_mem _ hi)
    simp only [List.length_cons] at hin hout
    have hbuf1 : buf = pre ++ (ins ++ (rest.flatten ++ t)) := by rw [← hbuf]; simp
    have hbuf2 : (pre ++ ins) ++ (rest.flatten ++ t) = buf := by rw [← hbuf]; simp
    have hlen : (pre ++ ins).length = pre.length + ins.length := by simp
    rw [scanWords]
    by_cases hop : word ins 0 &&& 0xffff = op
    · rw [if_pos hop]
      have hfind := findLoop_hit pre ins (rest.flatten ++ t) op data k hi hop
      rw [← hbuf1] at hfind
      rw [hfind]
      simp only
      rw [hbody s pre ins _ hbuf1]
      cases hb : bodyWords s ⟨pre.length, ins.length⟩ ins with
      | none => rfl
      | some s' =>
        simp only
        rw [scanLoop, find]
        have := ih (pre ++ ins) (pre.length + ins.length) m m s' hbuf2 hrest (by omega) (by omega)
        rw [hlen] at this
        exact this
    · rw [if_neg hop]
      have hfind := findLoop_skip pre ins (rest.flatten ++ t) op data k hi hop
      rw [← hbuf1] at hfind
      rw [hfind]
      have := ih (pre ++ ins) data (m + 1) k s hbuf2 hrest (by omega) (by omega)
      rw [hlen] at this
      exact this

/-- A scanning loop that starts at the first of the encoded instructions before a
truncated instruction. -/
theorem scanLoop_truncated {σ : Type} (pre t : List Nat) (instrs : List (List Nat))
    (op : Nat) (body : σ → ArrayView → Option σ)
    (bodyWords : σ → ArrayView → List Nat → Option σ) (fuel : Nat) (s : σ)
    (ht : IsTruncated t)
    (hbody : ∀ (s : σ) (pre' ins post : List Nat),
      pre ++ (instrs.flatten ++ t) = pre' ++ (ins ++ post) →
      body s ⟨pre'.length, ins.length⟩ = bodyWords s ⟨pre'.length, ins.length⟩ ins)
    (hwf : ∀ ins ∈ instrs, IsInstruction ins) (hfuel : instrs.length + 2 ≤ fuel) :
    scanLoop (pre ++ (instrs.flatten ++ t)) op body fuel pre.length s
      = Scan.map (fun r => (pre.length + instrs.flatten.length, r.2))
          (scanWords op bodyWords pre.length pre.length instrs s) := by
  obtain ⟨k, rfl⟩ : ∃ k, fuel = k + 1 := ⟨fuel - 1, by omega⟩
  rw [scanLoop, find]
  have := scanLoop_truncated_aux (pre ++ (instrs.flatten ++ t)) t op body bodyWords ht hbody
    instrs pre pre.length k k s rfl hwf (by omega) (by omega)
  refine Eq.trans this ?_
  congr 2
  funext r
  simp only [List.length_append, Prod.mk.injEq, and_true]
  omega

/-- A scanning loop whose scanner stands at a truncated instruction falls through at
once. -/
theorem scanLoop_at_truncated {σ : Type} (pre t : List Nat) (op : Nat)
    (body : σ → ArrayView → Option σ) (fuel : Nat) (s : σ) (ht : IsTruncated t)
    (hfuel : 2 ≤ fuel) :
    scanLoop (pre ++ t) op body fuel pre.length s = .next (pre.length, s) := by
  obtain ⟨k, rfl⟩ : ∃ k, fuel = k + 1 + 1 := ⟨fuel - 2, by omega⟩
  rw [scanLoop, find, findLoop_truncated _ _ _ _ _ ht]

end Magnum.Vk.Implementation

namespace Magnum.Vk.Implementation

/-- The selected entry points are `OpEntryPoint` instructions of the module, of at least 4
words, with the execution models Vertex and Fragment. -/
theorem selectedEntryPoints_sound (fuel : Nat) (buf : List Nat) (v f : ArrayView)
    (h : selectedEntryPoints fuel buf = some (v, f)) :
    (IsInstructionAt buf v.data ∧ v.size = wordCountAt buf v.data ∧
      opcodeAt buf v.data = SpvOpEntryPoint ∧ 4 ≤ v.size ∧
      word buf (v.data + 1) = SpvExecutionModelVertex) ∧
    (IsInstructionAt buf f.data ∧ f.size = wordCountAt buf f.data ∧
      opcodeAt buf f.data = SpvOpEntryPoint ∧ 4 ≤ f.size ∧
      word buf (f.data + 1) = SpvExecutionModelFragment) := by
  unfold selectedEntryPoints at h
  cases hE : entryPointLoop buf fuel
      { data := 5, vertexEntryPoint := none, fragmentEntryPoint := none } with
  | outOfFuel => rw [hE] at h; cases h
  | returnFalse => rw [hE] at h; cases h
  | next e =>
    rw [hE] at h
    simp only at h
    rw [entryPointLoop_eq_scanLoop] at hE
    obtain ⟨⟨d, s'⟩, hs, he⟩ := Scan.map_eq_next _ _ _ hE
    have hrun := (scanLoop_next buf _ _ fuel 5 _ d s' hs).1
    have hsound := (found_sound buf SpvOpEntryPoint fuel 5 ⟨0, rfl⟩).1
    have hinv := runBody_invariant (entryPointBody buf)
      (fun s => (∀ v, s.1 = some v → IsInstructionAt buf v.data ∧
          v.size = wordCountAt buf v.data ∧ opcodeAt buf v.data = SpvOpEntryPoint ∧
          4 ≤ v.size ∧ word buf (v.data + 1) = SpvExecutionModelVertex) ∧
        (∀ f, s.2 = some f → IsInstructionAt buf f.data ∧
          f.size = wordCountAt buf f.data ∧ opcodeAt buf f.data = SpvOpEntryPoint ∧
          4 ≤ f.size ∧ word buf (f.data + 1) = SpvExecutionModelFragment))
      _ _ _ ⟨fun v hv => (by cases hv), fun f hf => (by cases hf)⟩
      (fun w hw s1 s2 h1 h2 => by
        unfold entryPointBody at h2
        by_cases hsize : w.size < 4
        · rw [if_pos hsize] at h2; cases h2
        · rw [if_neg hsize] at h2
          injection h2 with h2
          rw [← h2]
          obtain ⟨hw1, hw2, hw3⟩ := hsound w hw
          constructor
          · intro x hx
            simp only at hx
            by_cases hm : word buf (w.data + 1) = SpvExecutionModelVertex
            · rw [if_pos hm] at hx
              injection hx with hx; rw [← hx]
              exact ⟨hw1, hw2, hw3, by omega, hm⟩
            · rw [if_neg hm] at hx; exact h1.1 x hx
          · intro x hx
            simp only at hx
            by_cases hm : word buf (w.data + 1) = SpvExecutionModelFragment
            · rw [if_pos hm] at hx
              injection hx with hx; rw [← hx]
              exact ⟨hw1, hw2, hw3, by omega, hm⟩
            · rw [if_neg hm] at hx; exact h1.2 x hx) hrun
    rw [← he] at h
    simp only at h
    cases hv : s'.1 with
    | none => rw [hv] at h; cases h
    | some v' =>
      cases hf : s'.2 with
      | none => rw [hv, hf] at h; cases h
      | some f' =>
        rw [hv, hf] at h
        injection h with h
        injection h with h1 h2
        rw [← h1, ← h2]
        exact ⟨hinv.1 v' hv, hinv.2 f' hf⟩

/-- The name loop reads words of the entry point only. -/
theorem entryPointIdsLoop_congr (buf buf' : List Nat) (ep : ArrayView)
    (h : ∀ j, j < ep.data + ep.size → word buf j = word buf' j) :
    ∀ (n i : Nat), i + n ≤ ep.size →
      entryPointIdsLoop buf ep n i = entryPointIdsLoop buf' ep n i := by
  intro n
  induction n with
  | zero => intro i _; rfl
  | succ n ih =>
    intro i hi
    rw [entryPointIdsLoop, entryPointIdsLoop, h _ (by omega), ih (i + 1) (by omega)]

/-- The interface IDs of an entry point depend on the words of the entry point only. -/
theorem entryPointIds_congr (buf buf' : List Nat) (ep : ArrayView)
    (h : ∀ j, j < ep.data + ep.size → word buf j = word buf' j) :
    entryPointIds buf ep = entryPointIds buf' ep := by
  unfold entryPointIds
  by_cases h3 : 3 ≤ ep.size
  · exact entryPointIdsLoop_congr buf buf' ep h _ _ (by omega)
  · rw [show ep.size - 3 = 0 by omega]; rfl

/-- Conflict resolution on slots without a storage class does nothing. -/
theorem vertexOutputLoop_replicate (fragmentInterface : List EntryPointInterface)
    (n : Nat) (s : List Nat × Nat) :
    vertexOutputLoop fragmentInterface (List.replicate n {}) s = some s := by
  induction n with
  | zero => rfl
  | succ n ih =>
    rw [List.replicate_succ, vertexOutputLoop, if_pos (by decide)]
    exact ih

/-- The loop of `scanWords` does not run out of fuel. -/
theorem scanWords_ne_outOfFuel {σ : Type} (op : Nat)
    (body : σ → ArrayView → List Nat → Option σ) :
    ∀ (instrs : List (List Nat)) (data pos : Nat) (s : σ),
      scanWords op body data pos instrs s ≠ .outOfFuel := by
  intro instrs
  induction instrs with
  | nil => intro data pos s h; cases h
  | cons ins rest ih =>
    intro data pos s
    rw [scanWords]
    split
    · split
      · intro h; cases h
      · exact ih _ _ _
    · exact ih _ _ _

end Magnum.Vk.Implementation

namespace Magnum.Vk.Implementation

/-- The entry-point loop on a module that ends with encoded instructions and a truncated
instruction. -/
theorem entryPointLoop_truncated (pre t : List Nat) (instrs : List (List Nat)) (fuel : Nat)
    (v f : Option ArrayView) (ht : IsTruncated t) (hwf : ∀ ins ∈ instrs, IsInstruction ins)
    (hfuel : instrs.length + 2 ≤ fuel) :
    entryPointLoop (pre ++ (instrs.flatten ++ t)) fuel
        { data := pre.length, vertexEntryPoint := v, fragmentEntryPoint := f }
      = Scan.map (fun r => { data := pre.length + instrs.flatten.length,
                             vertexEntryPoint := r.2.1, fragmentEntryPoint := r.2.2 })
          (scanWords SpvOpEntryPoint entryPointWords pre.length pre.length instrs (v, f)) := by
  rw [entryPointLoop_eq_scanLoop]
  simp only
  rw [scanLoop_truncated pre t instrs _ _ entryPointWords fuel _ ht
    (fun s pre' ins post h => entryPointBody_eq_words _ s pre' ins post h) hwf hfuel]
  cases scanWords SpvOpEntryPoint entryPointWords pre.length pre.length instrs (v, f) <;> rfl

/-- The decoration loop started at a truncated instruction finds nothing. -/
theorem decorationLoop_at_truncated (pre t : List Nat) (vIds fIds : ArrayView) (fuel : Nat)
    (s : Interfaces) (ht : IsTruncated t) (hfuel : 2 ≤ fuel) (hs : s.data = pre.length) :
    decorationLoop (pre ++ t) vIds fIds fuel s = some s := by
  apply Scan.ofOption_eq_next
  rw [decorationLoop_eq_scanLoop, hs, scanLoop_at_truncated _ _ _ _ _ _ ht hfuel, ← hs]
  rfl

/-- The variable loop started at a truncated instruction finds nothing. -/
theorem variableLoop_at_truncated (pre t : List Nat) (vIds fIds : ArrayView) (fuel : Nat)
    (s : Interfaces) (ht : IsTruncated t) (hfuel : 2 ≤ fuel) (hs : s.data = pre.length) :
    variableLoop (pre ++ t) vIds fIds fuel s = .next s := by
  rw [variableLoop_eq_scanLoop, hs, scanLoop_at_truncated _ _ _ _ _ _ ht hfuel, ← hs]
  rfl


/-- C13, amended: on a module of 5 header words, encoded instructions and then an
instruction header that declares more words than remain, the scanner is left at the
truncated instruction, so the decoration and variable loops find nothing: the call leaves
the module as it was, and returns true exactly when the entry points before the truncated
instruction give a vertex and a fragment entry point, each of at least 4 words, with
non-empty interface-ID lists. -/
theorem truncated_module_unchanged (header t : List Nat) (instrs : List (List Nat))
    (fuel : Nat) (hh : header.length = 5) (hwf : ∀ ins ∈ instrs, IsInstruction ins)
    (ht : IsTruncated t) (hfuel : (header ++ instrs.flatten ++ t).length ≤ fuel) :
    spirvPatchSwiftShaderConflictingMultiEntrypointLocations fuel (header ++ instrs.flatten ++ t)
      = .returned (entryPointsUsable fuel (header ++ instrs.flatten))
          (header ++ instrs.flatten ++ t) := by
  have hlen := length_le_length_flatten instrs hwf
  have ht1 := ht.1
  have hfuel' : instrs.length + 2 ≤ fuel := by
    simp only [List.length_append] at hfuel; omega
  have hcut := entryPointLoop_stream header instrs fuel none none hwf hfuel'
  have htr := entryPointLoop_truncated header t instrs fuel none none ht hwf hfuel'
  rw [hh] at hcut htr
  rw [List.append_assoc]
  have hlen5 : ¬ (header ++ (instrs.flatten ++ t)).length < 5 := by
    rw [List.length_append]; omega
  have hpre : (header ++ instrs.flatten).length = 5 + instrs.flatten.length := by
    rw [List.length_append, hh]
  have hbufeq : header ++ (instrs.flatten ++ t) = (header ++ instrs.flatten) ++ t := by
    rw [List.append_assoc]
  unfold spirvPatchSwiftShaderConflictingMultiEntrypointLocations
  rw [if_neg hlen5, htr]
  unfold entryPointsUsable selectedEntryPoints
  rw [hcut]
  cases hscan : scanWords SpvOpEntryPoint entryPointWords 5 5 instrs (none, none) with
  | outOfFuel => exact absurd hscan (scanWords_ne_outOfFuel _ _ _ _ _ _)
  | returnFalse => rfl
  | next r =>
    obtain ⟨d, v, f⟩ := r
    simp only [Scan.map]
    cases v with
    | none => rfl
    | some v =>
      cases f with
      | none => rfl
      | some f =>
        simp only
        -- the selected entry points lie before the truncated instruction
        have hsel : selectedEntryPoints fuel (header ++ instrs.flatten) = some (v, f) := by
          unfold selectedEntryPoints
          rw [hcut, hscan]; rfl
        have hs := selectedEntryPoints_sound fuel _ v f hsel
        have hv : entryPointIds (header ++ (instrs.flatten ++ t)) v
            = entryPointIds (header ++ instrs.flatten) v := by
          apply entryPointIds_congr
          intro j hj
          rw [hbufeq]
          exact word_append_left _ _ _ (by
            have h1 := hs.1.1.2.1
            have h2 := hs.1.1.2.2
            rw [← hs.1.2.1] at h2
            omega)
        have hf : entryPointIds (header ++ (instrs.flatten ++ t)) f
            = entryPointIds (header ++ instrs.flatten) f := by
          apply entryPointIds_congr
          intro j hj
          rw [hbufeq]
          exact word_append_left _ _ _ (by
            have h1 := hs.2.1.2.1
            have h2 := hs.2.1.2.2
            rw [← hs.2.2.1] at h2
            omega)
        unfold patchEntryPoints
        simp only [hv, hf]
        by_cases hids : (entryPointIds (header ++ instrs.flatten) v).size = 0 ∨
            (entryPointIds (header ++ instrs.flatten) f).size = 0
        · rw [if_pos hids]
          have : ¬ ((entryPointIds (header ++ instrs.flatten) v).size ≠ 0 ∧
              (entryPointIds (header ++ instrs.flatten) f).size ≠ 0) := by
            intro h; rcases hids with h' | h'
            · exact h.1 h'
            · exact h.2 h'
          simp only [this, decide_False]
        · rw [if_neg hids]
          have hne : (entryPointIds (header ++ instrs.flatten) v).size ≠ 0 ∧
              (entryPointIds (header ++ instrs.flatten) f).size ≠ 0 :=
            ⟨fun h => hids (Or.inl h), fun h => hids (Or.inr h)⟩
          have hfuel2 : 2 ≤ fuel := by omega
          -- the decoration loop and the variable loop find nothing
          rw [hbufeq, ← hpre, decorationLoop_at_truncated _ _ _ _ _ _ ht hfuel2 rfl]
          simp only
          rw [variableLoop_at_truncated _ _ _ _ _ _ ht hfuel2 rfl]
          simp only
          rw [vertexOutputLoop_replicate]
          rw [decide_eq_true hne]

/-- The module `truncatedSample`: `conflictSample` and a header of 5 words of which one
is there. -/
theorem truncated_module_unchanged_witness :
    spirvPatchSwiftShaderConflictingMultiEntrypointLocations 43
        (headerOnly ++ (conflictInstructions 1 2 [0x6e69616d, 0] [0x6e69616d, 0]
          10 11 12 90 91 92 7 7 7).flatten ++ [0x00050000])
      = .returned (entryPointsUsable 43 (headerOnly ++ (conflictInstructions 1 2
            [0x6e69616d, 0] [0x6e69616d, 0] 10 11 12 90 91 92 7 7 7).flatten))
          (headerOnly ++ (conflictInstructions 1 2 [0x6e69616d, 0] [0x6e69616d, 0]
            10 11 12 90 91 92 7 7 7).flatten ++ [0x00050000]) :=
  truncated_module_unchanged headerOnly [0x00050000]
    (conflictInstructions 1 2 [0x6e69616d, 0] [0x6e69616d, 0] 10 11 12 90 91 92 7 7 7) 43
    (by decide) (by decide) (by decide) (by decide)

end Magnum.Vk.Implementation

namespace Magnum.Vk.Implementation

/-- A call that returns true has got to conflict resolution, and its module is what the
loop over the vertex outputs leaves. -/
theorem returned_true_scanned (fuel : Nat) (buf out : List Nat)
    (h : spirvPatchSwiftShaderConflictingMultiEntrypointLocations fuel buf = .returned true out) :
    ∃ s m, scannedInterfaces fuel buf = some s ∧
      vertexOutputLoop s.fragmentInterface s.vertexInterface (buf, s.maxLocation)
        = some (out, m) := by
  have h5 : ¬ buf.length < 5 := by
    intro h5
    unfold spirvPatchSwiftShaderConflictingMultiEntrypointLocations at h
    rw [if_pos h5] at h; cases h
  rcases returned_inv fuel buf out true h with ⟨h1, _⟩ | ⟨_, e, v, f, d, s, m, hE, hv, hf, hvs, hfs, hD, hV, hO⟩
  · cases h1
  · refine ⟨s, m, ?_, hO⟩
    unfold scannedInterfaces
    rw [if_neg h5, hE]
    simp only [hv, hf]
    rw [if_neg (by intro h'; rcases h' with h' | h'; exact hvs h'; exact hfs h'), hD]
    simp only [hV]

/-- The loop over the fragment outputs changes nothing when no fragment output conflicts
with the vertex output. -/
theorem fragmentOutputLoop_conflictFree (buf : List Nat) (fI : List EntryPointInterface)
    (vo : EntryPointInterface) (lv m : Nat) (hvo : vo.location = some lv)
    (hsc : vo.storageClass = SpvStorageClassOutput) (fos : List EntryPointInterface)
    (h : fos.all (fun fo => !conflict buf vo fo) = true) :
    fragmentOutputLoop fI lv fos (buf, m) = some (buf, m) := by
  induction fos with
  | nil => rfl
  | cons fo rest ih =>
    rw [List.all_cons, Bool.and_eq_true] at h
    rw [fragmentOutputLoop]
    by_cases hc : fo.storageClass ≠ SpvStorageClassOutput
    · rw [if_pos hc]; exact ih h.2
    · rw [if_neg hc]
      cases hl : fo.location with
      | none => exact ih h.2
      | some lf =>
        simp only
        have h1 := h.1
        simp only [conflict, hvo, hl, hsc, not_not.mp hc, true_and, Bool.not_eq_true',
          decide_eq_false_iff_not] at h1
        rw [if_neg h1]; exact ih h.2

/-- The loop over the vertex outputs changes nothing when there is no conflict. -/
theorem vertexOutputLoop_conflictFree (buf : List Nat) (fI : List EntryPointInterface)
    (m : Nat) (vos : List EntryPointInterface)
    (h : vos.all (fun vo => fI.all (fun fo => !conflict buf vo fo)) = true) :
    vertexOutputLoop fI vos (buf, m) = some (buf, m) := by
  induction vos with
  | nil => rfl
  | cons vo rest ih =>
    rw [List.all_cons, Bool.and_eq_true] at h
    rw [vertexOutputLoop]
    by_cases hc : vo.storageClass ≠ SpvStorageClassOutput
    · rw [if_pos hc]; exact ih h.2
    · rw [if_neg hc]
      cases hl : vo.location with
      | none => exact ih h.2
      | some lv =>
        simp only
        rw [fragmentOutputLoop_conflictFree buf fI vo lv m hl (not_not.mp hc) fI h.1]
        exact ih h.2

/-- C17: a call that returns on a module without a conflict (no vertex-side slot with
storage class Output and a recorded location has the location value of a fragment-side
slot with storage class Output and a recorded location) leaves the module as it was. -/
theorem no_conflict_no_mutation (fuel : Nat) (buf out : List Nat) (r : Bool)
    (h : spirvPatchSwiftShaderConflictingMultiEntrypointLocations fuel buf = .returned r out)
    (hno : noConflict fuel buf = true) : out = buf := by
  cases r with
  | false =>
    rcases returned_inv fuel buf out false h with ⟨_, h2⟩ | ⟨h1, _⟩
    · exact h2
    · cases h1
  | true =>
    obtain ⟨s, m, hs, hO⟩ := returned_true_scanned fuel buf out h
    unfold noConflict at hno
    rw [hs] at hno
    rw [vertexOutputLoop_conflictFree buf s.fragmentInterface s.maxLocation s.vertexInterface hno]
      at hO
    injection hO with hO
    injection hO with hO _
    exact hO.symm

/-- The module `noConflictSample`: the call returns true and the module is as it was. -/
theorem no_conflict_no_mutation_witness :
    spirvPatchSwiftShaderConflictingMultiEntrypointLocations 11 noConflictSample
      = .returned true noConflictSample ∧
    noConflict 11 noConflictSample = true ∧ noConflictSample = noConflictSample :=
  ⟨by decide, by decide,
    no_conflict_no_mutation 11 noConflictSample noConflictSample true (by decide) (by decide)⟩

end Magnum.Vk.Implementation

namespace Magnum.MeshTools

variable {α : Type}

/-- The flat normals are as many as the positions, when these come in triples. -/
theorem flatNormals_length [Field α] (sqrt : α → α) (k : Nat) (positions : List (Vector3 α))
    (h : positions.length = 3 * k) : (flatNormals sqrt positions).length = positions.length := by
  induction k generalizing positions with
  | zero =>
    cases positions with
    | nil => rfl
    | cons _ _ => simp at h
  | succ k ih =>
    match positions, h with
    | p0 :: p1 :: p2 :: rest, h =>
      simp only [flatNormals, List.length_cons]
      rw [ih rest (by simp only [List.length_cons] at h; omega)]

/-- The flat normals at the three slots of triangle `k` are the normalized face normal of
that triangle. -/
theorem flatNormals_getD [Field α] (sqrt : α → α) (k : Nat) (positions : List (Vector3 α))
    (h : 3 * k + 2 < positions.length) (j : Nat) (hj : j < 3) :
    (flatNormals sqrt positions).getD (3 * k + j) Vector3.zero
      = Vector3.normalized sqrt (faceNormal (positions.getD (3 * k) Vector3.zero)
          (positions.getD (3 * k + 1) Vector3.zero) (positions.getD (3 * k + 2) Vector3.zero)) := by
  induction k generalizing positions with
  | zero =>
    match positions, h with
    | p0 :: p1 :: p2 :: rest, _ =>
      interval_cases j <;> rfl
  | succ k ih =>
    match positions, h with
    | p0 :: p1 :: p2 :: rest, h =>
      have h' : 3 * k + 2 < rest.length := by simp only [List.length_cons] at h; omega
      have e0 : 3 * (k + 1) = 3 * k + 1 + 1 + 1 := by ring
      have e1 : 3 * (k + 1) + 1 = 3 * k + 1 + 1 + 1 + 1 := by ring
      have e2 : 3 * (k + 1) + 2 = 3 * k + 2 + 1 + 1 + 1 := by ring
      have ej : 3 * (k + 1) + j = 3 * k + j + 1 + 1 + 1 := by ring
      rw [ej, e1, e2, e0]
      simp only [flatNormals, List.getD_cons_succ]
      exact ih rest h'

/-- A vector that is not zero has a positive dot product with itself. -/
theorem Vector3.dot_self_pos [LinearOrderedField α] (c : Vector3 α) (hc : c ≠ Vector3.zero) :
    0 < Vector3.dot c c := by
  obtain ⟨x, y, z⟩ := c
  simp only [Vector3.dot]
  by_contra hle
  have hx := mul_self_nonneg x
  have hy := mul_self_nonneg y
  have hz := mul_self_nonneg z
  have h0 : x * x + y * y + z * z = 0 := le_antisymm (not_lt.mp hle) (by positivity)
  have hx0 : x * x = 0 := by linarith
  have hy0 : y * y = 0 := by linarith
  have hz0 : z * z = 0 := by linarith
  apply hc
  rw [mul_self_eq_zero] at hx0 hy0 hz0
  rw [hx0, hy0, hz0]; rfl

/-- A normalized vector has unit length, given a square root of its squared length that is
not zero. -/
theorem Vector3.normalized_dot_self [Field α] (sqrt : α → α) (c : Vector3 α)
    (hs : sqrt (Vector3.dot c c) * sqrt (Vector3.dot c c) = Vector3.dot c c)
    (hne : sqrt (Vector3.dot c c) ≠ 0) :
    Vector3.dot (Vector3.normalized sqrt c) (Vector3.normalized sqrt c) = 1 := by
  have key : Vector3.dot (Vector3.normalized sqrt c) (Vector3.normalized sqrt c)
      = Vector3.dot c c / (sqrt (Vector3.dot c c) * sqrt (Vector3.dot c c)) := by
    obtain ⟨x, y, z⟩ := c
    simp only [Vector3.normalized, Vector3.dot] at hne ⊢
    generalize sqrt (x * x + y * y + z * z) = s at hne ⊢
    field_simp
  rw [key, hs]
  exact div_self (by rw [← hs]; exact mul_ne_zero hne hne)

/-- The normalized cross product is perpendicular to the first factor. -/
theorem Vector3.normalized_cross_dot_left [Field α] (sqrt : α → α) (a b : Vector3 α) :
    Vector3.dot (Vector3.normalized sqrt (Vector3.cross a b)) a = 0 := by
  simp only [Vector3.normalized, Vector3.dot, Vector3.cross, div_eq_mul_inv]
  ring

/-- The normalized cross product is perpendicular to the second factor. -/
theorem Vector3.normalized_cross_dot_right [Field α] (sqrt : α → α) (a b : Vector3 α) :
    Vector3.dot (Vector3.normalized sqrt (Vector3.cross a b)) b = 0 := by
  simp only [Vector3.normalized, Vector3.dot, Vector3.cross, div_eq_mul_inv]
  ring

/-- C11, as stated, fails: on a degenerate triangle no square-root function makes the flat
normal a unit vector. -/
theorem flatNormals_degenerate_not_unit :
    ¬ ∃ (sqrt : ℚ → ℚ) (n : Vector3 ℚ),
      generateFlatNormals sqrt DegenerateTriangle = .ok [n, n, n] ∧ Vector3.dot n n = 1 := by
  rintro ⟨sqrt, n, h, hn⟩
  simp [generateFlatNormals, generateFlatNormalsInto, DegenerateTriangle, flatNormals, faceNormal,
    Vector3.normalized, Vector3.cross, Vector3.sub, Vector3.dot] at h
  rw [← h] at hn
  simp [Vector3.dot] at hn

/-- C11, amended: on positions that come in triples the flat normals are as many as the
positions, and for each triangle `k` whose face normal `c = (p1 - p0) × (p2 - p0)` is not
zero, with a square root of `c · c` at hand, the three normals of the triangle are one
vector `n` of unit length, perpendicular to `p1 - p0` and to `p2 - p0`, and a positive
multiple of `c`. -/
theorem generateFlatNormals_triangles [LinearOrderedField α] (sqrt : α → α)
    (positions : List (Vector3 α)) (h : positions.length % 3 = 0) :
    ∃ normals, generateFlatNormals sqrt positions = .ok normals ∧
      normals.length = positions.length ∧
      ∀ k, 3 * k + 2 < positions.length →
        let p0 := positions.getD (3 * k) Vector3.zero
        let p1 := positions.getD (3 * k + 1) Vector3.zero
        let p2 := positions.getD (3 * k + 2) Vector3.zero
        let c := faceNormal p0 p1 p2
        c ≠ Vector3.zero →
        0 ≤ sqrt (Vector3.dot c c) →
        sqrt (Vector3.dot c c) * sqrt (Vector3.dot c c) = Vector3.dot c c →
        ∃ n, normals.getD (3 * k) Vector3.zero = n ∧
          normals.getD (3 * k + 1) Vector3.zero = n ∧
          normals.getD (3 * k + 2) Vector3.zero = n ∧
          Vector3.dot n n = 1 ∧
          Vector3.dot n (Vector3.sub p1 p0) = 0 ∧
          Vector3.dot n (Vector3.sub p2 p0) = 0 ∧
          ∃ t, 0 < t ∧ n = ⟨t * c.x, t * c.y, t * c.z⟩ := by
  obtain ⟨m, hm⟩ : ∃ m, positions.length = 3 * m := ⟨positions.length / 3, by omega⟩
  have hlen := flatNormals_length sqrt m positions hm
  refine ⟨flatNormals sqrt positions, ?_, hlen, ?_⟩
  · simp only [generateFlatNormals, generateFlatNormalsInto, h, List.length_replicate,
      ne_eq, not_true_eq_false, if_false]
  · intro k hk p0 p1 p2 c hc hs0 hs
    have hpos := Vector3.dot_self_pos c hc
    have hsne : sqrt (Vector3.dot c c) ≠ 0 := by
      intro h0; rw [h0, mul_zero] at hs; rw [← hs] at hpos; exact lt_irrefl _ hpos
    have hspos : 0 < sqrt (Vector3.dot c c) := lt_of_le_of_ne hs0 (Ne.symm hsne)
    have g0 := flatNormals_getD sqrt k positions hk 0 (by omega)
    have g1 := flatNormals_getD sqrt k positions hk 1 (by omega)
    have g2 := flatNormals_getD sqrt k positions hk 2 (by omega)
    rw [Nat.add_zero] at g0
    refine ⟨Vector3.normalized sqrt c, g0, g1, g2,
      Vector3.normalized_dot_self sqrt c hs hsne,
      Vector3.normalized_cross_dot_left sqrt _ _,
      Vector3.normalized_cross_dot_right sqrt _ _, ?_⟩
    · refine ⟨(sqrt (Vector3.dot c c))⁻¹, inv_pos.mpr hspos, ?_⟩
      simp only [Vector3.normalized, div_eq_inv_mul]

/-- The first triangle of `TwoTriangles`: its face normal is `(0, 0, 2)`, of squared length
4 with the square root 2, and its three flat normals are one unit vector, a positive
multiple of `(0, 0, 2)`. -/
theorem generateFlatNormals_triangles_witness :
    ∃ normals n, generateFlatNormals sqrtRat TwoTriangles = .ok normals ∧
      normals.length = TwoTriangles.length ∧
      normals.getD 0 Vector3.zero = n ∧
      normals.getD 1 Vector3.zero = n ∧
      normals.getD 2 Vector3.zero = n ∧
      Vector3.dot n n = 1 ∧
      ∃ t : ℚ, 0 < t ∧ n = ⟨t * 0, t * 0, t * 2⟩ := by
  obtain ⟨normals, hok, hlen, htri⟩ :=
    generateFlatNormals_triangles sqrtRat TwoTriangles (by decide)
  have hc : faceNormal (TwoTriangles.getD 0 Vector3.zero) (TwoTriangles.getD 1 Vector3.zero)
      (TwoTriangles.getD 2 Vector3.zero) = (⟨0, 0, 2⟩ : Vector3 ℚ) := by
    simp [TwoTriangles, faceNormal, Vector3.cross, Vector3.sub]
    norm_num
  have hs : sqrtRat 4 = 2 := by
    simp [sqrtRat]
    norm_num
  obtain ⟨n, h0, h1, h2, hn, -, -, t, htpos, ht⟩ := htri 0 (by decide)
    (by rw [hc]; simp [Vector3.zero])
    (by rw [hc]; simp [Vector3.dot]; norm_num [hs])
    (by rw [hc]; simp [Vector3.dot]; norm_num [hs])
  rw [hc] at ht
  exact ⟨normals, n, hok, hlen, h0, h1, h2, hn, t, htpos, ht⟩

end Magnum.MeshTools

namespace Magnum.MeshTools

variable {α : Type}

end Magnum.MeshTools

namespace Magnum.Vk.Implementation

/-- The loop over `fragmentInput` does its writes. -/
theorem fragmentInputLoop_writes (slot lv new : Nat) (fis : List EntryPointInterface)
    (buf out : List Nat) (h : fragmentInputLoop lv new fis buf = some out) :
    out = (fragmentInputWrites slot lv new fis buf).foldl Write.apply buf := by
  induction fis with
  | nil => injection h with h; exact h.symm
  | cons fi rest ih =>
    rw [fragmentInputLoop] at h
    rw [fragmentInputWrites]
    by_cases hc : fi.storageClass ≠ SpvStorageClassInput
    · rw [if_pos hc] at h ⊢; exact ih h
    · rw [if_neg hc] at h ⊢
      cases hl : fi.location with
      | none => rw [hl] at h; cases h
      | some l =>
        rw [hl] at h
        simp only at h ⊢
        by_cases hw : word buf l = word buf lv
        · rw [if_pos hw] at h ⊢; injection h with h; exact h.symm
        · rw [if_neg hw] at h ⊢; exact ih h

/-- The loop over `fragmentOutput` does its writes. -/
theorem fragmentOutputLoop_writes (fI : List EntryPointInterface) (slot lv : Nat)
    (fos : List EntryPointInterface) (buf out : List Nat) (m m' : Nat)
    (h : fragmentOutputLoop fI lv fos (buf, m) = some (out, m')) :
    out = (fragmentOutputWrites fI slot lv fos (buf, m)).foldl Write.apply buf := by
  induction fos with
  | nil => injection h with h; injection h with h _; exact h.symm
  | cons fo rest ih =>
    rw [fragmentOutputLoop] at h
    rw [fragmentOutputWrites]
    by_cases hc : fo.storageClass ≠ SpvStorageClassOutput
    · rw [if_pos hc] at h ⊢; exact ih h
    · rw [if_neg hc] at h ⊢
      cases hl : fo.location with
      | none => rw [hl] at h; exact ih h
      | some l =>
        rw [hl] at h
        simp only at h ⊢
        by_cases hw : word buf lv = word buf l
        · rw [if_pos hw] at h ⊢
          cases hI : fragmentInputLoop lv ((m + 1) % 2 ^ 32) fI buf with
          | none => rw [hI] at h; cases h
          | some b =>
            rw [hI] at h
            injection h with h; injection h with h _
            rw [List.foldl_append, ← fragmentInputLoop_writes slot lv _ fI buf b hI]
            exact h.symm
        · rw [if_neg hw] at h ⊢; exact ih h

/-- The loop over `vertexOutput` does its writes. -/
theorem vertexOutputLoop_writes (fI : List EntryPointInterface) (slot : Nat)
    (vos : List EntryPointInterface) (buf out : List Nat) (m m' : Nat)
    (h : vertexOutputLoop fI vos (buf, m) = some (out, m')) :
    out = (vertexOutputWrites fI slot vos (buf, m)).foldl Write.apply buf := by
  induction vos generalizing slot buf m with
  | nil => injection h with h; injection h with h _; exact h.symm
  | cons vo rest ih =>
    rw [vertexOutputLoop] at h
    rw [vertexOutputWrites]
    by_cases hc : vo.storageClass ≠ SpvStorageClassOutput
    · rw [if_pos hc] at h ⊢; exact ih _ _ _ h
    · rw [if_neg hc] at h ⊢
      cases hl : vo.location with
      | none => rw [hl] at h; exact ih _ _ _ h
      | some l =>
        rw [hl] at h
        simp only at h ⊢
        cases hO : fragmentOutputLoop fI l fI (buf, m) with
        | none => rw [hO] at h; cases h
        | some s' =>
          obtain ⟨b, k⟩ := s'
          rw [hO] at h
          simp only at h ⊢
          rw [List.foldl_append, ← fragmentOutputLoop_writes fI slot l fI buf b m k hO]
          exact ih _ _ _ h

/-- A call that returns true leaves the module with its writes done. -/
theorem returned_true_writes (fuel : Nat) (buf out : List Nat)
    (h : spirvPatchSwiftShaderConflictingMultiEntrypointLocations fuel buf = .returned true out) :
    out = (writes fuel buf).foldl Write.apply buf := by
  obtain ⟨s, m, hs, hO⟩ := returned_true_scanned fuel buf out h
  unfold writes
  rw [hs]
  exact vertexOutputLoop_writes _ 0 _ buf out _ m hO

end Magnum.Vk.Implementation

namespace Magnum.Vk.Implementation

/-- The loop over `fragmentInput` writes nothing, or once through the location pointer of
a fragment-side slot of storage class Input. -/
theorem fragmentInputWrites_cases (slot lv new : Nat) (fis : List EntryPointInterface)
    (buf : List Nat) :
    fragmentInputWrites slot lv new fis buf = [] ∨
    ∃ fi ∈ fis, ∃ l, fi.storageClass = SpvStorageClassInput ∧ fi.location = some l ∧
      fragmentInputWrites slot lv new fis buf
        = [{ vertexSlot := slot, fragmentInput := true, location := l, value := new }] := by
  induction fis with
  | nil => exact Or.inl rfl
  | cons fi rest ih =>
    have hrest : fragmentInputWrites slot lv new rest buf = [] ∨
        ∃ fi' ∈ fi :: rest, ∃ l, fi'.storageClass = SpvStorageClassInput ∧
          fi'.location = some l ∧ fragmentInputWrites slot lv new rest buf
            = [{ vertexSlot := slot, fragmentInput := true, location := l, value := new }] := by
      rcases ih with h | ⟨fi', hmem, l, h1, h2, h3⟩
      · exact Or.inl h
      · exact Or.inr ⟨fi', List.mem_cons_of_mem _ hmem, l, h1, h2, h3⟩
    rw [fragmentInputWrites]
    by_cases hc : fi.storageClass ≠ SpvStorageClassInput
    · rw [if_pos hc]; exact hrest
    · rw [if_neg hc]
      cases hl : fi.location with
      | none => exact Or.inl rfl
      | some l =>
        simp only
        by_cases hw : word buf l = word buf lv
        · rw [if_pos hw]
          exact Or.inr ⟨fi, List.mem_cons_self _ _, l, not_not.mp hc, hl, rfl⟩
        · rw [if_neg hw]; exact hrest

/-- The loop over `fragmentOutput` writes nothing and leaves `maxLocation`, or it writes
the next location through the pointer of the vertex output, after at most one write of the
same value through the pointer of a fragment input. -/
theorem fragmentOutputWrites_cases (fI : List EntryPointInterface) (slot lv : Nat)
    (fos : List EntryPointInterface) (buf : List Nat) (m : Nat) :
    (fragmentOutputWrites fI slot lv fos (buf, m) = [] ∧
      ∀ s', fragmentOutputLoop fI lv fos (buf, m) = some s' → s' = (buf, m)) ∨
    (∃ pre, fragmentOutputWrites fI slot lv fos (buf, m)
        = pre ++ [{ vertexSlot := slot, fragmentInput := false, location := lv,
                    value := (m + 1) % 2 ^ 32 }] ∧
      (pre = [] ∨ ∃ fi ∈ fI, ∃ l, fi.storageClass = SpvStorageClassInput ∧
        fi.location = some l ∧
        pre = [{ vertexSlot := slot, fragmentInput := true, location := l,
                 value := (m + 1) % 2 ^ 32 }]) ∧
      ∀ s', fragmentOutputLoop fI lv fos (buf, m) = some s' → s'.2 = (m + 1) % 2 ^ 32) := by
  induction fos with
  | nil => exact Or.inl ⟨rfl, fun s' h => by injection h with h; exact h.symm⟩
  | cons fo rest ih =>
    rw [fragmentOutputWrites, fragmentOutputLoop]
    by_cases hc : fo.storageClass ≠ SpvStorageClassOutput
    · rw [if_pos hc, if_pos hc]; exact ih
    · rw [if_neg hc, if_neg hc]
      cases hl : fo.location with
      | none => exact ih
      | some l =>
        simp only
        by_cases hw : word buf lv = word buf l
        · rw [if_pos hw, if_pos hw]
          refine Or.inr ⟨_, rfl, fragmentInputWrites_cases slot lv _ fI buf, ?_⟩
          intro s' h
          cases hI : fragmentInputLoop lv ((m + 1) % 2 ^ 32) fI buf with
          | none => rw [hI] at h; cases h
          | some b => rw [hI] at h; injection h with h; rw [← h]
        · rw [if_neg hw, if_neg hw]; exact ih

/-- One round of the loop over `vertexOutput`: the vertex output is skipped or in no
conflict, and the writes are those of the rounds that follow; or it is in conflict, and
gets the next location. The loop that stops short writes nothing. -/
theorem vertexOutputWrites_cons (fI : List EntryPointInterface) (slot : Nat)
    (vo : EntryPointInterface) (rest : List EntryPointInterface) (buf : List Nat) (m : Nat) :
    vertexOutputWrites fI slot (vo :: rest) (buf, m) = [] ∨
    vertexOutputWrites fI slot (vo :: rest) (buf, m)
      = vertexOutputWrites fI (slot + 1) rest (buf, m) ∨
    ∃ lv pre buf', vo.storageClass = SpvStorageClassOutput ∧ vo.location = some lv ∧
      (pre = [] ∨ ∃ fi ∈ fI, ∃ l, fi.storageClass = SpvStorageClassInput ∧
        fi.location = some l ∧
        pre = [{ vertexSlot := slot, fragmentInput := true, location := l,
                 value := (m + 1) % 2 ^ 32 }]) ∧
      vertexOutputWrites fI slot (vo :: rest) (buf, m)
        = pre ++ { vertexSlot := slot, fragmentInput := false, location := lv,
                   value := (m + 1) % 2 ^ 32 } ::
            vertexOutputWrites fI (slot + 1) rest (buf', (m + 1) % 2 ^ 32) := by
  rw [vertexOutputWrites]
  by_cases hc : vo.storageClass ≠ SpvStorageClassOutput
  · rw [if_pos hc]; exact Or.inr (Or.inl rfl)
  · rw [if_neg hc]
    cases hl : vo.location with
    | none => exact Or.inr (Or.inl rfl)
    | some lv =>
      simp only
      cases hO : fragmentOutputLoop fI lv fI (buf, m) with
      | none => exact Or.inl rfl
      | some s' =>
        simp only
        rcases fragmentOutputWrites_cases fI slot lv fI buf m with ⟨h1, h2⟩ | ⟨pre, h1, h2, h3⟩
        · rw [h1, h2 s' hO]; exact Or.inr (Or.inl rfl)
        · obtain ⟨b, k⟩ := s'
          have hk : k = (m + 1) % 2 ^ 32 := h3 _ hO
          subst hk
          refine Or.inr (Or.inr ⟨lv, pre, b, not_not.mp hc, rfl, h2, ?_⟩)
          rw [h1, List.append_assoc]; rfl

end Magnum.Vk.Implementation

namespace Magnum.Vk.Implementation

/-- The writes through the pointers of the vertex outputs, after a round with a conflict. -/
theorem filter_conflict_round (fI : List EntryPointInterface) (slot lv v : Nat)
    (pre tail : List Write)
    (hpre : pre = [] ∨ ∃ fi ∈ fI, ∃ l, fi.storageClass = SpvStorageClassInput ∧
      fi.location = some l ∧
      pre = [{ vertexSlot := slot, fragmentInput := true, location := l, value := v }]) :
    (pre ++ { vertexSlot := slot, fragmentInput := false, location := lv, value := v } :: tail).filter
        (fun w => !w.fragmentInput)
      = { vertexSlot := slot, fragmentInput := false, location := lv, value := v } ::
          tail.filter (fun w => !w.fragmentInput) := by
  rcases hpre with h | ⟨_, _, _, _, _, h⟩ <;> subst h <;> rfl

/-- Every write belongs to a vertex-side slot of storage class Output with a location:
the write of line 179 goes through its pointer, the write of line 175 through the pointer
of a fragment-side slot of storage class Input. -/
theorem vertexOutputWrites_slot (fI : List EntryPointInterface) (slot : Nat)
    (vos : List EntryPointInterface) (buf : List Nat) (m : Nat) :
    ∀ w ∈ vertexOutputWrites fI slot vos (buf, m),
      slot ≤ w.vertexSlot ∧
      ∃ vo lv, vos[w.vertexSlot - slot]? = some vo ∧
        vo.storageClass = SpvStorageClassOutput ∧ vo.location = some lv ∧
        (w.fragmentInput = false → w.location = lv) ∧
        (w.fragmentInput = true → ∃ fi ∈ fI, fi.storageClass = SpvStorageClassInput ∧
          fi.location = some w.location) := by
  induction vos generalizing slot buf m with
  | nil => intro w hw; cases hw
  | cons vo rest ih =>
    have hrest : ∀ b k, ∀ w ∈ vertexOutputWrites fI (slot + 1) rest (b, k),
        slot ≤ w.vertexSlot ∧
        ∃ vo' lv, (vo :: rest)[w.vertexSlot - slot]? = some vo' ∧
          vo'.storageClass = SpvStorageClassOutput ∧ vo'.location = some lv ∧
          (w.fragmentInput = false → w.location = lv) ∧
          (w.fragmentInput = true → ∃ fi ∈ fI, fi.storageClass = SpvStorageClassInput ∧
            fi.location = some w.location) := by
      intro b k w hw
      obtain ⟨h1, vo', lv, h2, h3⟩ := ih (slot + 1) b k w hw
      refine ⟨by omega, vo', lv, ?_, h3⟩
      have : w.vertexSlot - slot = (w.vertexSlot - (slot + 1)) + 1 := by omega
      rw [this, List.getElem?_cons_succ]; exact h2
    rcases vertexOutputWrites_cons fI slot vo rest buf m with h | h | ⟨lv, pre, b, hsc, hl, hpre, h⟩
    · rw [h]; intro w hw; cases hw
    · rw [h]; exact hrest buf m
    · rw [h]
      intro w hw
      rw [List.mem_append, List.mem_cons] at hw
      rcases hw with hw | hw | hw
      · rcases hpre with hp | ⟨fi, hfi, l, hfs, hfl, hp⟩
        · rw [hp] at hw; cases hw
        · rw [hp, List.mem_singleton] at hw
          subst hw
          refine ⟨le_refl _, vo, lv, by simp, hsc, hl, fun h => (by cases h), fun _ => ?_⟩
          exact ⟨fi, hfi, hfs, hfl⟩
      · subst hw
        exact ⟨le_refl _, vo, lv, by simp, hsc, hl, fun _ => rfl, fun h => by cases h⟩
      · exact hrest _ _ w hw

/-- The vertex outputs are rewritten in the order of the interface list, each at most
once. -/
theorem vertexOutputWrites_pairwise (fI : List EntryPointInterface) (slot : Nat)
    (vos : List EntryPointInterface) (buf : List Nat) (m : Nat) :
    (((vertexOutputWrites fI slot vos (buf, m)).filter fun w => !w.fragmentInput).map
      fun w => w.vertexSlot).Pairwise (· < ·) := by
  induction vos generalizing slot buf m with
  | nil => exact List.Pairwise.nil
  | cons vo rest ih =>
    rcases vertexOutputWrites_cons fI slot vo rest buf m with h | h | ⟨lv, pre, b, hsc, hl, hpre, h⟩
    · rw [h]; exact List.Pairwise.nil
    · rw [h]; exact ih _ _ _
    · rw [h, filter_conflict_round fI slot lv _ pre _ hpre, List.map_cons, List.pairwise_cons]
      refine ⟨?_, ih _ _ _⟩
      intro k hk
      rw [List.mem_map] at hk
      obtain ⟨w, hw, rfl⟩ := hk
      have := (vertexOutputWrites_slot fI (slot + 1) rest b _ w (List.mem_of_mem_filter hw)).1
      show slot < w.vertexSlot
      omega

/-- The vertex output that is number `j + 1` among those rewritten gets the location
`maxLocation + (j + 1)`, modulo 2^32. -/
theorem vertexOutputWrites_value (fI : List EntryPointInterface) (slot : Nat)
    (vos : List EntryPointInterface) (buf : List Nat) (m : Nat) :
    ∀ j w, ((vertexOutputWrites fI slot vos (buf, m)).filter fun w => !w.fragmentInput)[j]?
        = some w → w.value = (m + (j + 1)) % 2 ^ 32 := by
  induction vos generalizing slot buf m with
  | nil => intro j w hw; simp [vertexOutputWrites] at hw
  | cons vo rest ih =>
    rcases vertexOutputWrites_cons fI slot vo rest buf m with h | h | ⟨lv, pre, b, hsc, hl, hpre, h⟩
    · rw [h]; intro j w hw; simp at hw
    · rw [h]; exact ih _ _ _
    · rw [h, filter_conflict_round fI slot lv _ pre _ hpre]
      intro j w hw
      cases j with
      | zero =>
        rw [List.getElem?_cons_zero] at hw
        injection hw with hw
        rw [← hw]
      | succ j =>
        rw [List.getElem?_cons_succ] at hw
        rw [ih _ _ _ j w hw]
        omega

/-- Every write has the value of a write through the pointer of a vertex output. -/
theorem vertexOutputWrites_value_mem (fI : List EntryPointInterface) (slot : Nat)
    (vos : List EntryPointInterface) (buf : List Nat) (m : Nat) :
    ∀ w ∈ vertexOutputWrites fI slot vos (buf, m),
      ∃ j, j < ((vertexOutputWrites fI slot vos (buf, m)).filter
          fun w => !w.fragmentInput).length ∧ w.value = (m + (j + 1)) % 2 ^ 32 := by
  induction vos generalizing slot buf m with
  | nil => intro w hw; cases hw
  | cons vo rest ih =>
    rcases vertexOutputWrites_cons fI slot vo rest buf m with h | h | ⟨lv, pre, b, hsc, hl, hpre, h⟩
    · rw [h]; intro w hw; cases hw
    · rw [h]; exact ih _ _ _
    · rw [h, filter_conflict_round fI slot lv _ pre _ hpre]
      intro w hw
      rw [List.mem_append, List.mem_cons] at hw
      rw [List.length_cons]
      rcases hw with hw | hw | hw
      · rcases hpre with hp | ⟨fi, hfi, l, hfs, hfl, hp⟩
        · rw [hp] at hw; cases hw
        · rw [hp, List.mem_singleton] at hw
          subst hw
          exact ⟨0, by omega, rfl⟩
      · subst hw
        exact ⟨0, by omega, rfl⟩
      · obtain ⟨j, hj, hv⟩ := ih _ _ _ w hw
        refine ⟨j + 1, by omega, ?_⟩
        rw [hv]; omega

/-- The first write has the value `maxLocation + 1`, modulo 2^32. -/
theorem vertexOutputWrites_head (fI : List EntryPointInterface) (slot : Nat)
    (vos : List EntryPointInterface) (buf : List Nat) (m : Nat) :
    ∀ w, (vertexOutputWrites fI slot vos (buf, m)).head? = some w →
      w.value = (m + 1) % 2 ^ 32 := by
  induction vos generalizing slot buf m with
  | nil => intro w hw; cases hw
  | cons vo rest ih =>
    rcases vertexOutputWrites_cons fI slot vo rest buf m with h | h | ⟨lv, pre, b, hsc, hl, hpre, h⟩
    · rw [h]; intro w hw; cases hw
    · rw [h]; exact ih _ _ _
    · rw [h]
      intro w hw
      rcases hpre with hp | ⟨fi, hfi, l, hfs, hfl, hp⟩
      · subst hp
        injection hw with hw; rw [← hw]
      · subst hp
        injection hw with hw; rw [← hw]

end Magnum.Vk.Implementation

namespace Magnum.Vk.Implementation

/-- How the patcher gets to conflict resolution. -/
theorem scanned_inv (fuel : Nat) (buf : List Nat) (s : Interfaces)
    (h : scannedInterfaces fuel buf = some s) :
    ∃ (e : EntryPoints) (v f : ArrayView) (d : Interfaces),
      entryPointLoop buf fuel { data := 5, vertexEntryPoint := none, fragmentEntryPoint := none }
        = .next e ∧
      e.vertexEntryPoint = some v ∧ e.fragmentEntryPoint = some f ∧
      selectedEntryPoints fuel buf = some (v, f) ∧
      (entryPointIds buf v).size ≠ 0 ∧ (entryPointIds buf f).size ≠ 0 ∧
      decorationLoop buf (entryPointIds buf v) (entryPointIds buf f) fuel
        { data := e.data, maxLocation := 0,
          vertexInterface := List.replicate (entryPointIds buf v).size {},
          fragmentInterface := List.replicate (entryPointIds buf f).size {} } = some d ∧
      variableLoop buf (entryPointIds buf v) (entryPointIds buf f) fuel d = .next s := by
  unfold scannedInterfaces at h
  by_cases h5 : buf.length < 5
  · rw [if_pos h5] at h; cases h
  rw [if_neg h5] at h
  cases hE : entryPointLoop buf fuel
      { data := 5, vertexEntryPoint := none, fragmentEntryPoint := none } with
  | outOfFuel => rw [hE] at h; cases h
  | returnFalse => rw [hE] at h; cases h
  | next e =>
    rw [hE] at h
    simp only at h
    cases hv : e.vertexEntryPoint with
    | none => rw [hv] at h; cases h
    | some v =>
      cases hf : e.fragmentEntryPoint with
      | none => rw [hv, hf] at h; cases h
      | some f =>
        rw [hv, hf] at h
        simp only at h
        by_cases hids : (entryPointIds buf v).size = 0 ∨ (entryPointIds buf f).size = 0
        · rw [if_pos hids] at h; cases h
        · rw [if_neg hids] at h
          cases hD : decorationLoop buf (entryPointIds buf v) (entryPointIds buf f) fuel
              { data := e.data, maxLocation := 0,
                vertexInterface := List.replicate (entryPointIds buf v).size {},
                fragmentInterface := List.replicate (entryPointIds buf f).size {} } with
          | none => rw [hD] at h; cases h
          | some d =>
            rw [hD] at h
            simp only at h
            cases hV : variableLoop buf (entryPointIds buf v) (entryPointIds buf f) fuel d with
            | outOfFuel => rw [hV] at h; cases h
            | returnFalse => rw [hV] at h; cases h
            | next s' =>
              rw [hV] at h
              injection h with h
              subst h
              refine ⟨e, v, f, d, rfl, hv, hf, ?_, fun h => hids (Or.inl h),
                fun h => hids (Or.inr h), hD, hV⟩
              unfold selectedEntryPoints
              rw [hE]
              simp only [hv, hf]

/-- A property of the slots that holds for the empty slots and that the bodies of the
decoration loop and of the variable loop keep holds at the start of conflict
resolution. -/
theorem scanned_invariant (fuel : Nat) (buf : List Nat) (s : Interfaces)
    (h : scannedInterfaces fuel buf = some s) (P : ArrayView → ArrayView → Slots → Prop)
    (h0 : ∀ vIds fIds : ArrayView, P vIds fIds
      { maxLocation := 0, vertexInterface := List.replicate vIds.size {},
        fragmentInterface := List.replicate fIds.size {} })
    (hdec : ∀ vIds fIds s1 s2 view, P vIds fIds s1 →
      decorationBody buf vIds fIds s1 view = some s2 → P vIds fIds s2)
    (hvar : ∀ vIds fIds s1 s2 view, P vIds fIds s1 →
      variableBody buf vIds fIds s1 view = some s2 → P vIds fIds s2) :
    ∃ v f, selectedEntryPoints fuel buf = some (v, f) ∧
      P (entryPointIds buf v) (entryPointIds buf f) s.slots := by
  obtain ⟨e, v, f, d, _, _, _, hsel, _, _, hD, hV⟩ := scanned_inv fuel buf s h
  refine ⟨v, f, hsel, ?_⟩
  have hd : P (entryPointIds buf v) (entryPointIds buf f) d.slots := by
    have key := decorationLoop_eq_scanLoop buf (entryPointIds buf v) (entryPointIds buf f) fuel
      { data := e.data, maxLocation := 0,
        vertexInterface := List.replicate (entryPointIds buf v).size {},
        fragmentInterface := List.replicate (entryPointIds buf f).size {} }
    rw [hD] at key
    obtain ⟨⟨p, s'⟩, hscan, hd⟩ := Scan.map_eq_next _ _ _ key.symm
    have hrun := scanLoop_next buf _ _ fuel _ _ p s' hscan
    have := runBody_invariant (decorationBody buf (entryPointIds buf v) (entryPointIds buf f))
      (P (entryPointIds buf v) (entryPointIds buf f)) _ _ _ (h0 _ _)
      (fun view _ s1 s2 h1 h2 => hdec _ _ s1 s2 view h1 h2) hrun.1
    rw [← hd]
    exact this
  rw [variableLoop_eq_scanLoop] at hV
  obtain ⟨⟨p, s'⟩, hscan, hs⟩ := Scan.map_eq_next _ _ _ hV
  have hrun := scanLoop_next buf _ _ fuel _ _ p s' hscan
  have := runBody_invariant (variableBody buf (entryPointIds buf v) (entryPointIds buf f))
    (P (entryPointIds buf v) (entryPointIds buf f)) _ _ _ hd
    (fun view _ s1 s2 h1 h2 => hvar _ _ s1 s2 view h1 h2) hrun.1
  rw [← hs]
  exact this

end Magnum.Vk.Implementation

namespace Magnum.Vk.Implementation

/-- The slot loop leaves the slots when no ID matches, or updates the slot of the first
matching ID. -/
theorem updateInterface_first (buf : List Nat) (ids : ArrayView) (id : Nat)
    (update : EntryPointInterface → EntryPointInterface) :
    ∀ (n i : Nat) (interface : List EntryPointInterface),
      updateInterface buf ids id update n i interface = interface ∨
      ∃ k, i ≤ k ∧ k < i + n ∧ word buf (ids.data + k) = id ∧
        (∀ j, i ≤ j → j < k → word buf (ids.data + j) ≠ id) ∧
        updateInterface buf ids id update n i interface = interface.modify update k := by
  intro n
  induction n with
  | zero => intro i interface; exact Or.inl rfl
  | succ n ih =>
    intro i interface
    rw [updateInterface]
    by_cases h : id = word buf (ids.data + i)
    · rw [if_pos h]
      exact Or.inr ⟨i, le_refl _, by omega, h.symm, fun j h1 h2 => by omega, rfl⟩
    · rw [if_neg h]
      rcases ih (i + 1) interface with h' | ⟨k, h1, h2, h3, h4, h5⟩
      · exact Or.inl h'
      · refine Or.inr ⟨k, by omega, by omega, h3, ?_, h5⟩
        intro j hj1 hj2
        by_cases hji : j = i
        · subst hji; exact fun h' => h h'.symm
        · exact h4 j (by omega) hj2

/-- The empty slots are in step with the ID list. -/
theorem indexed_replicate (buf : List Nat) (ids : ArrayView) :
    Indexed buf ids 0 (List.replicate ids.size {}) := by
  refine ⟨List.length_replicate _ _, ?_⟩
  intro i e l he hl
  rw [List.getElem?_replicate] at he
  split at he
  · injection he with he; rw [← he] at hl; cases hl
  · cases he

/-- Slots in step with the ID list stay so under a larger `maxLocation`. -/
theorem Indexed.of_le (buf : List Nat) (ids : ArrayView) (m m' : Nat)
    (interface : List EntryPointInterface) (hm : m ≤ m') (h : Indexed buf ids m interface) :
    Indexed buf ids m' interface :=
  ⟨h.1, fun i e l he hl =>
    ⟨(h.2 i e l he hl).1, (h.2 i e l he hl).2.1, (h.2 i e l he hl).2.2.1,
      le_trans (h.2 i e l he hl).2.2.2 hm⟩⟩

/-- The slot loop of a decoration keeps the slots in step with the ID list. -/
theorem indexed_decoration (buf : List Nat) (ids : ArrayView) (m d : Nat)
    (interface : List EntryPointInterface) (h : Indexed buf ids m interface) :
    Indexed buf ids (max m (word buf (d + 3)))
      (updateInterface buf ids (word buf (d + 1)) (fun e => { e with location := some (d + 3) })
        ids.size 0 interface) := by
  rcases updateInterface_first buf ids (word buf (d + 1))
    (fun e => { e with location := some (d + 3) }) ids.size 0 interface
    with h' | ⟨k, _, _, hk, hfirst, h'⟩
  · rw [h']; exact Indexed.of_le buf ids _ _ _ (le_max_left _ _) h
  · rw [h']
    refine ⟨by rw [List.length_modify]; exact h.1, ?_⟩
    intro i e l he hl
    by_cases hki : k = i
    · subst hki
      rw [List.getElem?_modify_eq] at he
      cases hi : interface[k]? with
      | none => rw [hi] at he; cases he
      | some e' =>
        rw [hi] at he
        injection he with he
        rw [← he] at hl
        injection hl with hl
        subst hl
        refine ⟨by omega, ?_, ?_, le_max_right _ _⟩
        · rw [show d + 3 - 2 = d + 1 by omega]; exact hk.symm
        · intro j hj; rw [hk]; exact hfirst j (Nat.zero_le _) hj
    · rw [List.getElem?_modify_ne _ _ hki] at he
      obtain ⟨h1, h2, h3, h4⟩ := h.2 i e l he hl
      exact ⟨h1, h2, h3, le_trans h4 (le_max_left _ _)⟩

/-- The slot loop of a variable keeps the slots in step with the ID list. -/
theorem indexed_variable (buf : List Nat) (ids : ArrayView) (m id sc : Nat)
    (interface : List EntryPointInterface) (h : Indexed buf ids m interface) :
    Indexed buf ids m
      (updateInterface buf ids id (fun e => { e with storageClass := sc })
        ids.size 0 interface) := by
  rcases updateInterface_first buf ids id
    (fun e => { e with storageClass := sc }) ids.size 0 interface
    with h' | ⟨k, _, _, _, _, h'⟩
  · rw [h']; exact h
  · rw [h']
    refine ⟨by rw [List.length_modify]; exact h.1, ?_⟩
    intro i e l he hl
    by_cases hki : k = i
    · subst hki
      rw [List.getElem?_modify_eq] at he
      cases hi : interface[k]? with
      | none => rw [hi] at he; cases he
      | some e' =>
        rw [hi] at he
        injection he with he
        rw [← he] at hl
        exact h.2 k e' l hi hl
    · rw [List.getElem?_modify_ne _ _ hki] at he
      exact h.2 i e l he hl

/-- At the start of conflict resolution the slots of both interfaces are in step with the
ID lists of the selected entry points. -/
theorem scanned_indexed (fuel : Nat) (buf : List Nat) (s : Interfaces)
    (h : scannedInterfaces fuel buf = some s) :
    ∃ v f, selectedEntryPoints fuel buf = some (v, f) ∧
      Indexed buf (entryPointIds buf v) s.maxLocation s.vertexInterface ∧
      Indexed buf (entryPointIds buf f) s.maxLocation s.fragmentInterface := by
  refine scanned_invariant fuel buf s h (fun vIds fIds s => s.Indexed buf vIds fIds)
    (fun vIds fIds => ⟨indexed_replicate buf vIds, indexed_replicate buf fIds⟩) ?_ ?_
  · intro vIds fIds s1 s2 dec hs hb
    unfold decorationBody at hb
    by_cases hskip : dec.size < 4 ∨ word buf (dec.data + 2) ≠ SpvDecorationLocation
    · rw [if_pos hskip] at hb
      injection hb with hb; rw [← hb]; exact hs
    · rw [if_neg hskip] at hb
      injection hb with hb; rw [← hb]
      exact ⟨indexed_decoration buf vIds _ _ _ hs.1, indexed_decoration buf fIds _ _ _ hs.2⟩
  · intro vIds fIds s1 s2 var hs hb
    unfold variableBody at hb
    by_cases hsize : var.size < 4
    · rw [if_pos hsize] at hb; cases hb
    · rw [if_neg hsize] at hb
      injection hb with hb; rw [← hb]
      exact ⟨indexed_variable buf vIds _ _ _ _ hs.1, indexed_variable buf fIds _ _ _ _ hs.2⟩

end Magnum.Vk.Implementation

namespace Magnum.Vk.Implementation

/-- The interface-ID list of an entry point has no more words than the entry point. -/
theorem entryPointIdsLoop_size_le (buf : List Nat) (ep : ArrayView) :
    ∀ n i, (entryPointIdsLoop buf ep n i).size ≤ ep.size := by
  intro n
  induction n with
  | zero => intro i; exact Nat.zero_le _
  | succ n ih =>
    intro i
    rw [entryPointIdsLoop]
    split
    · exact Nat.sub_le _ _
    · exact ih (i + 1)

/-- A module of 32-bit words has 32-bit words at every offset. -/
theorem word_lt (buf : List Nat) (hw : ∀ w ∈ buf, w < 2 ^ 32) (i : Nat) :
    word buf i < 2 ^ 32 := by
  unfold word
  rw [List.getD_eq_getElem?_getD]
  cases h : buf[i]? with
  | none => exact Nat.pos_pow_of_pos 32 (by omega)
  | some w => exact hw w (List.getElem?_mem h)

/-- In a module of 32-bit words the selected entry points have fewer than 2^16 interface
IDs. -/
theorem selectedEntryPoints_size_lt (fuel : Nat) (buf : List Nat) (v f : ArrayView)
    (hw : ∀ w ∈ buf, w < 2 ^ 32) (h : selectedEntryPoints fuel buf = some (v, f)) :
    (entryPointIds buf v).size < 2 ^ 16 ∧ (entryPointIds buf f).size < 2 ^ 16 := by
  have hs := selectedEntryPoints_sound fuel buf v f h
  have hv : v.size < 2 ^ 16 := by
    rw [hs.1.2.1, wordCountAt, Nat.shiftRight_eq_div_pow]
    have := word_lt buf hw v.data
    omega
  have hf : f.size < 2 ^ 16 := by
    rw [hs.2.2.1, wordCountAt, Nat.shiftRight_eq_div_pow]
    have := word_lt buf hw f.data
    omega
  exact ⟨lt_of_le_of_lt (entryPointIdsLoop_size_le buf v _ _) hv,
    lt_of_le_of_lt (entryPointIdsLoop_size_le buf f _ _) hf⟩

/-- Two slots of an interface in step with its ID list have different location
pointers. -/
theorem Indexed.pointer_ne (buf : List Nat) (ids : ArrayView) (m : Nat)
    (interface : List EntryPointInterface) (h : Indexed buf ids m interface)
    (i j : Nat) (ei ej : EntryPointInterface) (l : Nat) (hij : i ≠ j)
    (hi : interface[i]? = some ei) (hj : interface[j]? = some ej)
    (hli : ei.location = some l) (hlj : ej.location = some l) : False := by
  obtain ⟨_, h1, h2, _⟩ := h.2 i ei l hi hli
  obtain ⟨_, h3, h4, _⟩ := h.2 j ej l hj hlj
  rcases Nat.lt_or_gt_of_ne hij with hlt | hlt
  · exact h4 i hlt (by rw [← h1, ← h3])
  · exact h2 j hlt (by rw [← h1, ← h3])

/-- A strictly increasing list of numbers below `n` has at most `n` elements. -/
theorem length_le_of_pairwise_lt (n : Nat) :
    ∀ (l : List Nat) (a : Nat), l.Pairwise (· < ·) → (∀ x ∈ l, a ≤ x ∧ x < n) →
      l.length + a ≤ n ∨ l = [] := by
  intro l
  induction l with
  | nil => intro a _ _; exact Or.inr rfl
  | cons x xs ih =>
    intro a hp hb
    rw [List.pairwise_cons] at hp
    have hx := hb x (List.mem_cons_self _ _)
    rcases ih (x + 1) hp.2 (fun y hy =>
      ⟨hp.1 y hy, (hb y (List.mem_cons_of_mem _ hy)).2⟩) with h | h
    · left; rw [List.length_cons]; omega
    · left; rw [h, List.length_cons, List.length_nil]; omega

end Magnum.Vk.Implementation

namespace Magnum.Vk.Implementation

/-- The writes through the location pointers of the vertex outputs go to slots of storage
class Output in the order of the interface list, to each slot and each location word at
most once; the write number `j + 1` has the value `(M + (j + 1)) mod 2^32`, with `M` the
running maximum location at the start of conflict resolution; in a module of 32-bit words
no two of these values are equal; and the module a call that returns true leaves is the
module with the writes done. -/
theorem vertexWrites_successive (fuel : Nat) (buf : List Nat) (s : Interfaces)
    (hs : scannedInterfaces fuel buf = some s) (hw : ∀ w ∈ buf, w < 2 ^ 32) :
    ((vertexWrites fuel buf).map fun w => w.vertexSlot).Pairwise (· < ·) ∧
    (∀ j w, (vertexWrites fuel buf)[j]? = some w →
      w.value = (s.maxLocation + (j + 1)) % 2 ^ 32 ∧
      ∃ vertexOutput, s.vertexInterface[w.vertexSlot]? = some vertexOutput ∧
        vertexOutput.storageClass = SpvStorageClassOutput ∧
        vertexOutput.location = some w.location) ∧
    ((vertexWrites fuel buf).map fun w => w.location).Nodup ∧
    ((vertexWrites fuel buf).map fun w => w.value).Nodup ∧
    ∀ out, spirvPatchSwiftShaderConflictingMultiEntrypointLocations fuel buf = .returned true out →
      out = (writes fuel buf).foldl Write.apply buf := by
  obtain ⟨v, f, hsel, hv, _⟩ := scanned_indexed fuel buf s hs
  have hsize := (selectedEntryPoints_size_lt fuel buf v f hw hsel).1
  have hpair : ((vertexWrites fuel buf).map fun w => w.vertexSlot).Pairwise (· < ·) := by
    unfold vertexWrites writes
    rw [hs]
    exact vertexOutputWrites_pairwise _ 0 _ buf _
  have hslot : ∀ w ∈ vertexWrites fuel buf,
      ∃ vertexOutput, s.vertexInterface[w.vertexSlot]? = some vertexOutput ∧
        vertexOutput.storageClass = SpvStorageClassOutput ∧
        vertexOutput.location = some w.location := by
    intro w hmem
    unfold vertexWrites writes at hmem
    rw [hs, List.mem_filter] at hmem
    obtain ⟨_, vo, lv, h1, h2, h3, h4, _⟩ :=
      vertexOutputWrites_slot _ 0 _ buf _ w hmem.1
    have hfalse : w.fragmentInput = false := by
      have := hmem.2
      simp only [Bool.not_eq_true'] at this
      exact this
    exact ⟨vo, h1, h2, by rw [h3, h4 hfalse]⟩
  have hval : ∀ j w, (vertexWrites fuel buf)[j]? = some w →
      w.value = (s.maxLocation + (j + 1)) % 2 ^ 32 := by
    unfold vertexWrites writes
    rw [hs]
    exact vertexOutputWrites_value _ 0 _ buf _
  have hlen : (vertexWrites fuel buf).length < 2 ^ 16 := by
    have hb : ∀ x ∈ (vertexWrites fuel buf).map (fun w => w.vertexSlot),
        0 ≤ x ∧ x < s.vertexInterface.length := by
      intro x hx
      rw [List.mem_map] at hx
      obtain ⟨w, hmem, rfl⟩ := hx
      obtain ⟨vo, h1, _⟩ := hslot w hmem
      exact ⟨Nat.zero_le _, (List.getElem?_eq_some.mp h1).1⟩
    rcases length_le_of_pairwise_lt _ _ 0 hpair hb with h | h
    · rw [List.length_map, hv.1] at h; omega
    · rw [List.map_eq_nil_iff] at h; rw [h]; exact Nat.pos_pow_of_pos 16 (by omega)
  refine ⟨hpair, fun j w h => ⟨hval j w h, hslot w (List.getElem?_mem h)⟩, ?_, ?_,
    fun out h => returned_true_writes fuel buf out h⟩
  · rw [List.nodup_iff_getElem?_ne_getElem?]
    intro i j hij hj heq
    rw [List.length_map] at hj
    rw [List.getElem?_map, List.getElem?_map] at heq
    obtain ⟨wj, hwj⟩ : ∃ wj, (vertexWrites fuel buf)[j]? = some wj :=
      ⟨_, List.getElem?_eq_getElem hj⟩
    obtain ⟨wi, hwi⟩ : ∃ wi, (vertexWrites fuel buf)[i]? = some wi :=
      ⟨_, List.getElem?_eq_getElem (lt_trans hij hj)⟩
    rw [hwi, hwj] at heq
    simp only [Option.map_some', Option.some.injEq] at heq
    obtain ⟨vi, hi1, _, hi3⟩ := hslot wi (List.getElem?_mem hwi)
    obtain ⟨vj, hj1, _, hj3⟩ := hslot wj (List.getElem?_mem hwj)
    have hlt : wi.vertexSlot < wj.vertexSlot := by
      have := List.pairwise_iff_getElem.mp hpair i j
        (by rw [List.length_map]; exact lt_trans hij hj) (by rw [List.length_map]; exact hj) hij
      rw [List.getElem_map, List.getElem_map] at this
      have e1 := List.getElem?_eq_some.mp hwi
      have e2 := List.getElem?_eq_some.mp hwj
      obtain ⟨_, e1⟩ := e1
      obtain ⟨_, e2⟩ := e2
      rw [e1, e2] at this
      exact this
    rw [heq] at hi3
    exact Indexed.pointer_ne buf _ _ _ hv _ _ vi vj _ (Nat.ne_of_lt hlt) hi1 hj1 hi3 hj3
  · rw [List.nodup_iff_getElem?_ne_getElem?]
    intro i j hij hj heq
    rw [List.length_map] at hj
    rw [List.getElem?_map, List.getElem?_map] at heq
    obtain ⟨wj, hwj⟩ : ∃ wj, (vertexWrites fuel buf)[j]? = some wj :=
      ⟨_, List.getElem?_eq_getElem hj⟩
    obtain ⟨wi, hwi⟩ : ∃ wi, (vertexWrites fuel buf)[i]? = some wi :=
      ⟨_, List.getElem?_eq_getElem (lt_trans hij hj)⟩
    rw [hwi, hwj] at heq
    simp only [Option.map_some', Option.some.injEq] at heq
    rw [hval i wi hwi, hval j wj hwj] at heq
    omega

end Magnum.Vk.Implementation

namespace Magnum.Vk.Implementation

/-- Writes at other offsets leave a word. -/
theorem word_foldl_apply (l : Nat) :
    ∀ (ws : List Write) (buf : List Nat), (∀ w ∈ ws, w.location ≠ l) →
      word (ws.foldl Write.apply buf) l = word buf l := by
  intro ws
  induction ws with
  | nil => intro buf _; rfl
  | cons w rest ih =>
    intro buf h
    rw [List.foldl_cons, ih _ (fun w' hw' => h w' (List.mem_cons_of_mem _ hw'))]
    exact word_set_ne buf _ _ _ (fun h' => h w (List.mem_cons_self _ _) h'.symm)

/-- C19, as stated, fails: in `sharedSample` the ID 10 is in both interface lists, its
location word at offset 20 is the location of the fragment-side slot, of storage class
Output, and the call writes 8 over the 7 in it. -/
theorem shared_fragment_output_rewritten :
    scannedInterfaces 11 sharedSample
      = some { data := 25, maxLocation := 7,
               vertexInterface := [{ location := some 20, storageClass := SpvStorageClassOutput }],
               fragmentInterface :=
                 [{ location := some 20, storageClass := SpvStorageClassOutput }] } ∧
    spirvPatchSwiftShaderConflictingMultiEntrypointLocations 11 sharedSample
      = .returned true (sharedSample.set 20 8) ∧
    word sharedSample 20 = 7 ∧ word (sharedSample.set 20 8) 20 = 8 := by
  decide

/-- C19, amended: when no ID is in both the interface-ID list of the selected vertex entry
point and that of the selected fragment entry point, a call that returns leaves the
location word of every fragment-side slot of storage class Output as it was; and, shared
IDs or not, every write goes through the location pointer of a vertex-side slot of
storage class Output or through that of a fragment-side slot of storage class Input. -/
theorem fragment_outputs_kept (fuel : Nat) (buf out : List Nat) (r : Bool) (s : Interfaces)
    (h : spirvPatchSwiftShaderConflictingMultiEntrypointLocations fuel buf = .returned r out)
    (hs : scannedInterfaces fuel buf = some s) :
    ((∀ v f, selectedEntryPoints fuel buf = some (v, f) →
        ∀ id, InView buf (entryPointIds buf v) id → ¬ InView buf (entryPointIds buf f) id) →
      ∀ fragmentOutput ∈ s.fragmentInterface,
        fragmentOutput.storageClass = SpvStorageClassOutput →
        ∀ l, fragmentOutput.location = some l → word out l = word buf l) ∧
    ∀ w ∈ writes fuel buf,
      (w.fragmentInput = false ∧ ∃ vertexOutput ∈ s.vertexInterface,
        vertexOutput.storageClass = SpvStorageClassOutput ∧
        vertexOutput.location = some w.location) ∨
      (w.fragmentInput = true ∧ ∃ fragmentInput ∈ s.fragmentInterface,
        fragmentInput.storageClass = SpvStorageClassInput ∧
        fragmentInput.location = some w.location) := by
  have hwrites : ∀ w ∈ writes fuel buf,
      ∃ vo lv, s.vertexInterface[w.vertexSlot]? = some vo ∧
        vo.storageClass = SpvStorageClassOutput ∧ vo.location = some lv ∧
        (w.fragmentInput = false → w.location = lv) ∧
        (w.fragmentInput = true → ∃ fi ∈ s.fragmentInterface,
          fi.storageClass = SpvStorageClassInput ∧ fi.location = some w.location) := by
    intro w hw
    unfold writes at hw
    rw [hs] at hw
    exact (vertexOutputWrites_slot _ 0 _ buf _ w hw).2
  constructor
  · intro hdisj fo hfo hsc l hl
    cases r with
    | false =>
      rcases returned_inv fuel buf out false h with ⟨_, h2⟩ | ⟨h1, _⟩
      · rw [h2]
      · cases h1
    | true =>
      rw [returned_true_writes fuel buf out h]
      apply word_foldl_apply
      intro w hw heq
      obtain ⟨v, f, hsel, hv, hf⟩ := scanned_indexed fuel buf s hs
      obtain ⟨j, hj⟩ := List.mem_iff_getElem?.mp hfo
      obtain ⟨vo, lv, h1, h2, h3, h4, h5⟩ := hwrites w hw
      cases hfi : w.fragmentInput with
      | false =>
        -- a write through the pointer of a vertex output: the ID would be in both lists
        have hwl := h4 hfi
        rw [heq] at hwl
        rw [← hwl] at h3
        obtain ⟨_, e1, _, _⟩ := hv.2 _ vo l h1 h3
        obtain ⟨_, e2, _, _⟩ := hf.2 j fo l hj hl
        have hi : w.vertexSlot < (entryPointIds buf v).size := by
          rw [← hv.1]; exact (List.getElem?_eq_some.mp h1).1
        have hj' : j < (entryPointIds buf f).size := by
          rw [← hf.1]; exact (List.getElem?_eq_some.mp hj).1
        exact hdisj v f hsel (word buf (l - 2)) ⟨_, hi, e1.symm⟩ ⟨j, hj', e2.symm⟩
      | true =>
        -- a write through the pointer of a fragment input: another slot, another pointer
        obtain ⟨fi, hfimem, hfisc, hfil⟩ := h5 hfi
        rw [heq] at hfil
        obtain ⟨j', hj'⟩ := List.mem_iff_getElem?.mp hfimem
        by_cases hjj : j' = j
        · subst hjj
          rw [hj] at hj'
          injection hj' with hj'
          rw [hj', hfisc] at hsc
          exact absurd hsc (by decide)
        · exact Indexed.pointer_ne buf _ _ _ hf j' j fi fo l hjj hj' hj hfil hl
  · intro w hw
    obtain ⟨vo, lv, h1, h2, h3, h4, h5⟩ := hwrites w hw
    cases hfi : w.fragmentInput with
    | false =>
      exact Or.inl ⟨rfl, vo, List.getElem?_mem h1, h2, by rw [h3, h4 hfi]⟩
    | true => exact Or.inr ⟨rfl, h5 hfi⟩

/-- The module `conflictSample`: the IDs 10 of the vertex entry point and 11, 12 of the
fragment entry point are different, and the location word of the output 11, at offset 25,
keeps its 7. -/
theorem fragment_outputs_kept_witness :
    word conflictSamplePatched 25 = word conflictSample 25 :=
  (fragment_outputs_kept 11 conflictSample conflictSamplePatched true
      { data := 42, maxLocation := 7,
        vertexInterface := [{ location := some 21, storageClass := SpvStorageClassOutput }],
        fragmentInterface := [{ location := some 25, storageClass := SpvStorageClassOutput },
          { location := some 29, storageClass := SpvStorageClassInput }] }
      (by decide) (by decide)).1
    (fun v f hsel id hv hf => by
      have hsel' : selectedEntryPoints 11 conflictSample = some (⟨5, 6⟩, ⟨11, 7⟩) := by decide
      rw [hsel'] at hsel
      injection hsel with hsel
      injection hsel with h1 h2
      subst h1; subst h2
      obtain ⟨i, hi, hvi⟩ := hv
      obtain ⟨j, hj, hfj⟩ := hf
      have e1 : entryPointIds conflictSample ⟨5, 6⟩ = ⟨10, 1⟩ := by decide
      have e2 : entryPointIds conflictSample ⟨11, 7⟩ = ⟨16, 2⟩ := by decide
      rw [e1] at hi hvi
      rw [e2] at hj hfj
      simp only at hi hj hvi hfj
      have hi0 : i = 0 := by omega
      subst hi0
      rw [← hvi] at hfj
      rcases (show j = 0 ∨ j = 1 by omega) with h | h <;> subst h <;> revert hfj <;> decide)
    { location := some 25, storageClass := SpvStorageClassOutput }
    (by decide) rfl 25 rfl

end Magnum.Vk.Implementation

namespace Magnum.Vk.Implementation

/-- C16, as stated, fails. In `earlyDecorationSample` a Location decoration with the
location 50 stands before the entry points, where the decoration loop does not look: the
maximum of the module is 50 and the value written is 8. In `wrapSample` the maximum is
2^32 - 1 and the value written is 0. -/
theorem new_location_not_fresh :
    (streamMaxLocation earlyDecorationInstructions = 50 ∧
      writes 12 earlyDecorationSample
        = [{ vertexSlot := 0, fragmentInput := true, location := 33, value := 8 },
           { vertexSlot := 0, fragmentInput := false, location := 25, value := 8 }] ∧
      spirvPatchSwiftShaderConflictingMultiEntrypointLocations 12 earlyDecorationSample
        = .returned true ((earlyDecorationSample.set 33 8).set 25 8)) ∧
    (streamMaxLocation wrapInstructions = 4294967295 ∧
      writes 11 wrapSample
        = [{ vertexSlot := 0, fragmentInput := true, location := 29, value := 0 },
           { vertexSlot := 0, fragmentInput := false, location := 21, value := 0 }] ∧
      spirvPatchSwiftShaderConflictingMultiEntrypointLocations 11 wrapSample
        = .returned true ((wrapSample.set 29 0).set 21 0)) := by
  decide

end Magnum.Vk.Implementation

namespace Magnum.Vk.Implementation

/-- A scanning loop on two lists of instructions, one after the other. -/
theorem scanWords_append {σ : Type} (op : Nat) (body : σ → ArrayView → List Nat → Option σ)
    (l2 : List (List Nat)) :
    ∀ (l1 : List (List Nat)) (data pos : Nat) (s : σ),
      scanWords op body data pos (l1 ++ l2) s
        = match scanWords op body data pos l1 s with
          | .next r => scanWords op body r.1 (pos + l1.flatten.length) l2 r.2
          | .returnFalse => .returnFalse
          | .outOfFuel => .outOfFuel := by
  intro l1
  induction l1 with
  | nil => intro data pos s; rfl
  | cons ins rest ih =>
    intro data pos s
    have e : pos + (ins :: rest).flatten.length = pos + ins.length + rest.flatten.length := by
      rw [List.flatten_cons, List.length_append]; omega
    rw [List.cons_append, scanWords, scanWords, e]
    by_cases hop : word ins 0 &&& 0xffff = op
    · rw [if_pos hop, if_pos hop]
      cases body s ⟨pos, ins.length⟩ ins with
      | none => rfl
      | some s' => exact ih _ _ _
    · rw [if_neg hop, if_neg hop]
      exact ih _ _ _

/-- A scanning loop on instructions of other opcodes leaves the scanner and the state. -/
theorem scanWords_no_match {σ : Type} (op : Nat) (body : σ → ArrayView → List Nat → Option σ) :
    ∀ (l : List (List Nat)) (data pos : Nat) (s : σ),
      (∀ ins ∈ l, word ins 0 &&& 0xffff ≠ op) →
      scanWords op body data pos l s = .next (data, s) := by
  intro l
  induction l with
  | nil => intro data pos s _; rfl
  | cons ins rest ih =>
    intro data pos s h
    rw [scanWords, if_neg (h ins (List.mem_cons_self _ _))]
    exact ih _ _ _ (fun i hi => h i (List.mem_cons_of_mem _ hi))

/-- A scanning loop that falls through leaves the scanner after the last instruction of
its opcode. -/
theorem scanWords_last_match {σ : Type} (op : Nat)
    (body : σ → ArrayView → List Nat → Option σ) (init after : List (List Nat))
    (ep : List Nat) (data pos : Nat) (s : σ) (r : Nat × σ)
    (hep : word ep 0 &&& 0xffff = op) (hafter : ∀ ins ∈ after, word ins 0 &&& 0xffff ≠ op)
    (h : scanWords op body data pos (init ++ ep :: after) s = .next r) :
    r.1 = pos + (init ++ [ep]).flatten.length := by
  rw [scanWords_append] at h
  cases h1 : scanWords op body data pos init s with
  | outOfFuel => rw [h1] at h; cases h
  | returnFalse => rw [h1] at h; cases h
  | next r1 =>
    rw [h1] at h
    simp only at h
    rw [scanWords, if_pos hep] at h
    cases hb : body r1.2 ⟨pos + init.flatten.length, ep.length⟩ ep with
    | none => rw [hb] at h; cases h
    | some s' =>
      rw [hb] at h
      simp only at h
      rw [scanWords_no_match op body after _ _ _ hafter] at h
      injection h with h
      rw [← h]
      simp only [List.flatten_append, List.flatten_cons, List.flatten_nil, List.append_nil,
        List.length_append]
      omega

/-- The decoration loop on a list of instructions leaves in `maxLocation` the maximum of
what it was and the locations of the Location decorations of the list. -/
theorem scanWords_decoration_maxLocation (buf : List Nat) (vIds fIds : ArrayView) :
    ∀ (l : List (List Nat)) (data pos : Nat) (s : Slots) (r : Nat × Slots),
      scanWords SpvOpDecorate (decorationWords buf vIds fIds) data pos l s = .next r →
      r.2.maxLocation = max s.maxLocation (streamMaxLocation l) := by
  intro l
  induction l with
  | nil =>
    intro data pos s r h
    injection h with h
    rw [← h, streamMaxLocation, Nat.max_zero]
  | cons ins rest ih =>
    intro data pos s r h
    rw [scanWords] at h
    rw [streamMaxLocation]
    by_cases hop : word ins 0 &&& 0xffff = SpvOpDecorate
    · rw [if_pos hop] at h
      unfold decorationWords at h
      by_cases hskip : (⟨pos, ins.length⟩ : ArrayView).size < 4 ∨
          word ins 2 ≠ SpvDecorationLocation
      · rw [if_pos hskip] at h
        simp only at h
        have hnot : ¬ IsLocationDecoration ins := by
          intro ⟨_, h2, h3⟩
          rcases hskip with h' | h'
          · simp only at h'; omega
          · exact h' h3
        rw [if_neg hnot]
        exact ih _ _ _ _ h
      · rw [if_neg hskip] at h
        simp only at h
        have his : IsLocationDecoration ins := by
          refine ⟨hop, ?_, ?_⟩
          · by_contra h'; exact hskip (Or.inl (by simp only; omega))
          · by_contra h'; exact hskip (Or.inr h')
        rw [if_pos his, ih _ _ _ _ h]
        simp only [Nat.max_assoc]
    · rw [if_neg hop] at h
      have hnot : ¬ IsLocationDecoration ins := fun h' => hop h'.1
      rw [if_neg hnot]
      exact ih _ _ _ _ h

/-- The maximum of the locations of two lists of instructions. -/
theorem streamMaxLocation_append (l2 : List (List Nat)) :
    ∀ l1 : List (List Nat),
      streamMaxLocation (l1 ++ l2) = max (streamMaxLocation l1) (streamMaxLocation l2) := by
  intro l1
  induction l1 with
  | nil => rw [List.nil_append, streamMaxLocation, Nat.zero_max]
  | cons ins rest ih =>
    rw [List.cons_append, streamMaxLocation, streamMaxLocation, ih]
    split
    · rw [Nat.max_assoc]
    · rfl

/-- The maximum of the locations of instructions without a Location decoration is 0. -/
theorem streamMaxLocation_eq_zero :
    ∀ l : List (List Nat), (∀ ins ∈ l, ¬ IsLocationDecoration ins) →
      streamMaxLocation l = 0 := by
  intro l
  induction l with
  | nil => intro _; rfl
  | cons ins rest ih =>
    intro h
    rw [streamMaxLocation, if_neg (h ins (List.mem_cons_self _ _))]
    exact ih (fun i hi => h i (List.mem_cons_of_mem _ hi))

/-- The location of a Location decoration of a list is at most the maximum. -/
theorem le_streamMaxLocation :
    ∀ l : List (List Nat), ∀ ins ∈ l, IsLocationDecoration ins →
      word ins 3 ≤ streamMaxLocation l := by
  intro l
  induction l with
  | nil => intro ins h; cases h
  | cons x rest ih =>
    intro ins hmem his
    rw [streamMaxLocation]
    rcases List.mem_cons.mp hmem with h | h
    · subst h; rw [if_pos his]; exact le_max_left _ _
    · have := ih ins h his
      split
      · exact le_trans this (le_max_right _ _)
      · exact this

/-- The variable loop leaves `maxLocation`. -/
theorem variableLoop_maxLocation (buf : List Nat) (vIds fIds : ArrayView) (fuel : Nat)
    (d s : Interfaces) (h : variableLoop buf vIds fIds fuel d = .next s) :
    s.maxLocation = d.maxLocation := by
  rw [variableLoop_eq_scanLoop] at h
  obtain ⟨⟨p, s'⟩, hscan, hs⟩ := Scan.map_eq_next _ _ _ h
  have hrun := scanLoop_next buf _ _ fuel _ _ p s' hscan
  have := runBody_invariant (variableBody buf vIds fIds)
    (fun x => x.maxLocation = d.maxLocation) _ _ _ rfl
    (fun view _ s1 s2 h1 h2 => by
      unfold variableBody at h2
      by_cases hsize : view.size < 4
      · rw [if_pos hsize] at h2; cases h2
      · rw [if_neg hsize] at h2
        injection h2 with h2; rw [← h2]; exact h1) hrun.1
  rw [← hs]
  exact this

end Magnum.Vk.Implementation

namespace Magnum.Vk.Implementation

/-- The decoration loop on a module that ends with a list of encoded instructions, the
scanner at the first of them, leaves in `maxLocation` the maximum of what it was and the
locations of the Location decorations of the list. -/
theorem decorationLoop_maxLocation (pre : List Nat) (instrs : List (List Nat)) (fuel : Nat)
    (vIds fIds : ArrayView) (s : Slots) (d : Interfaces)
    (hwf : ∀ ins ∈ instrs, IsInstruction ins) (hfuel : instrs.length + 2 ≤ fuel)
    (h : decorationLoop (pre ++ instrs.flatten) vIds fIds fuel (s.withData pre.length) = some d) :
    d.maxLocation = max s.maxLocation (streamMaxLocation instrs) := by
  have key := decorationLoop_stream pre instrs fuel vIds fIds s hwf hfuel
  rw [h] at key
  obtain ⟨r, hscan, hd⟩ := Scan.map_eq_next _ _ _ key.symm
  rw [← hd]
  exact scanWords_decoration_maxLocation _ vIds fIds instrs _ _ s r hscan

/-- There are no more writes through the pointers of vertex outputs than vertex-side
slots. -/
theorem vertexOutputWrites_length_le (fI : List EntryPointInterface) :
    ∀ (vos : List EntryPointInterface) (slot : Nat) (buf : List Nat) (m : Nat),
      ((vertexOutputWrites fI slot vos (buf, m)).filter fun w => !w.fragmentInput).length
        ≤ vos.length := by
  intro vos
  induction vos with
  | nil => intro slot buf m; exact Nat.le_refl _
  | cons vo rest ih =>
    intro slot buf m
    rcases vertexOutputWrites_cons fI slot vo rest buf m with h | h | ⟨lv, pre, b, _, _, hpre, h⟩
    · rw [h]; exact Nat.zero_le _
    · rw [h, List.length_cons]; exact Nat.le_succ_of_le (ih _ _ _)
    · rw [h, filter_conflict_round fI slot lv _ pre _ hpre, List.length_cons, List.length_cons]
      exact Nat.succ_le_succ (ih _ _ _)

/-- C16, amended: in a module of 5 header words and encoded instructions in which no
Location decoration stands before the last `OpEntryPoint`, and with `M`, the maximum of
the locations of all Location decorations, plus the number of vertex-side slots below
2^32, the running maximum at the start of conflict resolution is `M`, the first value
written is `M + 1`, and every value written is above the location of every Location
decoration of the module. -/
theorem new_location_fresh (header : List Nat) (init after : List (List Nat)) (ep : List Nat)
    (fuel : Nat) (s : Interfaces) (hh : header.length = 5)
    (hwf : ∀ ins ∈ init ++ ep :: after, IsInstruction ins)
    (hep : word ep 0 &&& 0xffff = SpvOpEntryPoint)
    (hafter : ∀ ins ∈ after, word ins 0 &&& 0xffff ≠ SpvOpEntryPoint)
    (hinit : ∀ ins ∈ init, ¬ IsLocationDecoration ins)
    (hfuel : (header ++ (init ++ ep :: after).flatten).length ≤ fuel)
    (hs : scannedInterfaces fuel (header ++ (init ++ ep :: after).flatten) = some s)
    (hbound : streamMaxLocation (init ++ ep :: after) + s.vertexInterface.length < 2 ^ 32) :
    s.maxLocation = streamMaxLocation (init ++ ep :: after) ∧
    (∀ w, (writes fuel (header ++ (init ++ ep :: after).flatten)).head? = some w →
      w.value = streamMaxLocation (init ++ ep :: after) + 1) ∧
    ∀ w ∈ writes fuel (header ++ (init ++ ep :: after).flatten),
      ∀ ins ∈ init ++ ep :: after, IsLocationDecoration ins → word ins 3 < w.value := by
  have hlen := length_le_length_flatten _ hwf
  have hfuel' : (init ++ ep :: after).length + 2 ≤ fuel := by
    rw [List.length_append] at hfuel; omega
  have hwfa : ∀ ins ∈ after, IsInstruction ins := fun i hi =>
    hwf i (List.mem_append_right _ (List.mem_cons_of_mem _ hi))
  have hfuela : after.length + 2 ≤ fuel := by
    simp only [List.length_append, List.length_cons] at hfuel'; omega
  obtain ⟨e, v, f, d, hE, _, _, _, _, _, hD, hV⟩ := scanned_inv fuel _ s hs
  -- the entry-point loop leaves the scanner after the last entry point
  have hstream := entryPointLoop_stream header (init ++ ep :: after) fuel none none hwf hfuel'
  rw [hh, hE] at hstream
  obtain ⟨r, hscan, he⟩ := Scan.map_eq_next _ _ _ hstream.symm
  have hdata : e.data = (header ++ (init ++ [ep]).flatten).length := by
    rw [← he, List.length_append, hh]
    exact scanWords_last_match _ _ init after ep 5 5 _ r hep hafter hscan
  have hbuf : header ++ (init ++ ep :: after).flatten
      = (header ++ (init ++ [ep]).flatten) ++ after.flatten := by
    simp only [List.flatten_append, List.flatten_cons, List.flatten_nil, List.append_nil,
      List.append_assoc]
  -- the decoration loop sees the instructions after it
  have hmax : s.maxLocation = streamMaxLocation after := by
    rw [variableLoop_maxLocation _ _ _ fuel d s hV]
    rw [hdata] at hD
    have := decorationLoop_maxLocation (header ++ (init ++ [ep]).flatten) after fuel
      (entryPointIds (header ++ (init ++ ep :: after).flatten) v)
      (entryPointIds (header ++ (init ++ ep :: after).flatten) f)
      { maxLocation := 0,
        vertexInterface :=
          List.replicate (entryPointIds (header ++ (init ++ ep :: after).flatten) v).size {},
        fragmentInterface :=
          List.replicate (entryPointIds (header ++ (init ++ ep :: after).flatten) f).size {} }
      d hwfa hfuela (by rw [← hbuf]; exact hD)
    rw [this]
    exact Nat.zero_max _
  have hM : streamMaxLocation (init ++ ep :: after) = streamMaxLocation after := by
    have hnot : ¬ IsLocationDecoration ep := by
      intro h
      have := h.1
      rw [hep] at this
      exact absurd this (by decide)
    rw [streamMaxLocation_append, streamMaxLocation_eq_zero init hinit, Nat.zero_max,
      streamMaxLocation, if_neg hnot]
  rw [hM] at hbound ⊢
  have hvalue : ∀ w ∈ writes fuel (header ++ (init ++ ep :: after).flatten),
      streamMaxLocation after < w.value := by
    intro w hw
    unfold writes at hw
    rw [hs] at hw
    obtain ⟨j, hj, hv⟩ := vertexOutputWrites_value_mem _ 0 _ _ _ w hw
    have := vertexOutputWrites_length_le s.fragmentInterface s.vertexInterface 0
      (header ++ (init ++ ep :: after).flatten) s.maxLocation
    rw [hmax] at hv
    have hmod : (streamMaxLocation after + (j + 1)) % 2 ^ 32
        = streamMaxLocation after + (j + 1) := Nat.mod_eq_of_lt (by omega)
    rw [hmod] at hv
    omega
  refine ⟨hmax, ?_, ?_⟩
  · intro w hw
    have hmem : w ∈ writes fuel (header ++ (init ++ ep :: after).flatten) :=
      List.mem_of_mem_head? hw
    unfold writes at hw hmem
    rw [hs] at hw hmem
    rw [vertexOutputWrites_head _ 0 _ _ _ w hw, hmax]
    obtain ⟨j, hj, _⟩ := vertexOutputWrites_value_mem _ 0 _ _ _ w hmem
    have := vertexOutputWrites_length_le s.fragmentInterface s.vertexInterface 0
      (header ++ (init ++ ep :: after).flatten) s.maxLocation
    exact Nat.mod_eq_of_lt (by omega)
  · intro w hw ins hins his
    have hle := le_streamMaxLocation _ ins hins his
    rw [hM] at hle
    exact lt_of_le_of_lt hle (hvalue w hw)

/-- The module `conflictSample`: the maximum of the locations is 7, and the value of both
writes is 8. -/
theorem new_location_fresh_witness :
    (∀ w, (writes 42 conflictSample).head? = some w → w.value = 7 + 1) ∧
    writes 42 conflictSample
      = [{ vertexSlot := 0, fragmentInput := true, location := 29, value := 8 },
         { vertexSlot := 0, fragmentInput := false, location := 21, value := 8 }] :=
  ⟨(new_location_fresh headerOnly
      [entryPoint SpvExecutionModelVertex 1 [0x6e69616d, 0] [10]]
      ((conflictInstructions 1 2 [0x6e69616d, 0] [0x6e69616d, 0]
        10 11 12 90 91 92 7 7 7).drop 2)
      (entryPoint SpvExecutionModelFragment 2 [0x6e69616d, 0] [11, 12]) 42
      { data := 42, maxLocation := 7,
        vertexInterface := [{ location := some 21, storageClass := SpvStorageClassOutput }],
        fragmentInterface := [{ location := some 25, storageClass := SpvStorageClassOutput },
          { location := some 29, storageClass := SpvStorageClassInput }] }
      (by decide) (by decide) (by decide) (by decide) (by decide) (by decide) (by decide)
      (by decide)).2.1,
    by decide⟩

end Magnum.Vk.Implementation

namespace Magnum.Vk.Implementation

/-- At the start of conflict resolution every location pointer points at the location of a
Location decoration of an interface ID. -/
theorem scanned_located (fuel : Nat) (buf : List Nat) (s : Interfaces)
    (h : scannedInterfaces fuel buf = some s) :
    ∃ v f, selectedEntryPoints fuel buf = some (v, f) ∧
      s.slots.Located buf (entryPointIds buf v) (entryPointIds buf f) := by
  obtain ⟨e, v, f, d, hE, _, _, hsel, _, _, hD, hV⟩ := scanned_inv fuel buf s h
  have hb := entryPointLoop_boundary buf fuel e hE
  have hinit : ∀ (n : Nat) (x : EntryPointInterface), x ∈ List.replicate n {} →
      ∀ l, x.location = some l → False := by
    intro n x hx l hl
    rw [List.eq_of_mem_replicate hx] at hl
    cases hl
  have hd := decorationLoop_located buf (entryPointIds buf v) (entryPointIds buf f) fuel
    { data := e.data, maxLocation := 0,
      vertexInterface := List.replicate (entryPointIds buf v).size {},
      fragmentInterface := List.replicate (entryPointIds buf f).size {} } d hb
    ⟨fun x hx l hl => (hinit _ x hx l hl).elim, fun x hx l hl => (hinit _ x hx l hl).elim⟩ hD
  exact ⟨v, f, hsel, variableLoop_located buf _ _ fuel d s hd.1 hV⟩

/-- The location of a Location decoration is a word of the module. -/
theorem IsLocationOf.lt_length (buf : List Nat) (ids : ArrayView) (l : Nat)
    (h : IsLocationOf buf ids l) : l < buf.length := by
  obtain ⟨p, ⟨⟨_, h1, h2⟩, _, h3, _⟩, hl, _⟩ := h
  omega

/-- The word written. -/
theorem word_set_eq (buf : List Nat) (l v : Nat) (h : l < buf.length) :
    word (buf.set l v) l = v := by
  unfold word
  rw [List.getD_eq_getElem?_getD, List.getElem?_set_self h]
  rfl

/-- Conflict resolution leaves a word that no vertex-side slot of storage class Output and
no fragment-side slot of storage class Input points at. -/
theorem vertexOutputLoop_frame (fI vos : List EntryPointInterface) (buf out : List Nat)
    (m m' l : Nat) (h : vertexOutputLoop fI vos (buf, m) = some (out, m'))
    (hv : ∀ vo ∈ vos, vo.storageClass = SpvStorageClassOutput → vo.location ≠ some l)
    (hf : ∀ fi ∈ fI, fi.storageClass = SpvStorageClassInput → fi.location ≠ some l) :
    word out l = word buf l := by
  rw [vertexOutputLoop_writes fI 0 vos buf out m m' h]
  apply word_foldl_apply
  intro w hw heq
  obtain ⟨_, vo, lv, h1, h2, h3, h4, h5⟩ := vertexOutputWrites_slot fI 0 vos buf m w hw
  cases hfi : w.fragmentInput with
  | false =>
    rw [h4 hfi] at heq
    rw [heq] at h3
    exact hv vo (List.getElem?_mem h1) h2 h3
  | true =>
    obtain ⟨fi, hmem, hsc, hl⟩ := h5 hfi
    rw [heq] at hl
    exact hf fi hmem hsc hl

/-- The loop over `fragmentOutput` for one vertex output: it finds no conflict and changes
nothing, or it finds one, takes the next location and writes it through the pointer of the
vertex output, after at most one write through the pointer of a fragment-side slot of
storage class Input. -/
theorem fragmentOutputLoop_step (fI : List EntryPointInterface) (lv : Nat)
    (fos : List EntryPointInterface) (buf b1 : List Nat) (m m1 : Nat)
    (h : fragmentOutputLoop fI lv fos (buf, m) = some (b1, m1)) :
    (b1 = buf ∧ m1 = m ∧ ∀ fo ∈ fos, fo.storageClass = SpvStorageClassOutput →
        ∀ lf, fo.location = some lf → word buf lv ≠ word buf lf) ∨
    (m1 = (m + 1) % 2 ^ 32 ∧ ∃ b', b1 = b'.set lv m1 ∧
      (b' = buf ∨ ∃ fi ∈ fI, fi.storageClass = SpvStorageClassInput ∧
        ∃ li, fi.location = some li ∧ b' = buf.set li m1)) := by
  induction fos with
  | nil =>
    injection h with h; injection h with h1 h2
    exact Or.inl ⟨h1.symm, h2.symm, fun fo hfo => by cases hfo⟩
  | cons fo rest ih =>
    rw [fragmentOutputLoop] at h
    by_cases hc : fo.storageClass ≠ SpvStorageClassOutput
    · rw [if_pos hc] at h
      rcases ih h with ⟨h1, h2, h3⟩ | h'
      · refine Or.inl ⟨h1, h2, fun fo' hfo' hsc lf hlf => ?_⟩
        rcases List.mem_cons.mp hfo' with e | e
        · subst e; exact absurd hsc hc
        · exact h3 fo' e hsc lf hlf
      · exact Or.inr h'
    · rw [if_neg hc] at h
      cases hl : fo.location with
      | none =>
        rw [hl] at h
        rcases ih h with ⟨h1, h2, h3⟩ | h'
        · refine Or.inl ⟨h1, h2, fun fo' hfo' hsc lf hlf => ?_⟩
          rcases List.mem_cons.mp hfo' with e | e
          · subst e; rw [hl] at hlf; cases hlf
          · exact h3 fo' e hsc lf hlf
        · exact Or.inr h'
      | some l =>
        rw [hl] at h
        simp only at h
        by_cases hw : word buf lv = word buf l
        · rw [if_pos hw] at h
          cases hI : fragmentInputLoop lv ((m + 1) % 2 ^ 32) fI buf with
          | none => rw [hI] at h; cases h
          | some b =>
            rw [hI] at h
            injection h with h; injection h with h1 h2
            refine Or.inr ⟨h2.symm, b, by rw [← h1, ← h2], ?_⟩
            have hlog := fragmentInputLoop_writes 0 lv ((m + 1) % 2 ^ 32) fI buf b hI
            rcases fragmentInputWrites_cases 0 lv ((m + 1) % 2 ^ 32) fI buf with
              e | ⟨fi, hfi, li, hsc, hli, e⟩
            · rw [e] at hlog; exact Or.inl hlog
            · rw [e] at hlog
              exact Or.inr ⟨fi, hfi, hsc, li, hli, by rw [← h2]; exact hlog⟩
        · rw [if_neg hw] at h
          rcases ih h with ⟨h1, h2, h3⟩ | h'
          · refine Or.inl ⟨h1, h2, fun fo' hfo' hsc lf hlf => ?_⟩
            rcases List.mem_cons.mp hfo' with e | e
            · subst e; rw [hl] at hlf; injection hlf with hlf; rw [← hlf]; exact hw
            · exact h3 fo' e hsc lf hlf
          · exact Or.inr h'

end Magnum.Vk.Implementation

namespace Magnum.Vk.Implementation

/-- Conflict resolution on slots with distinct pointers leaves no conflict: every vertex
output found in conflict gets a location above `maxLocation`, which no fragment output
has, and is not touched again. -/
theorem vertexOutputLoop_eliminates (fI : List EntryPointInterface)
    (hF : ∀ a ∈ fI, ∀ b ∈ fI, ∀ l, a.location = some l → b.location = some l →
      a.storageClass = b.storageClass) :
    ∀ (vos : List EntryPointInterface) (buf out : List Nat) (m m' : Nat),
      vos.Pairwise (fun a b => ∀ l, a.location = some l → b.location ≠ some l) →
      (∀ vo ∈ vos, ∀ fe ∈ fI, ∀ l, vo.location = some l → fe.location ≠ some l) →
      (∀ vo ∈ vos, ∀ l, vo.location = some l → l < buf.length) →
      (∀ fo ∈ fI, fo.storageClass = SpvStorageClassOutput →
        ∀ lf, fo.location = some lf → word buf lf ≤ m) →
      m + (vos.filter fun e => decide (e.storageClass = SpvStorageClassOutput)).length
        < 2 ^ 32 →
      vertexOutputLoop fI vos (buf, m) = some (out, m') →
      ∀ vo ∈ vos, vo.storageClass = SpvStorageClassOutput → ∀ lv, vo.location = some lv →
        ∀ fo ∈ fI, fo.storageClass = SpvStorageClassOutput → ∀ lf, fo.location = some lf →
          word out lv ≠ word out lf := by
  intro vos
  induction vos with
  | nil => intro buf out m m' _ _ _ _ _ _ vo hvo; cases hvo
  | cons vo rest ih =>
    intro buf out m m' hV hVF hlen hle hbound h
    rw [List.pairwise_cons] at hV
    have hVF' : ∀ vo' ∈ rest, ∀ fe ∈ fI, ∀ l, vo'.location = some l → fe.location ≠ some l :=
      fun vo' hvo' => hVF vo' (List.mem_cons_of_mem _ hvo')
    have hcount : (rest.filter fun e => decide (e.storageClass = SpvStorageClassOutput)).length
        ≤ ((vo :: rest).filter fun e => decide (e.storageClass = SpvStorageClassOutput)).length := by
      rw [List.filter_cons]
      split
      · rw [List.length_cons]; exact Nat.le_succ _
      · exact Nat.le_refl _
    rw [vertexOutputLoop] at h
    by_cases hc : vo.storageClass ≠ SpvStorageClassOutput
    · rw [if_pos hc] at h
      intro vo' hvo' hsc
      rcases List.mem_cons.mp hvo' with e | e
      · subst e; exact absurd hsc hc
      · exact ih buf out m m' hV.2 hVF' (fun x hx => hlen x (List.mem_cons_of_mem _ hx)) hle
          (by omega) h vo' e hsc
    · rw [if_neg hc] at h
      have hsc0 := not_not.mp hc
      cases hl : vo.location with
      | none =>
        rw [hl] at h
        intro vo' hvo' hsc lv hlv
        rcases List.mem_cons.mp hvo' with e | e
        · subst e; rw [hl] at hlv; cases hlv
        · exact ih buf out m m' hV.2 hVF' (fun x hx => hlen x (List.mem_cons_of_mem _ hx)) hle
            (by omega) h vo' e hsc lv hlv
      | some lv0 =>
        rw [hl] at h
        simp only at h
        cases hO : fragmentOutputLoop fI lv0 fI (buf, m) with
        | none => rw [hO] at h; cases h
        | some s1 =>
          obtain ⟨b1, m1⟩ := s1
          rw [hO] at h
          simp only at h
          have hcount1 : ((vo :: rest).filter
              fun e => decide (e.storageClass = SpvStorageClassOutput)).length
              = (rest.filter fun e => decide (e.storageClass = SpvStorageClassOutput)).length
                + 1 := by
            rw [List.filter_cons, if_pos (by rw [decide_eq_true_eq]; exact hsc0),
              List.length_cons]
          have hlv0 : lv0 < buf.length := hlen vo (List.mem_cons_self _ _) lv0 hl
          have hvf0 : ∀ fe ∈ fI, fe.location ≠ some lv0 :=
            fun fe hfe => hVF vo (List.mem_cons_self _ _) fe hfe lv0 hl
          -- what the round of this vertex output leaves
          have hround : b1.length = buf.length ∧ m ≤ m1 ∧ m1 ≤ m + 1 ∧
              (∀ fo ∈ fI, fo.storageClass = SpvStorageClassOutput →
                ∀ lf, fo.location = some lf →
                  word b1 lf = word buf lf ∧ word b1 lv0 ≠ word b1 lf) := by
            rcases fragmentOutputLoop_step fI lv0 fI buf b1 m m1 hO with
              ⟨e1, e2, hno⟩ | ⟨e2, b', e1, hb'⟩
            · subst e1; subst e2
              exact ⟨rfl, Nat.le_refl _, Nat.le_succ _, fun fo hfo hsc lf hlf =>
                ⟨rfl, hno fo hfo hsc lf hlf⟩⟩
            · have hm1 : m1 = m + 1 := by rw [e2]; exact Nat.mod_eq_of_lt (by omega)
              have hb'len : b'.length = buf.length := by
                rcases hb' with e | ⟨_, _, _, _, _, e⟩ <;> rw [e]
                exact List.length_set _ _ _
              refine ⟨by rw [e1, List.length_set]; exact hb'len, by omega, by omega, ?_⟩
              intro fo hfo hsc lf hlf
              have hne : lf ≠ lv0 := fun e => hvf0 fo hfo (by rw [hlf, e])
              have hb'lf : word b' lf = word buf lf := by
                rcases hb' with e | ⟨fi, hfi, hfisc, li, hli, e⟩
                · rw [e]
                · rw [e]
                  apply word_set_ne
                  intro e'
                  have := hF fo hfo fi hfi lf hlf (by rw [hli, e'])
                  rw [hsc, hfisc] at this
                  exact absurd this (by decide)
              have h1 : word b1 lf = word buf lf := by
                rw [e1, word_set_ne _ _ _ _ hne]; exact hb'lf
              refine ⟨h1, ?_⟩
              rw [h1, e1, word_set_eq _ _ _ (by rw [hb'len]; exact hlv0)]
              have := hle fo hfo hsc lf hlf
              omega
          obtain ⟨hlen1, hm1a, hm1b, hkeep⟩ := hround
          have hih := ih b1 out m1 m' hV.2 hVF'
            (fun x hx l hxl => by rw [hlen1]; exact hlen x (List.mem_cons_of_mem _ hx) l hxl)
            (fun fo hfo hsc lf hlf => by
              rw [(hkeep fo hfo hsc lf hlf).1]
              exact le_trans (hle fo hfo hsc lf hlf) hm1a)
            (by omega) h
          intro vo' hvo' hsc lv hlv fo hfo hfsc lf hlf
          rcases List.mem_cons.mp hvo' with e | e
          · subst e
            rw [hl] at hlv
            injection hlv with hlv
            subst hlv
            -- the rounds that follow leave both words
            have f1 : word out lv0 = word b1 lv0 :=
              vertexOutputLoop_frame fI rest b1 out m1 m' lv0 h
                (fun x hx _ hxl => hV.1 x hx lv0 hl hxl)
                (fun fi hfi _ => hvf0 fi hfi)
            have f2 : word out lf = word b1 lf :=
              vertexOutputLoop_frame fI rest b1 out m1 m' lf h
                (fun x hx _ hxl => hVF' x hx fo hfo lf hxl hlf)
                (fun fi hfi hfisc hfil => by
                  have := hF fo hfo fi hfi lf hlf hfil
                  rw [hfsc, hfisc] at this
                  exact absurd this (by decide))
            rw [f1, f2]
            exact (hkeep fo hfo hfsc lf hlf).2
          · exact hih vo' e hsc lv hlv fo hfo hfsc lf hlf

end Magnum.Vk.Implementation

namespace Magnum.Vk.Implementation

/-- C20: a call that returns true on a module in which no ID is in both the interface-ID
list of the selected vertex entry point and that of the selected fragment entry point, and
in which the running maximum location plus the number of vertex-side Output slots is below
2^32, leaves no conflict: no vertex-side slot with storage class Output and a location has
the location value of a fragment-side slot with storage class Output and a location. That
every fragment input has a Location decoration is not needed: a call that returns true has
not met one without. -/
theorem conflicts_eliminated (fuel : Nat) (buf out : List Nat) (s : Interfaces)
    (h : spirvPatchSwiftShaderConflictingMultiEntrypointLocations fuel buf = .returned true out)
    (hs : scannedInterfaces fuel buf = some s)
    (hdisj : ∀ v f, selectedEntryPoints fuel buf = some (v, f) →
      ∀ id, InView buf (entryPointIds buf v) id → ¬ InView buf (entryPointIds buf f) id)
    (hbound : s.maxLocation +
      (s.vertexInterface.filter fun e => decide (e.storageClass = SpvStorageClassOutput)).length
        < 2 ^ 32) :
    conflictFree out s = true := by
  obtain ⟨s', m, hs', hO⟩ := returned_true_scanned fuel buf out h
  rw [hs] at hs'
  injection hs' with hs'
  subst hs'
  obtain ⟨v, f, hsel, hv, hf⟩ := scanned_indexed fuel buf s hs
  obtain ⟨v', f', hsel', hloc⟩ := scanned_located fuel buf s hs
  rw [hsel] at hsel'
  injection hsel' with hsel'
  injection hsel' with e1 e2
  subst e1; subst e2
  have key := vertexOutputLoop_eliminates s.fragmentInterface
    (fun a ha b hb l hal hbl => by
      obtain ⟨i, hi⟩ := List.mem_iff_getElem?.mp ha
      obtain ⟨j, hj⟩ := List.mem_iff_getElem?.mp hb
      by_cases hij : i = j
      · subst hij; rw [hi] at hj; injection hj with hj; rw [hj]
      · exact (Indexed.pointer_ne buf _ _ _ hf i j a b l hij hi hj hal hbl).elim)
    s.vertexInterface buf out s.maxLocation m
    (by
      rw [List.pairwise_iff_getElem]
      intro i j hi hj hij l hal hbl
      exact Indexed.pointer_ne buf _ _ _ hv i j _ _ l (Nat.ne_of_lt hij)
        (List.getElem?_eq_getElem hi) (List.getElem?_eq_getElem hj) hal hbl)
    (fun vo hvo fe hfe l hvl hfl => by
      obtain ⟨i, hi⟩ := List.mem_iff_getElem?.mp hvo
      obtain ⟨j, hj⟩ := List.mem_iff_getElem?.mp hfe
      obtain ⟨_, e1, _, _⟩ := hv.2 i vo l hi hvl
      obtain ⟨_, e2, _, _⟩ := hf.2 j fe l hj hfl
      have hi' : i < (entryPointIds buf v).size := by
        rw [← hv.1]; exact (List.getElem?_eq_some.mp hi).1
      have hj' : j < (entryPointIds buf f).size := by
        rw [← hf.1]; exact (List.getElem?_eq_some.mp hj).1
      exact hdisj v f hsel (word buf (l - 2)) ⟨i, hi', e1.symm⟩ ⟨j, hj', e2.symm⟩)
    (fun vo hvo l hl => IsLocationOf.lt_length buf _ l (hloc.1 vo hvo l hl))
    (fun fo hfo _ lf hlf => by
      obtain ⟨j, hj⟩ := List.mem_iff_getElem?.mp hfo
      exact (hf.2 j fo lf hj hlf).2.2.2)
    hbound hO
  unfold conflictFree
  rw [List.all_eq_true]
  intro vo hvo
  rw [List.all_eq_true]
  intro fo hfo
  rw [Bool.not_eq_true']
  unfold conflict
  cases hvl : vo.location with
  | none => rfl
  | some lv =>
    cases hfl : fo.location with
    | none => rfl
    | some lf =>
      simp only
      rw [decide_eq_false_iff_not]
      intro ⟨h1, h2, h3⟩
      exact key vo hvo h1 lv hvl fo hfo h2 lf hfl h3

end Magnum.Vk.Implementation

namespace Magnum.Vk.Implementation

/-- The two interface-ID lists share no ID when the words of the one are different from
the words of the other. -/
theorem inView_disjoint (fuel : Nat) (buf : List Nat) (v0 f0 : ArrayView)
    (hsel : selectedEntryPoints fuel buf = some (v0, f0))
    (hd : ∀ i, i < (entryPointIds buf v0).size → ∀ j, j < (entryPointIds buf f0).size →
      word buf ((entryPointIds buf v0).data + i) ≠ word buf ((entryPointIds buf f0).data + j)) :
    ∀ v f, selectedEntryPoints fuel buf = some (v, f) →
      ∀ id, InView buf (entryPointIds buf v) id → ¬ InView buf (entryPointIds buf f) id := by
  intro v f h id hv hf
  rw [hsel] at h
  injection h with h
  injection h with e1 e2
  subst e1; subst e2
  obtain ⟨i, hi, hvi⟩ := hv
  obtain ⟨j, hj, hfj⟩ := hf
  exact hd i hi j hj (by rw [hvi, hfj])

/-- The module `twoConflictSample`: after the call the outputs 10 and 20 of the vertex
entry point have the locations 9 and 10, the outputs 11 and 21 of the fragment entry point
have kept 7 and 8, and no conflict is left. -/
theorem conflicts_eliminated_witness :
    spirvPatchSwiftShaderConflictingMultiEntrypointLocations 15 twoConflictSample
      = .returned true (((twoConflictSample.set 39 9).set 23 9).set 27 10) ∧
    conflictFree (((twoConflictSample.set 39 9).set 23 9).set 27 10)
      { data := 60, maxLocation := 8,
        vertexInterface := [{ location := some 23, storageClass := SpvStorageClassOutput },
          { location := some 27, storageClass := SpvStorageClassOutput }],
        fragmentInterface := [{ location := some 31, storageClass := SpvStorageClassOutput },
          { location := some 35, storageClass := SpvStorageClassOutput },
          { location := some 39, storageClass := SpvStorageClassInput }] } = true :=
  ⟨by decide,
    conflicts_eliminated 15 twoConflictSample _ _ (by decide) (by decide)
      (inView_disjoint 15 twoConflictSample ⟨5, 7⟩ ⟨12, 8⟩ (by decide) (by decide))
      (by decide)⟩

end Magnum.Vk.Implementation

namespace Magnum.Vk.Implementation

/-- The entry-point body run on a list of views leaves the vertex (fragment) entry point
unselected exactly when it was so and no view has the execution model Vertex
(Fragment). -/
theorem runBody_entryPoint (buf : List Nat) :
    ∀ (views : List ArrayView) (s s' : Option ArrayView × Option ArrayView),
      runBody (entryPointBody buf) views s = some s' →
      (s'.1 = none ↔ s.1 = none ∧
        ∀ ep ∈ views, word buf (ep.data + 1) ≠ SpvExecutionModelVertex) ∧
      (s'.2 = none ↔ s.2 = none ∧
        ∀ ep ∈ views, word buf (ep.data + 1) ≠ SpvExecutionModelFragment) := by
  intro views
  induction views with
  | nil =>
    intro s s' h
    injection h with h
    subst h
    exact ⟨⟨fun h => ⟨h, fun ep hep => by cases hep⟩, fun h => h.1⟩,
      ⟨fun h => ⟨h, fun ep hep => by cases hep⟩, fun h => h.1⟩⟩
  | cons w ws ih =>
    intro s s' h
    rw [runBody] at h
    cases hb : entryPointBody buf s w with
    | none => rw [hb] at h; cases h
    | some s1 =>
      rw [hb] at h
      obtain ⟨ih1, ih2⟩ := ih s1 s' h
      unfold entryPointBody at hb
      split at hb
      · cases hb
      · injection hb with hb
        subst hb
        constructor
        · rw [ih1]
          by_cases hm : word buf (w.data + 1) = SpvExecutionModelVertex
          · simp only [hm, if_true]
            constructor
            · intro h'; cases h'.1
            · intro h'; exact absurd hm (h'.2 w (List.mem_cons_self _ _))
          · simp only [hm, if_false]
            constructor
            · intro h'
              refine ⟨h'.1, fun ep hep => ?_⟩
              rcases List.mem_cons.mp hep with e | e
              · rw [e]; exact hm
              · exact h'.2 ep e
            · intro h'
              exact ⟨h'.1, fun ep hep => h'.2 ep (List.mem_cons_of_mem _ hep)⟩
        · rw [ih2]
          by_cases hm : word buf (w.data + 1) = SpvExecutionModelFragment
          · simp only [hm, if_true]
            constructor
            · intro h'; cases h'.1
            · intro h'; exact absurd hm (h'.2 w (List.mem_cons_self _ _))
          · simp only [hm, if_false]
            constructor
            · intro h'
              refine ⟨h'.1, fun ep hep => ?_⟩
              rcases List.mem_cons.mp hep with e | e
              · rw [e]; exact hm
              · exact h'.2 ep e
            · intro h'
              exact ⟨h'.1, fun ep hep => h'.2 ep (List.mem_cons_of_mem _ hep)⟩

/-- A scanning loop whose body executes `return false` on every view shorter than 4 words
falls through only when no view found is that short. -/
theorem scanLoop_next_sizes {σ : Type} (buf : List Nat) (op : Nat)
    (body : σ → ArrayView → Option σ) (hbody : ∀ s v, v.size < 4 → body s v = none)
    (fuel data : Nat) (s : σ) (r : Nat × σ) (h : scanLoop buf op body fuel data s = .next r) :
    ∀ v ∈ (found buf op fuel data).1, ¬ v.size < 4 := by
  intro v hv hsize
  have hrun := (scanLoop_next buf op body fuel data s r.1 r.2 h).1
  rw [runBody_eq_none body v (fun s => hbody s v hsize) _ s hv] at hrun
  cases hrun

/-- A scanning loop whose body executes `return false` only on views shorter than 4 words
executes `return false` only when a view found is that short. -/
theorem scanLoop_returnFalse_size {σ : Type} (buf : List Nat) (op : Nat)
    (body : σ → ArrayView → Option σ) (hbody : ∀ s v, body s v = none → v.size < 4)
    (fuel data : Nat) (s : σ) (h : scanLoop buf op body fuel data s = .returnFalse) :
    ∃ v ∈ (found buf op fuel data).1, v.size < 4 := by
  obtain ⟨before, v, after, s1, hf, _, hb⟩ := scanLoop_returnFalse buf op body fuel data s h
  exact ⟨v, by rw [hf]; exact List.mem_append_right _ (List.mem_cons_self _ _), hbody s1 v hb⟩

/-- The entry-point body executes `return false` exactly on views shorter than 4 words. -/
theorem entryPointBody_eq_none (buf : List Nat) (s : Option ArrayView × Option ArrayView)
    (v : ArrayView) : entryPointBody buf s v = none ↔ v.size < 4 := by
  unfold entryPointBody
  split
  · exact ⟨fun _ => (by assumption), fun _ => rfl⟩
  · exact ⟨fun h => (by cases h), fun h => (by omega)⟩

/-- The variable body executes `return false` exactly on views shorter than 4 words. -/
theorem variableBody_eq_none (buf : List Nat) (vIds fIds : ArrayView) (s : Slots)
    (v : ArrayView) : variableBody buf vIds fIds s v = none ↔ v.size < 4 := by
  unfold variableBody
  split
  · exact ⟨fun _ => (by assumption), fun _ => rfl⟩
  · exact ⟨fun h => (by cases h), fun h => (by omega)⟩

/-- An entry point without a word with the top 8 bits zero from index 3 on has an empty
interface-ID list. -/
theorem entryPointIdsLoop_no_terminator (buf : List Nat) (ep : ArrayView) :
    ∀ n i, (∀ j, i ≤ j → j < i + n → word buf (ep.data + j) >>> 24 ≠ 0) →
      (entryPointIdsLoop buf ep n i).size = 0 := by
  intro n
  induction n with
  | zero => intro i _; rfl
  | succ n ih =>
    intro i h
    rw [entryPointIdsLoop, if_neg (h i (Nat.le_refl _) (by omega))]
    exact ih (i + 1) (fun j h1 h2 => h j (by omega) (by omega))

end Magnum.Vk.Implementation

namespace Magnum.Vk.Implementation

/-- C6: a call that returns returns false exactly when (i) an `OpEntryPoint` found by the
scan has fewer than 4 words, or (ii) no entry point found has the execution model Vertex,
or none has Fragment, or (iii) the interface-ID list of the selected vertex or fragment
entry point is empty, or (iv) an `OpVariable` found by the variable scan, which starts
where the decoration scan ends, has fewer than 4 words; otherwise it returns true. And an
entry point without a word with the top 8 bits zero from index 3 on has an empty
interface-ID list. -/
theorem returns_false_iff (fuel : Nat) (buf out : List Nat) (r : Bool)
    (h : spirvPatchSwiftShaderConflictingMultiEntrypointLocations fuel buf = .returned r out) :
    (r = false ↔
      (∃ ep ∈ (found buf SpvOpEntryPoint fuel 5).1, ep.size < 4) ∨
      ((∀ ep ∈ (found buf SpvOpEntryPoint fuel 5).1,
          word buf (ep.data + 1) ≠ SpvExecutionModelVertex) ∨
        (∀ ep ∈ (found buf SpvOpEntryPoint fuel 5).1,
          word buf (ep.data + 1) ≠ SpvExecutionModelFragment)) ∨
      (∃ v f, selectedEntryPoints fuel buf = some (v, f) ∧
        ((entryPointIds buf v).size = 0 ∨ (entryPointIds buf f).size = 0)) ∨
      (∃ var ∈ (found buf SpvOpVariable fuel
          (found buf SpvOpDecorate fuel (found buf SpvOpEntryPoint fuel 5).2).2).1,
        var.size < 4)) ∧
    (∀ ep : ArrayView,
      (∀ i, 3 ≤ i → i < ep.size → word buf (ep.data + i) >>> 24 ≠ 0) →
      (entryPointIds buf ep).size = 0) := by
  refine ⟨?_, fun ep hep => entryPointIdsLoop_no_terminator buf ep _ 3
    (fun j h1 h2 => hep j h1 (by omega))⟩
  unfold spirvPatchSwiftShaderConflictingMultiEntrypointLocations at h
  by_cases h5 : buf.length < 5
  · rw [if_pos h5] at h; cases h
  rw [if_neg h5] at h
  have hscanE := entryPointLoop_eq_scanLoop buf fuel
    { data := 5, vertexEntryPoint := none, fragmentEntryPoint := none }
  simp only at hscanE
  cases hE : entryPointLoop buf fuel
      { data := 5, vertexEntryPoint := none, fragmentEntryPoint := none } with
  | outOfFuel => rw [hE] at h; cases h
  | returnFalse =>
    rw [hE] at h hscanE
    injection h with h1 _
    have := scanLoop_returnFalse_size buf _ _
      (fun s v hb => (entryPointBody_eq_none buf s v).mp hb) fuel 5 (none, none)
      (Scan.map_eq_returnFalse _ _ hscanE.symm)
    exact ⟨fun _ => Or.inl this, fun _ => h1.symm⟩
  | next e =>
    rw [hE] at h hscanE
    obtain ⟨⟨d, sel⟩, hscan, he⟩ := Scan.map_eq_next _ _ _ hscanE.symm
    have hno1 := scanLoop_next_sizes buf _ _
      (fun s v hv => (entryPointBody_eq_none buf s v).mpr hv) fuel 5 (none, none) _ hscan
    have hrun := scanLoop_next buf _ _ fuel 5 _ d sel hscan
    obtain ⟨hv0, hf0⟩ := runBody_entryPoint buf _ _ _ hrun.1
    simp only [true_and] at hv0 hf0
    have hev : e.vertexEntryPoint = sel.1 := by rw [← he]
    have hef : e.fragmentEntryPoint = sel.2 := by rw [← he]
    have hed : e.data = (found buf SpvOpEntryPoint fuel 5).2 := by rw [← he, hrun.2]
    simp only at h
    cases hv : e.vertexEntryPoint with
    | none =>
      rw [hv] at h
      injection h with h1 _
      exact ⟨fun _ => Or.inr (Or.inl (Or.inl (hv0.mp (by rw [← hev, hv])))), fun _ => h1.symm⟩
    | some v =>
      cases hf : e.fragmentEntryPoint with
      | none =>
        rw [hv, hf] at h
        injection h with h1 _
        exact ⟨fun _ => Or.inr (Or.inl (Or.inr (hf0.mp (by rw [← hef, hf])))),
          fun _ => h1.symm⟩
      | some f =>
        rw [hv, hf] at h
        have hsel : selectedEntryPoints fuel buf = some (v, f) := by
          unfold selectedEntryPoints
          rw [hE]
          simp only [hv, hf]
        have hno2 : ¬ ((∀ ep ∈ (found buf SpvOpEntryPoint fuel 5).1,
              word buf (ep.data + 1) ≠ SpvExecutionModelVertex) ∨
            (∀ ep ∈ (found buf SpvOpEntryPoint fuel 5).1,
              word buf (ep.data + 1) ≠ SpvExecutionModelFragment)) := by
          intro h'
          rcases h' with h' | h'
          · have := hv0.mpr h'; rw [← hev, hv] at this; cases this
          · have := hf0.mpr h'; rw [← hef, hf] at this; cases this
        simp only [patchEntryPoints] at h
        by_cases hids : (entryPointIds buf v).size = 0 ∨ (entryPointIds buf f).size = 0
        · rw [if_pos hids] at h
          injection h with h1 _
          exact ⟨fun _ => Or.inr (Or.inr (Or.inl ⟨v, f, hsel, hids⟩)), fun _ => h1.symm⟩
        · rw [if_neg hids] at h
          have hno3 : ¬ ∃ v' f', selectedEntryPoints fuel buf = some (v', f') ∧
              ((entryPointIds buf v').size = 0 ∨ (entryPointIds buf f').size = 0) := by
            rintro ⟨v', f', h1, h2⟩
            rw [hsel] at h1
            injection h1 with h1
            injection h1 with e1 e2
            subst e1; subst e2
            exact hids h2
          cases hD : decorationLoop buf (entryPointIds buf v) (entryPointIds buf f) fuel
              { data := e.data, maxLocation := 0,
                vertexInterface := List.replicate (entryPointIds buf v).size {},
                fragmentInterface := List.replicate (entryPointIds buf f).size {} } with
          | none => rw [hD] at h; cases h
          | some dd =>
            rw [hD] at h
            simp only at h
            have hscanD := decorationLoop_eq_scanLoop buf (entryPointIds buf v)
              (entryPointIds buf f) fuel
              { data := e.data, maxLocation := 0,
                vertexInterface := List.replicate (entryPointIds buf v).size {},
                fragmentInterface := List.replicate (entryPointIds buf f).size {} }
            rw [hD] at hscanD
            obtain ⟨⟨p, s'⟩, hscanD', hdd⟩ := Scan.map_eq_next _ _ _ hscanD.symm
            have hrunD := scanLoop_next buf _ _ fuel _ _ p s' hscanD'
            have hddata : dd.data
                = (found buf SpvOpDecorate fuel (found buf SpvOpEntryPoint fuel 5).2).2 := by
              rw [← hdd, ← hed]
              exact hrunD.2.symm
            have hscanV := variableLoop_eq_scanLoop buf (entryPointIds buf v)
              (entryPointIds buf f) fuel dd
            rw [hddata] at hscanV
            cases hV : variableLoop buf (entryPointIds buf v) (entryPointIds buf f) fuel dd with
            | outOfFuel => rw [hV] at h; cases h
            | returnFalse =>
              rw [hV] at h hscanV
              injection h with h1 _
              have := scanLoop_returnFalse_size buf _ _
                (fun s x hb => (variableBody_eq_none buf _ _ s x).mp hb) fuel _ _
                (Scan.map_eq_returnFalse _ _ hscanV.symm)
              exact ⟨fun _ => Or.inr (Or.inr (Or.inr this)), fun _ => h1.symm⟩
            | next s =>
              rw [hV] at h hscanV
              obtain ⟨r', hscanV', _⟩ := Scan.map_eq_next _ _ _ hscanV.symm
              have hno4 := scanLoop_next_sizes buf _ _
                (fun s x hx => (variableBody_eq_none buf _ _ s x).mpr hx) fuel _ _ _ hscanV'
              have hr : r = true := by
                simp only at h
                cases hO : vertexOutputLoop s.fragmentInterface s.vertexInterface
                    (buf, s.maxLocation) with
                | none => rw [hO] at h; cases h
                | some x =>
                  rw [hO] at h
                  injection h with h1 _
                  exact h1.symm
              subst hr
              constructor
              · intro h'; cases h'
              · intro h'
                rcases h' with ⟨ep, hep, hs⟩ | h' | h' | ⟨var, hvar, hs⟩
                · exact absurd hs (hno1 ep hep)
                · exact absurd h' hno2
                · exact absurd h' hno3
                · exact absurd hs (hno4 var hvar)

/-- The module `noConflictSample`: no pair of outputs shares a location, nothing is
rewritten, none of the four conditions holds, and the call returns true. -/
theorem returns_false_iff_witness :
    spirvPatchSwiftShaderConflictingMultiEntrypointLocations 11 noConflictSample
      = .returned true noConflictSample ∧
    ¬ ((∃ ep ∈ (found noConflictSample SpvOpEntryPoint 11 5).1, ep.size < 4) ∨
      ((∀ ep ∈ (found noConflictSample SpvOpEntryPoint 11 5).1,
          word noConflictSample (ep.data + 1) ≠ SpvExecutionModelVertex) ∨
        (∀ ep ∈ (found noConflictSample SpvOpEntryPoint 11 5).1,
          word noConflictSample (ep.data + 1) ≠ SpvExecutionModelFragment)) ∨
      (∃ v f, selectedEntryPoints 11 noConflictSample = some (v, f) ∧
        ((entryPointIds noConflictSample v).size = 0 ∨
          (entryPointIds noConflictSample f).size = 0)) ∨
      (∃ var ∈ (found noConflictSample SpvOpVariable 11
          (found noConflictSample SpvOpDecorate 11
            (found noConflictSample SpvOpEntryPoint 11 5).2).2).1,
        var.size < 4)) :=
  ⟨by decide, fun hcond => Bool.noConfusion
    ((returns_false_iff 11 noConflictSample noConflictSample true (by decide)).1.mpr hcond)⟩

end Magnum.Vk.Implementation

namespace Magnum.Vk.Implementation

/-- A module that differs from another only in location words has the same word at every
instruction boundary. -/
theorem word_boundary_eq (buf out : List Nat) (hrel : ChangedOnly (IsLocationWord buf) buf out)
    (pos : Nat) (hpos : ∃ k, boundary buf k = pos) : word out pos = word buf pos := by
  by_contra hne
  obtain ⟨p, hp, hip⟩ := hrel.2 pos hne
  have := instruction_end_le buf p pos hp.1 hpos (by omega)
  have := hp.2.2.1
  omega

/-- A module that differs from another only in location words has the same words in every
instruction, but for word 3 of the Location decorations. -/
theorem word_instruction_eq (buf out : List Nat)
    (hrel : ChangedOnly (IsLocationWord buf) buf out) (q j : Nat)
    (hq : IsInstructionAt buf q) (hj : j < wordCountAt buf q)
    (hne : opcodeAt buf q ≠ SpvOpDecorate ∨ j ≠ 3) : word out (q + j) = word buf (q + j) := by
  by_contra hch
  obtain ⟨p, hp, hip⟩ := hrel.2 (q + j) hch
  have hpq : p = q := by
    rcases Nat.lt_trichotomy p q with hlt | heq | hgt
    · have := instruction_end_le buf p q hp.1 hq.1 hlt
      have := hp.2.2.1
      omega
    · exact heq
    · have := instruction_end_le buf q p hq hp.1.1 hgt
      omega
  subst hpq
  rcases hne with h | h
  · exact h hp.2.1
  · omega

/-- The scanner does the same on a module that differs only in location words. -/
theorem findLoop_changedOnly (buf out : List Nat)
    (hrel : ChangedOnly (IsLocationWord buf) buf out) (op data : Nat) :
    ∀ (fuel pos : Nat), (∃ k, boundary buf k = pos) →
      findLoop out op data fuel pos = findLoop buf op data fuel pos := by
  intro fuel
  induction fuel with
  | zero => intro pos _; rfl
  | succ n ih =>
    intro pos hpos
    rw [findLoop, findLoop, hrel.1, word_boundary_eq buf out hrel pos hpos]
    by_cases h1 : buf.length ≤ pos
    · rw [if_pos h1, if_pos h1]
    · rw [if_neg h1, if_neg h1]
      simp only
      by_cases h2 : buf.length - pos < word buf pos >>> 16
      · rw [if_pos h2, if_pos h2]
      · rw [if_neg h2, if_neg h2]
        have hins : IsInstructionAt buf pos := ⟨hpos, by omega, by unfold wordCountAt; omega⟩
        have hnext := ih _ (boundary_after buf pos hins)
        unfold wordCountAt at hnext
        simp only [word_boundary_eq buf out hrel pos hpos, hnext]

/-- A scanning loop that falls through on a module falls through, at the same offset, on a
module that differs only in location words, with states in a relation that the bodies
keep on instructions of the opcode. -/
theorem scanLoop_changedOnly {σ : Type} (buf out : List Nat)
    (hrel : ChangedOnly (IsLocationWord buf) buf out) (op : Nat)
    (body body' : σ → ArrayView → Option σ) (R : σ → σ → Prop)
    (hbody : ∀ s s' v t, R s s' → IsInstructionAt buf v.data →
      v.size = wordCountAt buf v.data → opcodeAt buf v.data = op → body s v = some t →
      ∃ t', body' s' v = some t' ∧ R t t') :
    ∀ (fuel data : Nat) (s s' : σ) (d : Nat) (t : σ), (∃ k, boundary buf k = data) → R s s' →
      scanLoop buf op body fuel data s = .next (d, t) →
      ∃ t', scanLoop out op body' fuel data s' = .next (d, t') ∧ R t t' := by
  intro fuel
  induction fuel with
  | zero => intro data s s' d t _ _ h; cases h
  | succ n ih =>
    intro data s s' d t hdata hR h
    rw [scanLoop] at h
    rw [scanLoop, find, findLoop_changedOnly buf out hrel op data n data hdata]
    rw [find] at h
    rcases hfind : findLoop buf op data n data with _ | ⟨_ | ins, data'⟩
    · rw [hfind] at h; cases h
    · rw [hfind] at h
      injection h with h
      injection h with h1 h2
      subst h1; subst h2
      exact ⟨s', rfl, hR⟩
    · rw [hfind] at h
      simp only at h ⊢
      have hsound := findLoop_sound buf op data n data _ hdata hfind
      obtain ⟨h1, h2, h3, h4⟩ := hsound.1 ins rfl
      have hdata' : ∃ k, boundary buf k = data' := by
        simp only at h4
        rw [h4, h2]
        exact boundary_after buf _ h1
      cases hb : body s ins with
      | none => rw [hb] at h; cases h
      | some s1 =>
        rw [hb] at h
        obtain ⟨t1, hb', hR1⟩ := hbody s s' ins s1 hR h1 h2 h3 hb
        rw [hb']
        exact ih data' s1 t1 d t hdata' hR1 h

end Magnum.Vk.Implementation

namespace Magnum.Vk.Implementation

/-- The name loop reads words of the entry point only. -/
theorem entryPointIdsLoop_congr_view (buf buf' : List Nat) (ep : ArrayView)
    (h : ∀ i, i < ep.size → word buf' (ep.data + i) = word buf (ep.data + i)) :
    ∀ (n i : Nat), i + n ≤ ep.size →
      entryPointIdsLoop buf' ep n i = entryPointIdsLoop buf ep n i := by
  intro n
  induction n with
  | zero => intro i _; rfl
  | succ n ih =>
    intro i hi
    rw [entryPointIdsLoop, entryPointIdsLoop, h _ (by omega), ih (i + 1) (by omega)]

/-- The interface-ID list of an entry point lies in the entry point. -/
theorem entryPointIdsLoop_inside (buf : List Nat) (ep : ArrayView) :
    ∀ (n i : Nat), i + n ≤ ep.size →
      ∀ k, k < (entryPointIdsLoop buf ep n i).size →
        ∃ j, j < ep.size ∧ (entryPointIdsLoop buf ep n i).data + k = ep.data + j := by
  intro n
  induction n with
  | zero => intro i _ k hk; simp only [entryPointIdsLoop] at hk; omega
  | succ n ih =>
    intro i hi k hk
    rw [entryPointIdsLoop] at hk ⊢
    split at hk
    · rename_i h0
      rw [if_pos h0]
      simp only at hk ⊢
      exact ⟨i + 1 + k, by omega, by omega⟩
    · rename_i h0
      rw [if_neg h0]
      exact ih (i + 1) (by omega) k hk

/-- The slot loop reads the IDs of its view only. -/
theorem updateInterface_congr (buf buf' : List Nat) (ids : ArrayView) (id : Nat)
    (update : EntryPointInterface → EntryPointInterface)
    (h : ∀ i, i < ids.size → word buf' (ids.data + i) = word buf (ids.data + i)) :
    ∀ (n i : Nat) (interface : List EntryPointInterface), i + n ≤ ids.size →
      updateInterface buf' ids id update n i interface
        = updateInterface buf ids id update n i interface := by
  intro n
  induction n with
  | zero => intro i interface _; rfl
  | succ n ih =>
    intro i interface hi
    rw [updateInterface, updateInterface, h i (by omega), ih (i + 1) interface (by omega)]

/-- A module that differs only in location words has the same words in an entry point
and in its interface-ID list. -/
theorem entryPoint_words_eq (buf out : List Nat)
    (hrel : ChangedOnly (IsLocationWord buf) buf out) (ep : ArrayView)
    (hep : IsInstructionAt buf ep.data ∧ ep.size = wordCountAt buf ep.data ∧
      opcodeAt buf ep.data = SpvOpEntryPoint) :
    (∀ i, i < ep.size → word out (ep.data + i) = word buf (ep.data + i)) ∧
    entryPointIds out ep = entryPointIds buf ep ∧
    ∀ i, i < (entryPointIds buf ep).size →
      word out ((entryPointIds buf ep).data + i) = word buf ((entryPointIds buf ep).data + i) := by
  have hw : ∀ i, i < ep.size → word out (ep.data + i) = word buf (ep.data + i) := by
    intro i hi
    refine word_instruction_eq buf out hrel ep.data i hep.1 (by rw [← hep.2.1]; exact hi)
      (Or.inl ?_)
    rw [hep.2.2]; decide
  refine ⟨hw, ?_, ?_⟩
  · unfold entryPointIds
    by_cases h3 : 3 ≤ ep.size
    · exact entryPointIdsLoop_congr_view buf out ep hw _ 3 (by omega)
    · rw [show ep.size - 3 = 0 by omega]; rfl
  · intro i hi
    unfold entryPointIds at hi ⊢
    by_cases h3 : 3 ≤ ep.size
    · obtain ⟨j, hj, he⟩ := entryPointIdsLoop_inside buf ep _ 3 (by omega) i hi
      rw [he]; exact hw j hj
    · rw [show ep.size - 3 = 0 by omega] at hi
      simp only [entryPointIdsLoop] at hi
      omega

end Magnum.Vk.Implementation

namespace Magnum.Vk.Implementation

/-- The entry-point body does the same on a module that differs only in location words. -/
theorem entryPointBody_changedOnly (buf out : List Nat)
    (hrel : ChangedOnly (IsLocationWord buf) buf out)
    (s : Option ArrayView × Option ArrayView) (v : ArrayView)
    (h1 : IsInstructionAt buf v.data) (h2 : v.size = wordCountAt buf v.data) :
    entryPointBody out s v = entryPointBody buf s v := by
  unfold entryPointBody
  by_cases h : v.size < 4
  · rw [if_pos h, if_pos h]
  · rw [if_neg h, if_neg h,
      word_instruction_eq buf out hrel v.data 1 h1 (by omega) (Or.inr (by omega))]

/-- The decoration body gives the slots the same pointers on a module that differs only in
location words. -/
theorem decorationBody_changedOnly (buf out : List Nat)
    (hrel : ChangedOnly (IsLocationWord buf) buf out) (vIds fIds : ArrayView)
    (hv : ∀ i, i < vIds.size → word out (vIds.data + i) = word buf (vIds.data + i))
    (hf : ∀ i, i < fIds.size → word out (fIds.data + i) = word buf (fIds.data + i))
    (s s' : Slots) (v : ArrayView) (t : Slots)
    (hR : s.vertexInterface = s'.vertexInterface ∧ s.fragmentInterface = s'.fragmentInterface)
    (h1 : IsInstructionAt buf v.data) (h2 : v.size = wordCountAt buf v.data)
    (hb : decorationBody buf vIds fIds s v = some t) :
    ∃ t', decorationBody out vIds fIds s' v = some t' ∧
      t.vertexInterface = t'.vertexInterface ∧ t.fragmentInterface = t'.fragmentInterface := by
  unfold decorationBody at hb ⊢
  by_cases h4 : v.size < 4
  · rw [if_pos (Or.inl h4)] at hb ⊢
    injection hb with hb
    subst hb
    exact ⟨s', rfl, hR⟩
  · have e1 := word_instruction_eq buf out hrel v.data 1 h1 (by omega) (Or.inr (by omega))
    have e2 := word_instruction_eq buf out hrel v.data 2 h1 (by omega) (Or.inr (by omega))
    rw [e1, e2]
    by_cases hskip : v.size < 4 ∨ word buf (v.data + 2) ≠ SpvDecorationLocation
    · rw [if_pos hskip] at hb ⊢
      injection hb with hb
      subst hb
      exact ⟨s', rfl, hR⟩
    · rw [if_neg hskip] at hb ⊢
      injection hb with hb
      subst hb
      refine ⟨_, rfl, ?_, ?_⟩
      · simp only
        rw [updateInterface_congr buf out vIds _ _ hv _ 0 _ (by omega), hR.1]
      · simp only
        rw [updateInterface_congr buf out fIds _ _ hf _ 0 _ (by omega), hR.2]

/-- The variable body gives the slots the same storage classes on a module that differs
only in location words. -/
theorem variableBody_changedOnly (buf out : List Nat)
    (hrel : ChangedOnly (IsLocationWord buf) buf out) (vIds fIds : ArrayView)
    (hv : ∀ i, i < vIds.size → word out (vIds.data + i) = word buf (vIds.data + i))
    (hf : ∀ i, i < fIds.size → word out (fIds.data + i) = word buf (fIds.data + i))
    (s s' : Slots) (v : ArrayView) (t : Slots)
    (hR : s.vertexInterface = s'.vertexInterface ∧ s.fragmentInterface = s'.fragmentInterface)
    (h1 : IsInstructionAt buf v.data) (h2 : v.size = wordCountAt buf v.data)
    (h3 : opcodeAt buf v.data = SpvOpVariable)
    (hb : variableBody buf vIds fIds s v = some t) :
    ∃ t', variableBody out vIds fIds s' v = some t' ∧
      t.vertexInterface = t'.vertexInterface ∧ t.fragmentInterface = t'.fragmentInterface := by
  unfold variableBody at hb ⊢
  by_cases h4 : v.size < 4
  · rw [if_pos h4] at hb; cases hb
  · rw [if_neg h4] at hb ⊢
    have hop : opcodeAt buf v.data ≠ SpvOpDecorate := by rw [h3]; decide
    have e2 := word_instruction_eq buf out hrel v.data 2 h1 (by omega) (Or.inl hop)
    have e3 := word_instruction_eq buf out hrel v.data 3 h1 (by omega) (Or.inl hop)
    rw [e2, e3]
    injection hb with hb
    subst hb
    refine ⟨_, rfl, ?_, ?_⟩
    · simp only
      rw [updateInterface_congr buf out vIds _ _ hv _ 0 _ (by omega), hR.1]
    · simp only
      rw [updateInterface_congr buf out fIds _ _ hf _ 0 _ (by omega), hR.2]

end Magnum.Vk.Implementation

namespace Magnum.Vk.Implementation

/-- A call that returns true on a module without an ID in both interface-ID lists, and
without a wrap of the running maximum, leaves slots without a conflict. -/
theorem returned_true_conflictFree (fuel : Nat) (buf out : List Nat) (s : Interfaces)
    (h : spirvPatchSwiftShaderConflictingMultiEntrypointLocations fuel buf = .returned true out)
    (hs : scannedInterfaces fuel buf = some s)
    (hdisj : ∀ v f, selectedEntryPoints fuel buf = some (v, f) →
      ∀ id, InView buf (entryPointIds buf v) id → ¬ InView buf (entryPointIds buf f) id)
    (hbound : s.maxLocation +
      (s.vertexInterface.filter fun e => decide (e.storageClass = SpvStorageClassOutput)).length
        < 2 ^ 32) :
    ∀ vo ∈ s.vertexInterface, vo.storageClass = SpvStorageClassOutput →
      ∀ lv, vo.location = some lv →
        ∀ fo ∈ s.fragmentInterface, fo.storageClass = SpvStorageClassOutput →
          ∀ lf, fo.location = some lf → word out lv ≠ word out lf := by
  obtain ⟨s', m, hs', hO⟩ := returned_true_scanned fuel buf out h
  rw [hs] at hs'
  injection hs' with hs'
  subst hs'
  obtain ⟨v, f, hsel, hv, hf⟩ := scanned_indexed fuel buf s hs
  obtain ⟨v', f', hsel', hloc⟩ := scanned_located fuel buf s hs
  rw [hsel] at hsel'
  injection hsel' with hsel'
  injection hsel' with e1 e2
  subst e1; subst e2
  exact vertexOutputLoop_eliminates s.fragmentInterface
    (fun a ha b hb l hal hbl => by
      obtain ⟨i, hi⟩ := List.mem_iff_getElem?.mp ha
      obtain ⟨j, hj⟩ := List.mem_iff_getElem?.mp hb
      by_cases hij : i = j
      · subst hij; rw [hi] at hj; injection hj with hj; rw [hj]
      · exact (Indexed.pointer_ne buf _ _ _ hf i j a b l hij hi hj hal hbl).elim)
    s.vertexInterface buf out s.maxLocation m
    (by
      rw [List.pairwise_iff_getElem]
      intro i j hi hj hij l hal hbl
      exact Indexed.pointer_ne buf _ _ _ hv i j _ _ l (Nat.ne_of_lt hij)
        (List.getElem?_eq_getElem hi) (List.getElem?_eq_getElem hj) hal hbl)
    (fun vo hvo fe hfe l hvl hfl => by
      obtain ⟨i, hi⟩ := List.mem_iff_getElem?.mp hvo
      obtain ⟨j, hj⟩ := List.mem_iff_getElem?.mp hfe
      obtain ⟨_, e1, _, _⟩ := hv.2 i vo l hi hvl
      obtain ⟨_, e2, _, _⟩ := hf.2 j fe l hj hfl
      have hi' : i < (entryPointIds buf v).size := by
        rw [← hv.1]; exact (List.getElem?_eq_some.mp hi).1
      have hj' : j < (entryPointIds buf f).size := by
        rw [← hf.1]; exact (List.getElem?_eq_some.mp hj).1
      exact hdisj v f hsel (word buf (l - 2)) ⟨i, hi', e1.symm⟩ ⟨j, hj', e2.symm⟩)
    (fun vo hvo l hl => IsLocationOf.lt_length buf _ l (hloc.1 vo hvo l hl))
    (fun fo hfo _ lf hlf => by
      obtain ⟨j, hj⟩ := List.mem_iff_getElem?.mp hfo
      exact (hf.2 j fo lf hj hlf).2.2.2)
    hbound hO

/-- The patcher gets to conflict resolution with the same slots, but for `maxLocation`, on
a module that differs only in location words. -/
theorem scanned_changedOnly (fuel : Nat) (buf out : List Nat) (s : Interfaces)
    (hrel : ChangedOnly (IsLocationWord buf) buf out)
    (hs : scannedInterfaces fuel buf = some s) :
    ∃ s', scannedInterfaces fuel out = some s' ∧
      s'.vertexInterface = s.vertexInterface ∧ s'.fragmentInterface = s.fragmentInterface := by
  have h5 : ¬ buf.length < 5 := by
    intro h5
    unfold scannedInterfaces at hs
    rw [if_pos h5] at hs; cases hs
  obtain ⟨e, v, f, d, hE, hv, hf, hsel, hvs, hfs, hD, hV⟩ := scanned_inv fuel buf s hs
  have hsound := selectedEntryPoints_sound fuel buf v f hsel
  obtain ⟨_, hidv, hwv⟩ := entryPoint_words_eq buf out hrel v
    ⟨hsound.1.1, hsound.1.2.1, hsound.1.2.2.1⟩
  obtain ⟨_, hidf, hwf⟩ := entryPoint_words_eq buf out hrel f
    ⟨hsound.2.1, hsound.2.2.1, hsound.2.2.2.1⟩
  -- the entry-point loop
  have hE' : entryPointLoop out fuel
      { data := 5, vertexEntryPoint := none, fragmentEntryPoint := none } = .next e := by
    have k1 := entryPointLoop_eq_scanLoop buf fuel
      { data := 5, vertexEntryPoint := none, fragmentEntryPoint := none }
    rw [hE] at k1
    obtain ⟨⟨p, t⟩, hscan, he⟩ := Scan.map_eq_next _ _ _ k1.symm
    obtain ⟨t', hscan', ht⟩ := scanLoop_changedOnly buf out hrel SpvOpEntryPoint
      (entryPointBody buf) (entryPointBody out) Eq
      (fun s1 s2 x t1 hR h1 h2 _ hb => ⟨t1, by
        rw [← hR, entryPointBody_changedOnly buf out hrel s1 x h1 h2]; exact hb, rfl⟩)
      fuel 5 _ _ p t ⟨0, rfl⟩ rfl hscan
    rw [entryPointLoop_eq_scanLoop]
    simp only at hscan' ⊢
    rw [hscan', ← ht, ← he]
    rfl
  have hbE := entryPointLoop_boundary buf fuel e hE
  -- the decoration loop
  have kD := decorationLoop_eq_scanLoop buf (entryPointIds buf v) (entryPointIds buf f) fuel
    { data := e.data, maxLocation := 0,
      vertexInterface := List.replicate (entryPointIds buf v).size {},
      fragmentInterface := List.replicate (entryPointIds buf f).size {} }
  rw [hD] at kD
  obtain ⟨⟨p, t⟩, hscanD, hd⟩ := Scan.map_eq_next _ _ _ kD.symm
  obtain ⟨t', hscanD', htD⟩ := scanLoop_changedOnly buf out hrel SpvOpDecorate
    (decorationBody buf (entryPointIds buf v) (entryPointIds buf f))
    (decorationBody out (entryPointIds buf v) (entryPointIds buf f))
    (fun a b => a.vertexInterface = b.vertexInterface ∧
      a.fragmentInterface = b.fragmentInterface)
    (fun s1 s2 x t1 hR h1 h2 _ hb =>
      decorationBody_changedOnly buf out hrel _ _ hwv hwf s1 s2 x t1 hR h1 h2 hb)
    fuel _ _ _ p t hbE ⟨rfl, rfl⟩ hscanD
  have hD' : decorationLoop out (entryPointIds buf v) (entryPointIds buf f) fuel
      { data := e.data, maxLocation := 0,
        vertexInterface := List.replicate (entryPointIds buf v).size {},
        fragmentInterface := List.replicate (entryPointIds buf f).size {} }
      = some (t'.withData p) := by
    apply Scan.ofOption_eq_next
    rw [decorationLoop_eq_scanLoop]
    simp only [Interfaces.slots] at hscanD' ⊢
    rw [hscanD']
    rfl
  -- the variable loop
  have hbD : ∃ k, boundary buf k = p := by
    have := (scanLoop_next buf _ _ fuel _ _ p t hscanD).2
    rw [← this]
    exact (found_sound buf SpvOpDecorate fuel e.data hbE).2
  have kV := variableLoop_eq_scanLoop buf (entryPointIds buf v) (entryPointIds buf f) fuel d
  rw [hV, ← hd] at kV
  obtain ⟨⟨q, u⟩, hscanV, hsu⟩ := Scan.map_eq_next _ _ _ kV.symm
  obtain ⟨u', hscanV', htV⟩ := scanLoop_changedOnly buf out hrel SpvOpVariable
    (variableBody buf (entryPointIds buf v) (entryPointIds buf f))
    (variableBody out (entryPointIds buf v) (entryPointIds buf f))
    (fun a b => a.vertexInterface = b.vertexInterface ∧
      a.fragmentInterface = b.fragmentInterface)
    (fun s1 s2 x t1 hR h1 h2 h3 hb =>
      variableBody_changedOnly buf out hrel _ _ hwv hwf s1 s2 x t1 hR h1 h2 h3 hb)
    fuel p t t' q u hbD htD hscanV
  have hV' : variableLoop out (entryPointIds buf v) (entryPointIds buf f) fuel (t'.withData p)
      = .next (u'.withData q) := by
    rw [variableLoop_eq_scanLoop]
    exact congrArg (Scan.map fun r => r.2.withData r.1) hscanV'
  refine ⟨u'.withData q, ?_, ?_, ?_⟩
  · unfold scannedInterfaces
    rw [hrel.1, if_neg h5, hE']
    simp only [hv, hf, hidv, hidf]
    rw [if_neg (by intro h'; rcases h' with h' | h'; exact hvs h'; exact hfs h'), hD']
    simp only [hV']
  · rw [← hsu]; exact htV.1.symm
  · rw [← hsu]; exact htV.2.symm

end Magnum.Vk.Implementation

namespace Magnum.Vk.Implementation

/-- A call that gets to conflict resolution returns true with the module that the loop
over the vertex outputs leaves, unless that loop dereferences a null pointer. -/
theorem scanned_patch (fuel : Nat) (buf : List Nat) (s : Interfaces)
    (hs : scannedInterfaces fuel buf = some s) :
    spirvPatchSwiftShaderConflictingMultiEntrypointLocations fuel buf
      = match vertexOutputLoop s.fragmentInterface s.vertexInterface (buf, s.maxLocation) with
        | none => .nullDereference
        | some r => .returned true r.1 := by
  have h5 : ¬ buf.length < 5 := by
    intro h5
    unfold scannedInterfaces at hs
    rw [if_pos h5] at hs; cases hs
  obtain ⟨e, v, f, d, hE, hv, hf, _, hvs, hfs, hD, hV⟩ := scanned_inv fuel buf s hs
  unfold spirvPatchSwiftShaderConflictingMultiEntrypointLocations
  rw [if_neg h5, hE]
  simp only [hv, hf, patchEntryPoints]
  rw [if_neg (by intro h'; rcases h' with h' | h'; exact hvs h'; exact hfs h'), hD]
  simp only [hV]
  cases vertexOutputLoop s.fragmentInterface s.vertexInterface (buf, s.maxLocation) with
  | none => rfl
  | some r => rfl

/-- C21: a call that returns true on a module without an ID in both interface-ID lists,
and with the running maximum location plus the number of vertex-side Output slots below
2^32, leaves a module on which a second call returns true and changes nothing. That every
fragment input has a Location decoration is not needed: a call that returns true has not
met one without. -/
theorem patch_idempotent (fuel : Nat) (buf out : List Nat) (s : Interfaces)
    (h : spirvPatchSwiftShaderConflictingMultiEntrypointLocations fuel buf = .returned true out)
    (hs : scannedInterfaces fuel buf = some s)
    (hdisj : ∀ v f, selectedEntryPoints fuel buf = some (v, f) →
      ∀ id, InView buf (entryPointIds buf v) id → ¬ InView buf (entryPointIds buf f) id)
    (hbound : s.maxLocation +
      (s.vertexInterface.filter fun e => decide (e.storageClass = SpvStorageClassOutput)).length
        < 2 ^ 32) :
    spirvPatchSwiftShaderConflictingMultiEntrypointLocations fuel out = .returned true out := by
  have hrel : ChangedOnly (IsLocationWord buf) buf out :=
    ChangedOnly.mono _ _ _ _ (fun i ⟨p, hp, hip, _⟩ => ⟨p, hp, hip⟩)
      (changed_word_is_location fuel buf out true h)
  obtain ⟨s', hs', hvI, hfI⟩ := scanned_changedOnly fuel buf out s hrel hs
  have hfree := returned_true_conflictFree fuel buf out s h hs hdisj hbound
  have hall : s'.vertexInterface.all (fun vo =>
      s'.fragmentInterface.all (fun fo => !conflict out vo fo)) = true := by
    rw [hvI, hfI, List.all_eq_true]
    intro vo hvo
    rw [List.all_eq_true]
    intro fo hfo
    rw [Bool.not_eq_true']
    unfold conflict
    cases hvl : vo.location with
    | none => rfl
    | some lv =>
      cases hfl : fo.location with
      | none => rfl
      | some lf =>
        simp only
        rw [decide_eq_false_iff_not]
        intro ⟨h1, h2, h3⟩
        exact hfree vo hvo h1 lv hvl fo hfo h2 lf hfl h3
  rw [scanned_patch fuel out s' hs',
    vertexOutputLoop_conflictFree out s'.fragmentInterface s'.maxLocation s'.vertexInterface hall]

/-- The module `twoConflictSample`: the call rewrites the locations of the outputs 10 and
20 of the vertex entry point and of the input 12 of the fragment entry point, and a
second call on the result returns true and leaves it. -/
theorem patch_idempotent_witness :
    spirvPatchSwiftShaderConflictingMultiEntrypointLocations 15 twoConflictSample
      = .returned true (((twoConflictSample.set 39 9).set 23 9).set 27 10) ∧
    spirvPatchSwiftShaderConflictingMultiEntrypointLocations 15
        (((twoConflictSample.set 39 9).set 23 9).set 27 10)
      = .returned true (((twoConflictSample.set 39 9).set 23 9).set 27 10) :=
  ⟨by decide,
    patch_idempotent 15 twoConflictSample _
      { data := 60, maxLocation := 8,
        vertexInterface := [{ location := some 23, storageClass := SpvStorageClassOutput },
          { location := some 27, storageClass := SpvStorageClassOutput }],
        fragmentInterface := [{ location := some 31, storageClass := SpvStorageClassOutput },
          { location := some 35, storageClass := SpvStorageClassOutput },
          { location := some 39, storageClass := SpvStorageClassInput }] }
      (by decide) (by decide)
      (inView_disjoint 15 twoConflictSample ⟨5, 7⟩ ⟨12, 8⟩ (by decide) (by decide))
      (by decide)⟩

end Magnum.Vk.Implementation

namespace Magnum.Vk.Implementation

/-- A checked read inside a view that lies in the module gives the word. -/
theorem index_eq (buf : List Nat) (v : ArrayView) (i : Nat) (hi : i < v.size)
    (hv : v.data + v.size ≤ buf.length) : v.index buf i = .value (word buf (v.data + i)) := by
  have hlt : v.data + i < buf.length := by omega
  unfold ArrayView.index word
  rw [if_pos hi, List.getD_eq_getElem?_getD, List.getElem?_eq_getElem hlt]
  rfl

/-- The checked loop of `find` has no failed range check and does what the loop of `find`
does, when every instruction header it reads has a word count that is not 0. -/
theorem findLoopChecked_eq (buf : List Nat) (op data : Nat) :
    ∀ (fuel offset : Nat), (∀ p ∈ findHeaders buf op fuel offset, word buf p >>> 16 ≠ 0) →
      findLoopChecked buf op data fuel offset = .value (findLoop buf op data fuel offset) := by
  intro fuel
  induction fuel with
  | zero => intro offset _; rfl
  | succ n ih =>
    intro offset hh
    rw [findLoopChecked, findLoop]
    rw [findHeaders] at hh
    by_cases h1 : buf.length ≤ offset
    · rw [if_pos h1]
      simp only
      rw [if_pos (by omega)]
    · rw [if_neg h1] at hh ⊢
      simp only
      rw [if_neg (by omega), index_eq buf ⟨offset, buf.length - offset⟩ 0 (by simp only; omega)
        (by simp only; omega)]
      simp only [Nat.add_zero]
      have hwc := hh offset (List.mem_cons_self _ _)
      by_cases h2 : buf.length - offset < word buf offset >>> 16
      · rw [if_pos h2, if_pos h2]
      · rw [if_neg h2] at hh ⊢
        rw [if_neg h2]
        simp only [ArrayView.prefixOf, ArrayView.suffixOf, if_pos (Nat.le_of_not_lt h2)]
        rw [index_eq buf ⟨offset, word buf offset >>> 16⟩ 0 (by simp only; omega)
          (by simp only; omega)]
        simp only [Nat.add_zero]
        by_cases h3 : word buf offset &&& 0xffff = op
        · rw [if_pos h3, if_pos h3]
        · rw [if_neg h3] at hh ⊢
          rw [if_neg h3]
          exact ih _ (fun p hp => hh p (List.mem_cons_of_mem _ hp))

/-- A view that `find` returns lies in the module. -/
theorem findLoop_inside (buf : List Nat) (op data : Nat) :
    ∀ (fuel offset : Nat) (v : ArrayView) (d : Nat),
      findLoop buf op data fuel offset = some (some v, d) → v.data + v.size ≤ buf.length := by
  intro fuel
  induction fuel with
  | zero => intro offset v d h; cases h
  | succ n ih =>
    intro offset v d h
    rw [findLoop] at h
    by_cases h1 : buf.length ≤ offset
    · rw [if_pos h1] at h; cases h
    · rw [if_neg h1] at h
      simp only at h
      by_cases h2 : buf.length - offset < word buf offset >>> 16
      · rw [if_pos h2] at h; cases h
      · rw [if_neg h2] at h
        by_cases h3 : word buf offset &&& 0xffff = op
        · rw [if_pos h3] at h
          injection h with h
          injection h with h _
          injection h with h
          subst h
          simp only
          omega
        · rw [if_neg h3] at h
          exact ih _ v d h

/-- A checked scanning loop has no failed range check and does what the scanning loop
does, when every instruction header it reads has a word count that is not 0 and its body
has no failed range check on views in the module, in states with a property that the body
keeps. -/
theorem scanLoopChecked_eq {σ : Type} (buf : List Nat) (op : Nat)
    (body : σ → ArrayView → Option σ) (bodyC : σ → ArrayView → Checked (Option σ))
    (Inv : σ → Prop)
    (hbody : ∀ s v, Inv s → v.data + v.size ≤ buf.length →
      bodyC s v = .value (body s v) ∧ ∀ t, body s v = some t → Inv t) :
    ∀ (fuel data : Nat) (s : σ), Inv s →
      (∀ p ∈ scanHeaders buf op body fuel data s, word buf p >>> 16 ≠ 0) →
      scanLoopChecked buf op bodyC fuel data s = .value (scanLoop buf op body fuel data s) ∧
      ∀ r, scanLoop buf op body fuel data s = .next r → Inv r.2 := by
  intro fuel
  induction fuel with
  | zero => intro data s _ _; exact ⟨rfl, fun r h => by cases h⟩
  | succ n ih =>
    intro data s hs hh
    rw [scanLoopChecked, scanLoop, findChecked]
    rw [scanHeaders] at hh
    rw [findLoopChecked_eq buf op data n data (fun p hp => hh p (List.mem_append_left _ hp))]
    rw [find] at hh ⊢
    rcases hfind : findLoop buf op data n data with _ | ⟨_ | ins, data'⟩
    · exact ⟨rfl, fun r h => by cases h⟩
    · refine ⟨rfl, fun r h => ?_⟩
      injection h with h
      rw [← h]
      exact hs
    · rw [hfind] at hh
      simp only at hh ⊢
      obtain ⟨hb, hinv⟩ := hbody s ins hs (findLoop_inside buf op data n data ins data' hfind)
      rw [hb]
      cases hbs : body s ins with
      | none => exact ⟨rfl, fun r h => by cases h⟩
      | some s' =>
        rw [hbs] at hh
        simp only at hh ⊢
        exact ih data' s' (hinv s' hbs) (fun p hp => hh p (List.mem_append_right _ hp))

end Magnum.Vk.Implementation

namespace Magnum.Vk.Implementation

/-- The checked entry-point body has no failed range check on a view in the module. -/
theorem entryPointBodyChecked_eq (buf : List Nat) (s : Option ArrayView × Option ArrayView)
    (v : ArrayView) (hv : v.data + v.size ≤ buf.length) :
    entryPointBodyChecked buf s v = .value (entryPointBody buf s v) := by
  unfold entryPointBodyChecked entryPointBody
  by_cases h : v.size < 4
  · rw [if_pos h, if_pos h]
  · rw [if_neg h, if_neg h, index_eq buf v 1 (by omega) hv]

/-- The checked name loop has no failed range check on an entry point in the module. -/
theorem entryPointIdsLoopChecked_eq (buf : List Nat) (ep : ArrayView)
    (hep : ep.data + ep.size ≤ buf.length) :
    ∀ (n i : Nat), i + n ≤ ep.size →
      entryPointIdsLoopChecked buf ep n i = .value (entryPointIdsLoop buf ep n i) := by
  intro n
  induction n with
  | zero => intro i _; rfl
  | succ n ih =>
    intro i hi
    rw [entryPointIdsLoopChecked, entryPointIdsLoop, index_eq buf ep i (by omega) hep]
    simp only
    by_cases h0 : word buf (ep.data + i) >>> 24 = 0
    · rw [if_pos h0, if_pos h0, ArrayView.suffixOf, if_pos (by omega)]
    · rw [if_neg h0, if_neg h0]
      exact ih (i + 1) (by omega)

/-- The interface-ID list of an entry point in the module lies in the module. -/
theorem entryPointIdsLoop_in_module (buf : List Nat) (ep : ArrayView)
    (hep : ep.data + ep.size ≤ buf.length) :
    ∀ (n i : Nat), i + n ≤ ep.size →
      (entryPointIdsLoop buf ep n i).data + (entryPointIdsLoop buf ep n i).size
        ≤ buf.length := by
  intro n
  induction n with
  | zero => intro i _; exact Nat.zero_le _
  | succ n ih =>
    intro i hi
    rw [entryPointIdsLoop]
    split
    · simp only; omega
    · exact ih (i + 1) (by omega)

/-- The checked interface IDs of an entry point of at least 3 words in the module. -/
theorem entryPointIdsChecked_eq (buf : List Nat) (ep : ArrayView)
    (hep : ep.data + ep.size ≤ buf.length) (h3 : 3 ≤ ep.size) :
    entryPointIdsChecked buf ep = .value (entryPointIds buf ep) ∧
    (entryPointIds buf ep).data + (entryPointIds buf ep).size ≤ buf.length := by
  unfold entryPointIdsChecked entryPointIds
  rw [if_neg (by omega)]
  exact ⟨entryPointIdsLoopChecked_eq buf ep hep _ 3 (by omega),
    entryPointIdsLoop_in_module buf ep hep _ 3 (by omega)⟩

/-- The checked slot loop has no failed range check when the IDs lie in the module and
there is a slot for each ID. -/
theorem updateInterfaceChecked_eq (buf : List Nat) (ids : ArrayView) (id : Nat)
    (update : EntryPointInterface → EntryPointInterface)
    (hids : ids.data + ids.size ≤ buf.length) :
    ∀ (n i : Nat) (interface : List EntryPointInterface), i + n ≤ ids.size →
      interface.length = ids.size →
      updateInterfaceChecked buf ids id update n i interface
        = .value (updateInterface buf ids id update n i interface) := by
  intro n
  induction n with
  | zero => intro i interface _ _; rfl
  | succ n ih =>
    intro i interface hi hlen
    rw [updateInterfaceChecked, updateInterface, index_eq buf ids i (by omega) hids]
    simp only
    by_cases h : id = word buf (ids.data + i)
    · rw [if_pos h, if_pos h, if_pos (by omega)]
    · rw [if_neg h, if_neg h]
      exact ih (i + 1) interface (by omega) hlen

/-- The slot loop leaves the number of slots. -/
theorem length_updateInterface (buf : List Nat) (ids : ArrayView) (id : Nat)
    (update : EntryPointInterface → EntryPointInterface) (n i : Nat)
    (interface : List EntryPointInterface) :
    (updateInterface buf ids id update n i interface).length = interface.length := by
  rcases updateInterface_cases buf ids id update n i interface with h | ⟨k, _, _, _, h⟩
  · rw [h]
  · rw [h, List.length_modify]

/-- The checked decoration body has no failed range check on a view in the module, when
the IDs lie in the module and there is a slot for each ID; and it leaves a slot for each
ID. -/
theorem decorationBodyChecked_eq (buf : List Nat) (vIds fIds : ArrayView)
    (hvIds : vIds.data + vIds.size ≤ buf.length) (hfIds : fIds.data + fIds.size ≤ buf.length)
    (s : Slots) (v : ArrayView)
    (hs : s.vertexInterface.length = vIds.size ∧ s.fragmentInterface.length = fIds.size)
    (hv : v.data + v.size ≤ buf.length) :
    decorationBodyChecked buf vIds fIds s v = .value (decorationBody buf vIds fIds s v) ∧
    ∀ t, decorationBody buf vIds fIds s v = some t →
      t.vertexInterface.length = vIds.size ∧ t.fragmentInterface.length = fIds.size := by
  unfold decorationBodyChecked decorationBody
  by_cases h4 : v.size < 4
  · rw [if_pos h4, if_pos (Or.inl h4)]
    exact ⟨rfl, fun t ht => by injection ht with ht; rw [← ht]; exact hs⟩
  · rw [if_neg h4, index_eq buf v 2 (by omega) hv]
    simp only
    by_cases hk : word buf (v.data + 2) ≠ SpvDecorationLocation
    · rw [if_pos hk, if_pos (Or.inr hk)]
      exact ⟨rfl, fun t ht => by injection ht with ht; rw [← ht]; exact hs⟩
    · rw [if_neg hk, if_neg (by intro h; rcases h with h | h; exact h4 h; exact hk h),
        index_eq buf v 3 (by omega) hv, index_eq buf v 1 (by omega) hv]
      simp only
      rw [updateInterfaceChecked_eq buf vIds _ _ hvIds _ 0 _ (by omega) hs.1,
        updateInterfaceChecked_eq buf fIds _ _ hfIds _ 0 _ (by omega) hs.2]
      refine ⟨rfl, fun t ht => ?_⟩
      injection ht with ht
      rw [← ht]
      simp only [length_updateInterface]
      exact hs

/-- The checked variable body has no failed range check on a view in the module, when the
IDs lie in the module and there is a slot for each ID; and it leaves a slot for each
ID. -/
theorem variableBodyChecked_eq (buf : List Nat) (vIds fIds : ArrayView)
    (hvIds : vIds.data + vIds.size ≤ buf.length) (hfIds : fIds.data + fIds.size ≤ buf.length)
    (s : Slots) (v : ArrayView)
    (hs : s.vertexInterface.length = vIds.size ∧ s.fragmentInterface.length = fIds.size)
    (hv : v.data + v.size ≤ buf.length) :
    variableBodyChecked buf vIds fIds s v = .value (variableBody buf vIds fIds s v) ∧
    ∀ t, variableBody buf vIds fIds s v = some t →
      t.vertexInterface.length = vIds.size ∧ t.fragmentInterface.length = fIds.size := by
  unfold variableBodyChecked variableBody
  by_cases h4 : v.size < 4
  · rw [if_pos h4, if_pos h4]
    exact ⟨rfl, fun t ht => by cases ht⟩
  · rw [if_neg h4, if_neg h4, index_eq buf v 2 (by omega) hv, index_eq buf v 3 (by omega) hv]
    simp only
    rw [updateInterfaceChecked_eq buf vIds _ _ hvIds _ 0 _ (by omega) hs.1,
      updateInterfaceChecked_eq buf fIds _ _ hfIds _ 0 _ (by omega) hs.2]
    refine ⟨rfl, fun t ht => ?_⟩
    injection ht with ht
    rw [← ht]
    simp only [length_updateInterface]
    exact hs

end Magnum.Vk.Implementation

namespace Magnum.Vk.Implementation

/-- A loop without `return false` that is a scanning loop out of fuel is out of fuel. -/
theorem Scan.ofOption_eq_outOfFuel {α : Type} (x : Option α)
    (h : Scan.ofOption x = Scan.outOfFuel) : x = none := by
  cases x with
  | none => rfl
  | some y => cases h

/-- C22: on a module of at least 5 words in which every instruction header that the
scanner reaches has a word count that is not 0, the patcher with every index, every slice
and every slot index checked has no failed range check, and does what the patcher
does. -/
theorem checked_reads_in_bounds (fuel : Nat) (buf : List Nat) (h5 : 5 ≤ buf.length)
    (hh : ∀ p ∈ headers fuel buf, wordCountAt buf p ≠ 0) :
    spirvPatchChecked fuel buf
      = .value (spirvPatchSwiftShaderConflictingMultiEntrypointLocations fuel buf) := by
  unfold spirvPatchChecked spirvPatchSwiftShaderConflictingMultiEntrypointLocations
  rw [ArrayView.suffixOf, if_pos (by simp only; exact h5), if_neg (by omega),
    entryPointLoop_eq_scanLoop]
  simp only
  -- the entry-point loop
  obtain ⟨hE, hInvE⟩ := scanLoopChecked_eq buf SpvOpEntryPoint (entryPointBody buf)
    (entryPointBodyChecked buf)
    (fun sel => (∀ v, sel.1 = some v → v.data + v.size ≤ buf.length ∧ 4 ≤ v.size) ∧
      (∀ v, sel.2 = some v → v.data + v.size ≤ buf.length ∧ 4 ≤ v.size))
    (fun s v hs hv => ⟨entryPointBodyChecked_eq buf s v hv, fun t ht => by
      unfold entryPointBody at ht
      by_cases h4 : v.size < 4
      · rw [if_pos h4] at ht; cases ht
      · rw [if_neg h4] at ht
        injection ht with ht
        subst ht
        constructor
        · intro x hx
          simp only at hx
          split at hx
          · injection hx with hx; subst hx; exact ⟨hv, by omega⟩
          · exact hs.1 x hx
        · intro x hx
          simp only at hx
          split at hx
          · injection hx with hx; subst hx; exact ⟨hv, by omega⟩
          · exact hs.2 x hx⟩)
    fuel 5 (none, none) ⟨fun v hv => (by cases hv), fun v hv => (by cases hv)⟩
    (fun p hp => hh p (by unfold headers; exact List.mem_append_left _ hp))
  rw [hE]
  cases hscan : scanLoop buf SpvOpEntryPoint (entryPointBody buf) fuel 5 (none, none) with
  | outOfFuel => rfl
  | returnFalse => rfl
  | next r =>
    obtain ⟨data, ov, of⟩ := r
    have hinv := hInvE _ hscan
    simp only [Scan.map]
    cases ov with
    | none => rfl
    | some v =>
      cases of with
      | none => rfl
      | some f =>
        simp only
        obtain ⟨hvin, hv4⟩ := hinv.1 v rfl
        obtain ⟨hfin, hf4⟩ := hinv.2 f rfl
        obtain ⟨hvC, hvIds⟩ := entryPointIdsChecked_eq buf v hvin (by omega)
        obtain ⟨hfC, hfIds⟩ := entryPointIdsChecked_eq buf f hfin (by omega)
        unfold patchEntryPointsChecked patchEntryPoints
        rw [hvC, hfC]
        simp only
        by_cases hids : (entryPointIds buf v).size = 0 ∨ (entryPointIds buf f).size = 0
        · rw [if_pos hids, if_pos hids]
        · rw [if_neg hids, if_neg hids]
          unfold headers at hh
          rw [hscan] at hh
          simp only at hh
          rw [if_neg hids] at hh
          -- the decoration loop
          obtain ⟨hD, hInvD⟩ := scanLoopChecked_eq buf SpvOpDecorate
            (decorationBody buf (entryPointIds buf v) (entryPointIds buf f))
            (decorationBodyChecked buf (entryPointIds buf v) (entryPointIds buf f))
            (fun s => s.vertexInterface.length = (entryPointIds buf v).size ∧
              s.fragmentInterface.length = (entryPointIds buf f).size)
            (fun s x hs hx => decorationBodyChecked_eq buf _ _ hvIds hfIds s x hs hx)
            fuel data
            { maxLocation := 0,
              vertexInterface := List.replicate (entryPointIds buf v).size {},
              fragmentInterface := List.replicate (entryPointIds buf f).size {} }
            ⟨List.length_replicate _ _, List.length_replicate _ _⟩
            (fun p hp => hh p
              (List.mem_append_right _ (List.mem_append_left _ hp)))
          rw [hD]
          have kD := decorationLoop_eq_scanLoop buf (entryPointIds buf v) (entryPointIds buf f)
            fuel
            { data := data, maxLocation := 0,
              vertexInterface := List.replicate (entryPointIds buf v).size {},
              fragmentInterface := List.replicate (entryPointIds buf f).size {} }
          simp only [Interfaces.slots] at kD
          cases hscanD : scanLoop buf SpvOpDecorate
              (decorationBody buf (entryPointIds buf v) (entryPointIds buf f)) fuel data
              { maxLocation := 0,
                vertexInterface := List.replicate (entryPointIds buf v).size {},
                fragmentInterface := List.replicate (entryPointIds buf f).size {} } with
          | outOfFuel =>
            rw [hscanD] at kD
            rw [Scan.ofOption_eq_outOfFuel _ kD]
          | returnFalse =>
            rw [hscanD] at kD
            cases hdl : decorationLoop buf (entryPointIds buf v) (entryPointIds buf f) fuel
                { data := data, maxLocation := 0,
                  vertexInterface := List.replicate (entryPointIds buf v).size {},
                  fragmentInterface := List.replicate (entryPointIds buf f).size {} } with
            | none => rw [hdl] at kD; cases kD
            | some d => rw [hdl] at kD; cases kD
          | next rD =>
            obtain ⟨p, t⟩ := rD
            rw [hscanD] at kD hh
            rw [Scan.ofOption_eq_next _ _ kD]
            simp only [Scan.map] at hh ⊢
            -- the variable loop
            obtain ⟨hV, _⟩ := scanLoopChecked_eq buf SpvOpVariable
              (variableBody buf (entryPointIds buf v) (entryPointIds buf f))
              (variableBodyChecked buf (entryPointIds buf v) (entryPointIds buf f))
              (fun s => s.vertexInterface.length = (entryPointIds buf v).size ∧
                s.fragmentInterface.length = (entryPointIds buf f).size)
              (fun s x hs hx => variableBodyChecked_eq buf _ _ hvIds hfIds s x hs hx)
              fuel p t (hInvD _ hscanD)
              (fun q hq => hh q
                (List.mem_append_right _ (List.mem_append_right _ hq)))
            rw [hV, variableLoop_eq_scanLoop]
            simp only [Slots.withData, Interfaces.slots]
            cases hscanV : scanLoop buf SpvOpVariable
                (variableBody buf (entryPointIds buf v) (entryPointIds buf f)) fuel p t with
            | outOfFuel => rfl
            | returnFalse => rfl
            | next rV =>
              obtain ⟨q, u⟩ := rV
              simp only [Scan.map]
              cases vertexOutputLoop u.fragmentInterface u.vertexInterface
                  (buf, u.maxLocation) with
              | none => rfl
              | some x => rfl

/-- The module `conflictSample`: the word counts of its 8 instructions are not 0, the
checked patcher has no failed range check and returns true with the patched module. -/
theorem checked_reads_in_bounds_witness :
    spirvPatchChecked 11 conflictSample = .value (.returned true conflictSamplePatched) :=
  (checked_reads_in_bounds 11 conflictSample (by decide) (by decide)).trans
    (congrArg Checked.value (by decide))

/-- Without the condition on the word counts there is a failed range check: on
`zeroWordCountModule` the instruction is the empty view and `instruction[0]` is out of
range. -/
theorem zeroWordCount_index_out_of_range :
    spirvPatchChecked 3 zeroWordCountModule = .outOfRange := by
  decide

end Magnum.Vk.Implementation

namespace Magnum.Vk.Implementation

/-- The slot loop leaves the slot of an ID that does not match. -/
theorem updateInterface_getElem?_ne (buf : List Nat) (ids : ArrayView) (id : Nat)
    (update : EntryPointInterface → EntryPointInterface) (n : Nat)
    (interface : List EntryPointInterface) (i : Nat)
    (hne : word buf (ids.data + i) ≠ id) :
    (updateInterface buf ids id update n 0 interface)[i]? = interface[i]? := by
  rcases updateInterface_first buf ids id update n 0 interface with h | ⟨k, _, _, hk, _, h⟩
  · rw [h]
  · rw [h, List.getElem?_modify_ne]
    intro hki
    rw [hki] at hk
    exact hne hk

/-- The slot loop updates the slot of the first occurrence of the ID. -/
theorem updateInterface_getElem?_eq (buf : List Nat) (ids : ArrayView) (id : Nat)
    (update : EntryPointInterface → EntryPointInterface)
    (interface : List EntryPointInterface) (i : Nat) (hi : i < ids.size)
    (heq : word buf (ids.data + i) = id)
    (hfirst : ∀ k, k < i → word buf (ids.data + k) ≠ id) :
    (updateInterface buf ids id update ids.size 0 interface)[i]?
      = update <$> interface[i]? := by
  rw [updateInterface_hit buf ids id update i heq ids.size 0 interface (Nat.zero_le _)
    (by omega) (fun j _ hj => hfirst j hj), List.getElem?_modify_eq]

/-- The slot loop with an update that keeps the storage class keeps the storage class of
every slot. -/
theorem updateInterface_keeps_storageClass (buf : List Nat) (ids : ArrayView) (id : Nat)
    (update : EntryPointInterface → EntryPointInterface)
    (hupdate : ∀ e, (update e).storageClass = e.storageClass) (n : Nat)
    (interface : List EntryPointInterface) (i : Nat) (e' : EntryPointInterface)
    (h : (updateInterface buf ids id update n 0 interface)[i]? = some e') :
    ∃ e, interface[i]? = some e ∧ e'.storageClass = e.storageClass := by
  rcases updateInterface_first buf ids id update n 0 interface with h' | ⟨k, _, _, _, _, h'⟩
  · rw [h'] at h; exact ⟨e', h, rfl⟩
  · rw [h', List.getElem?_modify] at h
    cases hi : interface[i]? with
    | none => rw [hi] at h; cases h
    | some e =>
      rw [hi] at h
      simp only [Option.map_eq_map, Option.map_some', Option.some.injEq] at h
      refine ⟨e, rfl, ?_⟩
      rw [← h]
      split
      · exact hupdate e
      · rfl

/-- At the start of conflict resolution the slots of an ID that is in both interface-ID
lists have the same storage class. -/
theorem scanned_sharedClass (fuel : Nat) (buf : List Nat) (s : Interfaces)
    (h : scannedInterfaces fuel buf = some s) :
    ∃ v f, selectedEntryPoints fuel buf = some (v, f) ∧
      s.slots.SharedClass buf (entryPointIds buf v) (entryPointIds buf f) := by
  refine scanned_invariant fuel buf s h (fun vIds fIds s => s.SharedClass buf vIds fIds)
    ?_ ?_ ?_
  · intro vIds fIds
    refine ⟨List.length_replicate _ _, List.length_replicate _ _, ?_⟩
    intro i j ev ef hev hef _ _ _
    rw [List.getElem?_replicate] at hev hef
    split at hev
    · split at hef
      · injection hev with hev; injection hef with hef; rw [← hev, ← hef]
      · cases hef
    · cases hev
  · intro vIds fIds s1 s2 dec hs hb
    unfold decorationBody at hb
    by_cases hskip : dec.size < 4 ∨ word buf (dec.data + 2) ≠ SpvDecorationLocation
    · rw [if_pos hskip] at hb
      injection hb with hb; rw [← hb]; exact hs
    · rw [if_neg hskip] at hb
      injection hb with hb
      subst hb
      refine ⟨by simp only [length_updateInterface]; exact hs.1,
        by simp only [length_updateInterface]; exact hs.2.1, ?_⟩
      intro i j ev ef hev hef hid hfi hfj
      simp only at hev hef
      obtain ⟨ev0, hev0, hcv⟩ := updateInterface_keeps_storageClass buf vIds _
        (fun e => { location := some (dec.data + 3), storageClass := e.storageClass })
        (fun _ => rfl) _ _ i ev hev
      obtain ⟨ef0, hef0, hcf⟩ := updateInterface_keeps_storageClass buf fIds _
        (fun e => { location := some (dec.data + 3), storageClass := e.storageClass })
        (fun _ => rfl) _ _ j ef hef
      rw [hcv, hcf]
      exact hs.2.2 i j ev0 ef0 hev0 hef0 hid hfi hfj
  · intro vIds fIds s1 s2 var hs hb
    unfold variableBody at hb
    by_cases hsize : var.size < 4
    · rw [if_pos hsize] at hb; cases hb
    · rw [if_neg hsize] at hb
      injection hb with hb
      subst hb
      refine ⟨by simp only [length_updateInterface]; exact hs.1,
        by simp only [length_updateInterface]; exact hs.2.1, ?_⟩
      intro i j ev ef hev hef hid hfi hfj
      simp only at hev hef
      by_cases hx : word buf (vIds.data + i) = word buf (var.data + 2)
      · -- the variable is the shared ID: both slots get its storage class
        have hi : i < vIds.size := by
          rw [← hs.1, ← length_updateInterface buf vIds (word buf (var.data + 2))
            (fun e => { e with storageClass := word buf (var.data + 3) }) vIds.size 0]
          exact (List.getElem?_eq_some.mp hev).1
        have hj : j < fIds.size := by
          rw [← hs.2.1, ← length_updateInterface buf fIds (word buf (var.data + 2))
            (fun e => { e with storageClass := word buf (var.data + 3) }) fIds.size 0]
          exact (List.getElem?_eq_some.mp hef).1
        rw [updateInterface_getElem?_eq buf vIds _ _ _ i hi hx
          (fun k hk => by rw [← hx]; exact hfi k hk)] at hev
        rw [updateInterface_getElem?_eq buf fIds _ _ _ j hj (by rw [← hid]; exact hx)
          (fun k hk => by rw [← hx, hid]; exact hfj k hk)] at hef
        cases hv0 : s1.vertexInterface[i]? with
        | none => rw [hv0] at hev; cases hev
        | some a =>
          cases hf0 : s1.fragmentInterface[j]? with
          | none => rw [hf0] at hef; cases hef
          | some b =>
            rw [hv0] at hev
            rw [hf0] at hef
            simp only [Option.map_eq_map, Option.map_some', Option.some.injEq] at hev hef
            rw [← hev, ← hef]
      · rw [updateInterface_getElem?_ne buf vIds _ _ _ _ i hx] at hev
        rw [updateInterface_getElem?_ne buf fIds _ _ _ _ j (by rw [← hid]; exact hx)] at hef
        exact hs.2.2 i j ev ef hev hef hid hfi hfj

/-- At the start of conflict resolution no vertex-side slot of storage class Output has
the location pointer of a fragment-side slot of storage class Input. -/
theorem scanned_output_ne_input (fuel : Nat) (buf : List Nat) (s : Interfaces)
    (h : scannedInterfaces fuel buf = some s) (vo fi : EntryPointInterface) (l : Nat)
    (hvo : vo ∈ s.vertexInterface) (hfi : fi ∈ s.fragmentInterface)
    (hvsc : vo.storageClass = SpvStorageClassOutput)
    (hfsc : fi.storageClass = SpvStorageClassInput)
    (hvl : vo.location = some l) (hfl : fi.location = some l) : False := by
  obtain ⟨v, f, hsel, hv, hf⟩ := scanned_indexed fuel buf s h
  obtain ⟨v', f', hsel', hsh⟩ := scanned_sharedClass fuel buf s h
  rw [hsel] at hsel'
  injection hsel' with hsel'
  injection hsel' with e1 e2
  subst e1; subst e2
  obtain ⟨i, hi⟩ := List.mem_iff_getElem?.mp hvo
  obtain ⟨j, hj⟩ := List.mem_iff_getElem?.mp hfi
  obtain ⟨_, a1, a2, _⟩ := hv.2 i vo l hi hvl
  obtain ⟨_, b1, b2, _⟩ := hf.2 j fi l hj hfl
  have := hsh.2.2 i j vo fi hi hj (by rw [← a1, ← b1]) a2 b2
  rw [hvsc, hfsc] at this
  exact absurd this (by decide)

end Magnum.Vk.Implementation

namespace Magnum.Vk.Implementation

/-- The loop over `vertexOutput` on a list in two parts is the loop on the first part,
then on the second. -/
theorem vertexOutputLoop_append (fI : List EntryPointInterface)
    (l1 l2 : List EntryPointInterface) (st : List Nat × Nat) :
    vertexOutputLoop fI (l1 ++ l2) st
      = (vertexOutputLoop fI l1 st).bind (vertexOutputLoop fI l2) := by
  induction l1 generalizing st with
  | nil => rfl
  | cons vo rest ih =>
    rw [List.cons_append, vertexOutputLoop, vertexOutputLoop]
    by_cases hc : vo.storageClass ≠ SpvStorageClassOutput
    · rw [if_pos hc, if_pos hc]; exact ih st
    · rw [if_neg hc, if_neg hc]
      cases hl : vo.location with
      | none => exact ih st
      | some l =>
        simp only
        cases hO : fragmentOutputLoop fI l fI st with
        | none => rfl
        | some s' => exact ih s'

/-- The writes of the loop over `vertexOutput` on a list in two parts are the writes on
the first part, then those on the second. -/
theorem vertexOutputWrites_append (fI : List EntryPointInterface)
    (l1 l2 : List EntryPointInterface) (slot : Nat) (st st' : List Nat × Nat)
    (h : vertexOutputLoop fI l1 st = some st') :
    vertexOutputWrites fI slot (l1 ++ l2) st
      = vertexOutputWrites fI slot l1 st ++ vertexOutputWrites fI (slot + l1.length) l2 st' := by
  induction l1 generalizing slot st with
  | nil =>
    injection h with h
    rw [h]
    rfl
  | cons vo rest ih =>
    rw [vertexOutputLoop] at h
    rw [List.cons_append, vertexOutputWrites, vertexOutputWrites, List.length_cons,
      show slot + (rest.length + 1) = slot + 1 + rest.length by omega]
    by_cases hc : vo.storageClass ≠ SpvStorageClassOutput
    · rw [if_pos hc] at h ⊢; rw [if_pos hc]; exact ih _ _ h
    · rw [if_neg hc] at h ⊢
      rw [if_neg hc]
      cases hl : vo.location with
      | none => rw [hl] at h; exact ih _ _ h
      | some l =>
        rw [hl] at h
        simp only at h ⊢
        cases hO : fragmentOutputLoop fI l fI st with
        | none => rw [hO] at h; cases h
        | some s' =>
          rw [hO] at h
          simp only at h ⊢
          rw [ih _ _ h, List.append_assoc]

/-- The loop over `fragmentOutput` writes nothing exactly when no fragment-side slot of
storage class Output has the location of the vertex output. -/
theorem fragmentOutputWrites_eq_nil_iff (fI : List EntryPointInterface) (slot lv : Nat)
    (fos : List EntryPointInterface) (buf : List Nat) (m : Nat) :
    fragmentOutputWrites fI slot lv fos (buf, m) = [] ↔
      ∀ fo ∈ fos, fo.storageClass = SpvStorageClassOutput →
        ∀ lf, fo.location = some lf → word buf lv ≠ word buf lf := by
  induction fos with
  | nil => exact ⟨fun _ fo hfo => (by cases hfo), fun _ => rfl⟩
  | cons fo rest ih =>
    rw [fragmentOutputWrites]
    by_cases hc : fo.storageClass ≠ SpvStorageClassOutput
    · rw [if_pos hc, ih]
      constructor
      · intro h fo' hfo'
        rcases List.mem_cons.mp hfo' with e | hmem
        · subst e; intro hsc; exact absurd hsc hc
        · exact h fo' hmem
      · intro h fo' hfo'; exact h fo' (List.mem_cons_of_mem _ hfo')
    · rw [if_neg hc]
      cases hl : fo.location with
      | none =>
        simp only
        rw [ih]
        constructor
        · intro h fo' hfo'
          rcases List.mem_cons.mp hfo' with e | hmem
          · subst e; intro _ lf hlf; rw [hl] at hlf; cases hlf
          · exact h fo' hmem
        · intro h fo' hfo'; exact h fo' (List.mem_cons_of_mem _ hfo')
      | some l =>
        simp only
        by_cases hw : word buf lv = word buf l
        · rw [if_pos hw]
          constructor
          · intro h
            exact absurd h (by simp)
          · intro h
            exact absurd hw (h fo (List.mem_cons_self _ _) (not_not.mp hc) l hl)
        · rw [if_neg hw, ih]
          constructor
          · intro h fo' hfo'
            rcases List.mem_cons.mp hfo' with e | hmem
            · subst e
              intro _ lf hlf
              rw [hl] at hlf
              injection hlf with hlf
              rw [← hlf]; exact hw
            · exact h fo' hmem
          · intro h fo' hfo'; exact h fo' (List.mem_cons_of_mem _ hfo')

/-- The writes of one round of the loop over `vertexOutput` belong to the vertex output
of the round, and a round that writes at all writes through the pointer of the vertex
output. -/
theorem fragmentOutputWrites_round (fI : List EntryPointInterface) (slot lv : Nat)
    (fos : List EntryPointInterface) (buf : List Nat) (m : Nat) :
    (∀ w ∈ fragmentOutputWrites fI slot lv fos (buf, m), w.vertexSlot = slot) ∧
    (fragmentOutputWrites fI slot lv fos (buf, m) ≠ [] →
      ∃ w ∈ fragmentOutputWrites fI slot lv fos (buf, m),
        w.fragmentInput = false ∧ w.vertexSlot = slot) := by
  rcases fragmentOutputWrites_cases fI slot lv fos buf m with ⟨h, _⟩ | ⟨pre, h, hpre, _⟩
  · rw [h]
    exact ⟨fun w hw => (by cases hw), fun hne => absurd rfl hne⟩
  · rw [h]
    constructor
    · intro w hw
      rcases List.mem_append.mp hw with hw | hw
      · rcases hpre with e | ⟨_, _, _, _, _, e⟩
        · rw [e] at hw; cases hw
        · rw [e] at hw
          rw [List.mem_singleton.mp hw]
      · rw [List.mem_singleton.mp hw]
    · intro _
      exact ⟨_, List.mem_append_right _ (List.mem_singleton_self _), rfl, rfl⟩

/-- The writes leave the number of words of the module. -/
theorem length_foldl_apply (ws : List Write) (buf : List Nat) :
    (ws.foldl Write.apply buf).length = buf.length := by
  induction ws generalizing buf with
  | nil => rfl
  | cons w rest ih => rw [List.foldl_cons, ih, Write.apply, List.length_set]

/-- A word of the module has the value of the last write at its offset. -/
theorem word_foldl_apply_last (ws1 ws2 : List Write) (w : Write) (buf : List Nat)
    (hlt : w.location < buf.length) (h2 : ∀ w' ∈ ws2, w'.location ≠ w.location) :
    word ((ws1 ++ w :: ws2).foldl Write.apply buf) w.location = w.value := by
  rw [List.foldl_append, List.foldl_cons, word_foldl_apply w.location ws2 _ h2, Write.apply]
  exact word_set_eq _ _ _ (by rw [length_foldl_apply]; exact hlt)

end Magnum.Vk.Implementation

namespace Magnum.Vk.Implementation

/-- A vertex-side slot of storage class Output with a location is written through exactly
when the loop over `vertexOutput`, having run over the slots before it, finds it in
conflict with a fragment-side slot. -/
theorem vertexWrites_slot_iff (fuel : Nat) (buf out : List Nat) (s : Interfaces)
    (h : spirvPatchSwiftShaderConflictingMultiEntrypointLocations fuel buf = .returned true out)
    (hs : scannedInterfaces fuel buf = some s)
    (i : Nat) (vo : EntryPointInterface) (lv : Nat)
    (hi : s.vertexInterface[i]? = some vo)
    (hsc : vo.storageClass = SpvStorageClassOutput) (hl : vo.location = some lv) :
    i ∈ (vertexWrites fuel buf).map (fun w => w.vertexSlot) ↔
      ∃ b m, vertexOutputLoop s.fragmentInterface (s.vertexInterface.take i)
          (buf, s.maxLocation) = some (b, m) ∧
        ∃ fo ∈ s.fragmentInterface, conflict b vo fo = true := by
  obtain ⟨s', m', hs', hO⟩ := returned_true_scanned fuel buf out h
  rw [hs] at hs'
  injection hs' with hs'
  subst hs'
  obtain ⟨hlt, hget⟩ := List.getElem?_eq_some.mp hi
  have hsplit : s.vertexInterface
      = s.vertexInterface.take i ++ vo :: s.vertexInterface.drop (i + 1) := by
    rw [← hget, ← List.drop_eq_getElem_cons hlt, List.take_append_drop]
  have hlen : (s.vertexInterface.take i).length = i := by
    rw [List.length_take]; omega
  rw [hsplit, vertexOutputLoop_append] at hO
  cases hP : vertexOutputLoop s.fragmentInterface (s.vertexInterface.take i)
      (buf, s.maxLocation) with
  | none => rw [hP] at hO; cases hO
  | some st =>
    obtain ⟨b, m⟩ := st
    rw [hP] at hO
    simp only [Option.some_bind] at hO
    rw [vertexOutputLoop, if_neg (not_not.mpr hsc), hl] at hO
    simp only at hO
    cases hR : fragmentOutputLoop s.fragmentInterface lv s.fragmentInterface (b, m) with
    | none => rw [hR] at hO; cases hO
    | some s1 =>
      have hwrites : writes fuel buf
          = vertexOutputWrites s.fragmentInterface 0 (s.vertexInterface.take i)
              (buf, s.maxLocation) ++
            (fragmentOutputWrites s.fragmentInterface i lv s.fragmentInterface (b, m) ++
              vertexOutputWrites s.fragmentInterface (i + 1) (s.vertexInterface.drop (i + 1))
                s1) := by
        unfold writes
        rw [hs]
        simp only
        conv => lhs; rw [hsplit]
        rw [vertexOutputWrites_append _ _ _ 0 _ _ hP, hlen, Nat.zero_add, vertexOutputWrites,
          if_neg (not_not.mpr hsc), hl]
        simp only [hR]
      have hround := fragmentOutputWrites_round s.fragmentInterface i lv s.fragmentInterface b m
      have hnil := fragmentOutputWrites_eq_nil_iff s.fragmentInterface i lv
        s.fragmentInterface b m
      constructor
      · intro hmem
        refine ⟨b, m, rfl, ?_⟩
        rw [List.mem_map] at hmem
        obtain ⟨w, hw, hwi⟩ := hmem
        unfold vertexWrites at hw
        rw [List.mem_filter, hwrites] at hw
        rcases List.mem_append.mp hw.1 with h1 | h23
        · obtain ⟨_, vo', _, hget', _⟩ := vertexOutputWrites_slot _ 0 _ buf _ w h1
          have := (List.getElem?_eq_some.mp hget').1
          rw [hlen] at this
          omega
        · rcases List.mem_append.mp h23 with h2 | h3
          · by_contra hcon
            have hall : ∀ fo ∈ s.fragmentInterface, fo.storageClass = SpvStorageClassOutput →
                ∀ lf, fo.location = some lf → word b lv ≠ word b lf := by
              intro fo hfo hfsc lf hlf heq
              apply hcon
              refine ⟨fo, hfo, ?_⟩
              unfold conflict
              rw [hl, hlf]
              simp only [decide_eq_true_eq]
              exact ⟨hsc, hfsc, heq⟩
            rw [hnil.mpr hall] at h2
            cases h2
          · obtain ⟨s1b, s1m⟩ := s1
            have := (vertexOutputWrites_slot _ (i + 1) _ s1b s1m w h3).1
            omega
      · rintro ⟨b', m'', hP', fo, hfo, hcf⟩
        injection hP' with hP'
        injection hP' with hb _
        subst hb
        have hne : fragmentOutputWrites s.fragmentInterface i lv s.fragmentInterface (b, m)
            ≠ [] := by
          intro hnil'
          unfold conflict at hcf
          rw [hl] at hcf
          cases hlf : fo.location with
          | none => rw [hlf] at hcf; cases hcf
          | some lf =>
            rw [hlf] at hcf
            simp only [decide_eq_true_eq] at hcf
            exact hnil.mp hnil' fo hfo hcf.2.1 lf hlf hcf.2.2
        obtain ⟨w, hw, hwf, hwi⟩ := hround.2 hne
        rw [List.mem_map]
        refine ⟨w, ?_, hwi⟩
        unfold vertexWrites
        rw [List.mem_filter, hwrites]
        exact ⟨List.mem_append_right _ (List.mem_append_left _ hw), by rw [hwf]; rfl⟩

/-- A write at the location word of a vertex-side slot of storage class Output is the
write through the pointer of this slot. -/
theorem writes_at_vertex_location (fuel : Nat) (buf : List Nat) (s : Interfaces)
    (hs : scannedInterfaces fuel buf = some s)
    (i : Nat) (vo : EntryPointInterface) (lv : Nat)
    (hi : s.vertexInterface[i]? = some vo)
    (hsc : vo.storageClass = SpvStorageClassOutput) (hl : vo.location = some lv) :
    ∀ w ∈ writes fuel buf, w.location = lv → w.fragmentInput = false ∧ w.vertexSlot = i := by
  intro w hw hwl
  obtain ⟨v, f, _, hv, _⟩ := scanned_indexed fuel buf s hs
  unfold writes at hw
  rw [hs] at hw
  obtain ⟨_, vo', lv', hget', hsc', hl', hfalse, htrue⟩ :=
    vertexOutputWrites_slot _ 0 _ buf _ w hw
  rw [Nat.sub_zero] at hget'
  cases hf : w.fragmentInput with
  | true =>
    obtain ⟨fi, hfi, hfsc, hfl⟩ := htrue hf
    rw [hwl] at hfl
    exact (scanned_output_ne_input fuel buf s hs vo fi lv (List.getElem?_mem hi) hfi hsc
      hfsc hl hfl).elim
  | false =>
    refine ⟨rfl, ?_⟩
    by_contra hne
    have hloc : lv' = lv := by rw [← hfalse hf, hwl]
    rw [hloc] at hl'
    exact Indexed.pointer_ne buf _ _ _ hv _ _ vo' vo lv hne hget' hi hl' hl

end Magnum.Vk.Implementation

namespace Magnum.Vk.Implementation

/-- C18: a call that returns true, on a module of 32-bit words, with `M` the running
maximum location at the start of conflict resolution. The vertex-side slots written
through are of storage class Output, each is written through at most once, and they are
written in the order of the interface list. A vertex-side slot of storage class Output
with a location is written through exactly when the loop over `vertexOutput`, having run
over the slots before it, finds a fragment-side slot in conflict with it. In the module
the call leaves, the location word of the slot number `j + 1` among those written through
is `(M + (j + 1)) mod 2^32`, the location word of a slot of storage class Output that is
not written through is as it was, and the location words of two different slots written
through are different. -/
theorem conflicts_get_successive_locations (fuel : Nat) (buf out : List Nat) (s : Interfaces)
    (h : spirvPatchSwiftShaderConflictingMultiEntrypointLocations fuel buf = .returned true out)
    (hs : scannedInterfaces fuel buf = some s) (hw : ∀ w ∈ buf, w < 2 ^ 32) :
    ((vertexWrites fuel buf).map fun w => w.vertexSlot).Pairwise (· < ·) ∧
    (∀ i ∈ (vertexWrites fuel buf).map (fun w => w.vertexSlot),
      ∃ vertexOutput location, s.vertexInterface[i]? = some vertexOutput ∧
        vertexOutput.storageClass = SpvStorageClassOutput ∧
        vertexOutput.location = some location) ∧
    (∀ i vertexOutput location, s.vertexInterface[i]? = some vertexOutput →
      vertexOutput.storageClass = SpvStorageClassOutput →
      vertexOutput.location = some location →
      (i ∈ (vertexWrites fuel buf).map (fun w => w.vertexSlot) ↔
        ∃ b m, vertexOutputLoop s.fragmentInterface (s.vertexInterface.take i)
            (buf, s.maxLocation) = some (b, m) ∧
          ∃ fragmentOutput ∈ s.fragmentInterface,
            conflict b vertexOutput fragmentOutput = true) ∧
      (i ∉ (vertexWrites fuel buf).map (fun w => w.vertexSlot) →
        word out location = word buf location) ∧
      ∀ j, ((vertexWrites fuel buf).map fun w => w.vertexSlot)[j]? = some i →
        word out location = (s.maxLocation + (j + 1)) % 2 ^ 32) ∧
    ∀ i i' vertexOutput vertexOutput' location location',
      i ∈ (vertexWrites fuel buf).map (fun w => w.vertexSlot) →
      i' ∈ (vertexWrites fuel buf).map (fun w => w.vertexSlot) → i ≠ i' →
      s.vertexInterface[i]? = some vertexOutput →
      s.vertexInterface[i']? = some vertexOutput' →
      vertexOutput.location = some location → vertexOutput'.location = some location' →
      word out location ≠ word out location' := by
  obtain ⟨hpair, hlog, _, hnodup, hout⟩ := vertexWrites_successive fuel buf s hs hw
  have hout := hout out h
  -- the final location word of a slot written through
  have hfinal : ∀ i vo lv, s.vertexInterface[i]? = some vo →
      vo.storageClass = SpvStorageClassOutput → vo.location = some lv →
      ∀ j, ((vertexWrites fuel buf).map fun w => w.vertexSlot)[j]? = some i →
        word out lv = (s.maxLocation + (j + 1)) % 2 ^ 32 := by
    intro i vo lv hi hsc hl j hj
    rw [List.getElem?_map] at hj
    cases hwj : (vertexWrites fuel buf)[j]? with
    | none => rw [hwj] at hj; cases hj
    | some w =>
      rw [hwj] at hj
      simp only [Option.map_some', Option.some.injEq] at hj
      obtain ⟨hval, vo', hget', _, hl'⟩ := hlog j w hwj
      rw [hj, hi] at hget'
      injection hget' with hget'
      subst hget'
      rw [hl] at hl'
      injection hl' with hl'
      have hmem := List.getElem?_mem hwj
      have hmemf := hmem
      unfold vertexWrites at hmemf
      rw [List.mem_filter] at hmemf
      obtain ⟨ws1, ws2, hsplit⟩ := List.append_of_mem hmemf.1
      obtain ⟨v, f, _, hloc⟩ := scanned_located fuel buf s hs
      have hlt : w.location < buf.length := by
        rw [← hl']
        exact (hloc.1 vo (List.getElem?_mem hi) lv hl).lt_length
      have h2 : ∀ w' ∈ ws2, w'.location ≠ w.location := by
        intro w' hw' heq
        have hin : w' ∈ writes fuel buf := by
          rw [hsplit]; exact List.mem_append_right _ (List.mem_cons_of_mem _ hw')
        obtain ⟨hf', hs'⟩ := writes_at_vertex_location fuel buf s hs i vo lv hi hsc hl w' hin
          (by rw [heq, hl'])
        have hp := hpair
        unfold vertexWrites at hp
        rw [hsplit, List.filter_append, List.filter_cons, if_pos hmemf.2, List.map_append,
          List.map_cons, List.pairwise_append, List.pairwise_cons] at hp
        have := hp.2.1.1 w'.vertexSlot
          (List.mem_map.mpr ⟨w', List.mem_filter.mpr ⟨hw', by rw [hf']; rfl⟩, rfl⟩)
        rw [hj, hs'] at this
        exact Nat.lt_irrefl _ this
      rw [hout, hsplit, hl', word_foldl_apply_last ws1 ws2 w buf hlt h2, hval]
  refine ⟨hpair, ?_, ?_, ?_⟩
  · intro i hi
    rw [List.mem_map] at hi
    obtain ⟨w, hmem, rfl⟩ := hi
    obtain ⟨j, hj⟩ := List.mem_iff_getElem?.mp hmem
    obtain ⟨_, vo, hget, hsc, hl⟩ := hlog j w hj
    exact ⟨vo, w.location, hget, hsc, hl⟩
  · intro i vo lv hi hsc hl
    refine ⟨vertexWrites_slot_iff fuel buf out s h hs i vo lv hi hsc hl, ?_,
      hfinal i vo lv hi hsc hl⟩
    intro hnot
    rw [hout]
    apply word_foldl_apply
    intro w hmem heq
    obtain ⟨hf, hslot⟩ := writes_at_vertex_location fuel buf s hs i vo lv hi hsc hl w hmem heq
    apply hnot
    rw [List.mem_map]
    refine ⟨w, ?_, hslot⟩
    unfold vertexWrites
    rw [List.mem_filter]
    exact ⟨hmem, by rw [hf]; rfl⟩
  · intro i i' vo vo' lv lv' hi hi' hne hget hget' hl hl' heq
    obtain ⟨j, hj⟩ := List.mem_iff_getElem?.mp hi
    obtain ⟨j', hj'⟩ := List.mem_iff_getElem?.mp hi'
    obtain ⟨_, _, hgi, hsci, _⟩ : ∃ vo0 l0, s.vertexInterface[i]? = some vo0 ∧
        vo0.storageClass = SpvStorageClassOutput ∧ vo0.location = some l0 := by
      rw [List.mem_map] at hi
      obtain ⟨w, hmem, rfl⟩ := hi
      obtain ⟨k, hk⟩ := List.mem_iff_getElem?.mp hmem
      obtain ⟨_, vo0, h1, h2, h3⟩ := hlog k w hk
      exact ⟨vo0, w.location, h1, h2, h3⟩
    obtain ⟨_, _, hgi', hsci', _⟩ : ∃ vo0 l0, s.vertexInterface[i']? = some vo0 ∧
        vo0.storageClass = SpvStorageClassOutput ∧ vo0.location = some l0 := by
      rw [List.mem_map] at hi'
      obtain ⟨w, hmem, rfl⟩ := hi'
      obtain ⟨k, hk⟩ := List.mem_iff_getElem?.mp hmem
      obtain ⟨_, vo0, h1, h2, h3⟩ := hlog k w hk
      exact ⟨vo0, w.location, h1, h2, h3⟩
    rw [hget] at hgi
    injection hgi with hgi
    rw [hget'] at hgi'
    injection hgi' with hgi'
    rw [← hgi] at hsci
    rw [← hgi'] at hsci'
    rw [hfinal i vo lv hget hsci hl j hj, hfinal i' vo' lv' hget' hsci' hl' j' hj'] at heq
    have hjj : j ≠ j' := by
      intro e
      rw [e, hj'] at hj
      injection hj with hj
      exact hne hj.symm
    rw [List.getElem?_map] at hj hj'
    cases hwj : (vertexWrites fuel buf)[j]? with
    | none => rw [hwj] at hj; cases hj
    | some w =>
      cases hwj' : (vertexWrites fuel buf)[j']? with
      | none => rw [hwj'] at hj'; cases hj'
      | some w' =>
        have hv := (hlog j w hwj).1
        have hv' := (hlog j' w' hwj').1
        have hjl := (List.getElem?_eq_some.mp hwj).1
        have hjl' := (List.getElem?_eq_some.mp hwj').1
        rw [List.nodup_iff_getElem?_ne_getElem?] at hnodup
        rcases Nat.lt_or_gt_of_ne hjj with hlt | hlt
        · apply hnodup j j' hlt (by rw [List.length_map]; exact hjl')
          rw [List.getElem?_map, List.getElem?_map, hwj, hwj']
          simp only [Option.map_some', Option.some.injEq]
          rw [hv, hv']; exact heq
        · apply hnodup j' j hlt (by rw [List.length_map]; exact hjl)
          rw [List.getElem?_map, List.getElem?_map, hwj, hwj']
          simp only [Option.map_some', Option.some.injEq]
          rw [hv, hv']; exact heq.symm

end Magnum.Vk.Implementation

namespace Magnum.Vk.Implementation

/-- The module `skippedOutputSample`, with `M = 8`: the call returns true; of the three
vertex outputs, with the location words at the offsets 23, 27 and 31, the first and the
third are written through, and the module the call leaves has 9, 5 and 10 there. -/
theorem conflicts_get_successive_locations_witness :
    spirvPatchSwiftShaderConflictingMultiEntrypointLocations 15 skippedOutputSample
      = .returned true skippedOutputPatched ∧
    scannedInterfaces 15 skippedOutputSample = some skippedOutputInterfaces ∧
    (∀ w ∈ skippedOutputSample, w < 2 ^ 32) ∧
    (vertexWrites 15 skippedOutputSample).map (fun w => w.vertexSlot) = [0, 2] ∧
    (word skippedOutputPatched 23, word skippedOutputPatched 27, word skippedOutputPatched 31)
      = (9, 5, 10) ∧
    (((vertexWrites 15 skippedOutputSample).map fun w => w.vertexSlot).Pairwise (· < ·) ∧
    (∀ i ∈ (vertexWrites 15 skippedOutputSample).map (fun w => w.vertexSlot),
      ∃ vertexOutput location,
        skippedOutputInterfaces.vertexInterface[i]? = some vertexOutput ∧
        vertexOutput.storageClass = SpvStorageClassOutput ∧
        vertexOutput.location = some location) ∧
    (∀ i vertexOutput location,
      skippedOutputInterfaces.vertexInterface[i]? = some vertexOutput →
      vertexOutput.storageClass = SpvStorageClassOutput →
      vertexOutput.location = some location →
      (i ∈ (vertexWrites 15 skippedOutputSample).map (fun w => w.vertexSlot) ↔
        ∃ b m, vertexOutputLoop skippedOutputInterfaces.fragmentInterface
            (skippedOutputInterfaces.vertexInterface.take i)
            (skippedOutputSample, skippedOutputInterfaces.maxLocation) = some (b, m) ∧
          ∃ fragmentOutput ∈ skippedOutputInterfaces.fragmentInterface,
            conflict b vertexOutput fragmentOutput = true) ∧
      (i ∉ (vertexWrites 15 skippedOutputSample).map (fun w => w.vertexSlot) →
        word skippedOutputPatched location = word skippedOutputSample location) ∧
      ∀ j, ((vertexWrites 15 skippedOutputSample).map fun w => w.vertexSlot)[j]? = some i →
        word skippedOutputPatched location
          = (skippedOutputInterfaces.maxLocation + (j + 1)) % 2 ^ 32) ∧
    ∀ i i' vertexOutput vertexOutput' location location',
      i ∈ (vertexWrites 15 skippedOutputSample).map (fun w => w.vertexSlot) →
      i' ∈ (vertexWrites 15 skippedOutputSample).map (fun w => w.vertexSlot) → i ≠ i' →
      skippedOutputInterfaces.vertexInterface[i]? = some vertexOutput →
      skippedOutputInterfaces.vertexInterface[i']? = some vertexOutput' →
      vertexOutput.location = some location → vertexOutput'.location = some location' →
      word skippedOutputPatched location ≠ word skippedOutputPatched location') :=
  ⟨by decide, by decide, by decide, by decide, by decide,
    conflicts_get_successive_locations 15 skippedOutputSample skippedOutputPatched
      skippedOutputInterfaces (by decide) (by decide) (by decide)⟩

end Magnum.Vk.Implementation

namespace Magnum.MeshTools

variable {α : Type}

end Magnum.MeshTools
